import Mathlib

/-!
The timer manager `embxx::driver::TimerMgr`.

A shallow embedding of `src/embxx/driver/TimerMgr.h` and a verification of its
specification.

* The slot pool `timers_` is a list of `TimerInfo` records whose length is the template
  parameter `TMaxTimers`.
* The schedule queue is the list of the first `waitQueueCount_` elements of the array
  `waitQueue_` (the elements past the count are never read before they are written), so
  `waitQueueCount_` is the length of that list and the capacity `waitQueue_.size()` is
  `ScheduleQueueScale * timers_.length`.
* `GASSERT` is fatal: an operation whose assertion fails ends in `Except.error` naming the
  assertion.
* The peripheral and the event loop are external; the calls made to them are recorded, in
  order, in `trace_`, and the peripheral's "countdown in progress" state is `deviceActive_`.
* `unsigned` values are natural numbers reduced modulo `2 ^ 32` where the code does arithmetic
  on them.
-/

namespace embxx
namespace driver

/-! ## Data model -/

/-- Modelled from the spec: `embxx/error/ErrorStatus.h` is not among the sources. The status
handed to a completion callback is Success, Aborted, or an error code coming from the
peripheral. -/
inductive ErrorStatus where
  | Success
  | Aborted
  | HwError (code : Nat)
  deriving DecidableEq

/-- Modelled from the spec: the conversion of an `ErrorStatus` to `bool` used by `if (es)`;
it is true for every status except Success. -/
def ErrorStatus.isError : ErrorStatus → Bool
  | .Success => false
  | _ => true

/-- Number of values of the C++ type `unsigned` (`EngagementIdType`, `Timer::idx_`, and the
documented example `typedef unsigned WaitTimeType;`). -/
def UnsignedModulus : Nat := 4294967296

/-- Modelled from the spec: the macro `GASSERT` (`embxx/util/Assert.h`) is not among the
sources; the spec calls a failed assertion fatal, so an operation ends at its first failed
assertion. The constructors name the assertions of the source, and `outOfRange` the
out-of-range array accesses that an assertion is meant to exclude. -/
inductive Fault where
  | allocTimer_iterNotEnd
  | deleteTimer_idx
  | deleteTimer_isAllocated
  | deleteTimer_handler
  | deleteTimer_waitInProgress
  | cancelWait_idx
  | cancelWait_noWait_waitInProgress
  | cancelWait_noWait_queueCount
  | cancelWait_isAllocated
  | scheduleWait_cancel_queueCount
  | scheduleWait_idx
  | scheduleWait_isAllocated
  | scheduleWait_waitInProgress
  | scheduleWait_handler
  | startGuard_queueCount
  | addToScheduledWaits_queueCount
  | postHandler_handler
  | postHandler_isAllocated
  | postHandler_waitInProgress
  | interruptHandler_queueCount
  | interruptHandler_timeBase
  | postExpiredHandlers_handler
  | outOfRange
  deriving DecidableEq

/-- The handle class `TimerMgr::Timer`; `mgr_` is the one manager of the model. -/
structure Timer where
  idx_ : Nat
  deriving DecidableEq

/-- The constant `Timer::InvalidIdx = std::numeric_limits<unsigned>::max()`. -/
def Timer.InvalidIdx : Nat := 4294967295

/-- The member `Timer::isValid` (for a handle whose `mgr_` is set). -/
def Timer.isValid (t : Timer) : Bool := t.idx_ != Timer.InvalidIdx

/-- The record `TimerMgr::TimerInfo`. The stored callback `handler_` is `none` when the
callable is empty and `some f` when it holds the callable `f`. -/
structure TimerInfo where
  targetTime_ : Nat
  engagementId_ : Nat
  handler_ : Option Nat
  flags_ : Nat
  deriving DecidableEq

/-- The constant `TimerInfo::AllocatedFlagMask`. -/
def AllocatedFlagMask : Nat := 1

/-- The constant `TimerInfo::WaitInProgressMask`. -/
def WaitInProgressMask : Nat := 2

/-- The constructor `TimerInfo::TimerInfo()`. -/
def TimerInfo.new : TimerInfo :=
  { targetTime_ := 0, engagementId_ := 0, handler_ := none, flags_ := 0 }

/-- The member `TimerInfo::updateFlag`; `~mask` is taken on 32 bits. -/
def TimerInfo.updateFlag (info : TimerInfo) (value : Bool) (mask : Nat) : TimerInfo :=
  if value then { info with flags_ := info.flags_ ||| mask }
  else { info with flags_ := info.flags_ &&& (4294967295 ^^^ mask) }

/-- The member `TimerInfo::isAllocated`. -/
def TimerInfo.isAllocated (info : TimerInfo) : Bool :=
  (info.flags_ &&& AllocatedFlagMask) != 0

/-- The member `TimerInfo::setAllocated`. -/
def TimerInfo.setAllocated (info : TimerInfo) (allocated : Bool) : TimerInfo :=
  info.updateFlag allocated AllocatedFlagMask

/-- The member `TimerInfo::isWaitInProgress`. -/
def TimerInfo.isWaitInProgress (info : TimerInfo) : Bool :=
  (info.flags_ &&& WaitInProgressMask) != 0

/-- The member `TimerInfo::setWaitInProgress`. -/
def TimerInfo.setWaitInProgress (info : TimerInfo) (inProgress : Bool) : TimerInfo :=
  info.updateFlag inProgress WaitInProgressMask

/-- The record `TimerMgr::ScheduledWaitInfo`; the pointer `timerInfo_` is the index of the
slot it points to in `timers_`. -/
structure ScheduledWaitInfo where
  timerInfo_ : Nat
  engagementId_ : Nat
  targetTime_ : Nat
  deriving DecidableEq

/-- The functor `TimerMgr::ScheduledWaitPriorityComp`. -/
def ScheduledWaitPriorityComp (info1 info2 : ScheduledWaitInfo) : Bool :=
  if info1.targetTime_ < info2.targetTime_ then false
  else if info2.targetTime_ < info1.targetTime_ then true
  else decide (info2.engagementId_ < info1.engagementId_)

/-- The constant `TimerMgr::ScheduleQueueScale`. -/
def ScheduleQueueScale : Nat := 2

/-- A completion handed to the event loop: the callable of slot `slot`, bound to `status`,
posted with `postInterruptCtx` when `interruptCtx` is true and with `post` otherwise. -/
structure Post where
  slot : Nat
  handler : Nat
  status : ErrorStatus
  interruptCtx : Bool
  deriving DecidableEq

/-- A call made by the manager to one of its two collaborators. -/
inductive Event where
  | post (p : Post)
  | startWait (waitTime : Nat) (interruptCtx : Bool)
  | cancelWait
  | getElapsed
  | suspendWait
  | resumeWait
  deriving DecidableEq

/-- The data members of `TimerMgr`, with the state of the collaborators `device_` (is a
countdown in progress) and the record of the calls made to `device_` and `eventLoop_`. -/
structure TimerMgr where
  timeBase_ : Nat
  waitQueue_ : List ScheduledWaitInfo
  timers_ : List TimerInfo
  timersCount_ : Nat
  nextEngagementId_ : Nat
  deviceActive_ : Bool
  trace_ : List Event
  deriving DecidableEq

/-- The member `waitQueueCount_`. -/
def TimerMgr.waitQueueCount_ (s : TimerMgr) : Nat := s.waitQueue_.length

/-- The completion carried by an event, when the event is a post to the event loop. -/
def Event.toPost : Event → Option Post
  | .post p => some p
  | _ => none

/-- The completions posted so far, oldest first. -/
def TimerMgr.posted (s : TimerMgr) : List Post :=
  s.trace_.filterMap Event.toPost

/-- The duration carried by an event, when the event is a `startWait` on the peripheral. -/
def Event.waitTime : Event → Option Nat
  | .startWait waitTime _ => some waitTime
  | _ => none

/-- The duration of the countdown most recently started on the peripheral: the argument of
the last `startWait` of a record of calls. -/
def lastStartWait (tr : List Event) : Option Nat :=
  (tr.filterMap Event.waitTime).getLast?

/-- The constructor `TimerMgr::TimerMgr`, for `TMaxTimers = MaxTimers`; by its precondition
the peripheral is stopped. -/
def TimerMgr.new (MaxTimers : Nat) : TimerMgr :=
  { timeBase_ := 0
    waitQueue_ := []
    timers_ := List.replicate MaxTimers TimerInfo.new
    timersCount_ := 0
    nextEngagementId_ := 0
    deviceActive_ := false
    trace_ := [] }

/-! ## The heap algorithms of the C++ standard library

`std::push_heap`, `std::pop_heap` and `std::make_heap` belong to the toolchain, not to the
repository. They are modelled by the binary-heap algorithms on an array: sift-up of the last
element, swap of the first and last element followed by a sift-down over the shortened range,
and bottom-up heap construction. -/

section Heap
variable {α : Type}

/-- Exchange the elements at positions `i` and `j`. -/
def heapSwap (a : List α) (i j : Nat) : List α :=
  match a[i]?, a[j]? with
  | some x, some y => (a.set i y).set j x
  | _, _ => a

/-- Move the element at position `i` up while its parent compares less than it. -/
def siftUp (comp : α → α → Bool) : Nat → Nat → List α → List α
  | 0, _, a => a
  | fuel + 1, i, a =>
    if i = 0 then a
    else
      match a[(i - 1) / 2]?, a[i]? with
      | some p, some c =>
        if comp p c then siftUp comp fuel ((i - 1) / 2) (heapSwap a ((i - 1) / 2) i) else a
      | _, _ => a

/-- Index of the largest of the element at `i` and its children at `2i+1` and `2i+2`. -/
def largestOfThree (comp : α → α → Bool) (i : Nat) (a : List α) : Nat :=
  let m :=
    match a[i]?, a[2 * i + 1]? with
    | some x, some y => if comp x y then 2 * i + 1 else i
    | _, _ => i
  match a[m]?, a[2 * i + 2]? with
  | some x, some y => if comp x y then 2 * i + 2 else m
  | _, _ => m

/-- Move the element at position `i` down while one of its children compares greater. -/
def siftDown (comp : α → α → Bool) : Nat → Nat → List α → List α
  | 0, _, a => a
  | fuel + 1, i, a =>
    if largestOfThree comp i a = i then a
    else siftDown comp fuel (largestOfThree comp i a) (heapSwap a i (largestOfThree comp i a))

/-- Model of `std::push_heap(first, last, comp)` on the range `a`. -/
def push_heap (comp : α → α → Bool) (a : List α) : List α :=
  siftUp comp a.length (a.length - 1) a

/-- Model of `std::pop_heap(first, last, comp)` on the range `a`: the first element goes to
the last position and the rest is made a heap again. -/
def pop_heap (comp : α → α → Bool) (a : List α) : List α :=
  siftDown comp (a.length - 1) 0 ((heapSwap a 0 (a.length - 1)).take (a.length - 1))
    ++ (heapSwap a 0 (a.length - 1)).drop (a.length - 1)

/-- Sift down the positions `k - 1`, ..., `0` in this order. -/
def makeHeapLoop (comp : α → α → Bool) : Nat → List α → List α
  | 0, a => a
  | k + 1, a => makeHeapLoop comp k (siftDown comp a.length k a)

/-- Model of `std::make_heap(first, last, comp)` on the range `a`. -/
def make_heap (comp : α → α → Bool) (a : List α) : List α :=
  makeHeapLoop comp (a.length / 2) a

end Heap

/-! ## Heap predicates -/

section HeapSpec
variable {α : Type}

/-- The comparison is a strict weak ordering, as the standard library requires. -/
structure StrictWeak (comp : α → α → Bool) : Prop where
  irrefl : ∀ x, comp x x = false
  trans : ∀ x y z, comp x y = true → comp y z = true → comp x z = true
  incomp : ∀ x y z, comp x y = false → comp y z = false → comp x z = false

/-- Every position `j > 0` whose parent `(j - 1) / 2` is at least `k` holds an element that
does not compare greater than its parent. -/
def HeapFrom (comp : α → α → Bool) (k : Nat) (a : List α) : Prop :=
  ∀ j x y, 0 < j → k ≤ (j - 1) / 2 → a[(j - 1) / 2]? = some x → a[j]? = some y →
    comp x y = false

/-- The range `a` is a heap with respect to `comp` (`std::is_heap`). -/
def IsHeap (comp : α → α → Bool) (a : List α) : Prop := HeapFrom comp 0 a

/-- The heap condition holds except below position `i`, and the parent of `i` dominates the
children of `i`. -/
def DownInv (comp : α → α → Bool) (k i : Nat) (a : List α) : Prop :=
  (∀ j x y, 0 < j → k ≤ (j - 1) / 2 → (j - 1) / 2 ≠ i →
      a[(j - 1) / 2]? = some x → a[j]? = some y → comp x y = false) ∧
  (0 < i → k ≤ (i - 1) / 2 → ∀ c x y, 0 < c → (c - 1) / 2 = i →
      a[(i - 1) / 2]? = some x → a[c]? = some y → comp x y = false)

/-- The heap condition holds except between position `i` and its parent, and the parent of
`i` dominates the children of `i`. -/
def UpInv (comp : α → α → Bool) (i : Nat) (a : List α) : Prop :=
  (∀ j x y, 0 < j → j ≠ i →
      a[(j - 1) / 2]? = some x → a[j]? = some y → comp x y = false) ∧
  (0 < i → ∀ c x y, 0 < c → (c - 1) / 2 = i →
      a[(i - 1) / 2]? = some x → a[c]? = some y → comp x y = false)

end HeapSpec

/-! ## The operations of the manager -/

/-- The member `TimerMgr::allocTimer`. -/
def allocTimer (s : TimerMgr) : Except Fault (Timer × TimerMgr) :=
  if s.timersCount_ < s.timers_.length then
    let iter := s.timers_.findIdx (fun info => !info.isAllocated)
    match s.timers_[iter]? with
    | none => .error .allocTimer_iterNotEnd
    | some info =>
      .ok ({ idx_ := iter % UnsignedModulus },
        { s with
          timers_ := s.timers_.set iter ((info.setAllocated true).setWaitInProgress false)
          timersCount_ := s.timersCount_ + 1 })
  else
    .ok ({ idx_ := Timer.InvalidIdx }, s)

/-- The member `TimerMgr::deleteTimer`. -/
def deleteTimer (idx : Nat) (s : TimerMgr) : Except Fault TimerMgr :=
  if ¬ idx < s.timersCount_ then .error .deleteTimer_idx
  else
    match s.timers_[idx]? with
    | none => .error .outOfRange
    | some info =>
      if !info.isAllocated then .error .deleteTimer_isAllocated
      else if info.handler_.isSome then .error .deleteTimer_handler
      else if info.isWaitInProgress then .error .deleteTimer_waitInProgress
      else .ok { s with timers_ := s.timers_.set idx (info.setAllocated false) }

/-- The member `TimerMgr::postHandler`, for the slot `timers_[idx]`. The event loop accepts
every post, and the callable moved out of `handler_` leaves it empty. -/
def postHandler (status : ErrorStatus) (idx : Nat) (interruptContext : Bool) (s : TimerMgr) :
    Except Fault TimerMgr :=
  match s.timers_[idx]? with
  | none => .error .outOfRange
  | some info =>
    match info.handler_ with
    | none => .error .postHandler_handler
    | some f =>
      if !info.isAllocated then .error .postHandler_isAllocated
      else if !info.isWaitInProgress then .error .postHandler_waitInProgress
      else
        .ok { s with
          trace_ := s.trace_ ++ [.post
            { slot := idx, handler := f, status := status, interruptCtx := interruptContext }]
          timers_ := s.timers_.set idx
            (({ info with handler_ := none } : TimerInfo).setWaitInProgress false) }

/-- The member `TimerMgr::cancelWait`; `device_.suspendWait` reports whether a countdown is
in progress, and the scope guard calls `device_.resumeWait` on the two later exits. -/
def cancelWait (idx : Nat) (s : TimerMgr) : Except Fault (Bool × TimerMgr) :=
  if ¬ idx < s.timersCount_ then .error .cancelWait_idx
  else
    match s.timers_[idx]? with
    | none => .error .outOfRange
    | some info =>
      let s1 := { s with trace_ := s.trace_ ++ [.suspendWait] }
      if !s.deviceActive_ then
        if info.isWaitInProgress then .error .cancelWait_noWait_waitInProgress
        else if s1.waitQueueCount_ ≠ 0 then .error .cancelWait_noWait_queueCount
        else .ok (false, s1)
      else if !info.isAllocated then .error .cancelWait_isAllocated
      else if !info.isWaitInProgress then
        .ok (false, { s1 with trace_ := s1.trace_ ++ [.resumeWait] })
      else
        match postHandler .Aborted idx false s1 with
        | .error e => .error e
        | .ok s2 => .ok (true, { s2 with trace_ := s2.trace_ ++ [.resumeWait] })

/-- The member `TimerMgr::addToScheduledWaits`, for the slot `timers_[idx]`. -/
def addToScheduledWaits (idx : Nat) (s : TimerMgr) : Except Fault TimerMgr :=
  if ¬ s.waitQueueCount_ < ScheduleQueueScale * s.timers_.length then
    .error .addToScheduledWaits_queueCount
  else
    match s.timers_[idx]? with
    | none => .error .outOfRange
    | some info =>
      .ok { s with
        waitQueue_ := s.waitQueue_ ++
          [{ timerInfo_ := idx, engagementId_ := info.engagementId_,
             targetTime_ := info.targetTime_ }] }

/-- The member `TimerMgr::pushToWaitQueue`, for the slot `timers_[idx]`. -/
def pushToWaitQueue (idx : Nat) (s : TimerMgr) : Except Fault TimerMgr :=
  match addToScheduledWaits idx s with
  | .error e => .error e
  | .ok s1 => .ok { s1 with waitQueue_ := push_heap ScheduledWaitPriorityComp s1.waitQueue_ }

/-- The `std::for_each` of `recreateWaitQueue` over the slots `idx`, `idx + 1`, ..., one for
each element of the first argument. -/
def recreateWaitQueueLoop : List TimerInfo → Nat → TimerMgr → Except Fault TimerMgr
  | [], _, s => .ok s
  | info :: rest, idx, s =>
    if info.isAllocated && info.isWaitInProgress then
      match addToScheduledWaits idx s with
      | .error e => .error e
      | .ok s1 => recreateWaitQueueLoop rest (idx + 1) s1
    else recreateWaitQueueLoop rest (idx + 1) s

/-- The member `TimerMgr::recreateWaitQueue`. -/
def recreateWaitQueue (s : TimerMgr) : Except Fault TimerMgr :=
  match recreateWaitQueueLoop s.timers_ 0 { s with waitQueue_ := [] } with
  | .error e => .error e
  | .ok s1 => .ok { s1 with waitQueue_ := make_heap ScheduledWaitPriorityComp s1.waitQueue_ }

/-- The `while` loop of `postExpiredHandlers`; every iteration that does not leave the loop
removes one element of the queue, so `fuel = waitQueueCount_` iterations are never exceeded. -/
def postExpiredHandlersLoop (interruptContext : Bool) : Nat → TimerMgr → Except Fault TimerMgr
  | 0, s => .ok s
  | fuel + 1, s =>
    match s.waitQueue_ with
    | [] => .ok s
    | waitInfo :: _ =>
      if s.timeBase_ < waitInfo.targetTime_ then .ok s
      else
        match s.timers_[waitInfo.timerInfo_]? with
        | none => .error .outOfRange
        | some info =>
          let posted : Except Fault TimerMgr :=
            if info.isAllocated && info.isWaitInProgress
                && info.engagementId_ == waitInfo.engagementId_ then
              if info.handler_.isNone then .error .postExpiredHandlers_handler
              else postHandler .Success waitInfo.timerInfo_ interruptContext s
            else .ok s
          match posted with
          | .error e => .error e
          | .ok s1 =>
            postExpiredHandlersLoop interruptContext fuel
              { s1 with
                waitQueue_ := (pop_heap ScheduledWaitPriorityComp s1.waitQueue_).dropLast }

/-- The member `TimerMgr::postExpiredHandlers`. -/
def postExpiredHandlers (interruptContext : Bool) (s : TimerMgr) : Except Fault TimerMgr :=
  postExpiredHandlersLoop interruptContext s.waitQueueCount_ s

/-- The scope guard `startGuard` of `scheduleWait`, run when the function is left. -/
def startGuard (s : TimerMgr) : Except Fault TimerMgr :=
  match s.waitQueue_ with
  | [] => .error .startGuard_queueCount
  | top :: _ =>
    .ok { s with
      trace_ := s.trace_ ++
        [.startWait ((top.targetTime_ + UnsignedModulus - s.timeBase_) % UnsignedModulus) false]
      deviceActive_ := true }

/-- The member `TimerMgr::scheduleWait`. `elapsed` is the value that `device_.getElapsed`
returns when it is called; `device_.cancelWait` reports whether a countdown was in progress
and stops it. -/
def scheduleWait (idx timeUnits func elapsed : Nat) (s : TimerMgr) : Except Fault TimerMgr :=
  let s1 := { s with trace_ := s.trace_ ++ [.cancelWait], deviceActive_ := false }
  let folded : Except Fault TimerMgr :=
    if s.deviceActive_ then
      if ¬ 0 < s1.waitQueueCount_ then .error .scheduleWait_cancel_queueCount
      else
        .ok { s1 with
          trace_ := s1.trace_ ++ [.getElapsed]
          timeBase_ := (s1.timeBase_ + elapsed) % UnsignedModulus }
    else .ok s1
  match folded with
  | .error e => .error e
  | .ok s2 =>
    let s3 := { s2 with nextEngagementId_ := (s2.nextEngagementId_ + 1) % UnsignedModulus }
    let targetTime := (s3.timeBase_ + timeUnits) % UnsignedModulus
    if ¬ idx < s3.timersCount_ then .error .scheduleWait_idx
    else
      match s3.timers_[idx]? with
      | none => .error .outOfRange
      | some info =>
        if !info.isAllocated then .error .scheduleWait_isAllocated
        else if info.isWaitInProgress then .error .scheduleWait_waitInProgress
        else if info.handler_.isSome then .error .scheduleWait_handler
        else
          let s4 := { s3 with
            timers_ := s3.timers_.set idx
              (({ info with
                  targetTime_ := targetTime
                  engagementId_ := s3.nextEngagementId_
                  handler_ := some func } : TimerInfo).setWaitInProgress true) }
          let queued : Except Fault TimerMgr :=
            if ScheduleQueueScale * s4.timers_.length ≤ s4.waitQueueCount_ then
              recreateWaitQueue s4
            else pushToWaitQueue idx s4
          match queued with
          | .error e => .error e
          | .ok s5 =>
            match postExpiredHandlers false s5 with
            | .error e => .error e
            | .ok s6 => startGuard s6

/-- The `std::for_each` of the error branch of `interruptHandler` over the slots `idx`,
`idx + 1`, ..., `idx + n - 1`. -/
def postErrorLoop (es : ErrorStatus) : Nat → Nat → TimerMgr → Except Fault TimerMgr
  | 0, _, s => .ok s
  | n + 1, idx, s =>
    match s.timers_[idx]? with
    | none => .error .outOfRange
    | some info =>
      if info.handler_.isSome then
        match postHandler es idx true s with
        | .error e => .error e
        | .ok s1 => postErrorLoop es n (idx + 1) s1
      else postErrorLoop es n (idx + 1) s

/-- The member `TimerMgr::interruptHandler`. -/
def interruptHandler (es : ErrorStatus) (s : TimerMgr) : Except Fault TimerMgr :=
  if es.isError then
    match postErrorLoop es s.timersCount_ 0 s with
    | .error e => .error e
    | .ok s1 => .ok { s1 with waitQueue_ := [] }
  else
    match s.waitQueue_ with
    | [] => .error .interruptHandler_queueCount
    | top :: _ =>
      if ¬ s.timeBase_ ≤ top.targetTime_ then .error .interruptHandler_timeBase
      else
        match postExpiredHandlers true { s with timeBase_ := top.targetTime_ } with
        | .error e => .error e
        | .ok s1 =>
          match s1.waitQueue_ with
          | [] => .ok s1
          | top1 :: _ =>
            .ok { s1 with
              trace_ := s1.trace_ ++
                [.startWait
                  ((top1.targetTime_ + UnsignedModulus - s1.timeBase_) % UnsignedModulus) true]
              deviceActive_ := true }

/-- The peripheral invokes the registered handler: its countdown is over (it has expired, or
a hardware error has ended it) when `interruptHandler` runs. -/
def deliverInterrupt (es : ErrorStatus) (s : TimerMgr) : Except Fault TimerMgr :=
  interruptHandler es { s with deviceActive_ := false }

/-! ## Reference functions

Plain list functions that say what the loops of the manager compute. -/

/-- The queue entries that `recreateWaitQueue` creates for the slots `idx`, `idx + 1`, ...
held by the list: one for each slot that is allocated and has a wait in progress. -/
def liveEntries : List TimerInfo → Nat → List ScheduledWaitInfo
  | [], _ => []
  | info :: rest, idx =>
    if info.isAllocated && info.isWaitInProgress then
      { timerInfo_ := idx, engagementId_ := info.engagementId_,
        targetTime_ := info.targetTime_ } :: liveEntries rest (idx + 1)
    else liveEntries rest (idx + 1)

/-- The completions that the error branch of `interruptHandler` posts for the slots `idx`,
`idx + 1`, ... held by the list: one for each slot that holds a callable. -/
def pendingPosts (es : ErrorStatus) : List TimerInfo → Nat → List Post
  | [], _ => []
  | info :: rest, idx =>
    match info.handler_ with
    | some f =>
      { slot := idx, handler := f, status := es, interruptCtx := true } ::
        pendingPosts es rest (idx + 1)
    | none => pendingPosts es rest (idx + 1)

/-- A slot after its callable has been moved out and posted. -/
def TimerInfo.dispatched (info : TimerInfo) : TimerInfo :=
  ({ info with handler_ := none } : TimerInfo).setWaitInProgress false

/-- The slot pool after the error branch of `interruptHandler`: every slot that held a
callable has been dispatched. -/
def dispatchAll (ts : List TimerInfo) : List TimerInfo :=
  ts.map (fun info => if info.handler_.isSome then info.dispatched else info)

/-- The last statement of the normal branch of `interruptHandler`: the peripheral is
restarted, from interrupt context, when the queue is not empty. -/
def restartFromInterrupt (s : TimerMgr) : TimerMgr :=
  match s.waitQueue_ with
  | [] => s
  | top :: _ =>
    { s with
      trace_ := s.trace_ ++
        [.startWait ((top.targetTime_ + UnsignedModulus - s.timeBase_) % UnsignedModulus) true]
      deviceActive_ := true }

/-- The state of `scheduleWait` after the first half of its body, when no assertion has
failed: the peripheral has been stopped, its elapsed time folded into `timeBase_`, the next
engagement id taken, and slot `idx` (whose record was `info`) set up for the new wait. -/
def armed (idx timeUnits func elapsed : Nat) (info : TimerInfo) (s : TimerMgr) : TimerMgr :=
  { timeBase_ := if s.deviceActive_ then (s.timeBase_ + elapsed) % UnsignedModulus
      else s.timeBase_
    waitQueue_ := s.waitQueue_
    timers_ := s.timers_.set idx
      (({ info with
          targetTime_ :=
            ((if s.deviceActive_ then (s.timeBase_ + elapsed) % UnsignedModulus
              else s.timeBase_) + timeUnits) % UnsignedModulus
          engagementId_ := (s.nextEngagementId_ + 1) % UnsignedModulus
          handler_ := some func } : TimerInfo).setWaitInProgress true)
    timersCount_ := s.timersCount_
    nextEngagementId_ := (s.nextEngagementId_ + 1) % UnsignedModulus
    deviceActive_ := false
    trace_ := if s.deviceActive_ then s.trace_ ++ [.cancelWait] ++ [.getElapsed]
      else s.trace_ ++ [.cancelWait] }

/-- The second half of the body of `scheduleWait`: the new entry is put in the queue (after a
rebuild of the queue when it is full), the due entries are removed, and the scope guard
restarts the peripheral. -/
def finishSchedule (idx : Nat) (s : TimerMgr) : Except Fault TimerMgr :=
  let queued : Except Fault TimerMgr :=
    if ScheduleQueueScale * s.timers_.length ≤ s.waitQueueCount_ then recreateWaitQueue s
    else pushToWaitQueue idx s
  match queued with
  | .error e => .error e
  | .ok s5 =>
    match postExpiredHandlers false s5 with
    | .error e => .error e
    | .ok s6 => startGuard s6

/-! ## Scenarios -/

/-- Call `allocTimer` `n` times in a row, keeping the handles in the order of the calls. -/
def allocTimers : Nat → TimerMgr → Except Fault (List Timer × TimerMgr)
  | 0, s => .ok ([], s)
  | n + 1, s =>
    match allocTimer s with
    | .error e => .error e
    | .ok (t, s1) =>
      match allocTimers n s1 with
      | .error e => .error e
      | .ok (ts, s2) => .ok (t :: ts, s2)

/-- A slot that is allocated and idle. -/
def TimerInfo.idle : TimerInfo :=
  { targetTime_ := 0, engagementId_ := 0, handler_ := none, flags_ := 1 }

/-- The manager with `MaxTimers` slots after `MaxTimers` calls of `allocTimer`. -/
def TimerMgr.full (MaxTimers : Nat) : TimerMgr :=
  { timeBase_ := 0
    waitQueue_ := []
    timers_ := List.replicate MaxTimers TimerInfo.idle
    timersCount_ := MaxTimers
    nextEngagementId_ := 0
    deviceActive_ := false
    trace_ := [] }

/-- The manager with `MaxTimers` slots after `j` calls of `allocTimer`. -/
def TimerMgr.allocated (MaxTimers j : Nat) : TimerMgr :=
  { timeBase_ := 0
    waitQueue_ := []
    timers_ := List.replicate j TimerInfo.idle ++ List.replicate (MaxTimers - j) TimerInfo.new
    timersCount_ := j
    nextEngagementId_ := 0
    deviceActive_ := false
    trace_ := [] }

/-- The manager with one slot after `allocTimer` and `scheduleWait(0, 5, f)` with `f = 7`. -/
def TimerMgr.oneWaiting : TimerMgr :=
  { timeBase_ := 0
    waitQueue_ := [{ timerInfo_ := 0, engagementId_ := 1, targetTime_ := 5 }]
    timers_ := [{ targetTime_ := 5, engagementId_ := 1, handler_ := some 7, flags_ := 3 }]
    timersCount_ := 1
    nextEngagementId_ := 1
    deviceActive_ := true
    trace_ := [.cancelWait, .startWait 5 false] }

/-- The manager with one slot after `allocTimer`, `scheduleWait(0, 5, f)` with `f = 7`, and
`cancelWait(0)`: the wait has been aborted and its entry is still in the queue. -/
def TimerMgr.oneCancelled : TimerMgr :=
  { timeBase_ := 0
    waitQueue_ := [{ timerInfo_ := 0, engagementId_ := 1, targetTime_ := 5 }]
    timers_ := [{ targetTime_ := 5, engagementId_ := 1, handler_ := none, flags_ := 1 }]
    timersCount_ := 1
    nextEngagementId_ := 1
    deviceActive_ := true
    trace_ := [.cancelWait, .startWait 5 false, .suspendWait,
      .post { slot := 0, handler := 7, status := .Aborted, interruptCtx := false },
      .resumeWait] }

/-- The manager with one slot after `allocTimer`, `scheduleWait(0, 5, f)` with `f = 7`, the
interrupt that completes this wait, `scheduleWait(0, 10, g)` with `g = 8`, and `cancelWait(0)`:
`timeBase_` is 5, the peripheral counts down the 10 units it was started for, and the slot
is idle. -/
def TimerMgr.cancelledAtFive : TimerMgr :=
  { timeBase_ := 5
    waitQueue_ := [{ timerInfo_ := 0, engagementId_ := 2, targetTime_ := 15 }]
    timers_ := [{ targetTime_ := 15, engagementId_ := 2, handler_ := none, flags_ := 1 }]
    timersCount_ := 1
    nextEngagementId_ := 2
    deviceActive_ := true
    trace_ := [.cancelWait, .startWait 5 false,
      .post { slot := 0, handler := 7, status := .Success, interruptCtx := true },
      .cancelWait, .startWait 10 false, .suspendWait,
      .post { slot := 0, handler := 8, status := .Aborted, interruptCtx := false },
      .resumeWait] }

/-- Schedule the requests `(duration, callable)` of the list on the slots `idx`, `idx + 1`,
... in this order, with no time elapsing on the peripheral between the calls. -/
def scheduleAll : List (Nat × Nat) → Nat → TimerMgr → Except Fault TimerMgr
  | [], _, s => .ok s
  | (timeUnits, func) :: rest, idx, s =>
    match scheduleWait idx timeUnits func 0 s with
    | .error e => .error e
    | .ok s1 => scheduleAll rest (idx + 1) s1

/-- Call `cancelWait` on the slots `idx`, `idx + 1`, ..., `idx + n - 1` in this order, keeping
the returned values. -/
def cancelAll : Nat → Nat → TimerMgr → Except Fault (List Bool × TimerMgr)
  | 0, _, s => .ok ([], s)
  | n + 1, idx, s =>
    match cancelWait idx s with
    | .error e => .error e
    | .ok (r, s1) =>
      match cancelAll n (idx + 1) s1 with
      | .error e => .error e
      | .ok (rs, s2) => .ok (r :: rs, s2)

/-- Deliver normal-completion interrupts until the queue is empty; every interrupt removes at
least one entry, so `fuel = waitQueueCount_` interrupts are never exceeded. -/
def drainInterrupts : Nat → TimerMgr → Except Fault TimerMgr
  | 0, s => .ok s
  | fuel + 1, s =>
    match s.waitQueue_ with
    | [] => .ok s
    | _ :: _ =>
      match deliverInterrupt .Success s with
      | .error e => .error e
      | .ok s1 => drainInterrupts fuel s1

/-- The scenario of the ordering and of the stale-entry properties: on a fresh manager
with `MaxTimers` slots, one handle is allocated for each request of `reqs`, the requests are
scheduled on the slots `0`, `1`, ... with no time elapsing, the waits of the first
`cancelled` slots are cancelled, and normal-completion interrupts are delivered until the
queue is empty. The result holds the values returned by `cancelWait` and the final state. -/
def waitScenario (MaxTimers : Nat) (reqs : List (Nat × Nat)) (cancelled : Nat) :
    Except Fault (List Bool × TimerMgr) :=
  match allocTimers reqs.length (TimerMgr.new MaxTimers) with
  | .error e => .error e
  | .ok (_, s1) =>
    match scheduleAll reqs 0 s1 with
    | .error e => .error e
    | .ok s2 =>
      match cancelAll cancelled 0 s2 with
      | .error e => .error e
      | .ok (rs, s3) =>
        match drainInterrupts s3.waitQueueCount_ s3 with
        | .error e => .error e
        | .ok s4 => .ok (rs, s4)

/-- The order in which repeated `pop_heap` calls remove the elements of a heap. -/
def popAll : Nat → List ScheduledWaitInfo → List ScheduledWaitInfo
  | 0, _ => []
  | _ + 1, [] => []
  | fuel + 1, top :: rest =>
    top :: popAll fuel (pop_heap ScheduledWaitPriorityComp (top :: rest)).dropLast

/-- The removal order of the whole queue `q`. -/
def heapOrder (q : List ScheduledWaitInfo) : List ScheduledWaitInfo := popAll q.length q

/-- The test made by `postExpiredHandlers` on a popped entry, against the slots `ts`. -/
def liveIn (ts : List TimerInfo) (e : ScheduledWaitInfo) : Bool :=
  match ts[e.timerInfo_]? with
  | some info =>
    info.isAllocated && info.isWaitInProgress && info.engagementId_ == e.engagementId_
  | none => false

/-- The live entries in the wording of the specification's queue invariant: the entry `e`
carries the current engagement id of the slot it refers to, and that slot has a wait in
progress. It is compared with `liveIn`, the test made by the code. -/
def matchesSlot (ts : List TimerInfo) (e : ScheduledWaitInfo) : Bool :=
  match ts[e.timerInfo_]? with
  | some info => info.isWaitInProgress && info.engagementId_ == e.engagementId_
  | none => false

/-- The Success completion that `postExpiredHandlers` posts for the entry `e` when it is
live, given the slots `ts`. -/
def successOf (ts : List TimerInfo) (ctx : Bool) (e : ScheduledWaitInfo) : Post :=
  { slot := e.timerInfo_
    handler := match ts[e.timerInfo_]? with
      | some info => info.handler_.getD 0
      | none => 0
    status := .Success
    interruptCtx := ctx }

/-- The record of slot `j` once the request `r = (duration, callable)` has been scheduled on
it, on a fresh manager, as the request number `j + 1`. -/
def waitingSlot (j : Nat) (r : Nat × Nat) : TimerInfo :=
  { targetTime_ := r.1, engagementId_ := j + 1, handler_ := some r.2, flags_ := 3 }

/-- The queue entry of the request `r` scheduled on slot `j` as the request number `j + 1`. -/
def waitEntry (j : Nat) (r : Nat × Nat) : ScheduledWaitInfo :=
  { timerInfo_ := j, engagementId_ := j + 1, targetTime_ := r.1 }

/-- The completions posted while the requests of the list are scheduled at time base 0 on
the slots `idx`, `idx + 1`, ...: the requests of duration 0 complete inside `scheduleWait`. -/
def zeroPosts : List (Nat × Nat) → Nat → List Post
  | [], _ => []
  | r :: rest, idx =>
    if r.1 = 0 then
      { slot := idx, handler := r.2, status := .Success, interruptCtx := false } ::
        zeroPosts rest (idx + 1)
    else zeroPosts rest (idx + 1)

/-- The Aborted completions posted by `cancelWait` on the slots `idx`, `idx + 1`, ... that
hold the requests of the list. -/
def abortedPosts : List (Nat × Nat) → Nat → List Post
  | [], _ => []
  | r :: rest, idx =>
    { slot := idx, handler := r.2, status := .Aborted, interruptCtx := false } ::
      abortedPosts rest (idx + 1)

/-! ## Reachable states and invariants -/

/-- The states of a manager with `MaxTimers` slots that a client and the peripheral can
produce: every operation that completes without a failed assertion leads to a new state.
`scheduleWait` may be given any duration, callable and elapsed-time readback, and the
peripheral may deliver any status. -/
inductive Reachable (MaxTimers : Nat) : TimerMgr → Prop where
  | init : Reachable MaxTimers (TimerMgr.new MaxTimers)
  | allocTimer {s s' : TimerMgr} {t : Timer} :
      Reachable MaxTimers s → allocTimer s = .ok (t, s') → Reachable MaxTimers s'
  | deleteTimer {s s' : TimerMgr} {idx : Nat} :
      Reachable MaxTimers s → deleteTimer idx s = .ok s' → Reachable MaxTimers s'
  | cancelWait {s s' : TimerMgr} {idx : Nat} {r : Bool} :
      Reachable MaxTimers s → cancelWait idx s = .ok (r, s') → Reachable MaxTimers s'
  | scheduleWait {s s' : TimerMgr} {idx timeUnits func elapsed : Nat} :
      Reachable MaxTimers s → scheduleWait idx timeUnits func elapsed s = .ok s' →
      Reachable MaxTimers s'
  | deliverInterrupt {s s' : TimerMgr} {es : ErrorStatus} :
      Reachable MaxTimers s → deliverInterrupt es s = .ok s' → Reachable MaxTimers s'

/-- Invariant of the slot pool. -/
structure SlotsOk (MaxTimers : Nat) (s : TimerMgr) : Prop where
  timers_length : s.timers_.length = MaxTimers
  timersCount_le : s.timersCount_ ≤ MaxTimers
  allocated_count : s.timers_.countP TimerInfo.isAllocated ≤ s.timersCount_
  allocated_lt : ∀ i info, s.timers_[i]? = some info → info.isAllocated = true →
    i < s.timersCount_
  handler_iff : ∀ info ∈ s.timers_, info.handler_.isSome = info.isWaitInProgress
  wait_allocated : ∀ info ∈ s.timers_, info.isWaitInProgress = true → info.isAllocated = true

/-- Invariant of the schedule queue. -/
structure QueueOk (MaxTimers : Nat) (s : TimerMgr) : Prop where
  queue_le : s.waitQueue_.length ≤ ScheduleQueueScale * MaxTimers
  queue_heap : IsHeap ScheduledWaitPriorityComp s.waitQueue_
  queue_slot : ∀ e ∈ s.waitQueue_, e.timerInfo_ < MaxTimers
  queue_target : ∀ e ∈ s.waitQueue_, e.targetTime_ < UnsignedModulus

/-- Every slot with a wait in progress has an entry in the queue that carries its
engagement id and its target time. -/
def WaitsQueued (s : TimerMgr) : Prop :=
  ∀ i info, s.timers_[i]? = some info → info.isWaitInProgress = true →
    ∃ e ∈ s.waitQueue_, e.timerInfo_ = i ∧ e.engagementId_ = info.engagementId_ ∧
      e.targetTime_ = info.targetTime_

/-- The part of the invariant that also holds inside `scheduleWait` and `interruptHandler`
while due entries are being removed. -/
structure CoreInv (MaxTimers : Nat) (s : TimerMgr) : Prop where
  slots : SlotsOk MaxTimers s
  queue : QueueOk MaxTimers s
  waits : WaitsQueued s

/-- The queue entry `e` is live in `s`: its slot is allocated, has a wait in progress and
carries the engagement id of the entry. -/
def IsLive (s : TimerMgr) (e : ScheduledWaitInfo) : Prop :=
  ∃ info, s.timers_[e.timerInfo_]? = some info ∧ info.isAllocated = true ∧
    info.isWaitInProgress = true ∧ info.engagementId_ = e.engagementId_

/-- The relation between the state at the start of the `while` loop of
`postExpiredHandlers` and the state at its end, iteration by iteration: the loop ends on an
empty queue or on a first entry that is not due; a due entry is removed, after its slot's
callable has been posted with Success when the entry is live. -/
inductive Drains (ctx : Bool) : TimerMgr → TimerMgr → Prop where
  | empty {s : TimerMgr} : s.waitQueue_ = [] → Drains ctx s s
  | future {s : TimerMgr} {top : ScheduledWaitInfo} {rest : List ScheduledWaitInfo} :
      s.waitQueue_ = top :: rest → s.timeBase_ < top.targetTime_ → Drains ctx s s
  | fire {s s' : TimerMgr} {top : ScheduledWaitInfo} {rest : List ScheduledWaitInfo}
      {info : TimerInfo} {f : Nat} :
      s.waitQueue_ = top :: rest → ¬ s.timeBase_ < top.targetTime_ →
      s.timers_[top.timerInfo_]? = some info → info.isAllocated = true →
      info.isWaitInProgress = true → info.engagementId_ = top.engagementId_ →
      info.handler_ = some f →
      Drains ctx { s with
        trace_ := s.trace_ ++ [.post
          { slot := top.timerInfo_, handler := f, status := .Success, interruptCtx := ctx }]
        timers_ := s.timers_.set top.timerInfo_ info.dispatched
        waitQueue_ := (pop_heap ScheduledWaitPriorityComp s.waitQueue_).dropLast } s' →
      Drains ctx s s'
  | skip {s s' : TimerMgr} {top : ScheduledWaitInfo} {rest : List ScheduledWaitInfo}
      {info : TimerInfo} :
      s.waitQueue_ = top :: rest → ¬ s.timeBase_ < top.targetTime_ →
      s.timers_[top.timerInfo_]? = some info →
      ¬ (info.isAllocated = true ∧ info.isWaitInProgress = true ∧
        info.engagementId_ = top.engagementId_) →
      Drains ctx { s with
        waitQueue_ := (pop_heap ScheduledWaitPriorityComp s.waitQueue_).dropLast } s' →
      Drains ctx s s'

/-- The invariant that holds between the operations of the manager. -/
structure Inv (MaxTimers : Nat) (s : TimerMgr) : Prop where
  slots : SlotsOk MaxTimers s
  queue : QueueOk MaxTimers s
  waits : WaitsQueued s
  device_iff : s.deviceActive_ = true ↔ s.waitQueue_ ≠ []
  queue_future : ∀ e ∈ s.waitQueue_, s.timeBase_ < e.targetTime_
  timeBase_lt : s.timeBase_ < UnsignedModulus

/-- The state of a manager with `MaxTimers` slots, `N` of them allocated, after the first
`k` requests of `reqs` have been scheduled on the slots `0`, ..., `k - 1` at time base 0 and
the waits of the slots `0`, ..., `c - 1` have then been cancelled. -/
structure Scheduled (MaxTimers N : Nat) (reqs : List (Nat × Nat)) (k c : Nat)
    (s : TimerMgr) : Prop where
  reach : Reachable MaxTimers s
  timeBase : s.timeBase_ = 0
  nextId : s.nextEngagementId_ = k
  slots : ∀ j r, j < k → reqs[j]? = some r →
    s.timers_[j]? = some (if r.1 = 0 ∨ j < c then (waitingSlot j r).dispatched
      else waitingSlot j r)
  idle : ∀ j, k ≤ j → j < N → s.timers_[j]? = some TimerInfo.idle
  queue : ∀ e, e ∈ s.waitQueue_ ↔ ∃ j r, j < k ∧ reqs[j]? = some r ∧ 0 < r.1 ∧ e = waitEntry j r
  nodup : (s.waitQueue_.map (fun e => e.timerInfo_)).Nodup
  queue_length : s.waitQueue_.length ≤ k
  posted : s.posted = zeroPosts (reqs.take k) 0 ++ abortedPosts (reqs.take c) 0

/-! ## One request followed through a run of the manager -/

/-- The completions of the list that were posted for slot `i`, in posting order. -/
def postsOf (i : Nat) (ps : List Post) : List Post := ps.filter (fun p => p.slot == i)

/-- Slot `i` holds the wait with engagement id `id`, callable `f` and target time `T`, not
yet completed, and every queue entry made for slot `i` under that engagement id carries the
target time `T`. -/
structure Pending (i id f T : Nat) (s : TimerMgr) : Prop where
  slot : ∃ info, s.timers_[i]? = some info ∧ info.isAllocated = true ∧
    info.isWaitInProgress = true ∧ info.engagementId_ = id ∧ info.handler_ = some f ∧
    info.targetTime_ = T
  entries : ∀ e ∈ s.waitQueue_, e.timerInfo_ = i → e.engagementId_ = id → e.targetTime_ = T

/-- Slot `i` has no wait in progress. -/
def Idle (i : Nat) (s : TimerMgr) : Prop :=
  ∀ info, s.timers_[i]? = some info → info.isWaitInProgress = false

/-- The request of slot `i` is still pending in `s`, and the completions posted for slot `i`
so far are those of `base`. -/
def Waiting (i id f T : Nat) (base : List Post) (s : TimerMgr) : Prop :=
  Pending i id f T s ∧ postsOf i s.posted = base

/-- The request of slot `i` has been completed in `s`: the slot has no wait in progress, and
the completions posted for slot `i` are those of `base` followed by exactly one more, which
carries the callable `f`, the status `st` and the posting context `ctx`. -/
def Completed (i f : Nat) (base : List Post) (st : ErrorStatus) (ctx : Bool)
    (s : TimerMgr) : Prop :=
  Idle i s ∧
    postsOf i s.posted = base ++ [{ slot := i, handler := f, status := st, interruptCtx := ctx }]

/-- One operation of the manager that completes without a failed assertion and is not a
`scheduleWait` on slot `i`. -/
inductive Step (i : Nat) : TimerMgr → TimerMgr → Prop where
  | allocTimer {s s' : TimerMgr} {t : Timer} : allocTimer s = .ok (t, s') → Step i s s'
  | deleteTimer {s s' : TimerMgr} {idx : Nat} : deleteTimer idx s = .ok s' → Step i s s'
  | cancelWait {s s' : TimerMgr} {idx : Nat} {r : Bool} :
      cancelWait idx s = .ok (r, s') → Step i s s'
  | scheduleWait {s s' : TimerMgr} {idx timeUnits func elapsed : Nat} :
      idx ≠ i → scheduleWait idx timeUnits func elapsed s = .ok s' → Step i s s'
  | deliverInterrupt {s s' : TimerMgr} {es : ErrorStatus} :
      deliverInterrupt es s = .ok s' → Step i s s'

/-- A run of the manager in which slot `i` is not scheduled again: any number of operations,
each of them a `Step i`. -/
inductive Run (i : Nat) : TimerMgr → TimerMgr → Prop where
  | refl {s : TimerMgr} : Run i s s
  | tail {s s' s'' : TimerMgr} : Run i s s' → Step i s' s'' → Run i s s''

/-! ## The engagement counter before it wraps around -/

/-- Every engagement id stored in a slot or in a queue entry is at most the value of the
counter `nextEngagementId_`. -/
def IdsBelow (s : TimerMgr) : Prop :=
  (∀ info ∈ s.timers_, info.engagementId_ ≤ s.nextEngagementId_) ∧
  (∀ e ∈ s.waitQueue_, e.engagementId_ ≤ s.nextEngagementId_)

/-- The states that a client and the peripheral can produce while the engagement counter
has not wrapped around: as `Reachable`, but every `scheduleWait` is made with the counter
below the largest `unsigned` value. -/
inductive ReachableUnwrapped (MaxTimers : Nat) : TimerMgr → Prop where
  | init : ReachableUnwrapped MaxTimers (TimerMgr.new MaxTimers)
  | allocTimer {s s' : TimerMgr} {t : Timer} :
      ReachableUnwrapped MaxTimers s → allocTimer s = .ok (t, s') →
      ReachableUnwrapped MaxTimers s'
  | deleteTimer {s s' : TimerMgr} {idx : Nat} :
      ReachableUnwrapped MaxTimers s → deleteTimer idx s = .ok s' →
      ReachableUnwrapped MaxTimers s'
  | cancelWait {s s' : TimerMgr} {idx : Nat} {r : Bool} :
      ReachableUnwrapped MaxTimers s → cancelWait idx s = .ok (r, s') →
      ReachableUnwrapped MaxTimers s'
  | scheduleWait {s s' : TimerMgr} {idx timeUnits func elapsed : Nat} :
      ReachableUnwrapped MaxTimers s → s.nextEngagementId_ + 1 < UnsignedModulus →
      scheduleWait idx timeUnits func elapsed s = .ok s' → ReachableUnwrapped MaxTimers s'
  | deliverInterrupt {s s' : TimerMgr} {es : ErrorStatus} :
      ReachableUnwrapped MaxTimers s → deliverInterrupt es s = .ok s' →
      ReachableUnwrapped MaxTimers s'

/-- The manager with two slots after two calls of `allocTimer` and `scheduleWait(1, 5, f)`
with `f = 9`: slot 0 is idle and slot 1 waits under the engagement id 1. -/
def TimerMgr.secondWaiting : TimerMgr :=
  { timeBase_ := 0
    waitQueue_ := [{ timerInfo_ := 1, engagementId_ := 1, targetTime_ := 5 }]
    timers_ := [TimerInfo.idle,
      { targetTime_ := 5, engagementId_ := 1, handler_ := some 9, flags_ := 3 }]
    timersCount_ := 2
    nextEngagementId_ := 1
    deviceActive_ := true
    trace_ := [.cancelWait, .startWait 5 false] }

/-! ## Facts about the heap algorithms -/

section HeapFacts
variable {α : Type}

theorem heapSwap_length (a : List α) (i j : Nat) : (heapSwap a i j).length = a.length := by
  unfold heapSwap
  split <;> simp

theorem heapSwap_getElem? (a : List α) (i j k : Nat) (hi : i < a.length) (hj : j < a.length) :
    (heapSwap a i j)[k]? = if k = j then a[i]? else if k = i then a[j]? else a[k]? := by
  unfold heapSwap
  rw [List.getElem?_eq_getElem hi, List.getElem?_eq_getElem hj]
  simp only [List.getElem?_set, List.length_set]
  by_cases h1 : k = j
  · subst h1; simp [hj]
  · by_cases h2 : k = i
    · subst h2; simp [h1, hi, Ne.symm h1]
    · simp [h1, h2, Ne.symm h1, Ne.symm h2]

theorem heapSwap_perm [DecidableEq α] (a : List α) (i j : Nat) : (heapSwap a i j).Perm a := by
  unfold heapSwap
  split
  · rename_i x y hx hy
    obtain ⟨hi, hxi⟩ := List.getElem?_eq_some_iff.mp hx
    obtain ⟨hj, hyj⟩ := List.getElem?_eq_some_iff.mp hy
    rw [List.perm_iff_count]
    intro b
    have hj' : j < (a.set i y).length := by simpa using hj
    rw [List.count_set _ _ _ _ hj', List.count_set _ _ _ _ hi]
    have hcx : 0 < a.count x := List.count_pos_iff.mpr (hxi ▸ List.getElem_mem hi)
    have hcy : 0 < a.count y := List.count_pos_iff.mpr (hyj ▸ List.getElem_mem hj)
    simp only [List.getElem_set, hxi]
    by_cases hij : i = j
    · subst hij
      have : x = y := by rw [← hxi, ← hyj]
      subst this
      by_cases hb : x = b
      · subst hb; simp; omega
      · simp [hb]
    · simp only [hij, if_false, hyj]
      by_cases hbx : x = b <;> by_cases hby : y = b
      · subst hbx; subst hby; simp; omega
      · subst hbx; simp [hby]; omega
      · subst hby; simp [hbx]
      · simp [hbx, hby]
  · exact List.Perm.refl _

theorem siftUp_length (comp : α → α → Bool) (fuel i : Nat) (a : List α) :
    (siftUp comp fuel i a).length = a.length := by
  induction fuel generalizing i a with
  | zero => rfl
  | succ n ih =>
    unfold siftUp
    split
    · rfl
    · split
      · split
        · rw [ih, heapSwap_length]
        · rfl
      · rfl

theorem siftUp_perm [DecidableEq α] (comp : α → α → Bool) (fuel i : Nat) (a : List α) :
    (siftUp comp fuel i a).Perm a := by
  induction fuel generalizing i a with
  | zero => exact List.Perm.refl _
  | succ n ih =>
    unfold siftUp
    split
    · exact List.Perm.refl _
    · split
      · split
        · exact (ih _ _).trans (heapSwap_perm _ _ _)
        · exact List.Perm.refl _
      · exact List.Perm.refl _

theorem siftDown_length (comp : α → α → Bool) (fuel i : Nat) (a : List α) :
    (siftDown comp fuel i a).length = a.length := by
  induction fuel generalizing i a with
  | zero => rfl
  | succ n ih =>
    unfold siftDown
    split
    · rfl
    · rw [ih, heapSwap_length]

theorem siftDown_perm [DecidableEq α] (comp : α → α → Bool) (fuel i : Nat) (a : List α) :
    (siftDown comp fuel i a).Perm a := by
  induction fuel generalizing i a with
  | zero => exact List.Perm.refl _
  | succ n ih =>
    unfold siftDown
    split
    · exact List.Perm.refl _
    · exact (ih _ _).trans (heapSwap_perm _ _ _)

theorem push_heap_length (comp : α → α → Bool) (a : List α) :
    (push_heap comp a).length = a.length := siftUp_length _ _ _ _

theorem push_heap_perm [DecidableEq α] (comp : α → α → Bool) (a : List α) :
    (push_heap comp a).Perm a := siftUp_perm _ _ _ _

theorem makeHeapLoop_length (comp : α → α → Bool) (k : Nat) (a : List α) :
    (makeHeapLoop comp k a).length = a.length := by
  induction k generalizing a with
  | zero => rfl
  | succ n ih => unfold makeHeapLoop; rw [ih, siftDown_length]

theorem makeHeapLoop_perm [DecidableEq α] (comp : α → α → Bool) (k : Nat) (a : List α) :
    (makeHeapLoop comp k a).Perm a := by
  induction k generalizing a with
  | zero => exact List.Perm.refl _
  | succ n ih => unfold makeHeapLoop; exact (ih _).trans (siftDown_perm _ _ _ _)

theorem make_heap_length (comp : α → α → Bool) (a : List α) :
    (make_heap comp a).length = a.length := makeHeapLoop_length _ _ _

theorem make_heap_perm [DecidableEq α] (comp : α → α → Bool) (a : List α) :
    (make_heap comp a).Perm a := makeHeapLoop_perm _ _ _

end HeapFacts

section HeapOrder
variable {α : Type}

theorem StrictWeak.asymm {comp : α → α → Bool} (sw : StrictWeak comp) (x y : α)
    (h : comp x y = true) : comp y x = false := by
  cases hyx : comp y x with
  | false => rfl
  | true =>
    have := sw.trans x y x h hyx
    rw [sw.irrefl] at this
    exact absurd this (by simp)

theorem child_iff (i c : Nat) : (0 < c ∧ (c - 1) / 2 = i) ↔ (c = 2 * i + 1 ∨ c = 2 * i + 2) := by
  constructor
  · rintro ⟨h1, h2⟩; omega
  · rintro (h | h) <;> omega

theorem largestOfThree_spec {comp : α → α → Bool} (sw : StrictWeak comp) (i : Nat) (a : List α) :
    (largestOfThree comp i a = i ∧
      ∀ c x y, (c = 2 * i + 1 ∨ c = 2 * i + 2) → a[i]? = some x → a[c]? = some y →
        comp x y = false) ∨
    ((largestOfThree comp i a = 2 * i + 1 ∨ largestOfThree comp i a = 2 * i + 2) ∧
      ∃ x z, a[i]? = some x ∧ a[largestOfThree comp i a]? = some z ∧ comp x z = true ∧
        ∀ c y, (c = 2 * i + 1 ∨ c = 2 * i + 2) → a[c]? = some y → comp z y = false) := by
  obtain hi | ⟨x, hi⟩ := (a[i]?).eq_none_or_eq_some
  · left
    have hm : largestOfThree comp i a = i := by simp [largestOfThree, hi]
    refine ⟨hm, ?_⟩
    intro c x y _ hx
    rw [hi] at hx; cases hx
  obtain hl | ⟨l, hl⟩ := (a[2 * i + 1]?).eq_none_or_eq_some
  · obtain hr | ⟨r, hr⟩ := (a[2 * i + 2]?).eq_none_or_eq_some
    · left
      have hm : largestOfThree comp i a = i := by simp [largestOfThree, hi, hl, hr]
      refine ⟨hm, ?_⟩
      rintro c x' y (rfl | rfl) hx hy
      · rw [hl] at hy; cases hy
      · rw [hr] at hy; cases hy
    · cases hxr : comp x r with
      | false =>
        left
        have hm : largestOfThree comp i a = i := by simp [largestOfThree, hi, hl, hr, hxr]
        refine ⟨hm, ?_⟩
        rintro c x' y (rfl | rfl) hx hy
        · rw [hl] at hy; cases hy
        · rw [hr] at hy; rw [hi] at hx; cases hy; cases hx; exact hxr
      | true =>
        right
        have hm : largestOfThree comp i a = 2 * i + 2 := by
          simp [largestOfThree, hi, hl, hr, hxr]
        rw [hm]
        refine ⟨Or.inr rfl, x, r, hi, hr, hxr, ?_⟩
        rintro c y (rfl | rfl) hy
        · rw [hl] at hy; cases hy
        · rw [hr] at hy; cases hy; exact sw.irrefl _
  · cases hxl : comp x l with
    | false =>
      obtain hr | ⟨r, hr⟩ := (a[2 * i + 2]?).eq_none_or_eq_some
      · left
        have hm : largestOfThree comp i a = i := by simp [largestOfThree, hi, hl, hr, hxl]
        refine ⟨hm, ?_⟩
        rintro c x' y (rfl | rfl) hx hy
        · rw [hl] at hy; rw [hi] at hx; cases hy; cases hx; exact hxl
        · rw [hr] at hy; cases hy
      · cases hxr : comp x r with
        | false =>
          left
          have hm : largestOfThree comp i a = i := by
            simp [largestOfThree, hi, hl, hr, hxl, hxr]
          refine ⟨hm, ?_⟩
          rintro c x' y (rfl | rfl) hx hy
          · rw [hl] at hy; rw [hi] at hx; cases hy; cases hx; exact hxl
          · rw [hr] at hy; rw [hi] at hx; cases hy; cases hx; exact hxr
        | true =>
          right
          have hm : largestOfThree comp i a = 2 * i + 2 := by
            simp [largestOfThree, hi, hl, hr, hxl, hxr]
          rw [hm]
          refine ⟨Or.inr rfl, x, r, hi, hr, hxr, ?_⟩
          rintro c y (rfl | rfl) hy
          · rw [hl] at hy; cases hy
            cases hrl : comp r l with
            | false => rfl
            | true =>
              have := sw.trans _ _ _ hxr hrl
              rw [hxl] at this; cases this
          · rw [hr] at hy; cases hy; exact sw.irrefl _
    | true =>
      obtain hr | ⟨r, hr⟩ := (a[2 * i + 2]?).eq_none_or_eq_some
      · right
        have hm : largestOfThree comp i a = 2 * i + 1 := by
          simp [largestOfThree, hi, hl, hr, hxl]
        rw [hm]
        refine ⟨Or.inl rfl, x, l, hi, hl, hxl, ?_⟩
        rintro c y (rfl | rfl) hy
        · rw [hl] at hy; cases hy; exact sw.irrefl _
        · rw [hr] at hy; cases hy
      · cases hlr : comp l r with
        | false =>
          right
          have hm : largestOfThree comp i a = 2 * i + 1 := by
            simp [largestOfThree, hi, hl, hr, hxl, hlr]
          rw [hm]
          refine ⟨Or.inl rfl, x, l, hi, hl, hxl, ?_⟩
          rintro c y (rfl | rfl) hy
          · rw [hl] at hy; cases hy; exact sw.irrefl _
          · rw [hr] at hy; cases hy; exact hlr
        | true =>
          right
          have hm : largestOfThree comp i a = 2 * i + 2 := by
            simp [largestOfThree, hi, hl, hr, hxl, hlr]
          rw [hm]
          refine ⟨Or.inr rfl, x, r, hi, hr, sw.trans _ _ _ hxl hlr, ?_⟩
          rintro c y (rfl | rfl) hy
          · rw [hl] at hy; cases hy; exact sw.asymm _ _ hlr
          · rw [hr] at hy; cases hy; exact sw.irrefl _

end HeapOrder

section HeapOrder2
variable {α : Type}

theorem lt_length_of_getElem? {a : List α} {i : Nat} {x : α} (h : a[i]? = some x) :
    i < a.length := (List.getElem?_eq_some_iff.mp h).1

theorem siftDown_heapFrom {comp : α → α → Bool} (sw : StrictWeak comp) (k : Nat) :
    ∀ (fuel i : Nat) (a : List α), k ≤ i → DownInv comp k i a → a.length ≤ fuel + i →
      HeapFrom comp k (siftDown comp fuel i a) := by
  intro fuel
  induction fuel with
  | zero =>
    intro i a _ hinv hlen
    unfold siftDown
    intro j x y hj hk hx hy
    by_cases hp : (j - 1) / 2 = i
    · have := lt_length_of_getElem? hy
      omega
    · exact hinv.1 j x y hj hk hp hx hy
  | succ n ih =>
    intro i a hki hinv hlen
    unfold siftDown
    rcases largestOfThree_spec sw i a with ⟨hm, hch⟩ | ⟨hm, x, z, hxi, hzm, hxz, hch⟩
    · rw [if_pos hm]
      intro j x y hj hk hx hy
      by_cases hp : (j - 1) / 2 = i
      · rw [hp] at hx
        exact hch j x y ((child_iff i j).mp ⟨hj, hp⟩) hx hy
      · exact hinv.1 j x y hj hk hp hx hy
    · have hmi : largestOfThree comp i a ≠ i := by omega
      rw [if_neg hmi]
      generalize largestOfThree comp i a = m at hm hzm hmi
      have hil := lt_length_of_getElem? hxi
      have hml := lt_length_of_getElem? hzm
      have hpm : (m - 1) / 2 = i := by omega
      apply ih m _ (by omega)
      · constructor
        · intro j x' y' hj hk hp hx hy
          rw [heapSwap_getElem? a i m _ hil hml] at hx hy
          by_cases hpi : (j - 1) / 2 = i
          · -- the parent of j is i, which now holds z
            rw [if_neg (by omega), if_pos hpi, hzm] at hx
            cases hx
            by_cases hjm : j = m
            · rw [if_pos hjm, hxi] at hy
              cases hy
              exact sw.asymm _ _ hxz
            · rw [if_neg hjm, if_neg (by omega)] at hy
              exact hch j y' ((child_iff i j).mp ⟨hj, hpi⟩) hy
          · rw [if_neg hp, if_neg hpi] at hx
            have hjm : j ≠ m := by
              intro h; rw [h] at hpi; exact hpi hpm
            rw [if_neg hjm] at hy
            by_cases hji : j = i
            · rw [if_pos hji] at hy
              rw [hzm] at hy; cases hy
              subst hji
              exact hinv.2 hj hk m x' z (by omega) hpm hx hzm
            · rw [if_neg hji] at hy
              exact hinv.1 j x' y' hj hk hpi hx hy
        · intro _ _ c x' y' hc hpc hx hy
          rw [heapSwap_getElem? a i m _ hil hml] at hx hy
          rw [hpm, if_neg (by omega), if_pos rfl, hzm] at hx
          cases hx
          rw [if_neg (by omega), if_neg (by omega)] at hy
          have := hinv.1 c z y' hc (by omega) (by omega) (by rw [hpc]; exact hzm) hy
          exact this
      · rw [heapSwap_length]; omega

theorem siftUp_isHeap {comp : α → α → Bool} (sw : StrictWeak comp) :
    ∀ (fuel i : Nat) (a : List α), UpInv comp i a → i ≤ fuel →
      IsHeap comp (siftUp comp fuel i a) := by
  intro fuel
  induction fuel with
  | zero =>
    intro i a hinv hi
    unfold siftUp
    intro j x y hj _ hx hy
    exact hinv.1 j x y hj (by omega) hx hy
  | succ n ih =>
    intro i a hinv hi
    unfold siftUp
    by_cases hi0 : i = 0
    · rw [if_pos hi0]
      intro j x y hj _ hx hy
      exact hinv.1 j x y hj (by omega) hx hy
    · rw [if_neg hi0]
      obtain hp | ⟨p, hp⟩ := (a[(i - 1) / 2]?).eq_none_or_eq_some
      · rw [hp]
        intro j x y hj _ hx hy
        by_cases hji : j = i
        · subst hji; rw [hp] at hx; cases hx
        · exact hinv.1 j x y hj hji hx hy
      obtain hc | ⟨c, hc⟩ := (a[i]?).eq_none_or_eq_some
      · rw [hp, hc]
        simp only
        intro j x y hj _ hx hy
        by_cases hji : j = i
        · subst hji; rw [hc] at hy; cases hy
        · exact hinv.1 j x y hj hji hx hy
      rw [hp, hc]
      simp only
      cases hpc : comp p c with
      | false =>
        simp only [Bool.false_eq_true, if_false]
        intro j x y hj _ hx hy
        by_cases hji : j = i
        · subst hji; rw [hp] at hx; rw [hc] at hy; cases hx; cases hy; exact hpc
        · exact hinv.1 j x y hj hji hx hy
      | true =>
        simp only [if_true]
        have hpl := lt_length_of_getElem? hp
        have hil := lt_length_of_getElem? hc
        have hi0' : 0 < i := Nat.pos_of_ne_zero hi0
        apply ih _ _ _ (by omega)
        constructor
        · intro j x' y' hj hjp hx hy
          rw [heapSwap_getElem? a _ i _ hpl hil] at hx hy
          by_cases hji : j = i
          · subst hji
            rw [if_pos rfl, hp] at hy
            rw [if_neg (by omega), if_pos rfl, hc] at hx
            cases hx; cases hy
            exact sw.asymm _ _ hpc
          · rw [if_neg hji, if_neg hjp] at hy
            by_cases h1 : (j - 1) / 2 = (i - 1) / 2
            · rw [if_neg (by omega), if_pos h1, hc] at hx
              cases hx
              have h2 := hinv.1 j p y' hj hji (by rw [h1]; exact hp) hy
              cases h3 : comp c y' with
              | false => rfl
              | true =>
                have := sw.trans _ _ _ hpc h3
                rw [h2] at this; cases this
            · by_cases h4 : (j - 1) / 2 = i
              · rw [if_pos h4, hp] at hx
                cases hx
                exact hinv.2 hi0' j p y' hj h4 hp hy
              · rw [if_neg h4, if_neg h1] at hx
                exact hinv.1 j x' y' hj hji hx hy
        · intro hp0 c' x' y' hc0 hcp hx hy
          rw [heapSwap_getElem? a _ i _ hpl hil] at hx hy
          rw [if_neg (by omega), if_neg (by omega)] at hx
          have h5 := hinv.1 ((i - 1) / 2) x' p hp0 (by omega) hx hp
          by_cases hci : c' = i
          · rw [if_pos hci, hp] at hy
            cases hy
            exact h5
          · rw [if_neg hci, if_neg (by omega)] at hy
            have h6 := hinv.1 c' p y' hc0 hci (by rw [hcp]; exact hp) hy
            exact sw.incomp _ _ _ h5 h6

theorem isHeap_top_le {comp : α → α → Bool} (sw : StrictWeak comp) (a : List α)
    (h : IsHeap comp a) (t : α) (ht : a[0]? = some t) :
    ∀ (j : Nat) (y : α), a[j]? = some y → comp t y = false := by
  intro j
  induction j using Nat.strong_induction_on with
  | _ j ih =>
    intro y hy
    by_cases hj : j = 0
    · subst hj; rw [ht] at hy; cases hy; exact sw.irrefl _
    · have hjl := lt_length_of_getElem? hy
      have hpl : (j - 1) / 2 < a.length := by omega
      have hx : a[(j - 1) / 2]? = some (a[(j - 1) / 2]) := List.getElem?_eq_getElem hpl
      have h1 := ih ((j - 1) / 2) (by omega) _ hx
      have h2 := h j _ y (by omega) (Nat.zero_le _) hx hy
      exact sw.incomp _ _ _ h1 h2

theorem isHeap_head_le {comp : α → α → Bool} (sw : StrictWeak comp) (t : α) (rest : List α)
    (h : IsHeap comp (t :: rest)) : ∀ y ∈ t :: rest, comp t y = false := by
  intro y hy
  obtain ⟨j, hj, rfl⟩ := List.getElem_of_mem hy
  exact isHeap_top_le sw _ h t (by simp) j _ (List.getElem?_eq_getElem hj)

end HeapOrder2

section HeapOps
variable {α : Type}

theorem isHeap_nil (comp : α → α → Bool) : IsHeap comp [] := by
  intro j x y _ _ _ hy
  simp at hy

theorem push_heap_isHeap {comp : α → α → Bool} (sw : StrictWeak comp) (q : List α) (x : α)
    (h : IsHeap comp q) : IsHeap comp (push_heap comp (q ++ [x])) := by
  unfold push_heap
  apply siftUp_isHeap sw
  · constructor
    · intro j x' y' hj hji hx hy
      have hjl := lt_length_of_getElem? hy
      simp only [List.length_append, List.length_singleton, Nat.add_sub_cancel] at hjl hji
      have hj' : j < q.length := by omega
      rw [List.getElem?_append_left hj'] at hy
      rw [List.getElem?_append_left (by omega)] at hx
      exact h j x' y' hj (Nat.zero_le _) hx hy
    · intro _ c x' y' hc hcp _ hy
      have hcl := lt_length_of_getElem? hy
      simp only [List.length_append, List.length_singleton, Nat.add_sub_cancel] at hcl hcp
      omega
  · simp

theorem pop_heap_dropLast (comp : α → α → Bool) (t : α) (rest : List α) :
    (pop_heap comp (t :: rest)).dropLast =
      siftDown comp rest.length 0 ((heapSwap (t :: rest) 0 rest.length).take rest.length) := by
  unfold pop_heap
  simp only [List.length_cons, Nat.add_sub_cancel]
  have hlen : ((heapSwap (t :: rest) 0 rest.length).drop rest.length).length = 1 := by
    simp [heapSwap_length]
  obtain ⟨z, hz⟩ := List.length_eq_one.mp hlen
  rw [hz, List.dropLast_concat]

theorem pop_heap_perm [DecidableEq α] (comp : α → α → Bool) (t : α) (rest : List α) :
    ((pop_heap comp (t :: rest)).dropLast).Perm rest := by
  rw [pop_heap_dropLast]
  refine (siftDown_perm _ _ _ _).trans ?_
  have hp := heapSwap_perm (t :: rest) 0 rest.length
  have hsplit := List.take_append_drop rest.length (heapSwap (t :: rest) 0 rest.length)
  have hdrop : (heapSwap (t :: rest) 0 rest.length).drop rest.length = [t] := by
    apply List.ext_getElem?
    intro k
    rw [List.getElem?_drop, heapSwap_getElem? _ _ _ _ (by simp) (by simp)]
    cases k with
    | zero => simp
    | succ k => simp
  rw [hdrop] at hsplit
  rw [← hsplit] at hp
  have h2 : (List.take rest.length (heapSwap (t :: rest) 0 rest.length) ++ [t]).Perm
      (t :: List.take rest.length (heapSwap (t :: rest) 0 rest.length)) :=
    List.perm_append_singleton _ _
  exact (List.Perm.cons_inv (h2.symm.trans hp))

theorem pop_heap_isHeap {comp : α → α → Bool} (sw : StrictWeak comp) (t : α) (rest : List α)
    (h : IsHeap comp (t :: rest)) : IsHeap comp (pop_heap comp (t :: rest)).dropLast := by
  rw [pop_heap_dropLast]
  apply siftDown_heapFrom sw 0 _ _ _ (Nat.le_refl _)
  · constructor
    · intro j x y hj _ hp hx hy
      have hjl := lt_length_of_getElem? hy
      simp only [List.length_take, heapSwap_length, List.length_cons] at hjl
      have hjr : j < rest.length := by omega
      rw [List.getElem?_take_of_lt hjr, heapSwap_getElem? _ _ _ _ (by simp) (by simp)] at hy
      rw [List.getElem?_take_of_lt (by omega),
        heapSwap_getElem? _ _ _ _ (by simp) (by simp)] at hx
      rw [if_neg (by omega), if_neg (by omega)] at hy
      rw [if_neg (by omega), if_neg (by omega)] at hx
      exact h j x y hj (Nat.zero_le _) hx hy
    · intro h0
      exact absurd h0 (Nat.lt_irrefl 0)
  · simp [heapSwap_length]

theorem makeHeapLoop_heapFrom {comp : α → α → Bool} (sw : StrictWeak comp) :
    ∀ (k : Nat) (a : List α), HeapFrom comp k a → HeapFrom comp 0 (makeHeapLoop comp k a) := by
  intro k
  induction k with
  | zero => intro a h; exact h
  | succ n ih =>
    intro a h
    unfold makeHeapLoop
    apply ih
    apply siftDown_heapFrom sw n _ _ _ (Nat.le_refl _)
    · constructor
      · intro j x y hj hk hp hx hy
        exact h j x y hj (by omega) hx hy
      · intro h0 hk
        omega
    · omega

theorem make_heap_isHeap {comp : α → α → Bool} (sw : StrictWeak comp) (a : List α) :
    IsHeap comp (make_heap comp a) := by
  unfold make_heap
  apply makeHeapLoop_heapFrom sw
  intro j x y hj hk _ hy
  have := lt_length_of_getElem? hy
  omega

end HeapOps

theorem comp_eq_true_iff (a b : ScheduledWaitInfo) :
    ScheduledWaitPriorityComp a b = true ↔
      (b.targetTime_ < a.targetTime_ ∨
        (b.targetTime_ = a.targetTime_ ∧ b.engagementId_ < a.engagementId_)) := by
  unfold ScheduledWaitPriorityComp
  split
  · simp; omega
  · split
    · simp; omega
    · simp; omega

theorem comp_eq_false_iff (a b : ScheduledWaitInfo) :
    ScheduledWaitPriorityComp a b = false ↔
      (a.targetTime_ < b.targetTime_ ∨
        (a.targetTime_ = b.targetTime_ ∧ a.engagementId_ ≤ b.engagementId_)) := by
  rw [← Bool.not_eq_true, comp_eq_true_iff]
  omega

theorem comp_strictWeak : StrictWeak ScheduledWaitPriorityComp where
  irrefl := by intro x; rw [comp_eq_false_iff]; omega
  trans := by
    intro x y z h1 h2
    rw [comp_eq_true_iff] at *
    omega
  incomp := by
    intro x y z h1 h2
    rw [comp_eq_false_iff] at *
    omega

theorem land_lor_right (f m k : Nat) : (f ||| m) &&& k = (f &&& k) ||| (m &&& k) := by
  rw [Nat.and_comm, Nat.and_or_distrib_left, Nat.and_comm k f, Nat.and_comm k m]

theorem lor_ne_zero (x m i : Nat) (h : m.testBit i = true) : x ||| m ≠ 0 := by
  intro h0
  have := Nat.testBit_or x m i
  rw [h0, h] at this
  simp at this

theorem mask_consts :
    (4294967295 ^^^ 1 : Nat) &&& 1 = 0 ∧ (4294967295 ^^^ 1 : Nat) &&& 2 = 2 ∧
    (4294967295 ^^^ 2 : Nat) &&& 1 = 1 ∧ (4294967295 ^^^ 2 : Nat) &&& 2 = 0 ∧
    (1 &&& 2 : Nat) = 0 ∧ (2 &&& 1 : Nat) = 0 ∧ (1 &&& 1 : Nat) = 1 ∧ (2 &&& 2 : Nat) = 2 := by
  decide

@[simp] theorem isAllocated_setAllocated (t : TimerInfo) (b : Bool) :
    (t.setAllocated b).isAllocated = b := by
  unfold TimerInfo.setAllocated TimerInfo.updateFlag TimerInfo.isAllocated AllocatedFlagMask
  cases b
  · simp only [Bool.false_eq_true, if_false, Nat.and_assoc, mask_consts.1]
    simp
  · simp only [if_true, land_lor_right, mask_consts.2.2.2.2.2.2.1]
    simpa using lor_ne_zero _ 1 0 (by decide)

@[simp] theorem isWaitInProgress_setAllocated (t : TimerInfo) (b : Bool) :
    (t.setAllocated b).isWaitInProgress = t.isWaitInProgress := by
  unfold TimerInfo.setAllocated TimerInfo.updateFlag TimerInfo.isWaitInProgress
    AllocatedFlagMask WaitInProgressMask
  cases b
  · simp only [Bool.false_eq_true, if_false, Nat.and_assoc, mask_consts.2.1]
  · simp only [if_true, land_lor_right, mask_consts.2.2.2.2.1, Nat.or_zero]

@[simp] theorem isAllocated_setWaitInProgress (t : TimerInfo) (b : Bool) :
    (t.setWaitInProgress b).isAllocated = t.isAllocated := by
  unfold TimerInfo.setWaitInProgress TimerInfo.updateFlag TimerInfo.isAllocated
    AllocatedFlagMask WaitInProgressMask
  cases b
  · simp only [Bool.false_eq_true, if_false, Nat.and_assoc, mask_consts.2.2.1]
  · simp only [if_true, land_lor_right, mask_consts.2.2.2.2.2.1, Nat.or_zero]

@[simp] theorem isWaitInProgress_setWaitInProgress (t : TimerInfo) (b : Bool) :
    (t.setWaitInProgress b).isWaitInProgress = b := by
  unfold TimerInfo.setWaitInProgress TimerInfo.updateFlag TimerInfo.isWaitInProgress
    WaitInProgressMask
  cases b
  · simp only [Bool.false_eq_true, if_false, Nat.and_assoc, mask_consts.2.2.2.1]
    simp
  · simp only [if_true, land_lor_right, mask_consts.2.2.2.2.2.2.2]
    simpa using lor_ne_zero _ 2 1 (by decide)

@[simp] theorem handler_setAllocated (t : TimerInfo) (b : Bool) :
    (t.setAllocated b).handler_ = t.handler_ := by
  unfold TimerInfo.setAllocated TimerInfo.updateFlag; cases b <;> rfl

@[simp] theorem handler_setWaitInProgress (t : TimerInfo) (b : Bool) :
    (t.setWaitInProgress b).handler_ = t.handler_ := by
  unfold TimerInfo.setWaitInProgress TimerInfo.updateFlag; cases b <;> rfl

@[simp] theorem targetTime_setAllocated (t : TimerInfo) (b : Bool) :
    (t.setAllocated b).targetTime_ = t.targetTime_ := by
  unfold TimerInfo.setAllocated TimerInfo.updateFlag; cases b <;> rfl

@[simp] theorem targetTime_setWaitInProgress (t : TimerInfo) (b : Bool) :
    (t.setWaitInProgress b).targetTime_ = t.targetTime_ := by
  unfold TimerInfo.setWaitInProgress TimerInfo.updateFlag; cases b <;> rfl

@[simp] theorem engagementId_setAllocated (t : TimerInfo) (b : Bool) :
    (t.setAllocated b).engagementId_ = t.engagementId_ := by
  unfold TimerInfo.setAllocated TimerInfo.updateFlag; cases b <;> rfl

@[simp] theorem engagementId_setWaitInProgress (t : TimerInfo) (b : Bool) :
    (t.setWaitInProgress b).engagementId_ = t.engagementId_ := by
  unfold TimerInfo.setWaitInProgress TimerInfo.updateFlag; cases b <;> rfl

@[simp] theorem isAllocated_new : TimerInfo.new.isAllocated = false := by decide
@[simp] theorem isWaitInProgress_new : TimerInfo.new.isWaitInProgress = false := by decide

/-! ## Invariants under a change of one slot -/

theorem findIdx_not_le_countP {α : Type} (p : α → Bool) (l : List α) :
    l.findIdx (fun x => !p x) ≤ l.countP p := by
  induction l with
  | nil => simp
  | cons x xs ih =>
    rw [List.findIdx_cons, List.countP_cons]
    cases hp : p x
    · simp
    · simpa using ih

theorem slotsOk_set {M : Nat} {s s' : TimerMgr} (h : SlotsOk M s) (idx : Nat)
    (info info' : TimerInfo) (hget : s.timers_[idx]? = some info)
    (ht : s'.timers_ = s.timers_.set idx info') (hc : s'.timersCount_ = s.timersCount_)
    (ha : info'.isAllocated = true → info.isAllocated = true)
    (hh : info'.handler_.isSome = info'.isWaitInProgress)
    (hw : info'.isWaitInProgress = true → info'.isAllocated = true) : SlotsOk M s' := by
  obtain ⟨hlt, hinfo⟩ := List.getElem?_eq_some_iff.mp hget
  refine ⟨?_, ?_, ?_, ?_, ?_, ?_⟩
  · rw [ht, List.length_set]; exact h.timers_length
  · rw [hc]; exact h.timersCount_le
  · rw [ht, hc, List.countP_set _ _ _ _ hlt, hinfo]
    have := h.allocated_count
    have h2 : (if info.isAllocated = true then 1 else 0) ≤
        s.timers_.countP TimerInfo.isAllocated := by
      rw [← hinfo]; exact List.boole_getElem_le_countP _ _ _ hlt
    by_cases h3 : info'.isAllocated = true
    · rw [if_pos h3, if_pos (ha h3)] at *
      omega
    · rw [if_neg h3]
      omega
  · intro i x hx hax
    rw [hc]
    rw [ht, List.getElem?_set] at hx
    by_cases hi : idx = i
    · subst hi
      rw [if_pos rfl, if_pos hlt] at hx
      cases hx
      exact h.allocated_lt idx info hget (ha hax)
    · rw [if_neg hi] at hx
      exact h.allocated_lt i x hx hax
  · intro x hx
    rw [ht] at hx
    rcases List.mem_or_eq_of_mem_set hx with hx | rfl
    · exact h.handler_iff x hx
    · exact hh
  · intro x hx
    rw [ht] at hx
    rcases List.mem_or_eq_of_mem_set hx with hx | rfl
    · exact h.wait_allocated x hx
    · exact hw

theorem waitsQueued_set {s s' : TimerMgr} (h : WaitsQueued s) (idx : Nat) (info' : TimerInfo)
    (ht : s'.timers_ = s.timers_.set idx info') (hq : s'.waitQueue_ = s.waitQueue_)
    (hw : info'.isWaitInProgress = false) : WaitsQueued s' := by
  intro i x hx hxw
  rw [hq]
  rw [ht, List.getElem?_set] at hx
  by_cases hi : idx = i
  · rw [if_pos hi] at hx
    split at hx
    · cases hx; rw [hw] at hxw; cases hxw
    · cases hx
  · rw [if_neg hi] at hx
    exact h i x hx hxw

theorem queueOk_of_eq {M : Nat} {s s' : TimerMgr} (h : QueueOk M s)
    (hq : s'.waitQueue_ = s.waitQueue_) : QueueOk M s' := by
  refine ⟨?_, ?_, ?_, ?_⟩
  · rw [hq]; exact h.queue_le
  · rw [hq]; exact h.queue_heap
  · rw [hq]; exact h.queue_slot
  · rw [hq]; exact h.queue_target

/-! ## postHandler -/

theorem postHandler_ok (status : ErrorStatus) (ctx : Bool) {idx : Nat} {s : TimerMgr}
    {info : TimerInfo} {f : Nat} (hget : s.timers_[idx]? = some info)
    (hf : info.handler_ = some f) (ha : info.isAllocated = true)
    (hw : info.isWaitInProgress = true) :
    postHandler status idx ctx s = .ok { s with
      trace_ := s.trace_ ++ [.post
        { slot := idx, handler := f, status := status, interruptCtx := ctx }]
      timers_ := s.timers_.set idx
        (({ info with handler_ := none } : TimerInfo).setWaitInProgress false) } := by
  unfold postHandler
  rw [hget]
  simp only [hf, ha, hw]
  simp

theorem postHandler_inv {status : ErrorStatus} {idx : Nat} {ctx : Bool} {s s' : TimerMgr}
    (h : postHandler status idx ctx s = .ok s') :
    ∃ info f, s.timers_[idx]? = some info ∧ info.handler_ = some f ∧
      info.isAllocated = true ∧ info.isWaitInProgress = true ∧
      s' = { s with
        trace_ := s.trace_ ++ [.post
          { slot := idx, handler := f, status := status, interruptCtx := ctx }]
        timers_ := s.timers_.set idx
          (({ info with handler_ := none } : TimerInfo).setWaitInProgress false) } := by
  unfold postHandler at h
  split at h
  · cases h
  · rename_i info hget
    split at h
    · cases h
    · rename_i f hf
      split at h
      · cases h
      · split at h
        · cases h
        · rename_i ha hw
          simp only [Bool.not_eq_true, Bool.not_eq_eq_eq_not, Bool.not_true, Bool.not_false,
            Bool.not_eq_false] at ha hw
          refine ⟨info, f, hget, hf, by simpa using ha, by simpa using hw, ?_⟩
          injection h with h
          exact h.symm

theorem postHandler_slotsOk {M : Nat} {status : ErrorStatus} {idx : Nat} {ctx : Bool}
    {s s' : TimerMgr} (hs : SlotsOk M s) (h : postHandler status idx ctx s = .ok s') :
    SlotsOk M s' := by
  obtain ⟨info, f, hget, hf, ha, hw, rfl⟩ := postHandler_inv h
  exact slotsOk_set hs idx info _ hget rfl rfl (by rw [isAllocated_setWaitInProgress]; exact fun _ => ha) (by simp)
    (by simp)

theorem postHandler_waitsQueued {status : ErrorStatus} {idx : Nat} {ctx : Bool}
    {s s' : TimerMgr} (hs : WaitsQueued s) (h : postHandler status idx ctx s = .ok s') :
    WaitsQueued s' := by
  obtain ⟨info, f, hget, hf, ha, hw, rfl⟩ := postHandler_inv h
  exact waitsQueued_set hs idx _ rfl rfl (by simp)

/-! ## The invariant under allocTimer, deleteTimer and cancelWait -/

theorem inv_congr {M : Nat} {s s' : TimerMgr} (h : Inv M s)
    (h1 : s'.timeBase_ = s.timeBase_) (h2 : s'.waitQueue_ = s.waitQueue_)
    (h3 : s'.timers_ = s.timers_) (h4 : s'.timersCount_ = s.timersCount_)
    (h5 : s'.deviceActive_ = s.deviceActive_) : Inv M s' := by
  refine ⟨⟨?_, ?_, ?_, ?_, ?_, ?_⟩, queueOk_of_eq h.queue h2, ?_, ?_, ?_, ?_⟩
  · rw [h3]; exact h.slots.timers_length
  · rw [h4]; exact h.slots.timersCount_le
  · rw [h3, h4]; exact h.slots.allocated_count
  · rw [h3, h4]; exact h.slots.allocated_lt
  · rw [h3]; exact h.slots.handler_iff
  · rw [h3]; exact h.slots.wait_allocated
  · intro i x hx hw; rw [h2]; rw [h3] at hx; exact h.waits i x hx hw
  · rw [h5, h2]; exact h.device_iff
  · rw [h1, h2]; exact h.queue_future
  · rw [h1]; exact h.timeBase_lt

theorem inv_new (M : Nat) : Inv M (TimerMgr.new M) := by
  refine ⟨⟨?_, ?_, ?_, ?_, ?_, ?_⟩, ⟨?_, ?_, ?_, ?_⟩, ?_, ?_, ?_, ?_⟩
  · simp [TimerMgr.new]
  · simp [TimerMgr.new]
  · simp only [TimerMgr.new]
    rw [List.countP_eq_zero.mpr]
    intro x hx
    rw [List.eq_of_mem_replicate hx]
    simp
  · intro i x hx hax
    simp only [TimerMgr.new] at hx
    have := List.eq_of_mem_replicate (List.getElem?_mem hx)
    subst this
    simp at hax
  · intro x hx
    rw [List.eq_of_mem_replicate hx]
    rfl
  · intro x hx
    rw [List.eq_of_mem_replicate hx]
    simp
  · simp [TimerMgr.new]
  · exact isHeap_nil _
  · intro e he; simp [TimerMgr.new] at he
  · intro e he; simp [TimerMgr.new] at he
  · intro i x hx hw
    have := List.eq_of_mem_replicate (List.getElem?_mem hx)
    subst this
    simp at hw
  · simp [TimerMgr.new]
  · intro e he; simp [TimerMgr.new] at he
  · simp [TimerMgr.new, UnsignedModulus]

theorem allocTimer_inv {s s' : TimerMgr} {t : Timer} (h : allocTimer s = .ok (t, s')) :
    (¬ s.timersCount_ < s.timers_.length ∧ t = { idx_ := Timer.InvalidIdx } ∧ s' = s) ∨
    (s.timersCount_ < s.timers_.length ∧
      ∃ info, s.timers_[s.timers_.findIdx (fun info => !info.isAllocated)]? = some info ∧
        info.isAllocated = false ∧
        t = { idx_ := s.timers_.findIdx (fun info => !info.isAllocated) % UnsignedModulus } ∧
        s' = { s with
          timers_ := s.timers_.set (s.timers_.findIdx (fun info => !info.isAllocated))
            ((info.setAllocated true).setWaitInProgress false)
          timersCount_ := s.timersCount_ + 1 }) := by
  unfold allocTimer at h
  split at h
  · rename_i hlt
    right
    refine ⟨hlt, ?_⟩
    simp only at h
    split at h
    · cases h
    · rename_i info hget
      injection h with h
      injection h with h1 h2
      refine ⟨info, hget, ?_, h1.symm, h2.symm⟩
      obtain ⟨hl, hi⟩ := List.getElem?_eq_some_iff.mp hget
      have := @List.findIdx_getElem _ (fun info => !info.isAllocated) s.timers_ hl
      rw [hi] at this
      simpa using this
  · rename_i hlt
    left
    injection h with h
    injection h with h1 h2
    exact ⟨hlt, h1.symm, h2.symm⟩

theorem allocTimer_preserves {M : Nat} {s s' : TimerMgr} {t : Timer} (hs : Inv M s)
    (h : allocTimer s = .ok (t, s')) : Inv M s' := by
  rcases allocTimer_inv h with ⟨_, _, rfl⟩ | ⟨hlt, info, hget, ha, _, rfl⟩
  · exact hs
  · obtain ⟨hl, hi⟩ := List.getElem?_eq_some_iff.mp hget
    have hw : info.isWaitInProgress = false := by
      cases hw : info.isWaitInProgress with
      | false => rfl
      | true =>
        have := hs.slots.wait_allocated info (List.getElem?_mem hget) hw
        rw [ha] at this; cases this
    have hh : info.handler_.isSome = false := by
      rw [hs.slots.handler_iff info (List.getElem?_mem hget), hw]
    refine ⟨⟨?_, ?_, ?_, ?_, ?_, ?_⟩, queueOk_of_eq hs.queue rfl, ?_, hs.device_iff,
      hs.queue_future, hs.timeBase_lt⟩
    · simp only [List.length_set]; exact hs.slots.timers_length
    · have := hs.slots.timers_length
      simp only
      omega
    · simp only
      rw [List.countP_set _ _ _ _ hl, hi, ha]
      have := hs.slots.allocated_count
      simp
      omega
    · intro i x hx hax
      simp only at hx ⊢
      rw [List.getElem?_set] at hx
      by_cases hii : s.timers_.findIdx (fun info => !info.isAllocated) = i
      · have h1 := findIdx_not_le_countP TimerInfo.isAllocated s.timers_
        have h2 := hs.slots.allocated_count
        omega
      · rw [if_neg hii] at hx
        have := hs.slots.allocated_lt i x hx hax
        omega
    · intro x hx
      rcases List.mem_or_eq_of_mem_set hx with hx | rfl
      · exact hs.slots.handler_iff x hx
      · simp [hh]
    · intro x hx
      rcases List.mem_or_eq_of_mem_set hx with hx | rfl
      · exact hs.slots.wait_allocated x hx
      · simp
    · exact waitsQueued_set hs.waits _ _ rfl rfl (by simp)

theorem deleteTimer_inv {idx : Nat} {s s' : TimerMgr} (h : deleteTimer idx s = .ok s') :
    idx < s.timersCount_ ∧ ∃ info, s.timers_[idx]? = some info ∧ info.isAllocated = true ∧
      info.handler_ = none ∧ info.isWaitInProgress = false ∧
      s' = { s with timers_ := s.timers_.set idx (info.setAllocated false) } := by
  unfold deleteTimer at h
  split at h
  · cases h
  · rename_i hidx
    split at h
    · cases h
    · rename_i info hget
      split at h
      · cases h
      · split at h
        · cases h
        · split at h
          · cases h
          · rename_i h1 h2 h3
            injection h with h
            refine ⟨by omega, info, hget, by simpa using h1, ?_, by simpa using h3, h.symm⟩
            cases hh : info.handler_ with
            | none => rfl
            | some f => rw [hh] at h2; simp at h2

theorem deleteTimer_preserves {M : Nat} {idx : Nat} {s s' : TimerMgr} (hs : Inv M s)
    (h : deleteTimer idx s = .ok s') : Inv M s' := by
  obtain ⟨_, info, hget, ha, hh, hw, rfl⟩ := deleteTimer_inv h
  refine ⟨?_, queueOk_of_eq hs.queue rfl, ?_, hs.device_iff, hs.queue_future, hs.timeBase_lt⟩
  · exact slotsOk_set hs.slots idx info _ hget rfl rfl (by simp) (by simp [hh, hw])
      (by simp [hw])
  · exact waitsQueued_set hs.waits _ _ rfl rfl (by simp [hw])

theorem cancelWait_true {idx : Nat} {s : TimerMgr} {info : TimerInfo} {f : Nat}
    (hidx : idx < s.timersCount_) (hget : s.timers_[idx]? = some info)
    (hdev : s.deviceActive_ = true) (ha : info.isAllocated = true)
    (hw : info.isWaitInProgress = true) (hf : info.handler_ = some f) :
    cancelWait idx s = .ok (true, { s with
      trace_ := s.trace_ ++ [.suspendWait] ++
        [.post { slot := idx, handler := f, status := .Aborted, interruptCtx := false }] ++
        [.resumeWait]
      timers_ := s.timers_.set idx
        (({ info with handler_ := none } : TimerInfo).setWaitInProgress false) }) := by
  have hp := postHandler_ok .Aborted false
    (s := { s with trace_ := s.trace_ ++ [.suspendWait] }) hget hf ha hw
  unfold cancelWait
  rw [if_neg (by omega), hget]
  simp only
  rw [if_neg (by simp [hdev]), if_neg (by simp [ha]), if_neg (by simp [hw]), hp]

theorem cancelWait_false_active {idx : Nat} {s : TimerMgr} {info : TimerInfo}
    (hidx : idx < s.timersCount_) (hget : s.timers_[idx]? = some info)
    (hdev : s.deviceActive_ = true) (ha : info.isAllocated = true)
    (hw : info.isWaitInProgress = false) :
    cancelWait idx s = .ok (false, { s with
      trace_ := s.trace_ ++ [.suspendWait] ++ [.resumeWait] }) := by
  unfold cancelWait
  rw [if_neg (by omega), hget]
  simp only
  rw [if_neg (by simp [hdev]), if_neg (by simp [ha]), if_pos (by simp [hw])]

theorem cancelWait_false_idle {idx : Nat} {s : TimerMgr} {info : TimerInfo}
    (hidx : idx < s.timersCount_) (hget : s.timers_[idx]? = some info)
    (hdev : s.deviceActive_ = false) (hq : s.waitQueue_ = [])
    (hw : info.isWaitInProgress = false) :
    cancelWait idx s = .ok (false, { s with trace_ := s.trace_ ++ [.suspendWait] }) := by
  unfold cancelWait
  rw [if_neg (by omega), hget]
  simp only
  rw [if_pos (by simp [hdev]), if_neg (by simp [hw]),
    if_neg (by simp [TimerMgr.waitQueueCount_, hq])]

theorem cancelWait_inv {idx : Nat} {s s' : TimerMgr} {r : Bool}
    (h : cancelWait idx s = .ok (r, s')) :
    idx < s.timersCount_ ∧ ∃ info, s.timers_[idx]? = some info ∧
      ((s.deviceActive_ = false ∧ info.isWaitInProgress = false ∧ s.waitQueue_ = [] ∧
          r = false ∧ s' = { s with trace_ := s.trace_ ++ [.suspendWait] }) ∨
       (s.deviceActive_ = true ∧ info.isAllocated = true ∧ info.isWaitInProgress = false ∧
          r = false ∧ s' = { s with trace_ := s.trace_ ++ [.suspendWait] ++ [.resumeWait] }) ∨
       (s.deviceActive_ = true ∧ info.isAllocated = true ∧ info.isWaitInProgress = true ∧
          r = true ∧ ∃ f, info.handler_ = some f ∧ s' = { s with
            trace_ := s.trace_ ++ [.suspendWait] ++
              [.post { slot := idx, handler := f, status := .Aborted, interruptCtx := false }] ++
              [.resumeWait]
            timers_ := s.timers_.set idx
              (({ info with handler_ := none } : TimerInfo).setWaitInProgress false) })) := by
  by_cases hidx : idx < s.timersCount_
  swap
  · unfold cancelWait at h
    rw [if_pos hidx] at h
    cases h
  refine ⟨hidx, ?_⟩
  obtain hget | ⟨info, hget⟩ := (s.timers_[idx]?).eq_none_or_eq_some
  · unfold cancelWait at h
    rw [if_neg (by omega), hget] at h
    cases h
  refine ⟨info, hget, ?_⟩
  rcases Bool.eq_false_or_eq_true s.deviceActive_ with hdev | hdev
  swap
  · left
    rcases Bool.eq_false_or_eq_true info.isWaitInProgress with hw | hw
    · unfold cancelWait at h
      rw [if_neg (by omega), hget] at h
      simp only at h
      rw [if_pos (by simp [hdev]), if_pos (by simp [hw])] at h
      cases h
    · by_cases hq : s.waitQueue_ = []
      · rw [cancelWait_false_idle hidx hget hdev hq hw] at h
        injection h with h
        injection h with h1 h2
        exact ⟨hdev, hw, hq, h1.symm, h2.symm⟩
      · unfold cancelWait at h
        rw [if_neg (by omega), hget] at h
        simp only at h
        rw [if_pos (by simp [hdev]), if_neg (by simp [hw]),
          if_pos (by simpa [TimerMgr.waitQueueCount_] using hq)] at h
        cases h
  · right
    rcases Bool.eq_false_or_eq_true info.isAllocated with ha | ha
    swap
    · unfold cancelWait at h
      rw [if_neg (by omega), hget] at h
      simp only at h
      rw [if_neg (by simp [hdev]), if_pos (by simp [ha])] at h
      cases h
    · rcases Bool.eq_false_or_eq_true info.isWaitInProgress with hw | hw
      swap
      · left
        rw [cancelWait_false_active hidx hget hdev ha hw] at h
        injection h with h
        injection h with h1 h2
        exact ⟨hdev, ha, hw, h1.symm, h2.symm⟩
      · right
        obtain hf | ⟨f, hf⟩ := (info.handler_).eq_none_or_eq_some
        · unfold cancelWait at h
          rw [if_neg (by omega), hget] at h
          simp only at h
          rw [if_neg (by simp [hdev]), if_neg (by simp [ha]), if_neg (by simp [hw])] at h
          simp only [postHandler, hget, hf] at h
          cases h
        · rw [cancelWait_true hidx hget hdev ha hw hf] at h
          injection h with h
          injection h with h1 h2
          exact ⟨hdev, ha, hw, h1.symm, f, hf, h2.symm⟩

theorem cancelWait_preserves {M : Nat} {idx : Nat} {s s' : TimerMgr} {r : Bool}
    (hs : Inv M s) (h : cancelWait idx s = .ok (r, s')) : Inv M s' := by
  obtain ⟨_, info, hget, hc⟩ := cancelWait_inv h
  rcases hc with ⟨_, _, _, _, rfl⟩ | ⟨_, _, _, _, rfl⟩ | ⟨_, ha, hw, _, f, hf, rfl⟩
  · exact inv_congr hs rfl rfl rfl rfl rfl
  · exact inv_congr hs rfl rfl rfl rfl rfl
  · refine ⟨?_, queueOk_of_eq hs.queue rfl, ?_, hs.device_iff, hs.queue_future,
      hs.timeBase_lt⟩
    · exact slotsOk_set hs.slots idx info _ hget rfl rfl
        (by rw [isAllocated_setWaitInProgress]; exact fun _ => ha) (by simp) (by simp)
    · exact waitsQueued_set hs.waits _ _ rfl rfl (by simp)

/-! ## Queue operations -/

theorem addToScheduledWaits_ok {idx : Nat} {s : TimerMgr} {info : TimerInfo}
    (hcap : s.waitQueue_.length < ScheduleQueueScale * s.timers_.length)
    (hget : s.timers_[idx]? = some info) :
    addToScheduledWaits idx s = .ok { s with
      waitQueue_ := s.waitQueue_ ++
        [{ timerInfo_ := idx, engagementId_ := info.engagementId_,
           targetTime_ := info.targetTime_ }] } := by
  unfold addToScheduledWaits
  rw [if_neg (by simpa [TimerMgr.waitQueueCount_] using hcap), hget]

theorem addToScheduledWaits_full {idx : Nat} {s : TimerMgr}
    (hcap : ¬ s.waitQueue_.length < ScheduleQueueScale * s.timers_.length) :
    addToScheduledWaits idx s = .error .addToScheduledWaits_queueCount := by
  unfold addToScheduledWaits
  rw [if_pos (by simpa [TimerMgr.waitQueueCount_] using hcap)]

theorem pushToWaitQueue_ok {idx : Nat} {s : TimerMgr} {info : TimerInfo}
    (hcap : s.waitQueue_.length < ScheduleQueueScale * s.timers_.length)
    (hget : s.timers_[idx]? = some info) :
    pushToWaitQueue idx s = .ok { s with
      waitQueue_ := push_heap ScheduledWaitPriorityComp (s.waitQueue_ ++
        [{ timerInfo_ := idx, engagementId_ := info.engagementId_,
           targetTime_ := info.targetTime_ }]) } := by
  unfold pushToWaitQueue
  rw [addToScheduledWaits_ok hcap hget]

theorem liveEntries_length_le (ts : List TimerInfo) (idx : Nat) :
    (liveEntries ts idx).length ≤ ts.length := by
  induction ts generalizing idx with
  | nil => simp [liveEntries]
  | cons info rest ih =>
    unfold liveEntries
    split
    · simp only [List.length_cons]; have := ih (idx + 1); omega
    · simp only [List.length_cons]; have := ih (idx + 1); omega

theorem mem_liveEntries (ts : List TimerInfo) (idx : Nat) (e : ScheduledWaitInfo) :
    e ∈ liveEntries ts idx ↔
      ∃ k info, ts[k]? = some info ∧ info.isAllocated = true ∧
        info.isWaitInProgress = true ∧
        e = { timerInfo_ := idx + k, engagementId_ := info.engagementId_,
              targetTime_ := info.targetTime_ } := by
  induction ts generalizing idx with
  | nil => simp [liveEntries]
  | cons info rest ih =>
    unfold liveEntries
    constructor
    · intro h
      split at h
      · rename_i hc
        rcases List.mem_cons.mp h with rfl | h
        · simp only [Bool.and_eq_true] at hc
          exact ⟨0, info, by simp, hc.1, hc.2, rfl⟩
        · obtain ⟨k, x, hk, h1, h2, h3⟩ := (ih (idx + 1)).mp h
          exact ⟨k + 1, x, by simpa using hk, h1, h2, by rw [h3]; congr 1; omega⟩
      · obtain ⟨k, x, hk, h1, h2, h3⟩ := (ih (idx + 1)).mp h
        exact ⟨k + 1, x, by simpa using hk, h1, h2, by rw [h3]; congr 1; omega⟩
    · rintro ⟨k, x, hk, h1, h2, h3⟩
      cases k with
      | zero =>
        simp only [List.getElem?_cons_zero, Option.some.injEq] at hk
        subst hk
        rw [if_pos (by simp [h1, h2])]
        subst h3
        exact List.mem_cons_self _ _
      | succ k =>
        have hk' : rest[k]? = some x := by simpa using hk
        have : e ∈ liveEntries rest (idx + 1) :=
          (ih (idx + 1)).mpr ⟨k, x, hk', h1, h2, by rw [h3]; congr 1; omega⟩
        split
        · exact List.mem_cons_of_mem _ this
        · exact this

theorem recreateWaitQueueLoop_ok (ts : List TimerInfo) (idx : Nat) (s : TimerMgr)
    (hts : s.timers_.drop idx = ts)
    (hcap : s.waitQueue_.length + ts.length ≤ ScheduleQueueScale * s.timers_.length) :
    recreateWaitQueueLoop ts idx s =
      .ok { s with waitQueue_ := s.waitQueue_ ++ liveEntries ts idx } := by
  induction ts generalizing idx s with
  | nil => simp [recreateWaitQueueLoop, liveEntries]
  | cons info rest ih =>
    have hget : s.timers_[idx]? = some info := by
      have := congrArg (fun l => l[0]?) hts
      simpa [List.getElem?_drop] using this
    have hrest : s.timers_.drop (idx + 1) = rest := by
      rw [← List.tail_drop, hts]; rfl
    simp only [List.length_cons] at hcap
    unfold recreateWaitQueueLoop liveEntries
    split
    · rw [addToScheduledWaits_ok (by omega) hget]
      simp only
      have := ih (idx + 1) { s with
        waitQueue_ := s.waitQueue_ ++
          [{ timerInfo_ := idx, engagementId_ := info.engagementId_,
             targetTime_ := info.targetTime_ }] } hrest
        (by simp only [List.length_append, List.length_singleton]; omega)
      rw [this]
      simp
    · rw [ih (idx + 1) s hrest (by omega)]

theorem recreateWaitQueue_ok (s : TimerMgr) :
    recreateWaitQueue s = .ok { s with
      waitQueue_ := make_heap ScheduledWaitPriorityComp (liveEntries s.timers_ 0) } := by
  unfold recreateWaitQueue
  rw [recreateWaitQueueLoop_ok s.timers_ 0 _ (by simp)
    (by simp only [List.length_nil, ScheduleQueueScale]; omega)]
  simp

/-! ## One iteration of postExpiredHandlers -/

theorem loop_zero (ctx : Bool) (s : TimerMgr) : postExpiredHandlersLoop ctx 0 s = .ok s := rfl

theorem loop_empty (ctx : Bool) (fuel : Nat) (s : TimerMgr) (hq : s.waitQueue_ = []) :
    postExpiredHandlersLoop ctx fuel s = .ok s := by
  cases fuel with
  | zero => rfl
  | succ n => unfold postExpiredHandlersLoop; rw [hq]

theorem loop_future (ctx : Bool) (fuel : Nat) (s : TimerMgr) (top : ScheduledWaitInfo)
    (rest : List ScheduledWaitInfo) (hq : s.waitQueue_ = top :: rest)
    (ht : s.timeBase_ < top.targetTime_) :
    postExpiredHandlersLoop ctx fuel s = .ok s := by
  cases fuel with
  | zero => rfl
  | succ n => unfold postExpiredHandlersLoop; rw [hq]; simp only; rw [if_pos ht]

theorem loop_fire (ctx : Bool) (fuel : Nat) (s : TimerMgr) (top : ScheduledWaitInfo)
    (rest : List ScheduledWaitInfo) (info : TimerInfo) (f : Nat)
    (hq : s.waitQueue_ = top :: rest) (ht : ¬ s.timeBase_ < top.targetTime_)
    (hget : s.timers_[top.timerInfo_]? = some info) (ha : info.isAllocated = true)
    (hw : info.isWaitInProgress = true) (hid : info.engagementId_ = top.engagementId_)
    (hf : info.handler_ = some f) :
    postExpiredHandlersLoop ctx (fuel + 1) s =
      postExpiredHandlersLoop ctx fuel { s with
        trace_ := s.trace_ ++ [.post
          { slot := top.timerInfo_, handler := f, status := .Success, interruptCtx := ctx }]
        timers_ := s.timers_.set top.timerInfo_ info.dispatched
        waitQueue_ := (pop_heap ScheduledWaitPriorityComp s.waitQueue_).dropLast } := by
  have hp := postHandler_ok .Success ctx hget hf ha hw
  conv => lhs; unfold postExpiredHandlersLoop
  rw [hq]
  simp only
  rw [if_neg ht, hget]
  simp only
  rw [if_pos (by simp [ha, hw, hid]), if_neg (by simp [hf]), hp]
  simp only [hq, TimerInfo.dispatched]

theorem loop_skip (ctx : Bool) (fuel : Nat) (s : TimerMgr) (top : ScheduledWaitInfo)
    (rest : List ScheduledWaitInfo) (info : TimerInfo)
    (hq : s.waitQueue_ = top :: rest) (ht : ¬ s.timeBase_ < top.targetTime_)
    (hget : s.timers_[top.timerInfo_]? = some info)
    (hdead : ¬ (info.isAllocated = true ∧ info.isWaitInProgress = true ∧
      info.engagementId_ = top.engagementId_)) :
    postExpiredHandlersLoop ctx (fuel + 1) s =
      postExpiredHandlersLoop ctx fuel { s with
        waitQueue_ := (pop_heap ScheduledWaitPriorityComp s.waitQueue_).dropLast } := by
  conv => lhs; unfold postExpiredHandlersLoop
  rw [hq]
  simp only
  rw [if_neg ht, hget]
  simp only
  rw [if_neg (by simpa [and_assoc] using hdead)]
  simp only [hq]

/-! ## The invariant under one iteration -/

theorem queueOk_pop {M : Nat} {s s' : TimerMgr} (h : QueueOk M s) (top : ScheduledWaitInfo)
    (rest : List ScheduledWaitInfo) (hq : s.waitQueue_ = top :: rest)
    (hq' : s'.waitQueue_ = (pop_heap ScheduledWaitPriorityComp s.waitQueue_).dropLast) :
    QueueOk M s' := by
  have hperm : s'.waitQueue_.Perm rest := by
    rw [hq', hq]; exact pop_heap_perm _ _ _
  have hsub : ∀ e ∈ s'.waitQueue_, e ∈ s.waitQueue_ := by
    intro e he
    rw [hq]
    exact List.mem_cons_of_mem _ (hperm.subset he)
  refine ⟨?_, ?_, ?_, ?_⟩
  · have := h.queue_le
    rw [hperm.length_eq]
    rw [hq] at this
    simp only [List.length_cons] at this
    omega
  · rw [hq', hq]
    apply pop_heap_isHeap comp_strictWeak
    rw [← hq]; exact h.queue_heap
  · intro e he; exact h.queue_slot e (hsub e he)
  · intro e he; exact h.queue_target e (hsub e he)

theorem waitsQueued_pop {s s' : TimerMgr} (h : WaitsQueued s) (top : ScheduledWaitInfo)
    (rest : List ScheduledWaitInfo) (hq : s.waitQueue_ = top :: rest)
    (hq' : s'.waitQueue_ = (pop_heap ScheduledWaitPriorityComp s.waitQueue_).dropLast)
    (ht : s'.timers_ = s.timers_)
    (hdead : ∀ info, s.timers_[top.timerInfo_]? = some info →
      info.isWaitInProgress = true → info.engagementId_ ≠ top.engagementId_) :
    WaitsQueued s' := by
  have hperm : s'.waitQueue_.Perm rest := by
    rw [hq', hq]; exact pop_heap_perm _ _ _
  intro i x hx hxw
  rw [ht] at hx
  obtain ⟨e, he, h1, h2, h3⟩ := h i x hx hxw
  rw [hq] at he
  rcases List.mem_cons.mp he with rfl | he
  · subst h1
    exact absurd h2.symm (hdead x hx hxw)
  · exact ⟨e, hperm.symm.subset he, h1, h2, h3⟩

theorem coreInv_fire {M : Nat} {s : TimerMgr} (h : CoreInv M s) (top : ScheduledWaitInfo)
    (rest : List ScheduledWaitInfo) (info : TimerInfo) (ev : List Event)
    (hq : s.waitQueue_ = top :: rest)
    (hget : s.timers_[top.timerInfo_]? = some info) (ha : info.isAllocated = true) :
    CoreInv M { s with
      trace_ := ev
      timers_ := s.timers_.set top.timerInfo_ info.dispatched
      waitQueue_ := (pop_heap ScheduledWaitPriorityComp s.waitQueue_).dropLast } := by
  have hlt := lt_length_of_getElem? hget
  have h1 : WaitsQueued { s with timers_ := s.timers_.set top.timerInfo_ info.dispatched } :=
    waitsQueued_set h.waits _ _ rfl rfl (by simp [TimerInfo.dispatched])
  refine ⟨?_, ?_, ?_⟩
  · exact slotsOk_set h.slots _ info _ hget rfl rfl
      (by intro _; exact ha) (by simp [TimerInfo.dispatched]) (by simp [TimerInfo.dispatched])
  · have : QueueOk M { s with
        trace_ := ev
        timers_ := s.timers_.set top.timerInfo_ info.dispatched
        waitQueue_ := (pop_heap ScheduledWaitPriorityComp s.waitQueue_).dropLast } :=
      queueOk_pop h.queue top rest hq rfl
    refine ⟨this.queue_le, this.queue_heap, ?_, this.queue_target⟩
    exact this.queue_slot
  · refine waitsQueued_pop h1 top rest hq rfl rfl ?_
    intro x hx hxw
    simp only [List.getElem?_set, if_pos hlt, if_true] at hx
    cases hx
    simp [TimerInfo.dispatched] at hxw

theorem coreInv_skip {M : Nat} {s : TimerMgr} (h : CoreInv M s) (top : ScheduledWaitInfo)
    (rest : List ScheduledWaitInfo) (info : TimerInfo)
    (hq : s.waitQueue_ = top :: rest)
    (hget : s.timers_[top.timerInfo_]? = some info)
    (hdead : ¬ (info.isAllocated = true ∧ info.isWaitInProgress = true ∧
      info.engagementId_ = top.engagementId_)) :
    CoreInv M { s with
      waitQueue_ := (pop_heap ScheduledWaitPriorityComp s.waitQueue_).dropLast } := by
  refine ⟨?_, queueOk_pop h.queue top rest hq rfl, ?_⟩
  · exact ⟨h.slots.timers_length, h.slots.timersCount_le, h.slots.allocated_count,
      h.slots.allocated_lt, h.slots.handler_iff, h.slots.wait_allocated⟩
  · refine waitsQueued_pop h.waits top rest hq rfl rfl ?_
    intro x hx hxw hid
    rw [hget] at hx
    cases hx
    exact hdead ⟨h.slots.wait_allocated _ (List.getElem?_mem hget) hxw, hxw, hid⟩

/-! ## The loop of postExpiredHandlers -/

theorem loop_drains {M : Nat} (ctx : Bool) :
    ∀ (fuel : Nat) (s : TimerMgr), CoreInv M s → s.waitQueue_.length ≤ fuel →
      ∃ s', postExpiredHandlersLoop ctx fuel s = .ok s' ∧ Drains ctx s s' := by
  intro fuel
  induction fuel with
  | zero =>
    intro s _ hlen
    have hq : s.waitQueue_ = [] := List.length_eq_zero.mp (by omega)
    exact ⟨s, rfl, Drains.empty hq⟩
  | succ n ih =>
    intro s hs hlen
    by_cases hq : s.waitQueue_ = []
    · exact ⟨s, loop_empty _ _ _ hq, Drains.empty hq⟩
    · obtain ⟨top, rest, hq⟩ := List.exists_cons_of_ne_nil hq
      by_cases ht : s.timeBase_ < top.targetTime_
      · exact ⟨s, loop_future _ _ _ top rest hq ht, Drains.future hq ht⟩
      · have hslot : top.timerInfo_ < s.timers_.length := by
          rw [hs.slots.timers_length]
          exact hs.queue.queue_slot top (by rw [hq]; exact List.mem_cons_self _ _)
        have hget : s.timers_[top.timerInfo_]? = some (s.timers_[top.timerInfo_]) :=
          List.getElem?_eq_getElem hslot
        generalize s.timers_[top.timerInfo_] = info at hget
        have hlen' : (pop_heap ScheduledWaitPriorityComp s.waitQueue_).dropLast.length ≤ n := by
          rw [hq, (pop_heap_perm _ _ _).length_eq]
          rw [hq] at hlen
          simp only [List.length_cons] at hlen
          omega
        by_cases hlive : info.isAllocated = true ∧ info.isWaitInProgress = true ∧
            info.engagementId_ = top.engagementId_
        · obtain ⟨ha, hw, hid⟩ := hlive
          have hsome : info.handler_.isSome = true := by
            rw [hs.slots.handler_iff info (List.getElem?_mem hget), hw]
          obtain ⟨f, hf⟩ := Option.isSome_iff_exists.mp hsome
          have hinv := coreInv_fire hs top rest info
            (s.trace_ ++ [.post
              { slot := top.timerInfo_, handler := f, status := .Success, interruptCtx := ctx }])
            hq hget ha
          obtain ⟨s', h1, h2⟩ := ih _ hinv hlen'
          refine ⟨s', ?_, Drains.fire hq ht hget ha hw hid hf h2⟩
          rw [loop_fire ctx n s top rest info f hq ht hget ha hw hid hf]
          exact h1
        · have hinv := coreInv_skip hs top rest info hq hget hlive
          obtain ⟨s', h1, h2⟩ := ih _ hinv hlen'
          refine ⟨s', ?_, Drains.skip hq ht hget hlive h2⟩
          rw [loop_skip ctx n s top rest info hq ht hget hlive]
          exact h1

theorem postExpiredHandlers_drains {M : Nat} (ctx : Bool) (s : TimerMgr) (hs : CoreInv M s) :
    ∃ s', postExpiredHandlers ctx s = .ok s' ∧ Drains ctx s s' :=
  loop_drains ctx _ s hs (Nat.le_refl _)

/-- What every run of the loop keeps, and what holds at its end. -/
theorem drains_facts {M : Nat} {ctx : Bool} {s s' : TimerMgr} (h : Drains ctx s s')
    (hs : CoreInv M s) :
    CoreInv M s' ∧ s'.timeBase_ = s.timeBase_ ∧ s'.timersCount_ = s.timersCount_ ∧
      s'.deviceActive_ = s.deviceActive_ ∧ s'.nextEngagementId_ = s.nextEngagementId_ ∧
      s'.waitQueue_.length ≤ s.waitQueue_.length ∧
      (∀ e ∈ s'.waitQueue_, s'.timeBase_ < e.targetTime_) := by
  induction h with
  | empty hq =>
    refine ⟨hs, rfl, rfl, rfl, rfl, Nat.le_refl _, ?_⟩
    intro e he; rw [hq] at he; cases he
  | @future s top rest hq ht =>
    refine ⟨hs, rfl, rfl, rfl, rfl, Nat.le_refl _, ?_⟩
    intro e he
    have hheap := hs.queue.queue_heap
    rw [hq] at hheap he
    have := isHeap_head_le comp_strictWeak top rest hheap e he
    rw [comp_eq_false_iff] at this
    omega
  | @fire s s' top rest info f hq ht hget ha hw hid hf _ ih =>
    have hinv := coreInv_fire hs top rest info
      (s.trace_ ++ [.post
        { slot := top.timerInfo_, handler := f, status := .Success, interruptCtx := ctx }])
      hq hget ha
    obtain ⟨h1, h2, h3, h4, h5, h6, h7⟩ := ih hinv
    refine ⟨h1, h2, h3, h4, h5, ?_, h7⟩
    have : (pop_heap ScheduledWaitPriorityComp s.waitQueue_).dropLast.length
        ≤ s.waitQueue_.length := by
      rw [hq, (pop_heap_perm _ _ _).length_eq]; simp
    exact Nat.le_trans h6 this
  | @skip s s' top rest info hq ht hget hdead _ ih =>
    have hinv := coreInv_skip hs top rest info hq hget hdead
    obtain ⟨h1, h2, h3, h4, h5, h6, h7⟩ := ih hinv
    refine ⟨h1, h2, h3, h4, h5, ?_, h7⟩
    have : (pop_heap ScheduledWaitPriorityComp s.waitQueue_).dropLast.length
        ≤ s.waitQueue_.length := by
      rw [hq, (pop_heap_perm _ _ _).length_eq]; simp
    exact Nat.le_trans h6 this

/-! ## scheduleWait -/

theorem scheduleWait_eq {idx timeUnits func elapsed : Nat} {s : TimerMgr} {info : TimerInfo}
    (hdev : s.deviceActive_ = true → s.waitQueue_ ≠ [])
    (hidx : idx < s.timersCount_) (hget : s.timers_[idx]? = some info)
    (ha : info.isAllocated = true) (hw : info.isWaitInProgress = false)
    (hf : info.handler_ = none) :
    scheduleWait idx timeUnits func elapsed s =
      finishSchedule idx (armed idx timeUnits func elapsed info s) := by
  unfold scheduleWait finishSchedule armed
  rcases Bool.eq_false_or_eq_true s.deviceActive_ with hd | hd
  · have hq : 0 < s.waitQueue_.length := List.length_pos.mpr (hdev hd)
    simp only [hd, if_true, TimerMgr.waitQueueCount_]
    rw [if_neg (by omega)]
    simp only
    rw [if_neg (by omega), hget]
    simp only
    rw [if_neg (by simp [ha]), if_neg (by simp [hw]), if_neg (by simp [hf])]
  · simp only [hd, Bool.false_eq_true, if_false, TimerMgr.waitQueueCount_]
    rw [if_neg (by omega), hget]
    simp only
    rw [if_neg (by simp [ha]), if_neg (by simp [hw]), if_neg (by simp [hf])]

theorem scheduleWait_pre {idx timeUnits func elapsed : Nat} {s s' : TimerMgr}
    (h : scheduleWait idx timeUnits func elapsed s = .ok s') :
    (s.deviceActive_ = true → s.waitQueue_ ≠ []) ∧ idx < s.timersCount_ ∧
      ∃ info, s.timers_[idx]? = some info ∧ info.isAllocated = true ∧
        info.isWaitInProgress = false ∧ info.handler_ = none := by
  have hdev : s.deviceActive_ = true → s.waitQueue_ ≠ [] := by
    intro hd hq
    unfold scheduleWait at h
    simp only [hd, if_true, TimerMgr.waitQueueCount_, hq, List.length_nil] at h
    rw [if_pos (by omega)] at h
    cases h
  refine ⟨hdev, ?_⟩
  unfold scheduleWait at h
  simp only [TimerMgr.waitQueueCount_] at h
  rcases Bool.eq_false_or_eq_true s.deviceActive_ with hd | hd
  · have hq : 0 < s.waitQueue_.length := List.length_pos.mpr (hdev hd)
    rw [if_pos hd, if_neg (by omega)] at h
    simp only at h
    by_cases hidx : idx < s.timersCount_
    swap
    · rw [if_pos hidx] at h; cases h
    refine ⟨hidx, ?_⟩
    rw [if_neg (by omega)] at h
    obtain hget | ⟨info, hget⟩ := (s.timers_[idx]?).eq_none_or_eq_some
    · rw [hget] at h; cases h
    rw [hget] at h
    simp only at h
    refine ⟨info, hget, ?_⟩
    rcases Bool.eq_false_or_eq_true info.isAllocated with ha | ha
    swap
    · rw [if_pos (by simp [ha])] at h; cases h
    rw [if_neg (by simp [ha])] at h
    rcases Bool.eq_false_or_eq_true info.isWaitInProgress with hw | hw
    · rw [if_pos (by simp [hw])] at h; cases h
    rw [if_neg (by simp [hw])] at h
    obtain hf | ⟨f, hf⟩ := (info.handler_).eq_none_or_eq_some
    swap
    · rw [if_pos (by simp [hf])] at h; cases h
    exact ⟨ha, hw, hf⟩
  · rw [if_neg (by simp [hd])] at h
    simp only at h
    by_cases hidx : idx < s.timersCount_
    swap
    · rw [if_pos hidx] at h; cases h
    refine ⟨hidx, ?_⟩
    rw [if_neg (by omega)] at h
    obtain hget | ⟨info, hget⟩ := (s.timers_[idx]?).eq_none_or_eq_some
    · rw [hget] at h; cases h
    rw [hget] at h
    simp only at h
    refine ⟨info, hget, ?_⟩
    rcases Bool.eq_false_or_eq_true info.isAllocated with ha | ha
    swap
    · rw [if_pos (by simp [ha])] at h; cases h
    rw [if_neg (by simp [ha])] at h
    rcases Bool.eq_false_or_eq_true info.isWaitInProgress with hw | hw
    · rw [if_pos (by simp [hw])] at h; cases h
    rw [if_neg (by simp [hw])] at h
    obtain hf | ⟨f, hf⟩ := (info.handler_).eq_none_or_eq_some
    swap
    · rw [if_pos (by simp [hf])] at h; cases h
    exact ⟨ha, hw, hf⟩

/-! ## The second half of scheduleWait -/

theorem enqueue_spec {M : Nat} {idx : Nat} {a : TimerMgr} {ninfo : TimerInfo}
    (hslots : SlotsOk M a) (hqueue : QueueOk M a)
    (hget : a.timers_[idx]? = some ninfo)
    (hnt : ninfo.targetTime_ < UnsignedModulus)
    (hwaits : ∀ i info, i ≠ idx → a.timers_[i]? = some info → info.isWaitInProgress = true →
      ∃ e ∈ a.waitQueue_, e.timerInfo_ = i ∧ e.engagementId_ = info.engagementId_ ∧
        e.targetTime_ = info.targetTime_) :
    ∃ q, (if ScheduleQueueScale * a.timers_.length ≤ a.waitQueueCount_ then recreateWaitQueue a
        else pushToWaitQueue idx a) = .ok { a with waitQueue_ := q } ∧
      CoreInv M { a with waitQueue_ := q } ∧
      ((ScheduleQueueScale * a.timers_.length ≤ a.waitQueue_.length ∧
          q.Perm (liveEntries a.timers_ 0)) ∨
        (¬ ScheduleQueueScale * a.timers_.length ≤ a.waitQueue_.length ∧
          q.Perm (a.waitQueue_ ++
            [{ timerInfo_ := idx, engagementId_ := ninfo.engagementId_,
               targetTime_ := ninfo.targetTime_ }]))) := by
  have hidx := lt_length_of_getElem? hget
  have hlen := hslots.timers_length
  by_cases hfull : ScheduleQueueScale * a.timers_.length ≤ a.waitQueue_.length
  · refine ⟨make_heap ScheduledWaitPriorityComp (liveEntries a.timers_ 0), ?_, ?_,
      Or.inl ⟨hfull, make_heap_perm _ _⟩⟩
    · rw [if_pos (by simpa [TimerMgr.waitQueueCount_] using hfull), recreateWaitQueue_ok]
    · have hmem : ∀ e, e ∈ make_heap ScheduledWaitPriorityComp (liveEntries a.timers_ 0) ↔
          e ∈ liveEntries a.timers_ 0 := fun e => (make_heap_perm _ _).mem_iff
      refine ⟨⟨hslots.timers_length, hslots.timersCount_le, hslots.allocated_count,
        hslots.allocated_lt, hslots.handler_iff, hslots.wait_allocated⟩, ⟨?_, ?_, ?_, ?_⟩, ?_⟩
      · simp only [make_heap_length]
        have := liveEntries_length_le a.timers_ 0
        simp only [ScheduleQueueScale]
        omega
      · exact make_heap_isHeap comp_strictWeak _
      · intro e he
        obtain ⟨k, x, hk, _, _, rfl⟩ := (mem_liveEntries _ _ _).mp ((hmem e).mp he)
        have := lt_length_of_getElem? hk
        simp only
        omega
      · intro e he
        obtain ⟨k, x, hk, _, hxw, rfl⟩ := (mem_liveEntries _ _ _).mp ((hmem e).mp he)
        simp only
        by_cases hki : k = idx
        · subst hki; rw [hget] at hk; cases hk; exact hnt
        · obtain ⟨e', he', _, _, h3⟩ := hwaits k x hki hk hxw
          rw [← h3]; exact hqueue.queue_target e' he'
      · intro i x hx hxw
        refine ⟨{ timerInfo_ := i, engagementId_ := x.engagementId_,
                  targetTime_ := x.targetTime_ }, ?_, rfl, rfl, rfl⟩
        apply (hmem _).mpr
        apply (mem_liveEntries _ _ _).mpr
        exact ⟨i, x, hx, hslots.wait_allocated x (List.getElem?_mem hx) hxw, hxw, by simp⟩
  · have hcap : a.waitQueue_.length < ScheduleQueueScale * a.timers_.length := by omega
    refine ⟨push_heap ScheduledWaitPriorityComp (a.waitQueue_ ++
      [{ timerInfo_ := idx, engagementId_ := ninfo.engagementId_,
         targetTime_ := ninfo.targetTime_ }]), ?_, ?_, Or.inr ⟨hfull, push_heap_perm _ _⟩⟩
    · rw [if_neg (by simpa [TimerMgr.waitQueueCount_] using hfull),
        pushToWaitQueue_ok hcap hget]
    · have hmem : ∀ e, e ∈ push_heap ScheduledWaitPriorityComp (a.waitQueue_ ++
          [{ timerInfo_ := idx, engagementId_ := ninfo.engagementId_,
             targetTime_ := ninfo.targetTime_ }]) ↔
          e ∈ a.waitQueue_ ∨
            e = { timerInfo_ := idx, engagementId_ := ninfo.engagementId_,
                  targetTime_ := ninfo.targetTime_ } := by
        intro e
        rw [(push_heap_perm _ _).mem_iff]
        simp
      refine ⟨⟨hslots.timers_length, hslots.timersCount_le, hslots.allocated_count,
        hslots.allocated_lt, hslots.handler_iff, hslots.wait_allocated⟩, ⟨?_, ?_, ?_, ?_⟩, ?_⟩
      · simp only [push_heap_length, List.length_append, List.length_singleton]
        rw [← hlen]
        omega
      · exact push_heap_isHeap comp_strictWeak _ _ hqueue.queue_heap
      · intro e he
        rcases (hmem e).mp he with he | rfl
        · exact hqueue.queue_slot e he
        · simp only; omega
      · intro e he
        rcases (hmem e).mp he with he | rfl
        · exact hqueue.queue_target e he
        · exact hnt
      · intro i x hx hxw
        by_cases hi : i = idx
        · subst hi
          simp only at hx
          rw [hget] at hx; cases hx
          exact ⟨_, (hmem _).mpr (Or.inr rfl), rfl, rfl, rfl⟩
        · obtain ⟨e, he, h1, h2, h3⟩ := hwaits i x hi hx hxw
          exact ⟨e, (hmem _).mpr (Or.inl he), h1, h2, h3⟩

theorem startGuard_ok {s : TimerMgr} {top : ScheduledWaitInfo} {rest : List ScheduledWaitInfo}
    (hq : s.waitQueue_ = top :: rest) :
    startGuard s = .ok { s with
      trace_ := s.trace_ ++
        [.startWait ((top.targetTime_ + UnsignedModulus - s.timeBase_) % UnsignedModulus) false]
      deviceActive_ := true } := by
  unfold startGuard
  rw [hq]

theorem startGuard_empty {s : TimerMgr} (hq : s.waitQueue_ = []) :
    startGuard s = .error .startGuard_queueCount := by
  unfold startGuard
  rw [hq]

theorem startGuard_inv {s s' : TimerMgr} (h : startGuard s = .ok s') :
    ∃ top rest, s.waitQueue_ = top :: rest ∧ s' = { s with
      trace_ := s.trace_ ++
        [.startWait ((top.targetTime_ + UnsignedModulus - s.timeBase_) % UnsignedModulus) false]
      deviceActive_ := true } := by
  by_cases hq : s.waitQueue_ = []
  · rw [startGuard_empty hq] at h; cases h
  · obtain ⟨top, rest, hq⟩ := List.exists_cons_of_ne_nil hq
    rw [startGuard_ok hq] at h
    injection h with h
    exact ⟨top, rest, hq, h.symm⟩

/-! ## scheduleWait on a state that satisfies the invariant -/

theorem armed_timers_get (timeUnits func elapsed : Nat) {idx : Nat} {info : TimerInfo}
    {s : TimerMgr}
    (hget : s.timers_[idx]? = some info) :
    (armed idx timeUnits func elapsed info s).timers_[idx]? =
      some (({ info with
          targetTime_ :=
            ((if s.deviceActive_ then (s.timeBase_ + elapsed) % UnsignedModulus
              else s.timeBase_) + timeUnits) % UnsignedModulus
          engagementId_ := (s.nextEngagementId_ + 1) % UnsignedModulus
          handler_ := some func } : TimerInfo).setWaitInProgress true) := by
  have := lt_length_of_getElem? hget
  simp [armed, List.getElem?_set, this]

theorem scheduleWait_spec (timeUnits func elapsed : Nat) {M idx : Nat} {s : TimerMgr}
    {info : TimerInfo} (hs : Inv M s) (hget : s.timers_[idx]? = some info)
    (ha : info.isAllocated = true) (hw : info.isWaitInProgress = false) :
    ∃ q s6,
      CoreInv M { armed idx timeUnits func elapsed info s with waitQueue_ := q } ∧
      ((ScheduleQueueScale * s.timers_.length ≤ s.waitQueue_.length ∧
          q.Perm (liveEntries (armed idx timeUnits func elapsed info s).timers_ 0)) ∨
        (¬ ScheduleQueueScale * s.timers_.length ≤ s.waitQueue_.length ∧
          q.Perm (s.waitQueue_ ++
            [{ timerInfo_ := idx
               engagementId_ := (s.nextEngagementId_ + 1) % UnsignedModulus
               targetTime_ :=
                ((if s.deviceActive_ then (s.timeBase_ + elapsed) % UnsignedModulus
                  else s.timeBase_) + timeUnits) % UnsignedModulus }]))) ∧
      Drains false { armed idx timeUnits func elapsed info s with waitQueue_ := q } s6 ∧
      scheduleWait idx timeUnits func elapsed s = startGuard s6 := by
  have hidx : idx < s.timersCount_ := hs.slots.allocated_lt idx info hget ha
  have hf : info.handler_ = none := by
    have := hs.slots.handler_iff info (List.getElem?_mem hget)
    rw [hw] at this
    cases h : info.handler_ with
    | none => rfl
    | some f => rw [h] at this; simp at this
  have hdev : s.deviceActive_ = true → s.waitQueue_ ≠ [] := hs.device_iff.mp
  have hnget := armed_timers_get timeUnits func elapsed hget
  have hslots : SlotsOk M (armed idx timeUnits func elapsed info s) :=
    slotsOk_set hs.slots idx info _ hget rfl rfl
      (by rw [isAllocated_setWaitInProgress]; exact fun _ => ha) (by simp)
      (by rw [isAllocated_setWaitInProgress]; exact fun _ => ha)
  have hqueue : QueueOk M (armed idx timeUnits func elapsed info s) :=
    queueOk_of_eq hs.queue rfl
  have hwaits : ∀ i x, i ≠ idx →
      (armed idx timeUnits func elapsed info s).timers_[i]? = some x →
      x.isWaitInProgress = true →
      ∃ e ∈ (armed idx timeUnits func elapsed info s).waitQueue_, e.timerInfo_ = i ∧
        e.engagementId_ = x.engagementId_ ∧ e.targetTime_ = x.targetTime_ := by
    intro i x hi hx hxw
    simp only [armed, List.getElem?_set, if_neg (Ne.symm hi)] at hx
    exact hs.waits i x hx hxw
  obtain ⟨q, h1, h2, h3⟩ := enqueue_spec hslots hqueue hnget
    (by simp only [targetTime_setWaitInProgress]; exact Nat.mod_lt _ (by decide)) hwaits
  obtain ⟨s6, h4, h5⟩ := postExpiredHandlers_drains false _ h2
  refine ⟨q, s6, h2, ?_, h5, ?_⟩
  · rcases h3 with ⟨h6, h7⟩ | ⟨h6, h7⟩
    · left
      refine ⟨?_, h7⟩
      simpa [armed] using h6
    · right
      refine ⟨?_, ?_⟩
      · simpa [armed] using h6
      · simpa [armed] using h7
  · rw [scheduleWait_eq hdev hidx hget ha hw hf]
    unfold finishSchedule
    simp only
    rw [h1]
    simp only
    rw [h4]

theorem scheduleWait_preserves {M : Nat} {idx timeUnits func elapsed : Nat} {s s' : TimerMgr}
    (hs : Inv M s) (h : scheduleWait idx timeUnits func elapsed s = .ok s') : Inv M s' := by
  obtain ⟨_, _, info, hget, ha, hw, _⟩ := scheduleWait_pre h
  obtain ⟨q, s6, h1, _, h3, h4⟩ := scheduleWait_spec timeUnits func elapsed hs hget ha hw
  rw [h4] at h
  obtain ⟨top, rest, hq, rfl⟩ := startGuard_inv h
  obtain ⟨h5, h6, _, _, _, _, h7⟩ := drains_facts h3 h1
  refine ⟨⟨h5.slots.timers_length, h5.slots.timersCount_le, h5.slots.allocated_count,
    h5.slots.allocated_lt, h5.slots.handler_iff, h5.slots.wait_allocated⟩,
    queueOk_of_eq h5.queue rfl, ?_, ?_, h7, ?_⟩
  · intro i x hx hxw; exact h5.waits i x hx hxw
  · simp [hq]
  · simp only
    rw [h6]
    simp only [armed]
    split
    · exact Nat.mod_lt _ (by decide)
    · exact hs.timeBase_lt

/-! ## The error branch of interruptHandler -/

theorem postErrorLoop_spec (es : ErrorStatus) :
    ∀ (n idx : Nat) (s : TimerMgr), idx + n ≤ s.timers_.length →
      (∀ i info, idx ≤ i → i < idx + n → s.timers_[i]? = some info →
        info.handler_.isSome = true →
        info.isAllocated = true ∧ info.isWaitInProgress = true) →
      ∃ s', postErrorLoop es n idx s = .ok s' ∧
        s'.timers_.length = s.timers_.length ∧
        (∀ i, s'.timers_[i]? =
          if idx ≤ i ∧ i < idx + n then
            (s.timers_[i]?).map (fun t => if t.handler_.isSome then t.dispatched else t)
          else s.timers_[i]?) ∧
        s'.trace_ = s.trace_ ++
          (pendingPosts es ((s.timers_.drop idx).take n) idx).map Event.post ∧
        s'.timeBase_ = s.timeBase_ ∧ s'.waitQueue_ = s.waitQueue_ ∧
        s'.timersCount_ = s.timersCount_ ∧ s'.nextEngagementId_ = s.nextEngagementId_ ∧
        s'.deviceActive_ = s.deviceActive_ := by
  intro n
  induction n with
  | zero =>
    intro idx s _ _
    refine ⟨s, rfl, rfl, ?_, ?_, rfl, rfl, rfl, rfl, rfl⟩
    · intro i; rw [if_neg (by omega)]
    · simp [pendingPosts]
  | succ n ih =>
    intro idx s hlen hall
    have hidx : idx < s.timers_.length := by omega
    have hget : s.timers_[idx]? = some (s.timers_[idx]) := List.getElem?_eq_getElem hidx
    have hdrop : (s.timers_.drop idx).take (n + 1) =
        s.timers_[idx] :: (s.timers_.drop (idx + 1)).take n := by
      rw [List.drop_eq_getElem_cons hidx, List.take_succ_cons]
    generalize s.timers_[idx] = info at hget hdrop
    unfold postErrorLoop
    rw [hget]
    simp only
    obtain hf | ⟨f, hf⟩ := (info.handler_).eq_none_or_eq_some
    · rw [if_neg (by simp [hf])]
      obtain ⟨s', h1, h2, h3, h4, h5⟩ := ih (idx + 1) s (by omega)
        (fun i x hi1 hi2 hx hxs => hall i x (by omega) (by omega) hx hxs)
      refine ⟨s', h1, h2, ?_, ?_, h5⟩
      · intro i
        rw [h3 i]
        by_cases hi : i = idx
        · subst hi
          rw [if_neg (by omega), if_pos (by omega), hget]
          simp [hf]
        · by_cases hr : idx + 1 ≤ i ∧ i < idx + 1 + n
          · rw [if_pos hr, if_pos (by omega)]
          · rw [if_neg hr, if_neg (by omega)]
      · rw [h4, hdrop]
        simp [pendingPosts, hf]
    · obtain ⟨ha, hw⟩ := hall idx info (Nat.le_refl _) (by omega) hget (by simp [hf])
      rw [if_pos (by simp [hf]), postHandler_ok es true hget hf ha hw]
      simp only
      obtain ⟨s', h1, h2, h3, h4, h5⟩ := ih (idx + 1) { s with
          trace_ := s.trace_ ++ [.post
            { slot := idx, handler := f, status := es, interruptCtx := true }]
          timers_ := s.timers_.set idx
            (({ info with handler_ := none } : TimerInfo).setWaitInProgress false) }
        (by simp only [List.length_set]; omega)
        (by
          intro i x hi1 hi2 hx hxs
          simp only [List.getElem?_set, if_neg (show ¬ idx = i by omega)] at hx
          exact hall i x (by omega) (by omega) hx hxs)
      refine ⟨s', h1, ?_, ?_, ?_, h5⟩
      · rw [h2]; simp
      · intro i
        rw [h3 i]
        by_cases hi : i = idx
        · subst hi
          rw [if_neg (by omega), if_pos (by omega), hget]
          simp [hf, hidx, TimerInfo.dispatched]
        · simp only [List.getElem?_set, if_neg (show ¬ idx = i by omega)]
          by_cases hr : idx + 1 ≤ i ∧ i < idx + 1 + n
          · rw [if_pos hr, if_pos (by omega)]
          · rw [if_neg hr, if_neg (by omega)]
      · rw [h4, hdrop]
        simp only [pendingPosts, hf, List.map_cons, List.append_assoc, List.singleton_append]
        rw [List.drop_set_of_lt _ _ (by omega)]

theorem mem_pendingPosts (es : ErrorStatus) (ts : List TimerInfo) (idx : Nat) (p : Post) :
    p ∈ pendingPosts es ts idx ↔
      ∃ k info f, ts[k]? = some info ∧ info.handler_ = some f ∧
        p = { slot := idx + k, handler := f, status := es, interruptCtx := true } := by
  induction ts generalizing idx with
  | nil => simp [pendingPosts]
  | cons info rest ih =>
    unfold pendingPosts
    constructor
    · intro h
      split at h
      · rename_i f hf
        rcases List.mem_cons.mp h with rfl | h
        · exact ⟨0, info, f, by simp, hf, rfl⟩
        · obtain ⟨k, x, g, hk, h1, h2⟩ := (ih (idx + 1)).mp h
          exact ⟨k + 1, x, g, by simpa using hk, h1, by rw [h2]; congr 1; omega⟩
      · obtain ⟨k, x, g, hk, h1, h2⟩ := (ih (idx + 1)).mp h
        exact ⟨k + 1, x, g, by simpa using hk, h1, by rw [h2]; congr 1; omega⟩
    · rintro ⟨k, x, g, hk, h1, h2⟩
      cases k with
      | zero =>
        simp only [List.getElem?_cons_zero, Option.some.injEq] at hk
        subst hk
        rw [h1]
        subst h2
        exact List.mem_cons_self _ _
      | succ k =>
        have hk' : rest[k]? = some x := by simpa using hk
        have : p ∈ pendingPosts es rest (idx + 1) :=
          (ih (idx + 1)).mpr ⟨k, x, g, hk', h1, by rw [h2]; congr 1; omega⟩
        split
        · exact List.mem_cons_of_mem _ this
        · exact this

theorem pendingPosts_length (es : ErrorStatus) (ts : List TimerInfo) (idx : Nat) :
    (pendingPosts es ts idx).length = ts.countP (fun info => info.handler_.isSome) := by
  induction ts generalizing idx with
  | nil => simp [pendingPosts]
  | cons info rest ih =>
    unfold pendingPosts
    rw [List.countP_cons]
    split
    · rename_i f hf; simp [hf, ih]
    · rename_i hf; simp [hf, ih]

theorem pendingPosts_sorted (es : ErrorStatus) (ts : List TimerInfo) (idx : Nat) :
    (pendingPosts es ts idx).Pairwise (fun p q => p.slot < q.slot) := by
  induction ts generalizing idx with
  | nil => simp [pendingPosts]
  | cons info rest ih =>
    unfold pendingPosts
    split
    · refine List.Pairwise.cons ?_ (ih (idx + 1))
      intro q hq
      obtain ⟨k, x, g, _, _, rfl⟩ := (mem_pendingPosts _ _ _ _).mp hq
      simp only
      omega
    · exact ih (idx + 1)

theorem pendingPosts_take (es : ErrorStatus) (ts : List TimerInfo) (idx n : Nat)
    (h : ∀ i info, n ≤ i → ts[i]? = some info → info.handler_ = none) :
    pendingPosts es (ts.take n) idx = pendingPosts es ts idx := by
  induction ts generalizing idx n with
  | nil => simp
  | cons info rest ih =>
    cases n with
    | zero =>
      have h0 := h 0 info (Nat.le_refl _) (by simp)
      have := ih (idx + 1) 0 (fun i x _ hx => h (i + 1) x (by omega) (by simpa using hx))
      simp only [List.take_zero] at this ⊢
      simp only [pendingPosts, h0]
      rw [← this]
      rfl
    | succ n =>
      have := ih (idx + 1) n (fun i x hi hx => h (i + 1) x (by omega) (by simpa using hx))
      simp only [List.take_succ_cons, pendingPosts]
      rw [this]

/-! ## interruptHandler -/

theorem TimerMgr.eq_of_fields {s s' : TimerMgr} (h1 : s.timeBase_ = s'.timeBase_)
    (h2 : s.waitQueue_ = s'.waitQueue_) (h3 : s.timers_ = s'.timers_)
    (h4 : s.timersCount_ = s'.timersCount_) (h5 : s.nextEngagementId_ = s'.nextEngagementId_)
    (h6 : s.deviceActive_ = s'.deviceActive_) (h7 : s.trace_ = s'.trace_) : s = s' := by
  cases s; cases s'
  simp only at h1 h2 h3 h4 h5 h6 h7
  subst h1 h2 h3 h4 h5 h6 h7
  rfl

theorem no_handler_of_ge {M : Nat} {s : TimerMgr} (hs : SlotsOk M s) (i : Nat)
    (info : TimerInfo) (hi : s.timersCount_ ≤ i) (hget : s.timers_[i]? = some info) :
    info.handler_ = none := by
  have hmem := List.getElem?_mem hget
  have h1 := hs.handler_iff info hmem
  cases hw : info.isWaitInProgress with
  | true =>
    have := hs.allocated_lt i info hget (hs.wait_allocated info hmem hw)
    omega
  | false =>
    rw [hw] at h1
    cases h : info.handler_ with
    | none => rfl
    | some f => rw [h] at h1; simp at h1

theorem interruptHandler_error {M : Nat} {es : ErrorStatus} {s : TimerMgr} (hs : SlotsOk M s)
    (he : es.isError = true) :
    interruptHandler es s = .ok { s with
      trace_ := s.trace_ ++ (pendingPosts es s.timers_ 0).map Event.post
      timers_ := dispatchAll s.timers_
      waitQueue_ := [] } := by
  obtain ⟨s1, h1, h2, h3, h4, h5, h6, h7, h8, h9⟩ := postErrorLoop_spec es s.timersCount_ 0 s
    (by have := hs.timersCount_le; have := hs.timers_length; omega)
    (by
      intro i info _ _ hget hsome
      have hmem := List.getElem?_mem hget
      have hw : info.isWaitInProgress = true := by rw [← hs.handler_iff info hmem]; exact hsome
      exact ⟨hs.wait_allocated info hmem hw, hw⟩)
  unfold interruptHandler
  rw [if_pos he, h1]
  simp only
  congr 1
  apply TimerMgr.eq_of_fields <;> simp only
  · exact h5
  · apply List.ext_getElem?
    intro i
    rw [h3 i, dispatchAll, List.getElem?_map]
    by_cases hi : i < s.timersCount_
    · rw [if_pos ⟨Nat.zero_le _, by omega⟩]
    · rw [if_neg (by omega)]
      obtain hget | ⟨info, hget⟩ := (s.timers_[i]?).eq_none_or_eq_some
      · rw [hget]; rfl
      · rw [hget]
        have := no_handler_of_ge hs i info (by omega) hget
        simp [this]
  · exact h7
  · exact h8
  · exact h9
  · rw [h4, List.drop_zero, pendingPosts_take]
    intro i info hi hget
    exact no_handler_of_ge hs i info hi hget

theorem interruptHandler_normal (es : ErrorStatus) {M : Nat} {s : TimerMgr}
    {top : ScheduledWaitInfo} {rest : List ScheduledWaitInfo} (hs : CoreInv M s)
    (he : es.isError = false) (hq : s.waitQueue_ = top :: rest)
    (ht : s.timeBase_ ≤ top.targetTime_) :
    ∃ s1, Drains true { s with timeBase_ := top.targetTime_ } s1 ∧
      interruptHandler es s = .ok (restartFromInterrupt s1) := by
  have hs0 : CoreInv M { s with timeBase_ := top.targetTime_ } :=
    ⟨⟨hs.slots.timers_length, hs.slots.timersCount_le, hs.slots.allocated_count,
      hs.slots.allocated_lt, hs.slots.handler_iff, hs.slots.wait_allocated⟩,
      queueOk_of_eq hs.queue rfl, fun i x hx hxw => hs.waits i x hx hxw⟩
  obtain ⟨s1, h1, h2⟩ := postExpiredHandlers_drains true _ hs0
  refine ⟨s1, h2, ?_⟩
  rw [hq] at h1
  unfold interruptHandler
  rw [if_neg (by simp [he]), hq]
  simp only
  rw [if_neg (by omega), h1]
  simp only
  unfold restartFromInterrupt
  split <;> rfl

theorem interruptHandler_normal_inv {es : ErrorStatus} {s s' : TimerMgr}
    (he : es.isError = false) (h : interruptHandler es s = .ok s') :
    ∃ top rest, s.waitQueue_ = top :: rest ∧ s.timeBase_ ≤ top.targetTime_ := by
  unfold interruptHandler at h
  rw [if_neg (by simp [he])] at h
  split at h
  · cases h
  · rename_i top rest hq
    by_cases ht : s.timeBase_ ≤ top.targetTime_
    · exact ⟨top, rest, hq, ht⟩
    · rw [if_pos ht] at h; cases h

theorem dispatchAll_inv {M : Nat} {s : TimerMgr} (hs : SlotsOk M s) (s' : TimerMgr)
    (ht : s'.timers_ = dispatchAll s.timers_) (hc : s'.timersCount_ = s.timersCount_) :
    SlotsOk M s' ∧ ∀ info ∈ s'.timers_, info.isWaitInProgress = false ∧ info.handler_ = none := by
  have hg : ∀ t : TimerInfo, (if t.handler_.isSome then t.dispatched else t).isAllocated
      = t.isAllocated := by
    intro t
    split
    · simp [TimerInfo.dispatched, TimerInfo.isAllocated, TimerInfo.setWaitInProgress,
        TimerInfo.updateFlag, WaitInProgressMask, AllocatedFlagMask, Nat.and_assoc,
        mask_consts.2.2.1]
    · rfl
  have hclear : ∀ info ∈ s'.timers_,
      info.isWaitInProgress = false ∧ info.handler_ = none := by
    intro x hx
    rw [ht, dispatchAll] at hx
    obtain ⟨t, htm, rfl⟩ := List.mem_map.mp hx
    split
    · simp [TimerInfo.dispatched]
    · rename_i hn
      have h1 := hs.handler_iff t htm
      have hnone : t.handler_ = none := by
        cases h : t.handler_ with
        | none => rfl
        | some f => rw [h] at hn; simp at hn
      rw [hnone] at h1
      exact ⟨by simpa using h1.symm, hnone⟩
  refine ⟨⟨?_, ?_, ?_, ?_, ?_, ?_⟩, hclear⟩
  · rw [ht, dispatchAll, List.length_map]; exact hs.timers_length
  · rw [hc]; exact hs.timersCount_le
  · rw [ht, hc, dispatchAll, List.countP_map]
    have : (TimerInfo.isAllocated ∘
        fun info : TimerInfo => if info.handler_.isSome then info.dispatched else info)
        = TimerInfo.isAllocated := by
      funext t; exact hg t
    rw [this]; exact hs.allocated_count
  · intro i x hx hax
    rw [ht, dispatchAll, List.getElem?_map] at hx
    obtain hget | ⟨t, hget⟩ := (s.timers_[i]?).eq_none_or_eq_some
    · rw [hget] at hx; cases hx
    · rw [hget] at hx
      simp only [Option.map_some', Option.some.injEq] at hx
      subst hx
      rw [hg] at hax
      rw [hc]
      exact hs.allocated_lt i t hget hax
  · intro x hx
    obtain ⟨h1, h2⟩ := hclear x hx
    rw [h1, h2]; rfl
  · intro x hx hxw
    rw [(hclear x hx).1] at hxw; cases hxw

theorem deliverInterrupt_preserves {M : Nat} {es : ErrorStatus} {s s' : TimerMgr}
    (hs : Inv M s) (h : deliverInterrupt es s = .ok s') : Inv M s' := by
  unfold deliverInterrupt at h
  have hslots0 : SlotsOk M { s with deviceActive_ := false } :=
    ⟨hs.slots.timers_length, hs.slots.timersCount_le, hs.slots.allocated_count,
      hs.slots.allocated_lt, hs.slots.handler_iff, hs.slots.wait_allocated⟩
  rcases Bool.eq_false_or_eq_true es.isError with he | he
  · rw [interruptHandler_error hslots0 he] at h
    injection h with h
    subst h
    obtain ⟨h1, h2⟩ := dispatchAll_inv hs.slots { s with
      deviceActive_ := false
      trace_ := s.trace_ ++ (pendingPosts es s.timers_ 0).map Event.post
      timers_ := dispatchAll s.timers_
      waitQueue_ := [] } rfl rfl
    refine ⟨⟨h1.timers_length, h1.timersCount_le, h1.allocated_count, h1.allocated_lt,
      h1.handler_iff, h1.wait_allocated⟩, ⟨?_, isHeap_nil _, ?_, ?_⟩, ?_, ?_, ?_,
      hs.timeBase_lt⟩
    · simp
    · intro e he; cases he
    · intro e he; cases he
    · intro i x hx hxw
      rw [(h2 x (List.getElem?_mem hx)).1] at hxw; cases hxw
    · simp
    · intro e he; cases he
  · obtain ⟨top, rest, hq, ht⟩ := interruptHandler_normal_inv he h
    have hcore : CoreInv M { s with deviceActive_ := false } :=
      ⟨hslots0, queueOk_of_eq hs.queue rfl, fun i x hx hxw => hs.waits i x hx hxw⟩
    obtain ⟨s1, h1, h2⟩ := interruptHandler_normal es hcore he hq ht
    rw [h2] at h
    injection h with h
    subst h
    have hcore1 : CoreInv M { s with deviceActive_ := false, timeBase_ := top.targetTime_ } :=
      ⟨⟨hs.slots.timers_length, hs.slots.timersCount_le, hs.slots.allocated_count,
        hs.slots.allocated_lt, hs.slots.handler_iff, hs.slots.wait_allocated⟩,
        queueOk_of_eq hs.queue rfl, fun i x hx hxw => hs.waits i x hx hxw⟩
    obtain ⟨h3, h4, _, h6, _, _, h8⟩ := drains_facts h1 hcore1
    have htop : top ∈ s.waitQueue_ := by
      rw [show s.waitQueue_ = top :: rest from hq]
      exact List.mem_cons_self _ _
    have htb : s1.timeBase_ < UnsignedModulus := by
      rw [h4]
      exact hs.queue.queue_target top htop
    unfold restartFromInterrupt
    split
    · rename_i hq1
      refine ⟨h3.slots, h3.queue, h3.waits, ?_, h8, htb⟩
      rw [h6, hq1]; simp
    · rename_i top1 rest1 hq1
      refine ⟨⟨h3.slots.timers_length, h3.slots.timersCount_le, h3.slots.allocated_count,
        h3.slots.allocated_lt, h3.slots.handler_iff, h3.slots.wait_allocated⟩,
        queueOk_of_eq h3.queue rfl, fun i x hx hxw => h3.waits i x hx hxw, ?_, h8, htb⟩
      simp [hq1]

theorem reachable_inv {M : Nat} {s : TimerMgr} (h : Reachable M s) : Inv M s := by
  induction h with
  | init => exact inv_new M
  | allocTimer _ h ih => exact allocTimer_preserves ih h
  | deleteTimer _ h ih => exact deleteTimer_preserves ih h
  | cancelWait _ h ih => exact cancelWait_preserves ih h
  | scheduleWait _ h ih => exact scheduleWait_preserves ih h
  | deliverInterrupt _ h ih => exact deliverInterrupt_preserves ih h

/-! ## Cancellation -/

theorem posted_trace (s : TimerMgr) (evs : List Event) (t : List Event)
    (h : t = s.trace_ ++ evs) :
    (List.filterMap Event.toPost t) = s.posted ++ evs.filterMap Event.toPost := by
  rw [h, List.filterMap_append]; rfl

/-- C2: when the peripheral reports an active countdown and slot `idx` is allocated with a
wait in progress, `cancelWait idx` returns true, posts exactly one completion (the callable
stored in the slot, with status Aborted, through the non-interrupt post), leaves slot `idx`
without a wait in progress and without a callable, and leaves the schedule queue, its
length, `timeBase_` and every other slot unchanged. -/
theorem cancelWait_aborts_active_wait (M idx : Nat) (s : TimerMgr) (info : TimerInfo)
    (hr : Reachable M s) (hdev : s.deviceActive_ = true)
    (hget : s.timers_[idx]? = some info) (ha : info.isAllocated = true)
    (hw : info.isWaitInProgress = true) :
    ∃ f s', info.handler_ = some f ∧ cancelWait idx s = .ok (true, s') ∧
      s'.posted = s.posted ++
        [{ slot := idx, handler := f, status := .Aborted, interruptCtx := false }] ∧
      (∃ slot, s'.timers_[idx]? = some slot ∧ slot.isWaitInProgress = false ∧
        slot.handler_ = none) ∧
      s'.waitQueue_ = s.waitQueue_ ∧ s'.waitQueueCount_ = s.waitQueueCount_ ∧
      s'.timeBase_ = s.timeBase_ ∧
      ∀ j, j ≠ idx → s'.timers_[j]? = s.timers_[j]? := by
  have hinv := reachable_inv hr
  have hidx : idx < s.timersCount_ := hinv.slots.allocated_lt idx info hget ha
  have hsome : info.handler_.isSome = true := by
    rw [hinv.slots.handler_iff info (List.getElem?_mem hget), hw]
  obtain ⟨f, hf⟩ := Option.isSome_iff_exists.mp hsome
  have hlt := lt_length_of_getElem? hget
  refine ⟨f, _, hf, cancelWait_true hidx hget hdev ha hw hf, ?_, ?_, rfl, rfl, rfl, ?_⟩
  · simp [TimerMgr.posted, List.filterMap_append, Event.toPost]
  · exact ⟨({ info with handler_ := none } : TimerInfo).setWaitInProgress false,
      by simp [List.getElem?_set, hlt], by simp, by simp⟩
  · intro j hj
    simp [List.getElem?_set, Ne.symm hj]

theorem oneWaiting_reachable : Reachable 1 TimerMgr.oneWaiting :=
  @Reachable.scheduleWait 1 (TimerMgr.full 1) TimerMgr.oneWaiting 0 5 7 0
    (Reachable.allocTimer (t := { idx_ := 0 }) Reachable.init (by rfl)) (by rfl)

theorem full_one_reachable : Reachable 1 (TimerMgr.full 1) :=
  Reachable.allocTimer (t := { idx_ := 0 }) Reachable.init (by rfl)

/-- Witness of C2: the manager with one slot on which a wait of 5 units is in progress. -/
theorem cancelWait_aborts_active_wait_witness :
    Reachable 1 TimerMgr.oneWaiting ∧ TimerMgr.oneWaiting.deviceActive_ = true ∧
    ∃ f s', (some 7 : Option Nat) = some f ∧
      cancelWait 0 TimerMgr.oneWaiting = .ok (true, s') ∧
      s'.posted = TimerMgr.oneWaiting.posted ++
        [{ slot := 0, handler := f, status := .Aborted, interruptCtx := false }] ∧
      (∃ slot, s'.timers_[0]? = some slot ∧ slot.isWaitInProgress = false ∧
        slot.handler_ = none) ∧
      s'.waitQueue_ = TimerMgr.oneWaiting.waitQueue_ ∧
      s'.waitQueueCount_ = TimerMgr.oneWaiting.waitQueueCount_ ∧
      s'.timeBase_ = TimerMgr.oneWaiting.timeBase_ ∧
      ∀ j, j ≠ 0 → s'.timers_[j]? = TimerMgr.oneWaiting.timers_[j]? :=
  ⟨oneWaiting_reachable, rfl,
    cancelWait_aborts_active_wait 1 0 TimerMgr.oneWaiting
      { targetTime_ := 5, engagementId_ := 1, handler_ := some 7, flags_ := 3 }
      oneWaiting_reachable rfl rfl (by decide) (by decide)⟩

/-- C3: in a reachable state, `cancelWait idx` on an allocated slot that has no wait in
progress returns false, posts no completion, and leaves the slots, the schedule queue,
`timeBase_`, the occupancy count and the next engagement id unchanged, whether the
peripheral reports an active countdown or not. -/
theorem cancelWait_without_wait (M idx : Nat) (s : TimerMgr) (info : TimerInfo)
    (hr : Reachable M s) (hget : s.timers_[idx]? = some info)
    (ha : info.isAllocated = true) (hw : info.isWaitInProgress = false) :
    ∃ s', cancelWait idx s = .ok (false, s') ∧ s'.posted = s.posted ∧
      s'.timers_ = s.timers_ ∧ s'.waitQueue_ = s.waitQueue_ ∧ s'.timeBase_ = s.timeBase_ ∧
      s'.timersCount_ = s.timersCount_ ∧ s'.nextEngagementId_ = s.nextEngagementId_ ∧
      s'.deviceActive_ = s.deviceActive_ := by
  have hinv := reachable_inv hr
  have hidx : idx < s.timersCount_ := hinv.slots.allocated_lt idx info hget ha
  rcases Bool.eq_false_or_eq_true s.deviceActive_ with hdev | hdev
  · refine ⟨_, cancelWait_false_active hidx hget hdev ha hw, ?_, rfl, rfl, rfl, rfl, rfl, rfl⟩
    simp [TimerMgr.posted, List.filterMap_append, Event.toPost]
  · have hq : s.waitQueue_ = [] := by
      by_contra hne
      have := hinv.device_iff.mpr hne
      rw [hdev] at this; cases this
    refine ⟨_, cancelWait_false_idle hidx hget hdev hq hw, ?_, rfl, rfl, rfl, rfl, rfl, rfl⟩
    simp [TimerMgr.posted, List.filterMap_append, Event.toPost]

/-- Witness of C3: the manager with one allocated slot on which no wait was requested. -/
theorem cancelWait_without_wait_witness :
    Reachable 1 (TimerMgr.full 1) ∧
    ∃ s', cancelWait 0 (TimerMgr.full 1) = .ok (false, s') ∧
      s'.posted = (TimerMgr.full 1).posted ∧
      s'.timers_ = (TimerMgr.full 1).timers_ ∧ s'.waitQueue_ = (TimerMgr.full 1).waitQueue_ ∧
      s'.timeBase_ = (TimerMgr.full 1).timeBase_ ∧
      s'.timersCount_ = (TimerMgr.full 1).timersCount_ ∧
      s'.nextEngagementId_ = (TimerMgr.full 1).nextEngagementId_ ∧
      s'.deviceActive_ = (TimerMgr.full 1).deviceActive_ :=
  ⟨full_one_reachable,
    cancelWait_without_wait 1 0 (TimerMgr.full 1) TimerInfo.idle full_one_reachable rfl
      (by decide) (by decide)⟩

/-! ## Error fan-out -/

/-- C8: in a reachable state in which exactly `K` slots hold a pending callable,
`interruptHandler` called with an error status posts exactly `K` completions, one for each
such slot (in slot order), each carrying that status through the interrupt-context post;
afterwards no slot has a wait in progress or a stored callable, the queue length is 0 and
`timeBase_` is unchanged. -/
theorem interruptHandler_error_fans_out (M K : Nat) (s : TimerMgr) (es : ErrorStatus)
    (hr : Reachable M s) (he : es.isError = true)
    (hK : s.timers_.countP (fun info => info.handler_.isSome) = K) :
    ∃ s' new, interruptHandler es s = .ok s' ∧ s'.posted = s.posted ++ new ∧
      new.length = K ∧ new.Pairwise (fun p q => p.slot < q.slot) ∧
      (∀ p, p ∈ new ↔ ∃ info f, s.timers_[p.slot]? = some info ∧ info.handler_ = some f ∧
        p = { slot := p.slot, handler := f, status := es, interruptCtx := true }) ∧
      (∀ info ∈ s'.timers_, info.isWaitInProgress = false ∧ info.handler_ = none) ∧
      s'.waitQueueCount_ = 0 ∧ s'.timeBase_ = s.timeBase_ := by
  have hinv := reachable_inv hr
  refine ⟨_, pendingPosts es s.timers_ 0, interruptHandler_error hinv.slots he, ?_, ?_,
    pendingPosts_sorted _ _ _, ?_, ?_, rfl, rfl⟩
  · simp only [TimerMgr.posted, List.filterMap_append]
    congr 1
    induction pendingPosts es s.timers_ 0 with
    | nil => rfl
    | cons p ps ih => simp [List.filterMap_cons, Event.toPost, ih]
  · rw [pendingPosts_length, hK]
  · intro p
    rw [mem_pendingPosts]
    constructor
    · rintro ⟨k, info, f, hk, hf, rfl⟩
      exact ⟨info, f, by simpa using hk, hf, rfl⟩
    · rintro ⟨info, f, hget, hf, hp⟩
      exact ⟨p.slot, info, f, hget, hf, by rw [hp]; simp⟩
  · exact (dispatchAll_inv hinv.slots { s with
      trace_ := s.trace_ ++ (pendingPosts es s.timers_ 0).map Event.post
      timers_ := dispatchAll s.timers_
      waitQueue_ := [] } rfl rfl).2

/-- Witness of C8: one slot with a wait in progress and a hardware error. -/
theorem interruptHandler_error_fans_out_witness :
    Reachable 1 TimerMgr.oneWaiting ∧ (ErrorStatus.HwError 1).isError = true ∧
    TimerMgr.oneWaiting.timers_.countP (fun info => info.handler_.isSome) = 1 ∧
    ∃ s' new, interruptHandler (.HwError 1) TimerMgr.oneWaiting = .ok s' ∧
      s'.posted = TimerMgr.oneWaiting.posted ++ new ∧
      new.length = 1 ∧ new.Pairwise (fun p q => p.slot < q.slot) ∧
      (∀ p, p ∈ new ↔ ∃ info f, TimerMgr.oneWaiting.timers_[p.slot]? = some info ∧
        info.handler_ = some f ∧
        p = { slot := p.slot, handler := f, status := .HwError 1, interruptCtx := true }) ∧
      (∀ info ∈ s'.timers_, info.isWaitInProgress = false ∧ info.handler_ = none) ∧
      s'.waitQueueCount_ = 0 ∧ s'.timeBase_ = TimerMgr.oneWaiting.timeBase_ :=
  ⟨oneWaiting_reachable, rfl, rfl,
    interruptHandler_error_fans_out 1 1 TimerMgr.oneWaiting (.HwError 1)
      oneWaiting_reachable rfl rfl⟩

/-! ## Queue capacity -/

theorem scheduleWait_cases (idx timeUnits func elapsed : Nat) (s : TimerMgr) :
    (∃ info, s.timers_[idx]? = some info ∧ info.isAllocated = true ∧
      info.isWaitInProgress = false) ∨
    scheduleWait idx timeUnits func elapsed s = .error .scheduleWait_cancel_queueCount ∨
    scheduleWait idx timeUnits func elapsed s = .error .scheduleWait_idx ∨
    scheduleWait idx timeUnits func elapsed s = .error .outOfRange ∨
    scheduleWait idx timeUnits func elapsed s = .error .scheduleWait_isAllocated ∨
    scheduleWait idx timeUnits func elapsed s = .error .scheduleWait_waitInProgress := by
  by_cases hdev : s.deviceActive_ = true → s.waitQueue_ ≠ []
  swap
  · right; left
    have hd : s.deviceActive_ = true := by
      by_contra h; exact hdev (fun h' => absurd h' h)
    have hq : s.waitQueue_ = [] := by
      by_contra h; exact hdev (fun _ => h)
    unfold scheduleWait
    simp only [hd, if_true, TimerMgr.waitQueueCount_, hq, List.length_nil]
    rw [if_pos (by omega)]
  by_cases hidx : idx < s.timersCount_
  swap
  · right; right; left
    unfold scheduleWait
    simp only [TimerMgr.waitQueueCount_]
    rcases Bool.eq_false_or_eq_true s.deviceActive_ with hd | hd
    · have hq : 0 < s.waitQueue_.length := List.length_pos.mpr (hdev hd)
      rw [if_pos hd, if_neg (by omega)]
      simp only
      rw [if_pos hidx]
    · rw [if_neg (by simp [hd])]
      simp only
      rw [if_pos hidx]
  obtain hget | ⟨info, hget⟩ := (s.timers_[idx]?).eq_none_or_eq_some
  · right; right; right; left
    unfold scheduleWait
    simp only [TimerMgr.waitQueueCount_]
    rcases Bool.eq_false_or_eq_true s.deviceActive_ with hd | hd
    · have hq : 0 < s.waitQueue_.length := List.length_pos.mpr (hdev hd)
      rw [if_pos hd, if_neg (by omega)]
      simp only
      rw [if_neg (by omega), hget]
    · rw [if_neg (by simp [hd])]
      simp only
      rw [if_neg (by omega), hget]
  rcases Bool.eq_false_or_eq_true info.isAllocated with ha | ha
  swap
  · right; right; right; right; left
    unfold scheduleWait
    simp only [TimerMgr.waitQueueCount_]
    rcases Bool.eq_false_or_eq_true s.deviceActive_ with hd | hd
    · have hq : 0 < s.waitQueue_.length := List.length_pos.mpr (hdev hd)
      rw [if_pos hd, if_neg (by omega)]
      simp only
      rw [if_neg (by omega), hget]
      simp only
      rw [if_pos (by simp [ha])]
    · rw [if_neg (by simp [hd])]
      simp only
      rw [if_neg (by omega), hget]
      simp only
      rw [if_pos (by simp [ha])]
  rcases Bool.eq_false_or_eq_true info.isWaitInProgress with hw | hw
  · right; right; right; right; right
    unfold scheduleWait
    simp only [TimerMgr.waitQueueCount_]
    rcases Bool.eq_false_or_eq_true s.deviceActive_ with hd | hd
    · have hq : 0 < s.waitQueue_.length := List.length_pos.mpr (hdev hd)
      rw [if_pos hd, if_neg (by omega)]
      simp only
      rw [if_neg (by omega), hget]
      simp only
      rw [if_neg (by simp [ha]), if_pos (by simp [hw])]
    · rw [if_neg (by simp [hd])]
      simp only
      rw [if_neg (by omega), hget]
      simp only
      rw [if_neg (by simp [ha]), if_pos (by simp [hw])]
  · left
    exact ⟨info, hget, ha, hw⟩

/-- C9: in every reachable state the queue length is at most `2 * MaxTimers`, and no call of
`scheduleWait` made in a reachable state fails the assertion `waitQueueCount_ <
waitQueue_.size()` of `addToScheduledWaits`, whatever the number of cancel and reschedule
cycles that led to the state. -/
theorem waitQueue_never_overflows (M : Nat) (s : TimerMgr) (hr : Reachable M s) :
    s.waitQueueCount_ ≤ 2 * M ∧
    ∀ idx timeUnits func elapsed,
      scheduleWait idx timeUnits func elapsed s ≠ .error .addToScheduledWaits_queueCount := by
  have hinv := reachable_inv hr
  refine ⟨hinv.queue.queue_le, ?_⟩
  intro idx timeUnits func elapsed
  rcases scheduleWait_cases idx timeUnits func elapsed s with
    ⟨info, hget, ha, hw⟩ | h | h | h | h | h
  · obtain ⟨q, s6, _, _, _, h4⟩ := scheduleWait_spec timeUnits func elapsed hinv hget ha hw
    rw [h4]
    by_cases hq : s6.waitQueue_ = []
    · rw [startGuard_empty hq]; simp
    · obtain ⟨top, rest, hq⟩ := List.exists_cons_of_ne_nil hq
      rw [startGuard_ok hq]; simp
  all_goals (rw [h]; simp)

/-- Witness of C9: the manager with one slot on which a wait is in progress. -/
theorem waitQueue_never_overflows_witness :
    Reachable 1 TimerMgr.oneWaiting ∧ TimerMgr.oneWaiting.waitQueueCount_ ≤ 2 * 1 ∧
    ∀ idx timeUnits func elapsed,
      scheduleWait idx timeUnits func elapsed TimerMgr.oneWaiting ≠
        .error .addToScheduledWaits_queueCount :=
  ⟨oneWaiting_reachable, waitQueue_never_overflows 1 TimerMgr.oneWaiting oneWaiting_reachable⟩

/-! ## Allocation -/

theorem allocated_zero (M : Nat) : TimerMgr.allocated M 0 = TimerMgr.new M := by
  simp [TimerMgr.allocated, TimerMgr.new]

theorem allocated_self (M : Nat) : TimerMgr.allocated M M = TimerMgr.full M := by
  simp [TimerMgr.allocated, TimerMgr.full]

theorem allocTimer_allocated (M j : Nat) (hj : j < M) :
    allocTimer (TimerMgr.allocated M j) =
      .ok ({ idx_ := j % UnsignedModulus }, TimerMgr.allocated M (j + 1)) := by
  have hsplit : List.replicate (M - j) TimerInfo.new =
      TimerInfo.new :: List.replicate (M - (j + 1)) TimerInfo.new := by
    rw [show M - j = (M - (j + 1)) + 1 by omega, List.replicate_succ]
  have hfind : (List.replicate j TimerInfo.idle ++
      List.replicate (M - j) TimerInfo.new).findIdx (fun info => !info.isAllocated) = j := by
    rw [List.findIdx_append]
    have h1 : (List.replicate j TimerInfo.idle).findIdx (fun info => !info.isAllocated)
        = (List.replicate j TimerInfo.idle).length := by
      apply List.findIdx_eq_length_of_false
      intro x hx
      rw [List.eq_of_mem_replicate hx]
      decide
    rw [h1, if_neg (Nat.lt_irrefl _), hsplit, List.findIdx_cons]
    simp
  have hget : (List.replicate j TimerInfo.idle ++
      List.replicate (M - j) TimerInfo.new)[j]? = some TimerInfo.new := by
    rw [List.getElem?_append_right (by simp), hsplit]
    simp
  have hset : (List.replicate j TimerInfo.idle ++
      List.replicate (M - j) TimerInfo.new).set j
        ((TimerInfo.new.setAllocated true).setWaitInProgress false) =
      List.replicate (j + 1) TimerInfo.idle ++
        List.replicate (M - (j + 1)) TimerInfo.new := by
    have hidle : (TimerInfo.new.setAllocated true).setWaitInProgress false = TimerInfo.idle := by
      decide
    rw [hidle, hsplit, List.set_append_right _ _ (by simp)]
    simp only [List.length_replicate, Nat.sub_self, List.set_cons_zero]
    rw [List.replicate_succ', List.append_assoc]
    rfl
  unfold allocTimer
  simp only [TimerMgr.allocated, List.length_append, List.length_replicate]
  rw [if_pos (by omega), hfind, hget]
  simp only
  rw [hset]

theorem allocTimer_full (M : Nat) :
    allocTimer (TimerMgr.full M) = .ok ({ idx_ := Timer.InvalidIdx }, TimerMgr.full M) := by
  unfold allocTimer
  simp [TimerMgr.full]

theorem allocTimers_allocated (M : Nat) :
    ∀ k j, j + k ≤ M →
      allocTimers k (TimerMgr.allocated M j) =
        .ok ((List.range' j k).map (fun i => ({ idx_ := i % UnsignedModulus } : Timer)),
          TimerMgr.allocated M (j + k)) := by
  intro k
  induction k with
  | zero => intro j _; rfl
  | succ n ih =>
    intro j hj
    unfold allocTimers
    rw [allocTimer_allocated M j (by omega)]
    simp only
    rw [ih (j + 1) (by omega)]
    simp only [List.range'_succ, List.map_cons]
    rw [show j + 1 + n = j + (n + 1) by omega]

theorem allocTimers_full (M : Nat) :
    ∀ n, allocTimers n (TimerMgr.full M) =
      .ok (List.replicate n ({ idx_ := Timer.InvalidIdx } : Timer), TimerMgr.full M) := by
  intro n
  induction n with
  | zero => rfl
  | succ n ih =>
    unfold allocTimers
    rw [allocTimer_full]
    simp only
    rw [ih]
    rfl

/-- C4: on a fresh manager with `MaxTimers` slots (their indices representable in the
handle's `unsigned idx_`), with no handle released, the first `MaxTimers` calls of
`allocTimer` return valid handles bound to the pairwise distinct slots `0`, ...,
`MaxTimers - 1`, and every further call returns an invalid handle and leaves the manager
state unchanged. -/
theorem allocTimer_capacity (M : Nat) (hM : M ≤ Timer.InvalidIdx) :
    allocTimers M (TimerMgr.new M) =
      .ok ((List.range M).map (fun i => ({ idx_ := i } : Timer)), TimerMgr.full M) ∧
    (∀ t ∈ (List.range M).map (fun i => ({ idx_ := i } : Timer)), t.isValid = true) ∧
    ((List.range M).map (fun i => ({ idx_ := i } : Timer))).Nodup ∧
    (∀ t ∈ (List.range M).map (fun i => ({ idx_ := i } : Timer)),
      ∃ info, (TimerMgr.full M).timers_[t.idx_]? = some info ∧ info.isAllocated = true) ∧
    ∀ n, ∃ extra, allocTimers n (TimerMgr.full M) = .ok (extra, TimerMgr.full M) ∧
      extra.length = n ∧ ∀ t ∈ extra, t.isValid = false := by
  have hI : Timer.InvalidIdx = 4294967295 := rfl
  refine ⟨?_, ?_, ?_, ?_, ?_⟩
  · have := allocTimers_allocated M M 0 (by omega)
    rw [allocated_zero, Nat.zero_add, allocated_self] at this
    rw [this, List.range_eq_range']
    congr 1
    congr 1
    apply List.map_congr_left
    intro i hi
    have hlt : i < M := by
      have := (List.mem_range'_1.mp hi).2
      omega
    have : i % UnsignedModulus = i := Nat.mod_eq_of_lt (by simp only [UnsignedModulus]; omega)
    rw [this]
  · intro t ht
    obtain ⟨i, hi, rfl⟩ := List.mem_map.mp ht
    have := List.mem_range.mp hi
    simp only [Timer.isValid, bne_iff_ne, ne_eq]
    omega
  · apply List.Nodup.map _ (List.nodup_range M)
    intro a b h
    injection h
  · intro t ht
    obtain ⟨i, hi, rfl⟩ := List.mem_map.mp ht
    have := List.mem_range.mp hi
    refine ⟨TimerInfo.idle, ?_, by decide⟩
    simp [TimerMgr.full, List.getElem?_replicate, this]
  · intro n
    refine ⟨_, allocTimers_full M n, by simp, ?_⟩
    intro t ht
    rw [List.eq_of_mem_replicate ht]
    decide

/-- Witness of C4: a manager with three slots. -/
theorem allocTimer_capacity_witness :
    3 ≤ Timer.InvalidIdx ∧
    allocTimers 3 (TimerMgr.new 3) =
      .ok ((List.range 3).map (fun i => ({ idx_ := i } : Timer)), TimerMgr.full 3) ∧
    (∀ t ∈ (List.range 3).map (fun i => ({ idx_ := i } : Timer)), t.isValid = true) ∧
    ((List.range 3).map (fun i => ({ idx_ := i } : Timer))).Nodup ∧
    (∀ t ∈ (List.range 3).map (fun i => ({ idx_ := i } : Timer)),
      ∃ info, (TimerMgr.full 3).timers_[t.idx_]? = some info ∧ info.isAllocated = true) ∧
    ∀ n, ∃ extra, allocTimers n (TimerMgr.full 3) = .ok (extra, TimerMgr.full 3) ∧
      extra.length = n ∧ ∀ t ∈ extra, t.isValid = false :=
  ⟨by decide, allocTimer_capacity 3 (by decide)⟩

/-- C5, evaluated on the code: on a manager with one slot whose handle has been allocated,
`deleteTimer 0` frees the slot, and the next `allocTimer` still returns an invalid handle,
because `timersCount_` is not decremented by `deleteTimer`. -/
theorem allocTimer_after_deleteTimer_is_invalid :
    ∃ s1, deleteTimer 0 (TimerMgr.full 1) = .ok s1 ∧
      (∃ info, s1.timers_[0]? = some info ∧ info.isAllocated = false) ∧
      ∃ t, allocTimer s1 = .ok (t, s1) ∧ t.isValid = false :=
  ⟨{ TimerMgr.full 1 with
      timers_ := [{ targetTime_ := 0, engagementId_ := 0, handler_ := none, flags_ := 0 }] },
    rfl, ⟨_, rfl, rfl⟩, ⟨{ idx_ := Timer.InvalidIdx }, rfl, rfl⟩⟩

/-! ## The removal order of a heap -/

theorem popAll_perm : ∀ (n : Nat) (q : List ScheduledWaitInfo), q.length ≤ n →
    (popAll n q).Perm q := by
  intro n
  induction n with
  | zero =>
    intro q hq
    have : q = [] := List.length_eq_zero.mp (by omega)
    subst this
    exact List.Perm.refl _
  | succ n ih =>
    intro q hq
    cases q with
    | nil => exact List.Perm.refl _
    | cons top rest =>
      unfold popAll
      refine List.Perm.cons _ ((ih _ ?_).trans (pop_heap_perm _ _ _))
      rw [(pop_heap_perm _ _ _).length_eq]
      simpa using hq

theorem heapOrder_perm (q : List ScheduledWaitInfo) : (heapOrder q).Perm q :=
  popAll_perm _ _ (Nat.le_refl _)

theorem heapOrder_nil : heapOrder [] = [] := rfl

theorem heapOrder_cons (top : ScheduledWaitInfo) (rest : List ScheduledWaitInfo) :
    heapOrder (top :: rest) =
      top :: heapOrder (pop_heap ScheduledWaitPriorityComp (top :: rest)).dropLast := by
  unfold heapOrder
  rw [(pop_heap_perm _ _ _).length_eq]
  rfl

theorem heapOrder_sorted : ∀ (n : Nat) (q : List ScheduledWaitInfo), q.length ≤ n →
    IsHeap ScheduledWaitPriorityComp q →
    (heapOrder q).Pairwise (fun a b => ScheduledWaitPriorityComp a b = false) := by
  intro n
  induction n with
  | zero =>
    intro q hq _
    have : q = [] := List.length_eq_zero.mp (by omega)
    subst this
    exact List.Pairwise.nil
  | succ n ih =>
    intro q hq hheap
    cases q with
    | nil => exact List.Pairwise.nil
    | cons top rest =>
      rw [heapOrder_cons]
      refine List.Pairwise.cons ?_ (ih _ ?_ (pop_heap_isHeap comp_strictWeak _ _ hheap))
      · intro e he
        have h1 := (heapOrder_perm _).subset he
        have h2 := (pop_heap_perm ScheduledWaitPriorityComp top rest).subset h1
        exact isHeap_head_le comp_strictWeak top rest hheap e (List.mem_cons_of_mem _ h2)
      · rw [(pop_heap_perm _ _ _).length_eq]
        simpa using hq

/-! ## What one run of the loop posts -/

theorem liveIn_congr {ts ts' : List TimerInfo} {e : ScheduledWaitInfo}
    (h : ts'[e.timerInfo_]? = ts[e.timerInfo_]?) : liveIn ts' e = liveIn ts e := by
  unfold liveIn; rw [h]

theorem successOf_congr {ts ts' : List TimerInfo} {e : ScheduledWaitInfo} (ctx : Bool)
    (h : ts'[e.timerInfo_]? = ts[e.timerInfo_]?) : successOf ts' ctx e = successOf ts ctx e := by
  unfold successOf; rw [h]

theorem liveIn_iff {ts : List TimerInfo} {e : ScheduledWaitInfo} :
    liveIn ts e = true ↔ ∃ info, ts[e.timerInfo_]? = some info ∧ info.isAllocated = true ∧
      info.isWaitInProgress = true ∧ info.engagementId_ = e.engagementId_ := by
  unfold liveIn
  obtain h | ⟨info, h⟩ := (ts[e.timerInfo_]?).eq_none_or_eq_some
  · rw [h]; simp
  · rw [h]; simp [and_assoc]

theorem nodup_slots_of_perm {q q' : List ScheduledWaitInfo} (top : ScheduledWaitInfo)
    (h : (List.map (fun e => e.timerInfo_) (top :: q)).Nodup) (hp : q'.Perm q) :
    (List.map (fun e => e.timerInfo_) q').Nodup ∧ ∀ e ∈ q', e.timerInfo_ ≠ top.timerInfo_ := by
  rw [List.map_cons, List.nodup_cons] at h
  refine ⟨(hp.map _).nodup_iff.mpr h.2, ?_⟩
  intro e he heq
  exact h.1 (heq ▸ List.mem_map_of_mem _ (hp.subset he))

theorem drains_trace {M : Nat} {ctx : Bool} {s s' : TimerMgr} (h : Drains ctx s s')
    (hs : CoreInv M s) (hnd : (s.waitQueue_.map (fun e => e.timerInfo_)).Nodup) :
    ∃ popped, heapOrder s.waitQueue_ = popped ++ heapOrder s'.waitQueue_ ∧
      s'.trace_ = s.trace_ ++
        (popped.filter (liveIn s.timers_)).map (fun e => Event.post (successOf s.timers_ ctx e)) ∧
      (∀ e ∈ popped, ¬ s.timeBase_ < e.targetTime_) ∧
      (∀ i, (∀ e ∈ popped, liveIn s.timers_ e = true → e.timerInfo_ ≠ i) →
        s'.timers_[i]? = s.timers_[i]?) ∧
      (∀ e ∈ popped, liveIn s.timers_ e = true →
        s'.timers_[e.timerInfo_]? = (s.timers_[e.timerInfo_]?).map TimerInfo.dispatched) := by
  induction h with
  | empty hq => exact ⟨[], by simp, by simp, by simp, by simp, by simp⟩
  | future hq ht => exact ⟨[], by simp, by simp, by simp, by simp, by simp⟩
  | @fire s s' top rest info f hq ht hget ha hw hid hf _ ih =>
    have hlt := lt_length_of_getElem? hget
    have hinv := coreInv_fire hs top rest info
      (s.trace_ ++ [.post
        { slot := top.timerInfo_, handler := f, status := .Success, interruptCtx := ctx }])
      hq hget ha
    have hperm : ((pop_heap ScheduledWaitPriorityComp s.waitQueue_).dropLast).Perm rest := by
      rw [hq]; exact pop_heap_perm _ _ _
    rw [hq] at hnd
    obtain ⟨hnd1, hne⟩ := nodup_slots_of_perm top hnd hperm
    obtain ⟨popped, h1, h2, h3, h4, h5⟩ := ih hinv hnd1
    simp only at h1 h2 h3 h4 h5
    have hmem : ∀ e ∈ popped, e.timerInfo_ ≠ top.timerInfo_ := by
      intro e he
      apply hne
      apply (heapOrder_perm _).subset
      rw [h1]
      exact List.mem_append_left _ he
    have hsame : ∀ e ∈ popped,
        (s.timers_.set top.timerInfo_ info.dispatched)[e.timerInfo_]? =
          s.timers_[e.timerInfo_]? := by
      intro e he
      rw [List.getElem?_set, if_neg (Ne.symm (hmem e he))]
    have hlive : liveIn s.timers_ top = true :=
      liveIn_iff.mpr ⟨info, hget, ha, hw, hid⟩
    have hsucc : successOf s.timers_ ctx top =
        { slot := top.timerInfo_, handler := f, status := .Success, interruptCtx := ctx } := by
      simp [successOf, hget, hf]
    refine ⟨top :: popped, ?_, ?_, ?_, ?_, ?_⟩
    · rw [hq, heapOrder_cons, ← hq, h1]; rfl
    · rw [h2, List.filter_cons, hlive]
      simp only [if_true, List.map_cons, hsucc, List.append_assoc, List.singleton_append]
      congr 2
      rw [List.filter_congr (fun e he => liveIn_congr (hsame e he))]
      exact List.map_congr_left (fun e he => by
        rw [successOf_congr ctx (hsame e (List.mem_filter.mp he).1)])
    · intro e he
      rcases List.mem_cons.mp he with rfl | he
      · exact ht
      · exact h3 e he
    · intro i hi
      have hti : top.timerInfo_ ≠ i := hi top (List.mem_cons_self _ _) hlive
      rw [h4 i (fun e he hl => hi e (List.mem_cons_of_mem _ he)
        (by rw [← liveIn_congr (hsame e he)]; exact hl))]
      rw [List.getElem?_set, if_neg hti]
    · intro e he hl
      rcases List.mem_cons.mp he with rfl | he
      · rw [h4 _ (fun e' he' _ => hmem e' he')]
        simp [List.getElem?_set, hlt, hget]
      · rw [h5 e he (by rw [liveIn_congr (hsame e he)]; exact hl), hsame e he]
  | @skip s s' top rest info hq ht hget hdead _ ih =>
    have hinv := coreInv_skip hs top rest info hq hget hdead
    have hperm : ((pop_heap ScheduledWaitPriorityComp s.waitQueue_).dropLast).Perm rest := by
      rw [hq]; exact pop_heap_perm _ _ _
    rw [hq] at hnd
    obtain ⟨hnd1, hne⟩ := nodup_slots_of_perm top hnd hperm
    obtain ⟨popped, h1, h2, h3, h4, h5⟩ := ih hinv hnd1
    simp only at h1 h2 h3 h4 h5
    have hlive : liveIn s.timers_ top = false := by
      cases hl : liveIn s.timers_ top with
      | false => rfl
      | true =>
        obtain ⟨x, hx, h6, h7, h8⟩ := liveIn_iff.mp hl
        rw [hget] at hx; cases hx
        exact absurd ⟨h6, h7, h8⟩ hdead
    refine ⟨top :: popped, ?_, ?_, ?_, ?_, ?_⟩
    · rw [hq, heapOrder_cons, ← hq, h1]; rfl
    · rw [h2, List.filter_cons, hlive]
      simp
    · intro e he
      rcases List.mem_cons.mp he with rfl | he
      · exact ht
      · exact h3 e he
    · intro i hi
      exact h4 i (fun e he hl => hi e (List.mem_cons_of_mem _ he) hl)
    · intro e he hl
      rcases List.mem_cons.mp he with rfl | he
      · rw [hlive] at hl; cases hl
      · exact h5 e he hl

/-! ## Interrupts until the queue is empty -/

theorem filterMap_toPost_posts (ps : List Post) :
    (ps.map Event.post).filterMap Event.toPost = ps := by
  induction ps with
  | nil => rfl
  | cons p ps ih => simp [List.filterMap_cons, Event.toPost, ih]

theorem posted_of_trace {s s' : TimerMgr} {ps : List Post}
    (h : s'.trace_ = s.trace_ ++ ps.map Event.post) : s'.posted = s.posted ++ ps := by
  simp only [TimerMgr.posted, h, List.filterMap_append, filterMap_toPost_posts]

theorem restartFromInterrupt_facts (s : TimerMgr) :
    (restartFromInterrupt s).posted = s.posted ∧
    (restartFromInterrupt s).waitQueue_ = s.waitQueue_ ∧
    (restartFromInterrupt s).timers_ = s.timers_ ∧
    (restartFromInterrupt s).timeBase_ = s.timeBase_ := by
  unfold restartFromInterrupt
  split
  · exact ⟨rfl, rfl, rfl, rfl⟩
  · refine ⟨?_, rfl, rfl, rfl⟩
    simp [TimerMgr.posted, List.filterMap_append, Event.toPost]

theorem deliverInterrupt_success {M : Nat} {s : TimerMgr} {top : ScheduledWaitInfo}
    {rest : List ScheduledWaitInfo} (hs : Inv M s) (hq : s.waitQueue_ = top :: rest)
    (hnd : (s.waitQueue_.map (fun e => e.timerInfo_)).Nodup) :
    ∃ s1 popped, deliverInterrupt .Success s = .ok s1 ∧ Inv M s1 ∧
      s1.timeBase_ = top.targetTime_ ∧
      heapOrder s.waitQueue_ = popped ++ heapOrder s1.waitQueue_ ∧ popped ≠ [] ∧
      s1.posted = s.posted ++
        (popped.filter (liveIn s.timers_)).map (successOf s.timers_ true) ∧
      (∀ e ∈ popped, e.targetTime_ ≤ top.targetTime_) ∧
      (∀ i, (∀ e ∈ popped, liveIn s.timers_ e = true → e.timerInfo_ ≠ i) →
        s1.timers_[i]? = s.timers_[i]?) ∧
      (∀ e ∈ popped, liveIn s.timers_ e = true →
        s1.timers_[e.timerInfo_]? = (s.timers_[e.timerInfo_]?).map TimerInfo.dispatched) := by
  have htop : top ∈ s.waitQueue_ := by rw [hq]; exact List.mem_cons_self _ _
  have ht : s.timeBase_ ≤ top.targetTime_ := Nat.le_of_lt (hs.queue_future top htop)
  have hcore : CoreInv M { s with deviceActive_ := false } :=
    ⟨⟨hs.slots.timers_length, hs.slots.timersCount_le, hs.slots.allocated_count,
      hs.slots.allocated_lt, hs.slots.handler_iff, hs.slots.wait_allocated⟩,
      queueOk_of_eq hs.queue rfl, fun i x hx hxw => hs.waits i x hx hxw⟩
  have hcore1 : CoreInv M { s with deviceActive_ := false, timeBase_ := top.targetTime_ } :=
    ⟨⟨hs.slots.timers_length, hs.slots.timersCount_le, hs.slots.allocated_count,
      hs.slots.allocated_lt, hs.slots.handler_iff, hs.slots.wait_allocated⟩,
      queueOk_of_eq hs.queue rfl, fun i x hx hxw => hs.waits i x hx hxw⟩
  obtain ⟨s1, h1, h2⟩ := interruptHandler_normal .Success hcore rfl hq ht
  have hdel : deliverInterrupt .Success s = .ok (restartFromInterrupt s1) := h2
  obtain ⟨popped, h3, h4, h5, h6, h7⟩ := drains_trace h1 hcore1 hnd
  obtain ⟨_, h8, _, _, _, _, h9⟩ := drains_facts h1 hcore1
  obtain ⟨r1, r2, r3, r4⟩ := restartFromInterrupt_facts s1
  simp only at h3 h4 h5 h6 h7 h8 h9
  refine ⟨restartFromInterrupt s1, popped, hdel, deliverInterrupt_preserves hs hdel, ?_, ?_, ?_,
    ?_, ?_, ?_, ?_⟩
  · rw [r4, h8]
  · rw [r2]; exact h3
  · intro hp
    subst hp
    have hmem : top ∈ heapOrder s.waitQueue_ := (heapOrder_perm _).symm.subset htop
    rw [h3, List.nil_append] at hmem
    have := h9 top ((heapOrder_perm _).subset hmem)
    rw [h8] at this
    exact Nat.lt_irrefl _ this
  · rw [r1]
    have : s1.trace_ = s.trace_ ++
        ((popped.filter (liveIn s.timers_)).map (successOf s.timers_ true)).map
          Event.post := by
      rw [h4, List.map_map]; rfl
    exact posted_of_trace (s := { s with deviceActive_ := false, timeBase_ := top.targetTime_ })
      this
  · intro e he
    have := h5 e he
    omega
  · intro i hi; rw [r3]; exact h6 i hi
  · intro e he hl; rw [r3]; exact h7 e he hl

theorem drainInterrupts_spec {M : Nat} :
    ∀ (n : Nat) (s : TimerMgr), Inv M s →
      (s.waitQueue_.map (fun e => e.timerInfo_)).Nodup → s.waitQueue_.length ≤ n →
      ∃ s', drainInterrupts n s = .ok s' ∧ s'.waitQueue_ = [] ∧ Inv M s' ∧
        s'.posted = s.posted ++
          ((heapOrder s.waitQueue_).filter (liveIn s.timers_)).map
            (successOf s.timers_ true) := by
  intro n
  induction n with
  | zero =>
    intro s hs _ hlen
    have hq : s.waitQueue_ = [] := List.length_eq_zero.mp (by omega)
    refine ⟨s, rfl, hq, hs, ?_⟩
    rw [hq, heapOrder_nil]
    simp
  | succ n ih =>
    intro s hs hnd hlen
    by_cases hq : s.waitQueue_ = []
    · refine ⟨s, ?_, hq, hs, ?_⟩
      · unfold drainInterrupts; rw [hq]
      · rw [hq, heapOrder_nil]; simp
    · obtain ⟨top, rest, hq⟩ := List.exists_cons_of_ne_nil hq
      obtain ⟨s1, popped, h1, h2, _, h3, h4, h5, _, h6, _⟩ := deliverInterrupt_success hs hq hnd
      have hperm : s.waitQueue_.Perm (popped ++ s1.waitQueue_) := by
        refine (heapOrder_perm _).symm.trans ?_
        rw [h3]
        exact List.Perm.append_left _ (heapOrder_perm _)
      have hnd' : ((popped ++ s1.waitQueue_).map (fun e => e.timerInfo_)).Nodup :=
        (hperm.map _).nodup_iff.mp hnd
      rw [List.map_append] at hnd'
      have hnd1 := hnd'.of_append_right
      have hdisj : ∀ e ∈ s1.waitQueue_, ∀ e' ∈ popped, e'.timerInfo_ ≠ e.timerInfo_ := by
        intro e he e' he' heq
        exact (List.nodup_append.mp hnd').2.2 (List.mem_map_of_mem _ he')
          (heq ▸ List.mem_map_of_mem _ he)
      have hlen1 : s1.waitQueue_.length ≤ n := by
        have := hperm.length_eq
        rw [List.length_append] at this
        have : 0 < popped.length := List.length_pos.mpr h4
        omega
      obtain ⟨s', h7, h8, h9, h10⟩ := ih s1 h2 hnd1 hlen1
      refine ⟨s', ?_, h8, h9, ?_⟩
      · unfold drainInterrupts
        rw [hq]
        simp only
        rw [h1]
        exact h7
      · have hsame : ∀ e ∈ heapOrder s1.waitQueue_,
            s1.timers_[e.timerInfo_]? = s.timers_[e.timerInfo_]? := by
          intro e he
          exact h6 _ (fun e' he' _ => hdisj e ((heapOrder_perm _).subset he) e' he')
        rw [h10, h5, h3, List.filter_append, List.map_append, List.append_assoc]
        congr 2
        rw [List.filter_congr (fun e he => liveIn_congr (hsame e he))]
        exact List.map_congr_left (fun e he => by
          rw [successOf_congr true (hsame e (List.mem_filter.mp he).1)])

/-! ## Inversion of the loop relation -/

theorem drains_not_due {ctx : Bool} {s s' : TimerMgr} (h : Drains ctx s s')
    (hq : ∀ e ∈ s.waitQueue_, s.timeBase_ < e.targetTime_) : s' = s := by
  cases h with
  | empty _ => rfl
  | future _ _ => rfl
  | fire h1 h2 _ _ _ _ _ _ =>
    exact absurd (hq _ (by rw [h1]; exact List.mem_cons_self _ _)) h2
  | skip h1 h2 _ _ _ =>
    exact absurd (hq _ (by rw [h1]; exact List.mem_cons_self _ _)) h2

theorem drains_fire_inv {ctx : Bool} {s s' : TimerMgr} {top : ScheduledWaitInfo}
    {rest : List ScheduledWaitInfo} {info : TimerInfo} {f : Nat} (h : Drains ctx s s')
    (hq : s.waitQueue_ = top :: rest) (ht : ¬ s.timeBase_ < top.targetTime_)
    (hget : s.timers_[top.timerInfo_]? = some info) (ha : info.isAllocated = true)
    (hw : info.isWaitInProgress = true) (hid : info.engagementId_ = top.engagementId_)
    (hf : info.handler_ = some f) :
    Drains ctx { s with
      trace_ := s.trace_ ++ [.post
        { slot := top.timerInfo_, handler := f, status := .Success, interruptCtx := ctx }]
      timers_ := s.timers_.set top.timerInfo_ info.dispatched
      waitQueue_ := (pop_heap ScheduledWaitPriorityComp s.waitQueue_).dropLast } s' := by
  cases h with
  | empty h1 => rw [hq] at h1; cases h1
  | future h1 h2 =>
    rw [hq] at h1
    injection h1 with h1 _
    subst h1
    exact absurd h2 ht
  | @fire _ _ top' rest' info' f' h1 h2 h3 h4 h5 h6 h7 h8 =>
    rw [hq] at h1
    injection h1 with h1 _
    subst h1
    rw [hget] at h3
    cases h3
    rw [hf] at h7
    cases h7
    exact h8
  | @skip _ _ top' rest' info' h1 h2 h3 h4 h5 =>
    rw [hq] at h1
    injection h1 with h1 _
    subst h1
    rw [hget] at h3
    cases h3
    exact absurd ⟨ha, hw, hid⟩ h4

theorem drains_skip_inv {ctx : Bool} {s s' : TimerMgr} {top : ScheduledWaitInfo}
    {rest : List ScheduledWaitInfo} {info : TimerInfo} (h : Drains ctx s s')
    (hq : s.waitQueue_ = top :: rest) (ht : ¬ s.timeBase_ < top.targetTime_)
    (hget : s.timers_[top.timerInfo_]? = some info)
    (hdead : ¬ (info.isAllocated = true ∧ info.isWaitInProgress = true ∧
      info.engagementId_ = top.engagementId_)) :
    Drains ctx { s with
      waitQueue_ := (pop_heap ScheduledWaitPriorityComp s.waitQueue_).dropLast } s' := by
  cases h with
  | empty h1 => rw [hq] at h1; cases h1
  | future h1 h2 =>
    rw [hq] at h1
    injection h1 with h1 _
    subst h1
    exact absurd h2 ht
  | @fire _ _ top' rest' info' f' h1 h2 h3 h4 h5 h6 h7 h8 =>
    rw [hq] at h1
    injection h1 with h1 _
    subst h1
    rw [hget] at h3
    cases h3
    exact absurd ⟨h4, h5, h6⟩ hdead
  | @skip _ _ top' rest' info' h1 h2 h3 h4 h5 =>
    exact h5

/-! ## Scheduling a list of requests at time base 0 -/

theorem reachable_allocated (M : Nat) : ∀ j, j ≤ M → Reachable M (TimerMgr.allocated M j) := by
  intro j
  induction j with
  | zero => intro _; rw [allocated_zero]; exact Reachable.init
  | succ n ih =>
    intro hn
    exact Reachable.allocTimer (ih (by omega)) (allocTimer_allocated M n (by omega))

theorem waitingSlot_flags (j : Nat) (r : Nat × Nat) :
    (waitingSlot j r).isAllocated = true ∧ (waitingSlot j r).isWaitInProgress = true ∧
    (waitingSlot j r).handler_ = some r.2 ∧ (waitingSlot j r).engagementId_ = j + 1 ∧
    (waitingSlot j r).targetTime_ = r.1 := by
  have h1 : (3 &&& 1 : Nat) = 1 := by decide
  have h2 : (3 &&& 2 : Nat) = 2 := by decide
  refine ⟨?_, ?_, rfl, rfl, rfl⟩
  · simp [waitingSlot, TimerInfo.isAllocated, AllocatedFlagMask, h1]
  · simp [waitingSlot, TimerInfo.isWaitInProgress, WaitInProgressMask, h2]

theorem armed_record (k d f : Nat) (hd : d < UnsignedModulus) (hk : k + 1 < UnsignedModulus)
    (b : Bool) :
    (({ TimerInfo.idle with
        targetTime_ := ((if b then (0 + 0) % UnsignedModulus else 0) + d) % UnsignedModulus
        engagementId_ := (k + 1) % UnsignedModulus
        handler_ := some f } : TimerInfo).setWaitInProgress true) = waitingSlot k (d, f) := by
  have h0 : (if b then (0 + 0) % UnsignedModulus else 0) = 0 := by
    cases b <;> simp
  rw [h0, Nat.zero_add, Nat.mod_eq_of_lt hd, Nat.mod_eq_of_lt hk]
  have h3 : (1 ||| 2 : Nat) = 3 := by decide
  simp [TimerInfo.setWaitInProgress, TimerInfo.updateFlag, TimerInfo.idle, waitingSlot,
    WaitInProgressMask, h3]

theorem zeroPosts_cons (r : Nat × Nat) (rest : List (Nat × Nat)) (idx : Nat) :
    zeroPosts (r :: rest) idx =
      if r.1 = 0 then
        { slot := idx, handler := r.2, status := .Success, interruptCtx := false } ::
          zeroPosts rest (idx + 1)
      else zeroPosts rest (idx + 1) := rfl

theorem zeroPosts_append (l1 l2 : List (Nat × Nat)) (idx : Nat) :
    zeroPosts (l1 ++ l2) idx = zeroPosts l1 idx ++ zeroPosts l2 (idx + l1.length) := by
  induction l1 generalizing idx with
  | nil => simp [zeroPosts]
  | cons r rest ih =>
    have h := ih (idx + 1)
    rw [show idx + 1 + rest.length = idx + (r :: rest).length by
      simp only [List.length_cons]; omega] at h
    show zeroPosts (r :: (rest ++ l2)) idx = _
    rw [zeroPosts_cons, zeroPosts_cons, h]
    split <;> simp

theorem take_succ_of_get {α : Type} (l : List α) (k : Nat) (r : α) (h : l[k]? = some r) :
    l.take (k + 1) = l.take k ++ [r] := by
  rw [List.take_succ, h]; rfl

theorem armed_facts (k d f : Nat) (s : TimerMgr) (htb : s.timeBase_ = 0)
    (hid : s.nextEngagementId_ = k) (hd : d < UnsignedModulus)
    (hk : k + 1 < UnsignedModulus) :
    (armed k d f 0 TimerInfo.idle s).timeBase_ = 0 ∧
    (armed k d f 0 TimerInfo.idle s).timers_ = s.timers_.set k (waitingSlot k (d, f)) ∧
    (armed k d f 0 TimerInfo.idle s).nextEngagementId_ = k + 1 ∧
    (armed k d f 0 TimerInfo.idle s).posted = s.posted ∧
    (armed k d f 0 TimerInfo.idle s).waitQueue_ = s.waitQueue_ := by
  refine ⟨?_, ?_, ?_, ?_, rfl⟩
  · simp only [armed, htb]
    split <;> simp
  · simp only [armed, htb, hid]
    rw [armed_record k d f hd hk]
  · simp only [armed, hid]
    exact Nat.mod_eq_of_lt hk
  · simp only [armed, TimerMgr.posted]
    split <;> simp [List.filterMap_append, Event.toPost]

theorem new_entry_eq (k d : Nat) (s : TimerMgr) (htb : s.timeBase_ = 0)
    (hid : s.nextEngagementId_ = k) (hd : d < UnsignedModulus)
    (hk : k + 1 < UnsignedModulus) (f : Nat) :
    ({ timerInfo_ := k
       engagementId_ := (s.nextEngagementId_ + 1) % UnsignedModulus
       targetTime_ :=
        ((if s.deviceActive_ then (s.timeBase_ + 0) % UnsignedModulus
          else s.timeBase_) + d) % UnsignedModulus } : ScheduledWaitInfo) =
      waitEntry k (d, f) := by
  have h0 : (if s.deviceActive_ then (0 + 0) % UnsignedModulus else 0) = 0 := by
    split <;> simp
  rw [htb, hid, h0, Nat.zero_add, Nat.mod_eq_of_lt hd, Nat.mod_eq_of_lt hk]
  rfl

theorem scheduled_enqueue {M N : Nat} {reqs : List (Nat × Nat)} {k d f : Nat} {s : TimerMgr}
    (hsch : Scheduled M N reqs k 0 s) (hk : k < N) (hNM : N ≤ M) (hMU : M ≤ Timer.InvalidIdx)
    (hd : d < UnsignedModulus) :
    ∃ q s6,
      CoreInv M { armed k d f 0 TimerInfo.idle s with waitQueue_ := q } ∧
      q.Perm (s.waitQueue_ ++ [waitEntry k (d, f)]) ∧
      Drains false { armed k d f 0 TimerInfo.idle s with waitQueue_ := q } s6 ∧
      scheduleWait k d f 0 s = startGuard s6 := by
  have hI : Timer.InvalidIdx = 4294967295 := rfl
  have hs := reachable_inv hsch.reach
  have hget : s.timers_[k]? = some TimerInfo.idle := hsch.idle k (Nat.le_refl _) hk
  obtain ⟨q, s6, hcore, hperm, hdr, heq⟩ := scheduleWait_spec d f 0 hs hget (by decide)
    (by decide)
  refine ⟨q, s6, hcore, ?_, hdr, heq⟩
  rcases hperm with ⟨hfull, _⟩ | ⟨_, hp⟩
  · have h1 := hs.slots.timers_length
    have h2 := hsch.queue_length
    simp only [ScheduleQueueScale] at hfull
    omega
  · rw [new_entry_eq k d s hsch.timeBase hsch.nextId hd
      (by simp only [UnsignedModulus]; omega) f] at hp
    exact hp

theorem scheduled_succ {M N : Nat} {reqs : List (Nat × Nat)} {k d f : Nat} {s s' : TimerMgr}
    (hsch : Scheduled M N reqs k 0 s) (hk : k < N) (hr : reqs[k]? = some (d, f))
    (hreach : Reachable M s') (htb : s'.timeBase_ = 0) (hid : s'.nextEngagementId_ = k + 1)
    (ht : s'.timers_ = s.timers_.set k
      (if d = 0 then (waitingSlot k (d, f)).dispatched else waitingSlot k (d, f)))
    (hq : s'.waitQueue_.Perm
      (if d = 0 then s.waitQueue_ else s.waitQueue_ ++ [waitEntry k (d, f)]))
    (hp : s'.posted = s.posted ++
      (if d = 0 then [{ slot := k, handler := f, status := .Success, interruptCtx := false }]
       else [])) :
    Scheduled M N reqs (k + 1) 0 s' := by
  have hget : s.timers_[k]? = some TimerInfo.idle := hsch.idle k (Nat.le_refl _) hk
  have hlt := lt_length_of_getElem? hget
  have hklen := lt_length_of_getElem? hr
  refine ⟨hreach, htb, hid, ?_, ?_, ?_, ?_, ?_, ?_⟩
  · intro j r hj hjr
    rw [ht, List.getElem?_set]
    by_cases hjk : k = j
    · subst hjk
      rw [hr] at hjr
      cases hjr
      rw [if_pos rfl, if_pos hlt]
      simp
    · rw [if_neg hjk]
      have := hsch.slots j r (by omega) hjr
      rw [this]
  · intro j hj1 hj2
    rw [ht, List.getElem?_set, if_neg (by omega)]
    exact hsch.idle j (by omega) hj2
  · intro e
    rw [hq.mem_iff]
    by_cases hd : d = 0
    · rw [if_pos hd, hsch.queue e]
      constructor
      · rintro ⟨j, r, h1, h2, h3, h4⟩
        exact ⟨j, r, by omega, h2, h3, h4⟩
      · rintro ⟨j, r, h1, h2, h3, h4⟩
        by_cases hjk : j = k
        · subst hjk
          rw [hr] at h2
          cases h2
          simp only at h3
          omega
        · exact ⟨j, r, by omega, h2, h3, h4⟩
    · rw [if_neg hd, List.mem_append, hsch.queue e, List.mem_singleton]
      constructor
      · rintro (⟨j, r, h1, h2, h3, h4⟩ | rfl)
        · exact ⟨j, r, by omega, h2, h3, h4⟩
        · exact ⟨k, (d, f), by omega, hr, by simp only; omega, rfl⟩
      · rintro ⟨j, r, h1, h2, h3, h4⟩
        by_cases hjk : j = k
        · subst hjk
          rw [hr] at h2
          cases h2
          exact Or.inr h4
        · exact Or.inl ⟨j, r, by omega, h2, h3, h4⟩
  · rw [(hq.map _).nodup_iff]
    by_cases hd : d = 0
    · rw [if_pos hd]; exact hsch.nodup
    · rw [if_neg hd, List.map_append, List.nodup_append]
      refine ⟨hsch.nodup, by simp, ?_⟩
      intro a ha1 ha2
      simp only [List.map_cons, List.map_nil, List.mem_singleton] at ha2
      obtain ⟨e, he, rfl⟩ := List.mem_map.mp ha1
      obtain ⟨j, r, h1, _, _, rfl⟩ := (hsch.queue e).mp he
      simp only [waitEntry] at ha2
      omega
  · rw [hq.length_eq]
    have := hsch.queue_length
    split
    · omega
    · simp only [List.length_append, List.length_singleton]; omega
  · rw [hp, hsch.posted, take_succ_of_get reqs k (d, f) hr, zeroPosts_append]
    simp only [List.take_zero, abortedPosts, List.append_nil, List.length_take, Nat.zero_add]
    rw [Nat.min_eq_left (by omega), zeroPosts_cons]
    simp only
    split <;> simp [zeroPosts]

theorem schedule_step {M N : Nat} {reqs : List (Nat × Nat)} {k d f : Nat} {s : TimerMgr}
    (hsch : Scheduled M N reqs k 0 s) (hk : k < N) (hNM : N ≤ M) (hMU : M ≤ Timer.InvalidIdx)
    (hr : reqs[k]? = some (d, f)) (hd : d < UnsignedModulus)
    (hne : d = 0 → s.waitQueue_ ≠ []) :
    ∃ s', scheduleWait k d f 0 s = .ok s' ∧ Scheduled M N reqs (k + 1) 0 s' := by
  have hI : Timer.InvalidIdx = 4294967295 := rfl
  have hget : s.timers_[k]? = some TimerInfo.idle := hsch.idle k (Nat.le_refl _) hk
  have hlt := lt_length_of_getElem? hget
  obtain ⟨q, s6, hcore, hperm, hdr, heq⟩ := scheduled_enqueue (f := f) hsch hk hNM hMU hd
  obtain ⟨ha1, ha2, ha3, ha4, ha5⟩ := armed_facts k d f s hsch.timeBase hsch.nextId hd
    (by simp only [UnsignedModulus]; omega)
  have hold : ∀ e ∈ s.waitQueue_, 0 < e.targetTime_ := by
    intro e he
    obtain ⟨j, r, _, _, h3, rfl⟩ := (hsch.queue e).mp he
    exact h3
  have hnew : waitEntry k (d, f) ∈ q := hperm.symm.subset (by simp)
  by_cases hd0 : d = 0
  · -- the new entry is due at once and is dispatched inside scheduleWait
    subst hd0
    obtain ⟨top, rest, hq⟩ := List.exists_cons_of_ne_nil (List.ne_nil_of_mem hnew)
    have hheap := hcore.queue.queue_heap
    simp only at hheap
    rw [hq] at hheap
    have htop : top = waitEntry k (0, f) := by
      have h1 := isHeap_head_le comp_strictWeak top rest hheap _ (hq ▸ hnew)
      rw [comp_eq_false_iff] at h1
      have h2 : top ∈ s.waitQueue_ ++ [waitEntry k (0, f)] :=
        hperm.subset (by rw [hq]; exact List.mem_cons_self _ _)
      rcases List.mem_append.mp h2 with h2 | h2
      · have := hold top h2
        simp only [waitEntry] at h1
        omega
      · simpa using h2
    subst htop
    have hrest : rest.Perm s.waitQueue_ := by
      rw [hq] at hperm
      exact (hperm.trans (List.perm_append_singleton _ _)).cons_inv
    have hgetk : ({ armed k 0 f 0 TimerInfo.idle s with waitQueue_ := q } : TimerMgr).timers_[
        (waitEntry k (0, f)).timerInfo_]? = some (waitingSlot k (0, f)) := by
      simp only [ha2, waitEntry, List.getElem?_set, hlt, if_true]
    obtain ⟨w1, w2, w3, w4, w5⟩ := waitingSlot_flags k (0, f)
    have hfire := drains_fire_inv hdr hq (by simp [ha1, waitEntry]) hgetk w1 w2
      (by rw [w4]; rfl) w3
    have hpopperm : ((pop_heap ScheduledWaitPriorityComp q).dropLast).Perm s.waitQueue_ := by
      rw [hq]; exact (pop_heap_perm _ _ _).trans hrest
    have hs6 := drains_not_due hfire (by
      intro e he
      simp only [ha1]
      exact hold e (hpopperm.subset he))
    obtain ⟨top1, rest1, hq1⟩ := List.exists_cons_of_ne_nil
      (fun h => hne rfl (List.Perm.eq_nil (h ▸ hpopperm.symm)))
    rw [hs6] at heq
    have hok := heq.trans (startGuard_ok hq1)
    refine ⟨_, hok, ?_⟩
    refine scheduled_succ hsch hk hr (Reachable.scheduleWait hsch.reach hok) ha1 ha3 ?_ ?_ ?_
    · rw [if_pos rfl]
      simp only [ha2, waitEntry, List.set_set]
    · rw [if_pos rfl]; exact hpopperm
    · rw [if_pos rfl, ← ha4]
      simp [TimerMgr.posted, List.filterMap_append, Event.toPost, waitEntry]
  · have hs6 := drains_not_due hdr (by
      intro e he
      simp only [ha1]
      rcases List.mem_append.mp (hperm.subset he) with h | h
      · exact hold e h
      · simp only [List.mem_singleton] at h
        subst h
        simp only [waitEntry]
        omega)
    obtain ⟨top, rest, hq⟩ := List.exists_cons_of_ne_nil (List.ne_nil_of_mem hnew)
    rw [hs6] at heq
    have hok := heq.trans (startGuard_ok hq)
    refine ⟨_, hok, ?_⟩
    refine scheduled_succ hsch hk hr (Reachable.scheduleWait hsch.reach hok) ha1 ha3 ?_ ?_ ?_
    · rw [if_neg hd0]; exact ha2
    · rw [if_neg hd0]; exact hperm
    · rw [if_neg hd0, ← ha4]
      simp [TimerMgr.posted, List.filterMap_append, Event.toPost]

theorem scheduled_start (M N : Nat) (reqs : List (Nat × Nat)) (hNM : N ≤ M) :
    Scheduled M N reqs 0 0 (TimerMgr.allocated M N) := by
  refine ⟨reachable_allocated M N hNM, rfl, rfl, ?_, ?_, ?_, ?_, ?_, ?_⟩
  · intro j r hj; omega
  · intro j _ hj
    simp only [TimerMgr.allocated]
    rw [List.getElem?_append_left (by simpa using hj)]
    simp [List.getElem?_replicate, hj]
  · intro e
    simp only [TimerMgr.allocated, List.not_mem_nil, false_iff]
    rintro ⟨j, r, hj, _⟩
    omega
  · simp [TimerMgr.allocated]
  · simp [TimerMgr.allocated]
  · simp [TimerMgr.allocated, TimerMgr.posted, zeroPosts, abortedPosts]

theorem scheduleAll_spec {M N : Nat} {reqs : List (Nat × Nat)} (hNM : N ≤ M)
    (hMU : M ≤ Timer.InvalidIdx) (hN : reqs.length = N)
    (hdur : ∀ r ∈ reqs, r.1 < UnsignedModulus)
    (hfirst : ∀ r, reqs[0]? = some r → 0 < r.1) :
    ∀ (l : List (Nat × Nat)) (k : Nat) (s : TimerMgr), (∀ i, l[i]? = reqs[k + i]?) →
      k + l.length = N → Scheduled M N reqs k 0 s →
      ∃ s', scheduleAll l k s = .ok s' ∧ Scheduled M N reqs N 0 s' := by
  intro l
  induction l with
  | nil =>
    intro k s _ hk hsch
    simp only [List.length_nil, Nat.add_zero] at hk
    subst hk
    exact ⟨s, rfl, hsch⟩
  | cons r rest ih =>
    intro k s hl hk hsch
    obtain ⟨d, f⟩ := r
    simp only [List.length_cons] at hk
    have hr : reqs[k]? = some (d, f) := by
      have := hl 0
      simpa using this.symm
    have hd : d < UnsignedModulus := hdur (d, f) (List.getElem?_mem hr)
    have hne : d = 0 → s.waitQueue_ ≠ [] := by
      intro hd0
      by_cases hk0 : k = 0
      · subst hk0
        have := hfirst (d, f) hr
        simp only at this
        omega
      · have h0 : 0 < reqs.length := by omega
        have hr0 : reqs[0]? = some reqs[0] := List.getElem?_eq_getElem h0
        have hmem : waitEntry 0 reqs[0] ∈ s.waitQueue_ :=
          (hsch.queue _).mpr ⟨0, reqs[0], by omega, hr0, hfirst _ hr0, rfl⟩
        exact List.ne_nil_of_mem hmem
    obtain ⟨s1, h1, h2⟩ := schedule_step hsch (by omega) hNM hMU hr hd hne
    obtain ⟨s', h3, h4⟩ := ih (k + 1) s1
      (by
        intro i
        have := hl (i + 1)
        rw [show k + 1 + i = k + (i + 1) by omega]
        simpa using this)
      (by omega) h2
    refine ⟨s', ?_, h4⟩
    unfold scheduleAll
    rw [h1]
    exact h3

theorem eq_singleton_of_nodup {α : Type} {l : List α} {a : α} (hn : l.Nodup) (ha : a ∈ l)
    (hall : ∀ x ∈ l, x = a) : l = [a] := by
  cases l with
  | nil => cases ha
  | cons x rest =>
    have hx : x = a := hall x (List.mem_cons_self _ _)
    subst hx
    congr 1
    cases rest with
    | nil => rfl
    | cons y rest' =>
      have hy : y = x := hall y (List.mem_cons_of_mem _ (List.mem_cons_self _ _))
      subst hy
      rw [List.nodup_cons] at hn
      exact absurd (List.mem_cons_self _ _) hn.1

theorem dispatched_not_waiting (info : TimerInfo) :
    info.dispatched.isWaitInProgress = false := by
  simp [TimerInfo.dispatched]

theorem liveIn_waitEntry {M N : Nat} {reqs : List (Nat × Nat)} {c j : Nat} {r : Nat × Nat}
    {s : TimerMgr} (hsch : Scheduled M N reqs N c s) (hj : j < N) (hr : reqs[j]? = some r)
    (hpos : 0 < r.1) :
    liveIn s.timers_ (waitEntry j r) = decide (c ≤ j) ∧
    (c ≤ j → successOf s.timers_ true (waitEntry j r) =
      { slot := j, handler := r.2, status := .Success, interruptCtx := true }) := by
  have hget := hsch.slots j r hj hr
  by_cases hjc : j < c
  · rw [if_pos (Or.inr hjc)] at hget
    refine ⟨?_, fun h => by omega⟩
    simp only [liveIn, waitEntry, hget, dispatched_not_waiting]
    simp
    omega
  · rw [if_neg (by omega)] at hget
    obtain ⟨w1, w2, w3, w4, _⟩ := waitingSlot_flags j r
    refine ⟨?_, fun _ => ?_⟩
    · simp only [liveIn, waitEntry, hget, w1, w2, w4]
      simp
      omega
    · simp [successOf, waitEntry, hget, w3]

theorem nodup_of_nodup_slots {q : List ScheduledWaitInfo}
    (h : (q.map (fun e => e.timerInfo_)).Nodup) : q.Nodup :=
  List.Nodup.of_map _ h

theorem allocTimers_initial (M N : Nat) (hNM : N ≤ M) :
    allocTimers N (TimerMgr.new M) =
      .ok ((List.range' 0 N).map (fun i => ({ idx_ := i % UnsignedModulus } : Timer)),
        TimerMgr.allocated M N) := by
  have := allocTimers_allocated M N 0 (by omega)
  rw [allocated_zero, Nat.zero_add] at this
  exact this

theorem waitScenario_eq {M : Nat} {reqs : List (Nat × Nat)} {c : Nat} {s2 s3 s4 : TimerMgr}
    {rs : List Bool} (hNM : reqs.length ≤ M)
    (h2 : scheduleAll reqs 0 (TimerMgr.allocated M reqs.length) = .ok s2)
    (h3 : cancelAll c 0 s2 = .ok (rs, s3))
    (h4 : drainInterrupts s3.waitQueue_.length s3 = .ok s4) :
    waitScenario M reqs c = .ok (rs, s4) := by
  unfold waitScenario
  rw [allocTimers_initial M reqs.length hNM]
  simp only
  rw [h2]
  simp only
  rw [h3]
  simp only [TimerMgr.waitQueueCount_]
  rw [h4]

/-- C1, evaluated on the code: on a fresh manager with one slot, a single wait of duration
0 is dispatched inside `scheduleWait`, the queue is then empty, and the assertion
`0 < waitQueueCount_` of the exit action of `scheduleWait` fails. -/
theorem single_zero_wait_fails_start_guard :
    waitScenario 1 [(0, 7)] 0 = .error .startGuard_queueCount := rfl

/-- The scenario of the specification: capacity 3, durations 50, 10, 30 on the handles A, B,
C; the completions are posted in the order B, C, A. -/
theorem documented_order_scenario :
    ∃ s4, waitScenario 3 [(50, 100), (10, 101), (30, 102)] 0 = .ok ([], s4) ∧
      s4.posted =
        [{ slot := 1, handler := 101, status := .Success, interruptCtx := true },
         { slot := 2, handler := 102, status := .Success, interruptCtx := true },
         { slot := 0, handler := 100, status := .Success, interruptCtx := true }] :=
  ⟨_, rfl, rfl⟩

/-- C10, evaluated on the code: in the reachable state of a manager whose only slot is
allocated and idle, `scheduleWait(0, 0, f)` ends in the failed assertion
`0 < waitQueueCount_` of its exit action instead of returning. -/
theorem zero_wait_on_empty_queue_fails :
    Reachable 1 (TimerMgr.full 1) ∧
    scheduleWait 0 0 7 0 (TimerMgr.full 1) = .error .startGuard_queueCount :=
  ⟨full_one_reachable, rfl⟩

/-! ## The completions of one slot -/

theorem postsOf_append (i : Nat) (a b : List Post) :
    postsOf i (a ++ b) = postsOf i a ++ postsOf i b := by
  simp [postsOf]

theorem postsOf_self (i f : Nat) (st : ErrorStatus) (ctx : Bool) :
    postsOf i [{ slot := i, handler := f, status := st, interruptCtx := ctx }] =
      [{ slot := i, handler := f, status := st, interruptCtx := ctx }] := by
  simp [postsOf]

theorem postsOf_other {i j : Nat} (h : j ≠ i) (f : Nat) (st : ErrorStatus) (ctx : Bool) :
    postsOf i [{ slot := j, handler := f, status := st, interruptCtx := ctx }] = [] := by
  simp [postsOf, h]

theorem posted_of_events (s s' : TimerMgr) (evs : List Event)
    (h : s'.trace_ = s.trace_ ++ evs) :
    s'.posted = s.posted ++ evs.filterMap Event.toPost :=
  posted_trace s evs s'.trace_ h

theorem pop_subset {q : List ScheduledWaitInfo} {top : ScheduledWaitInfo}
    {rest : List ScheduledWaitInfo} (hq : q = top :: rest) :
    ∀ e, e ∈ (pop_heap ScheduledWaitPriorityComp q).dropLast ↔ e ∈ rest := by
  intro e
  rw [hq]
  exact (pop_heap_perm _ _ _).mem_iff

/-! ## What the loop of `postExpiredHandlers` does to one slot -/

/-- A slot without a wait in progress is not touched by the loop, and nothing is posted for
it. -/
theorem drains_idle {ctx : Bool} {s s' : TimerMgr} (h : Drains ctx s s') (i : Nat)
    (hidle : Idle i s) :
    s'.timers_[i]? = s.timers_[i]? ∧ postsOf i s'.posted = postsOf i s.posted := by
  induction h with
  | empty _ => exact ⟨rfl, rfl⟩
  | future _ _ => exact ⟨rfl, rfl⟩
  | @fire s s' top rest info f hq ht hget ha hw hid hf _ ih =>
    have hne : top.timerInfo_ ≠ i := by
      intro he
      rw [he] at hget
      have := hidle info hget
      rw [hw] at this
      cases this
    have hget1 : (s.timers_.set top.timerInfo_ info.dispatched)[i]? = s.timers_[i]? := by
      rw [List.getElem?_set, if_neg hne]
    have hidle1 : Idle i { s with
        trace_ := s.trace_ ++ [.post
          { slot := top.timerInfo_, handler := f, status := .Success, interruptCtx := ctx }]
        timers_ := s.timers_.set top.timerInfo_ info.dispatched
        waitQueue_ := (pop_heap ScheduledWaitPriorityComp s.waitQueue_).dropLast } := by
      intro x hx
      exact hidle x (hget1 ▸ hx)
    obtain ⟨h1, h2⟩ := ih hidle1
    refine ⟨h1.trans hget1, ?_⟩
    rw [h2, posted_of_events s _ [.post
      { slot := top.timerInfo_, handler := f, status := .Success, interruptCtx := ctx }] rfl,
      postsOf_append]
    simp [Event.toPost, postsOf_other hne]
  | @skip s s' top rest info hq ht hget hdead _ ih =>
    exact ih hidle

/-- An entry that is not due stays in the queue. -/
theorem drains_keeps {ctx : Bool} {s s' : TimerMgr} (h : Drains ctx s s')
    (e : ScheduledWaitInfo) (he : e ∈ s.waitQueue_) (hfut : s.timeBase_ < e.targetTime_) :
    e ∈ s'.waitQueue_ := by
  induction h with
  | empty _ => exact he
  | future _ _ => exact he
  | @fire s s' top rest info f hq ht hget ha hw hid hf _ ih =>
    refine ih ?_ hfut
    show e ∈ (pop_heap ScheduledWaitPriorityComp s.waitQueue_).dropLast
    rw [pop_subset hq]
    rw [hq] at he
    rcases List.mem_cons.mp he with h1 | h1
    · subst h1; exact absurd hfut ht
    · exact h1
  | @skip s s' top rest info hq ht hget hdead _ ih =>
    refine ih ?_ hfut
    show e ∈ (pop_heap ScheduledWaitPriorityComp s.waitQueue_).dropLast
    rw [pop_subset hq]
    rw [hq] at he
    rcases List.mem_cons.mp he with h1 | h1
    · subst h1; exact absurd hfut ht
    · exact h1

/-- The loop leaves a slot with a wait in progress as it is and posts nothing for it, or it
dispatches the slot once, with Success, on a due queue entry that carries the slot and its
engagement id. -/
theorem drains_slot {M : Nat} {ctx : Bool} {s s' : TimerMgr} (h : Drains ctx s s')
    (hs : CoreInv M s) {i : Nat} {info : TimerInfo} {f : Nat}
    (hget : s.timers_[i]? = some info) (hf : info.handler_ = some f) :
    (s'.timers_[i]? = some info ∧ postsOf i s'.posted = postsOf i s.posted) ∨
    (s'.timers_[i]? = some info.dispatched ∧
      postsOf i s'.posted = postsOf i s.posted ++
        [{ slot := i, handler := f, status := .Success, interruptCtx := ctx }] ∧
      ∃ e ∈ s.waitQueue_, e.timerInfo_ = i ∧ e.engagementId_ = info.engagementId_ ∧
        ¬ s.timeBase_ < e.targetTime_) := by
  induction h with
  | empty _ => exact .inl ⟨hget, rfl⟩
  | future _ _ => exact .inl ⟨hget, rfl⟩
  | @fire s s' top rest info' f' hq ht hget' ha' hw' hid' hf' hd ih =>
    have hposted := posted_of_events s { s with
        trace_ := s.trace_ ++ [.post
          { slot := top.timerInfo_, handler := f', status := .Success, interruptCtx := ctx }]
        timers_ := s.timers_.set top.timerInfo_ info'.dispatched
        waitQueue_ := (pop_heap ScheduledWaitPriorityComp s.waitQueue_).dropLast }
      [.post
        { slot := top.timerInfo_, handler := f', status := .Success, interruptCtx := ctx }] rfl
    have hinv := coreInv_fire hs top rest info'
      (s.trace_ ++ [.post
        { slot := top.timerInfo_, handler := f', status := .Success, interruptCtx := ctx }])
      hq hget' ha'
    by_cases he : top.timerInfo_ = i
    · right
      rw [he] at hget'
      rw [hget] at hget'
      cases hget'
      rw [hf] at hf'
      cases hf'
      have hlt := lt_length_of_getElem? hget
      have hget1 : (s.timers_.set top.timerInfo_ info.dispatched)[i]? =
          some info.dispatched := by
        rw [List.getElem?_set, if_pos he, he, if_pos hlt]
      have hidle1 : Idle i { s with
          trace_ := s.trace_ ++ [.post
            { slot := top.timerInfo_, handler := f, status := .Success, interruptCtx := ctx }]
          timers_ := s.timers_.set top.timerInfo_ info.dispatched
          waitQueue_ := (pop_heap ScheduledWaitPriorityComp s.waitQueue_).dropLast } := by
        intro x hx
        have hx' : some info.dispatched = some x := hget1.symm.trans hx
        cases hx'
        exact dispatched_not_waiting info
      obtain ⟨h1, h2⟩ := drains_idle hd i hidle1
      refine ⟨h1.trans hget1, ?_, top, ?_, he, hid'.symm, ht⟩
      · rw [h2, hposted, postsOf_append]
        simp [Event.toPost, he, postsOf_self]
      · rw [hq]; exact List.mem_cons_self _ _
    · have hget1 : (s.timers_.set top.timerInfo_ info'.dispatched)[i]? = some info := by
        rw [List.getElem?_set, if_neg he]; exact hget
      have hsame : postsOf i ({ s with
          trace_ := s.trace_ ++ [.post
            { slot := top.timerInfo_, handler := f', status := .Success, interruptCtx := ctx }]
          timers_ := s.timers_.set top.timerInfo_ info'.dispatched
          waitQueue_ := (pop_heap ScheduledWaitPriorityComp s.waitQueue_).dropLast }
          : TimerMgr).posted = postsOf i s.posted := by
        rw [hposted, postsOf_append]
        simp [Event.toPost, postsOf_other he]
      rcases ih hinv hget1 with ⟨h1, h2⟩ | ⟨h1, h2, e, hmem, h3, h4, h5⟩
      · exact .inl ⟨h1, h2.trans hsame⟩
      · refine .inr ⟨h1, by rw [h2, hsame], e, ?_, h3, h4, h5⟩
        rw [hq]
        exact List.mem_cons_of_mem _ ((pop_subset hq e).mp hmem)
  | @skip s s' top rest info' hq ht hget' hdead hd ih =>
    have hinv := coreInv_skip hs top rest info' hq hget' hdead
    rcases ih hinv hget with ⟨h1, h2⟩ | ⟨h1, h2, e, hmem, h3, h4, h5⟩
    · exact .inl ⟨h1, h2⟩
    · refine .inr ⟨h1, h2, e, ?_, h3, h4, h5⟩
      rw [hq]
      exact List.mem_cons_of_mem _ ((pop_subset hq e).mp hmem)

/-! ## The operations, as far as one slot is concerned -/

/-- The loop only removes entries. -/
theorem drains_subset {ctx : Bool} {s s' : TimerMgr} (h : Drains ctx s s') :
    ∀ e ∈ s'.waitQueue_, e ∈ s.waitQueue_ := by
  induction h with
  | empty _ => exact fun _ he => he
  | future _ _ => exact fun _ he => he
  | @fire s s' top rest info f hq ht hget ha hw hid hf _ ih =>
    intro e he
    have := ih e he
    rw [hq]
    exact List.mem_cons_of_mem _ ((pop_subset hq e).mp this)
  | @skip s s' top rest info hq ht hget hdead _ ih =>
    intro e he
    have := ih e he
    rw [hq]
    exact List.mem_cons_of_mem _ ((pop_subset hq e).mp this)

theorem coreInv_of_fields {M : Nat} {s s' : TimerMgr} (hs : CoreInv M s)
    (ht : s'.timers_ = s.timers_) (hc : s'.timersCount_ = s.timersCount_)
    (hq : s'.waitQueue_ = s.waitQueue_) : CoreInv M s' := by
  refine ⟨⟨?_, ?_, ?_, ?_, ?_, ?_⟩, queueOk_of_eq hs.queue hq, ?_⟩
  · rw [ht]; exact hs.slots.timers_length
  · rw [hc]; exact hs.slots.timersCount_le
  · rw [ht, hc]; exact hs.slots.allocated_count
  · rw [ht, hc]; exact hs.slots.allocated_lt
  · rw [ht]; exact hs.slots.handler_iff
  · rw [ht]; exact hs.slots.wait_allocated
  · intro i x hx hxw
    rw [ht] at hx
    rw [hq]
    exact hs.waits i x hx hxw

theorem Inv.core {M : Nat} {s : TimerMgr} (hs : Inv M s) : CoreInv M s :=
  ⟨hs.slots, hs.queue, hs.waits⟩

theorem armed_posted (idx timeUnits func elapsed : Nat) (info : TimerInfo) (s : TimerMgr) :
    (armed idx timeUnits func elapsed info s).posted = s.posted := by
  unfold armed TimerMgr.posted
  simp only
  split <;> simp [List.filterMap_append, Event.toPost]

theorem armed_timers_ne (timeUnits func elapsed : Nat) {idx i : Nat} (info : TimerInfo)
    (s : TimerMgr) (h : idx ≠ i) :
    (armed idx timeUnits func elapsed info s).timers_[i]? = s.timers_[i]? := by
  simp only [armed]
  rw [List.getElem?_set, if_neg h]

/-- The course of a `scheduleWait` that returns: the slot is set up, the queue gets the new
entry (or is rebuilt from the slots), the loop removes the due entries, and the queue is
not empty at the end. -/
theorem scheduleWait_course {M idx timeUnits func elapsed : Nat} {s s' : TimerMgr}
    (hs : Inv M s) (h : scheduleWait idx timeUnits func elapsed s = .ok s') :
    ∃ info q s6, s.timers_[idx]? = some info ∧ info.isAllocated = true ∧
      info.isWaitInProgress = false ∧
      CoreInv M { armed idx timeUnits func elapsed info s with waitQueue_ := q } ∧
      ((ScheduleQueueScale * s.timers_.length ≤ s.waitQueue_.length ∧
          q.Perm (liveEntries (armed idx timeUnits func elapsed info s).timers_ 0)) ∨
        (¬ ScheduleQueueScale * s.timers_.length ≤ s.waitQueue_.length ∧
          q.Perm (s.waitQueue_ ++
            [{ timerInfo_ := idx
               engagementId_ := (s.nextEngagementId_ + 1) % UnsignedModulus
               targetTime_ :=
                ((if s.deviceActive_ then (s.timeBase_ + elapsed) % UnsignedModulus
                  else s.timeBase_) + timeUnits) % UnsignedModulus }]))) ∧
      Drains false { armed idx timeUnits func elapsed info s with waitQueue_ := q } s6 ∧
      s'.timers_ = s6.timers_ ∧ s'.waitQueue_ = s6.waitQueue_ ∧ s'.posted = s6.posted ∧
      s'.timeBase_ = s6.timeBase_ ∧ s'.nextEngagementId_ = s6.nextEngagementId_ := by
  obtain ⟨_, _, info, hget, ha, hw, _⟩ := scheduleWait_pre h
  obtain ⟨q, s6, h1, h2, h3, h4⟩ := scheduleWait_spec timeUnits func elapsed hs hget ha hw
  rw [h4] at h
  obtain ⟨top, rest, hq, rfl⟩ := startGuard_inv h
  refine ⟨info, q, s6, hget, ha, hw, h1, h2, h3, rfl, rfl, ?_, rfl, rfl⟩
  simp [TimerMgr.posted, List.filterMap_append, Event.toPost]

/-- The course of a delivered interrupt that returns. -/
theorem deliverInterrupt_course {M : Nat} {es : ErrorStatus} {s s' : TimerMgr}
    (hs : Inv M s) (h : deliverInterrupt es s = .ok s') :
    (es.isError = true ∧ s'.timers_ = dispatchAll s.timers_ ∧
      s'.posted = s.posted ++ pendingPosts es s.timers_ 0 ∧ s'.waitQueue_ = [] ∧
      s'.timeBase_ = s.timeBase_) ∨
    (es.isError = false ∧ ∃ top rest s1, s.waitQueue_ = top :: rest ∧
      CoreInv M { s with deviceActive_ := false, timeBase_ := top.targetTime_ } ∧
      Drains true { s with deviceActive_ := false, timeBase_ := top.targetTime_ } s1 ∧
      s'.timers_ = s1.timers_ ∧ s'.waitQueue_ = s1.waitQueue_ ∧ s'.posted = s1.posted ∧
      s'.timeBase_ = s1.timeBase_) := by
  have hcore : CoreInv M { s with deviceActive_ := false } :=
    coreInv_of_fields hs.core rfl rfl rfl
  rcases Bool.eq_false_or_eq_true es.isError with he | he
  · left
    have h1 := interruptHandler_error (s := { s with deviceActive_ := false }) hcore.slots he
    have h2 : Except.ok s' = Except.ok _ := h.symm.trans h1
    cases h2
    refine ⟨he, rfl, ?_, rfl, rfl⟩
    exact posted_of_trace (s := s) rfl
  · right
    obtain ⟨top, rest, hq, ht⟩ := interruptHandler_normal_inv he h
    have hcore1 : CoreInv M { s with deviceActive_ := false, timeBase_ := top.targetTime_ } :=
      coreInv_of_fields hs.core rfl rfl rfl
    obtain ⟨s1, h1, h2⟩ := interruptHandler_normal es hcore he hq ht
    have h3 : Except.ok s' = Except.ok (restartFromInterrupt s1) := h.symm.trans h2
    cases h3
    obtain ⟨r1, r2, r3, r4⟩ := restartFromInterrupt_facts s1
    exact ⟨he, top, rest, s1, hq, hcore1, h1, r3, r2, r1, r4⟩

/-! ## One operation and a slot without a wait -/

theorem postsOf_eq_nil {i : Nat} {l : List Post} (h : ∀ p ∈ l, p.slot ≠ i) :
    postsOf i l = [] := by
  unfold postsOf
  rw [List.filter_eq_nil_iff]
  intro p hp
  simp [h p hp]

theorem postsOf_sorted_mem (l : List Post) (hs : l.Pairwise (fun p q => p.slot < q.slot))
    (p : Post) (hp : p ∈ l) : postsOf p.slot l = [p] := by
  induction l with
  | nil => cases hp
  | cons a l ih =>
    rw [List.pairwise_cons] at hs
    rcases List.mem_cons.mp hp with h | h
    · subst h
      have : postsOf p.slot l = [] :=
        postsOf_eq_nil (fun q hq => Nat.ne_of_gt (hs.1 q hq))
      have h2 : postsOf p.slot (p :: l) = p :: postsOf p.slot l := by
        simp [postsOf]
      rw [h2, this]
    · have hlt := hs.1 p h
      have h2 : postsOf p.slot (a :: l) = postsOf p.slot l := by
        simp [postsOf, Nat.ne_of_lt hlt]
      rw [h2]
      exact ih hs.2 h

theorem idle_of_get {i : Nat} {s s' : TimerMgr} (h : Idle i s)
    (ht : s'.timers_[i]? = s.timers_[i]?) : Idle i s' := by
  intro x hx
  exact h x (ht ▸ hx)

/-- An operation that is not a `scheduleWait` on slot `i` leaves a slot `i` without a wait
in that condition and posts nothing for it. -/
theorem idle_step {M i : Nat} {s s' : TimerMgr} (hs : Inv M s) (hidle : Idle i s)
    (h : Step i s s') : Idle i s' ∧ postsOf i s'.posted = postsOf i s.posted := by
  cases h with
  | @allocTimer t h =>
    rcases allocTimer_inv h with ⟨_, _, rfl⟩ | ⟨_, info, hget, _, _, rfl⟩
    · exact ⟨hidle, rfl⟩
    · refine ⟨?_, rfl⟩
      intro x hx
      simp only [List.getElem?_set] at hx
      split at hx
      · split at hx
        · cases hx; simp
        · cases hx
      · exact hidle x hx
  | @deleteTimer idx h =>
    obtain ⟨_, info, hget, _, _, hw, rfl⟩ := deleteTimer_inv h
    refine ⟨?_, rfl⟩
    intro x hx
    simp only [List.getElem?_set] at hx
    split at hx
    · split at hx
      · cases hx; simpa using hw
      · cases hx
    · exact hidle x hx
  | @cancelWait idx r h =>
    obtain ⟨_, info, hget, hc⟩ := cancelWait_inv h
    rcases hc with ⟨_, _, _, _, rfl⟩ | ⟨_, _, _, _, rfl⟩ | ⟨_, _, hw, _, f, hf, rfl⟩
    · refine ⟨hidle, ?_⟩
      rw [posted_of_events s _ [.suspendWait] rfl]
      simp [Event.toPost]
    · refine ⟨hidle, ?_⟩
      rw [posted_of_events s _ ([.suspendWait] ++ [.resumeWait])
        (by simp [List.append_assoc])]
      simp [Event.toPost]
    · have hne : idx ≠ i := by
        intro he
        rw [he] at hget
        have := hidle info hget
        rw [hw] at this
        cases this
      refine ⟨?_, ?_⟩
      · intro x hx
        simp only [List.getElem?_set, if_neg hne] at hx
        exact hidle x hx
      · rw [posted_of_events s _ ([.suspendWait] ++
          [.post { slot := idx, handler := f, status := .Aborted, interruptCtx := false }] ++
          [.resumeWait]) (by simp [List.append_assoc]), postsOf_append]
        simp [Event.toPost, postsOf_other hne]
  | @scheduleWait idx timeUnits func elapsed hne h =>
    obtain ⟨info, q, s6, hget, ha, hw, hcore, _, hd, h1, h2, h3, h4, _⟩ :=
      scheduleWait_course hs h
    have hidle5 : Idle i { armed idx timeUnits func elapsed info s with waitQueue_ := q } :=
      idle_of_get hidle (armed_timers_ne timeUnits func elapsed info s hne)
    obtain ⟨h5, h6⟩ := drains_idle hd i hidle5
    refine ⟨?_, ?_⟩
    · refine idle_of_get hidle ?_
      rw [h1, h5]
      exact armed_timers_ne timeUnits func elapsed info s hne
    · rw [h3, h6]
      show postsOf i (armed idx timeUnits func elapsed info s).posted = _
      rw [armed_posted]
  | @deliverInterrupt es h =>
    rcases deliverInterrupt_course hs h with ⟨he, h1, h2, _, _⟩ |
      ⟨he, top, rest, s1, hq, hcore, hd, h1, h2, h3, h4⟩
    · have hnil : postsOf i (pendingPosts es s.timers_ 0) = [] := by
        refine postsOf_eq_nil ?_
        intro p hp hslot
        obtain ⟨k, info, f, hk, hf, rfl⟩ := (mem_pendingPosts es s.timers_ 0 p).mp hp
        simp only [Nat.zero_add] at hslot
        subst hslot
        have hw := hidle info hk
        have := hs.slots.handler_iff info (List.getElem?_mem hk)
        rw [hf, hw] at this
        cases this
      refine ⟨?_, ?_⟩
      · intro x hx
        have hmem : x ∈ dispatchAll s.timers_ := h1 ▸ List.getElem?_mem hx
        exact ((dispatchAll_inv hs.slots { s with timers_ := dispatchAll s.timers_ }
          rfl rfl).2 x hmem).1
      · rw [h2, postsOf_append, hnil, List.append_nil]
    · have hidle0 : Idle i { s with deviceActive_ := false, timeBase_ := top.targetTime_ } :=
        hidle
      obtain ⟨h5, h6⟩ := drains_idle hd i hidle0
      refine ⟨idle_of_get hidle ?_, ?_⟩
      · rw [h1, h5]
      · rw [h3, h6]
        rfl

/-! ## One operation and a pending request -/

theorem pending_of_fields {i id f T : Nat} {s s' : TimerMgr} (hp : Pending i id f T s)
    (ht : s'.timers_[i]? = s.timers_[i]?) (hq : ∀ e ∈ s'.waitQueue_, e ∈ s.waitQueue_) :
    Pending i id f T s' := by
  obtain ⟨info, h1, h2⟩ := hp.slot
  exact ⟨⟨info, ht.trans h1, h2⟩, fun e he => hp.entries e (hq e he)⟩

/-- The loop of `postExpiredHandlers` leaves a pending request pending and posts nothing
for its slot, or it completes the request with exactly one Success, and then the time base
has reached the target time. -/
theorem drains_pending {M i id f T : Nat} {ctx : Bool} {s s' : TimerMgr}
    (hd : Drains ctx s s') (hc : CoreInv M s) (hp : Pending i id f T s) :
    (Pending i id f T s' ∧ postsOf i s'.posted = postsOf i s.posted) ∨
    (Idle i s' ∧
      postsOf i s'.posted = postsOf i s.posted ++
        [{ slot := i, handler := f, status := .Success, interruptCtx := ctx }] ∧
      T ≤ s.timeBase_) := by
  obtain ⟨info, hget, ha, hw, hid, hf, hT⟩ := hp.slot
  rcases drains_slot hd hc hget hf with ⟨h1, h2⟩ | ⟨h1, h2, e, he, h3, h4, h5⟩
  · exact .inl ⟨pending_of_fields hp (h1.trans hget.symm) (drains_subset hd), h2⟩
  · refine .inr ⟨?_, h2, ?_⟩
    · intro x hx
      have : some info.dispatched = some x := h1.symm.trans hx
      cases this
      exact dispatched_not_waiting info
    · have := hp.entries e he h3 (h4.trans hid)
      omega

/-- An operation that is not a `scheduleWait` on slot `i` leaves a pending request of slot
`i` pending and posts nothing for the slot, or it completes the request with exactly one
post, which carries the callable of the request and, when its status is Success, is made
with the time base at or beyond the target time. -/
theorem pending_step {M i id f T : Nat} {s s' : TimerMgr} (hs : Inv M s)
    (hp : Pending i id f T s) (h : Step i s s') :
    (Pending i id f T s' ∧ postsOf i s'.posted = postsOf i s.posted) ∨
    (Idle i s' ∧ ∃ st ctx,
      postsOf i s'.posted = postsOf i s.posted ++
        [{ slot := i, handler := f, status := st, interruptCtx := ctx }] ∧
      (st = .Success → T ≤ s'.timeBase_)) := by
  obtain ⟨pinfo, pget, pa, pw, pid, pf, pT⟩ := hp.slot
  cases h with
  | @allocTimer t h =>
    rcases allocTimer_inv h with ⟨_, _, rfl⟩ | ⟨_, info, hget, hna, _, rfl⟩
    · exact .inl ⟨hp, rfl⟩
    · left
      have hne : s.timers_.findIdx (fun info => !info.isAllocated) ≠ i := by
        intro he
        rw [he, pget] at hget
        cases hget
        rw [pa] at hna
        cases hna
      refine ⟨pending_of_fields hp ?_ (fun e he => he), rfl⟩
      simp only [List.getElem?_set, if_neg hne]
  | @deleteTimer idx h =>
    obtain ⟨_, info, hget, _, _, hw, rfl⟩ := deleteTimer_inv h
    left
    have hne : idx ≠ i := by
      intro he
      rw [he, pget] at hget
      cases hget
      rw [pw] at hw
      cases hw
    refine ⟨pending_of_fields hp ?_ (fun e he => he), rfl⟩
    simp only [List.getElem?_set, if_neg hne]
  | @cancelWait idx r h =>
    obtain ⟨_, info, hget, hc⟩ := cancelWait_inv h
    rcases hc with ⟨_, _, _, _, rfl⟩ | ⟨_, _, _, _, rfl⟩ | ⟨_, _, hw, _, g, hg, rfl⟩
    · refine .inl ⟨pending_of_fields hp rfl (fun e he => he), ?_⟩
      rw [posted_of_events s _ [.suspendWait] rfl]
      simp [Event.toPost]
    · refine .inl ⟨pending_of_fields hp rfl (fun e he => he), ?_⟩
      rw [posted_of_events s _ ([.suspendWait] ++ [.resumeWait])
        (by simp [List.append_assoc])]
      simp [Event.toPost]
    · have hposted := posted_of_events s { s with
          trace_ := s.trace_ ++ [.suspendWait] ++
            [.post { slot := idx, handler := g, status := .Aborted, interruptCtx := false }] ++
            [.resumeWait]
          timers_ := s.timers_.set idx
            (({ info with handler_ := none } : TimerInfo).setWaitInProgress false) }
        ([.suspendWait] ++
          [.post { slot := idx, handler := g, status := .Aborted, interruptCtx := false }] ++
          [.resumeWait]) (by simp [List.append_assoc])
      by_cases he : idx = i
      · right
        subst he
        rw [pget] at hget
        cases hget
        rw [pf] at hg
        cases hg
        have hlt := lt_length_of_getElem? pget
        refine ⟨?_, .Aborted, false, ?_, fun hst => by cases hst⟩
        · intro x hx
          simp only [List.getElem?_set, if_pos hlt, if_true] at hx
          cases hx
          simp
        · rw [hposted, postsOf_append]
          simp [Event.toPost, postsOf_self]
      · left
        refine ⟨pending_of_fields hp ?_ (fun e he => he), ?_⟩
        · simp only [List.getElem?_set, if_neg he]
        · rw [hposted, postsOf_append]
          simp [Event.toPost, postsOf_other he]
  | @scheduleWait idx timeUnits func elapsed hne h =>
    obtain ⟨info, q, s6, hget, ha, hw, hcore, hq, hd, h1, h2, h3, h4, _⟩ :=
      scheduleWait_course hs h
    have hat := armed_timers_ne timeUnits func elapsed info s hne
    have hp5 : Pending i id f T
        { armed idx timeUnits func elapsed info s with waitQueue_ := q } := by
      refine ⟨⟨pinfo, hat.trans pget, pa, pw, pid, pf, pT⟩, ?_⟩
      intro e he hslot heid
      rcases hq with ⟨_, hperm⟩ | ⟨_, hperm⟩
      · have hmem := hperm.subset he
        obtain ⟨k, x, hk, _, _, rfl⟩ := (mem_liveEntries _ 0 e).mp hmem
        simp only [Nat.zero_add] at hslot
        subst hslot
        rw [hat, pget] at hk
        cases hk
        exact pT
      · have hmem := hperm.subset he
        rcases List.mem_append.mp hmem with hm | hm
        · exact hp.entries e hm hslot heid
        · rw [List.mem_singleton] at hm
          subst hm
          exact absurd hslot hne
    have hbase : postsOf i ({ armed idx timeUnits func elapsed info s with
        waitQueue_ := q } : TimerMgr).posted = postsOf i s.posted := by
      show postsOf i (armed idx timeUnits func elapsed info s).posted = _
      rw [armed_posted]
    obtain ⟨_, htb, _⟩ := drains_facts hd hcore
    rcases drains_pending hd hcore hp5 with ⟨h5, h6⟩ | ⟨h5, h6, h7⟩
    · left
      refine ⟨pending_of_fields h5 (by rw [h1]) (by rw [h2]; exact fun e he => he), ?_⟩
      rw [h3, h6, hbase]
    · right
      refine ⟨idle_of_get h5 (by rw [h1]), .Success, false, ?_, fun _ => ?_⟩
      · rw [h3, h6, hbase]
      · rw [h4, htb]
        exact h7
  | @deliverInterrupt es h =>
    rcases deliverInterrupt_course hs h with ⟨he, h1, h2, _, _⟩ |
      ⟨he, top, rest, s1, hq, hcore, hd, h1, h2, h3, h4⟩
    · right
      refine ⟨?_, es, true, ?_, ?_⟩
      · intro x hx
        have hmem : x ∈ dispatchAll s.timers_ := h1 ▸ List.getElem?_mem hx
        exact ((dispatchAll_inv hs.slots { s with timers_ := dispatchAll s.timers_ }
          rfl rfl).2 x hmem).1
      · have hmem : ({ slot := i, handler := f, status := es, interruptCtx := true } : Post) ∈
            pendingPosts es s.timers_ 0 := by
          rw [mem_pendingPosts]
          exact ⟨i, pinfo, f, pget, pf, by simp⟩
        have := postsOf_sorted_mem _ (pendingPosts_sorted es s.timers_ 0) _ hmem
        rw [h2, postsOf_append, this]
      · intro hst
        subst hst
        cases he
    · have hp0 : Pending i id f T
          { s with deviceActive_ := false, timeBase_ := top.targetTime_ } :=
        pending_of_fields hp rfl (fun e he => he)
      obtain ⟨_, htb, _⟩ := drains_facts hd hcore
      rcases drains_pending hd hcore hp0 with ⟨h5, h6⟩ | ⟨h5, h6, h7⟩
      · left
        refine ⟨pending_of_fields h5 (by rw [h1]) (by rw [h2]; exact fun e he => he), ?_⟩
        rw [h3, h6]
        rfl
      · right
        refine ⟨idle_of_get h5 (by rw [h1]), .Success, true, ?_, fun _ => ?_⟩
        · rw [h3, h6]
          rfl
        · rw [h4, htb]
          exact h7

/-! ## Runs of the manager -/

theorem step_inv {M i : Nat} {s s' : TimerMgr} (hs : Inv M s) (h : Step i s s') :
    Inv M s' := by
  cases h with
  | allocTimer h => exact allocTimer_preserves hs h
  | deleteTimer h => exact deleteTimer_preserves hs h
  | cancelWait h => exact cancelWait_preserves hs h
  | scheduleWait _ h => exact scheduleWait_preserves hs h
  | deliverInterrupt h => exact deliverInterrupt_preserves hs h

theorem Run.trans {i : Nat} {a b c : TimerMgr} (h1 : Run i a b) (h2 : Run i b c) :
    Run i a c := by
  induction h2 with
  | refl => exact h1
  | tail _ hstep ih => exact Run.tail ih hstep

theorem run_inv {M i : Nat} {s s' : TimerMgr} (hs : Inv M s) (h : Run i s s') : Inv M s' := by
  induction h with
  | refl => exact hs
  | tail _ hstep ih => exact step_inv ih hstep

/-- Once the request of slot `i` has been completed, a run that does not schedule slot `i`
again posts nothing more for the slot. -/
theorem run_completed {M i f : Nat} {base : List Post} {st : ErrorStatus} {ctx : Bool}
    {s s' : TimerMgr} (hs : Inv M s) (hc : Completed i f base st ctx s) (h : Run i s s') :
    Completed i f base st ctx s' := by
  induction h with
  | refl => exact hc
  | @tail s' s'' hrun hstep ih =>
    obtain ⟨h1, h2⟩ := idle_step (run_inv hs hrun) ih.1 hstep
    exact ⟨h1, h2.trans ih.2⟩

/-- A run that does not schedule slot `i` again leaves a pending request of the slot pending
with nothing posted for the slot, or completes it exactly once: by one operation of the
run, which posts the callable of the request, and at the end of which, when the status is
Success, the time base has reached the target time. -/
theorem run_waiting {M i id f T : Nat} {base : List Post} {s s' : TimerMgr} (hs : Inv M s)
    (hw : Waiting i id f T base s) (h : Run i s s') :
    Waiting i id f T base s' ∨
    ∃ st ctx sp sm, Run i s sp ∧ Waiting i id f T base sp ∧ Step i sp sm ∧ Run i sm s' ∧
      Completed i f base st ctx sm ∧ Completed i f base st ctx s' ∧
      (st = .Success → T ≤ sm.timeBase_) := by
  induction h with
  | refl => exact .inl hw
  | @tail s' s'' hrun hstep ih =>
    have hinv := run_inv hs hrun
    rcases ih with hw' | ⟨st, ctx, sp, sm, r1, w1, st1, r2, c1, c2, ht⟩
    · rcases pending_step hinv hw'.1 hstep with ⟨h1, h2⟩ | ⟨h1, st, ctx, h2, h3⟩
      · exact .inl ⟨h1, h2.trans hw'.2⟩
      · have hc : Completed i f base st ctx s'' := ⟨h1, by rw [h2, hw'.2]⟩
        exact .inr ⟨st, ctx, s', s'', hrun, hw', hstep, Run.refl, hc, hc, h3⟩
    · refine .inr ⟨st, ctx, sp, sm, r1, w1, st1, Run.tail r2 hstep, c1, ?_, ht⟩
      obtain ⟨h1, h2⟩ := idle_step hinv c2.1 hstep
      exact ⟨h1, h2.trans c2.2⟩

/-- An entry is not live for a slot without a wait. -/
theorem liveIn_idle {i : Nat} {s : TimerMgr} (h : Idle i s) (e : ScheduledWaitInfo)
    (he : e.timerInfo_ = i) : liveIn s.timers_ e = false := by
  unfold liveIn
  rw [he]
  rcases hx : s.timers_[i]? with _ | x
  · rfl
  · simp [h x hx]

/-- An entry is not live for a slot whose wait carries another engagement id. -/
theorem liveIn_pending {i id f T : Nat} {s : TimerMgr} (h : Pending i id f T s)
    (e : ScheduledWaitInfo) (he : e.timerInfo_ = i) (hid : e.engagementId_ ≠ id) :
    liveIn s.timers_ e = false := by
  obtain ⟨info, hget, _, _, h1, _⟩ := h.slot
  unfold liveIn
  rw [he, hget]
  simp only [Bool.and_eq_false_imp, Bool.and_eq_true, beq_eq_false_iff_ne, ne_eq]
  intro _
  rw [h1]
  exact fun h2 => hid h2.symm

/-! ## The outcome of a `scheduleWait` for its own slot -/

theorem dispatched_isAllocated (info : TimerInfo) :
    info.dispatched.isAllocated = info.isAllocated := by
  simp [TimerInfo.dispatched, TimerInfo.isAllocated, TimerInfo.setWaitInProgress,
    TimerInfo.updateFlag, WaitInProgressMask, AllocatedFlagMask, Nat.and_assoc,
    mask_consts.2.2.1]

theorem dispatched_engagementId (info : TimerInfo) :
    info.dispatched.engagementId_ = info.engagementId_ := by
  simp [TimerInfo.dispatched]

theorem dispatched_targetTime (info : TimerInfo) :
    info.dispatched.targetTime_ = info.targetTime_ := by
  simp [TimerInfo.dispatched]

/-- After a `scheduleWait` on slot `i` that returns, the slot carries the new engagement id
and target time, and it either still holds the callable or has no wait in progress. -/
theorem scheduleWait_slot {M i d f el : Nat} {s s' : TimerMgr} (hs : Inv M s)
    (h : scheduleWait i d f el s = .ok s') :
    s'.nextEngagementId_ = (s.nextEngagementId_ + 1) % UnsignedModulus ∧
    ∃ r, s'.timers_[i]? = some r ∧ r.isAllocated = true ∧
      r.engagementId_ = (s.nextEngagementId_ + 1) % UnsignedModulus ∧
      r.targetTime_ = ((if s.deviceActive_ then (s.timeBase_ + el) % UnsignedModulus
        else s.timeBase_) + d) % UnsignedModulus ∧
      (r.isWaitInProgress = true → r.handler_ = some f) := by
  obtain ⟨info, q, s6, hget, ha, hw, hcore, _, hd, h1, _, _, _, h5⟩ :=
    scheduleWait_course hs h
  obtain ⟨_, _, _, _, hid, _⟩ := drains_facts hd hcore
  have hrec := armed_timers_get d f el hget
  refine ⟨by rw [h5, hid]; rfl, ?_⟩
  rcases drains_slot (f := f) hd hcore hrec (by simp) with ⟨h6, _⟩ | ⟨h6, _⟩
  · refine ⟨_, h1 ▸ h6, ?_, ?_, ?_, ?_⟩
    · simpa using ha
    · simp
    · simp
    · intro _
      simp
  · refine ⟨_, h1 ▸ h6, ?_, ?_, ?_, ?_⟩
    · rw [dispatched_isAllocated]
      simpa using ha
    · rw [dispatched_engagementId]
      simp
    · rw [dispatched_targetTime]
      simp
    · intro hp
      rw [dispatched_not_waiting] at hp
      cases hp

/-- The outcome of a `scheduleWait` on slot `i` that returns, when no queue entry of the
slot already carries the new engagement id: the request is pending with nothing posted for
the slot, or it has been completed inside the call by one Success posted from
non-interrupt context, the time base being at or beyond the target time. -/
theorem scheduleWait_outcome {M i d f el : Nat} {s s' : TimerMgr} (hs : Inv M s)
    (hfresh : ∀ e ∈ s.waitQueue_, e.timerInfo_ = i →
      e.engagementId_ ≠ (s.nextEngagementId_ + 1) % UnsignedModulus)
    (h : scheduleWait i d f el s = .ok s') :
    Waiting i ((s.nextEngagementId_ + 1) % UnsignedModulus) f
        (((if s.deviceActive_ then (s.timeBase_ + el) % UnsignedModulus
          else s.timeBase_) + d) % UnsignedModulus) (postsOf i s.posted) s' ∨
      (Completed i f (postsOf i s.posted) .Success false s' ∧
        ((if s.deviceActive_ then (s.timeBase_ + el) % UnsignedModulus
          else s.timeBase_) + d) % UnsignedModulus ≤ s'.timeBase_) := by
  obtain ⟨info, q, s6, hget, ha, hw, hcore, hq, hd, h1, h2, h3, h4, _⟩ :=
    scheduleWait_course hs h
  have hrec := armed_timers_get d f el hget
  have hp5 : Pending i ((s.nextEngagementId_ + 1) % UnsignedModulus) f
      (((if s.deviceActive_ then (s.timeBase_ + el) % UnsignedModulus
        else s.timeBase_) + d) % UnsignedModulus)
      { armed i d f el info s with waitQueue_ := q } := by
    refine ⟨⟨_, hrec, ?_, ?_, ?_, ?_, ?_⟩, ?_⟩
    · simpa using ha
    · simp
    · simp
    · simp
    · simp
    intro e he hslot heid
    rcases hq with ⟨_, hperm⟩ | ⟨_, hperm⟩
    · have hmem := hperm.subset he
      obtain ⟨k, x, hk, _, _, rfl⟩ := (mem_liveEntries _ 0 e).mp hmem
      simp only [Nat.zero_add] at hslot
      subst hslot
      rw [hrec] at hk
      cases hk
      simp
    · have hmem := hperm.subset he
      rcases List.mem_append.mp hmem with hm | hm
      · exact absurd heid (hfresh e hm hslot)
      · rw [List.mem_singleton] at hm
        subst hm
        rfl
  have hbase : postsOf i ({ armed i d f el info s with waitQueue_ := q } : TimerMgr).posted =
      postsOf i s.posted := by
    show postsOf i (armed i d f el info s).posted = _
    rw [armed_posted]
  obtain ⟨_, htb, _⟩ := drains_facts hd hcore
  rcases drains_pending hd hcore hp5 with ⟨h5, h6⟩ | ⟨h5, h6, h7⟩
  · left
    refine ⟨pending_of_fields h5 (by rw [h1]) (by rw [h2]; exact fun e he => he), ?_⟩
    rw [h3, h6, hbase]
  · right
    refine ⟨⟨idle_of_get h5 (by rw [h1]), ?_⟩, ?_⟩
    · rw [h3, h6, hbase]
    · rw [h4, htb]
      exact h7

/-- A `scheduleWait` whose target time lies beyond the time base returns: its own entry
stays in the queue, so the queue is not empty when the peripheral is restarted. -/
theorem scheduleWait_accepts {M i d f el : Nat} {s : TimerMgr} {info : TimerInfo}
    (hs : Inv M s) (hget : s.timers_[i]? = some info) (ha : info.isAllocated = true)
    (hw : info.isWaitInProgress = false)
    (hlt : (if s.deviceActive_ then (s.timeBase_ + el) % UnsignedModulus else s.timeBase_) <
      ((if s.deviceActive_ then (s.timeBase_ + el) % UnsignedModulus
        else s.timeBase_) + d) % UnsignedModulus) :
    ∃ s', scheduleWait i d f el s = .ok s' := by
  obtain ⟨q, s6, hcore, hq, hd, h4⟩ := scheduleWait_spec d f el hs hget ha hw
  have hrec := armed_timers_get d f el hget
  have hmem : ({ timerInfo_ := i
                 engagementId_ := (s.nextEngagementId_ + 1) % UnsignedModulus
                 targetTime_ :=
                  ((if s.deviceActive_ then (s.timeBase_ + el) % UnsignedModulus
                    else s.timeBase_) + d) % UnsignedModulus } : ScheduledWaitInfo) ∈ q := by
    rcases hq with ⟨_, hperm⟩ | ⟨_, hperm⟩
    · refine hperm.symm.subset ?_
      rw [mem_liveEntries]
      refine ⟨i, _, hrec, ?_, ?_, ?_⟩
      · simpa using ha
      · simp
      · simp
    · exact hperm.symm.subset (List.mem_append_right _ (List.mem_singleton_self _))
  have hkeep := drains_keeps hd _ hmem hlt
  obtain ⟨top, rest, hq6⟩ := List.exists_cons_of_ne_nil (List.ne_nil_of_mem hkeep)
  exact ⟨_, h4.trans (startGuard_ok hq6)⟩

/-! ## Normal-completion interrupts until the queue is empty -/

/-- When the first entry is due the loop removes at least that entry. -/
theorem drains_due_shrinks {M : Nat} {ctx : Bool} {s s' : TimerMgr} (h : Drains ctx s s')
    (hs : CoreInv M s) {top : ScheduledWaitInfo} {rest : List ScheduledWaitInfo}
    (hq : s.waitQueue_ = top :: rest) (ht : ¬ s.timeBase_ < top.targetTime_) :
    s'.waitQueue_.length ≤ rest.length := by
  have hlen : ((pop_heap ScheduledWaitPriorityComp s.waitQueue_).dropLast).length =
      rest.length := by
    rw [hq]; exact (pop_heap_perm _ _ _).length_eq
  cases h with
  | empty h1 => rw [hq] at h1; cases h1
  | future h1 h2 =>
    rw [hq] at h1
    injection h1 with h1 _
    subst h1
    exact absurd h2 ht
  | @fire _ _ top' rest' info f h1 h2 h3 h4 h5 h6 h7 h8 =>
    have hinv := coreInv_fire hs top' rest' info
      (s.trace_ ++ [.post
        { slot := top'.timerInfo_, handler := f, status := .Success, interruptCtx := ctx }])
      h1 h3 h4
    obtain ⟨_, _, _, _, _, h9, _⟩ := drains_facts h8 hinv
    exact Nat.le_trans h9 (Nat.le_of_eq hlen)
  | @skip _ _ top' rest' info h1 h2 h3 h4 h5 =>
    have hinv := coreInv_skip hs top' rest' info h1 h3 h4
    obtain ⟨_, _, _, _, _, h9, _⟩ := drains_facts h5 hinv
    exact Nat.le_trans h9 (Nat.le_of_eq hlen)

/-- A normal-completion interrupt on a non-empty queue returns and shortens the queue. -/
theorem deliverInterrupt_shrinks {M : Nat} {s : TimerMgr} {top : ScheduledWaitInfo}
    {rest : List ScheduledWaitInfo} (hs : Inv M s) (hq : s.waitQueue_ = top :: rest) :
    ∃ s1, deliverInterrupt .Success s = .ok s1 ∧
      s1.waitQueue_.length < s.waitQueue_.length := by
  have htop : top ∈ s.waitQueue_ := by rw [hq]; exact List.mem_cons_self _ _
  have ht : s.timeBase_ ≤ top.targetTime_ := Nat.le_of_lt (hs.queue_future top htop)
  have hcore : CoreInv M { s with deviceActive_ := false } :=
    coreInv_of_fields hs.core rfl rfl rfl
  have hcore1 : CoreInv M { s with deviceActive_ := false, timeBase_ := top.targetTime_ } :=
    coreInv_of_fields hs.core rfl rfl rfl
  obtain ⟨s1, h1, h2⟩ := interruptHandler_normal .Success hcore rfl hq ht
  have hlen := drains_due_shrinks h1 hcore1 hq (Nat.lt_irrefl _)
  refine ⟨restartFromInterrupt s1, h2, ?_⟩
  rw [(restartFromInterrupt_facts s1).2.1, hq]
  exact Nat.lt_succ_of_le hlen

/-- A normal-completion interrupt leaves a pending request pending, or completes it with
one Success posted from interrupt context. -/
theorem deliverInterrupt_waiting {M i id f T : Nat} {base : List Post} {s s' : TimerMgr}
    (hs : Inv M s) (hw : Waiting i id f T base s)
    (h : deliverInterrupt .Success s = .ok s') :
    Waiting i id f T base s' ∨
      (Completed i f base .Success true s' ∧ T ≤ s'.timeBase_) := by
  rcases deliverInterrupt_course hs h with ⟨he, _⟩ |
    ⟨_, top, rest, s1, hq, hcore, hd, h1, h2, h3, h4⟩
  · cases he
  · have hp0 : Pending i id f T
        { s with deviceActive_ := false, timeBase_ := top.targetTime_ } :=
      pending_of_fields hw.1 rfl (fun e he => he)
    obtain ⟨_, htb, _⟩ := drains_facts hd hcore
    rcases drains_pending hd hcore hp0 with ⟨h5, h6⟩ | ⟨h5, h6, h7⟩
    · left
      refine ⟨pending_of_fields h5 (by rw [h1]) (by rw [h2]; exact fun e he => he), ?_⟩
      rw [h3, h6]
      exact hw.2
    · right
      refine ⟨⟨idle_of_get h5 (by rw [h1]), ?_⟩, ?_⟩
      · rw [h3, h6]
        exact congrArg (· ++ _) hw.2
      · rw [h4, htb]
        exact h7

/-- Delivering normal-completion interrupts until the queue is empty completes a pending
request with exactly one Success, and adds nothing to a completed one. -/
theorem drainInterrupts_completes {M i id f T : Nat} {base : List Post} :
    ∀ (n : Nat) (s : TimerMgr), Inv M s → s.waitQueue_.length ≤ n →
      (Waiting i id f T base s ∨ ∃ ctx, Completed i f base .Success ctx s) →
      ∃ s' ctx, drainInterrupts n s = .ok s' ∧ s'.waitQueue_ = [] ∧
        Completed i f base .Success ctx s' := by
  intro n
  induction n with
  | zero =>
    intro s hs hlen hst
    have hq : s.waitQueue_ = [] := List.length_eq_zero.mp (by omega)
    rcases hst with hw | ⟨ctx, hc⟩
    · obtain ⟨info, hget, _, hwp, _⟩ := hw.1.slot
      obtain ⟨e, he, _⟩ := hs.waits i info hget hwp
      rw [hq] at he
      cases he
    · exact ⟨s, ctx, rfl, hq, hc⟩
  | succ n ih =>
    intro s hs hlen hst
    by_cases hq : s.waitQueue_ = []
    · rcases hst with hw | ⟨ctx, hc⟩
      · obtain ⟨info, hget, _, hwp, _⟩ := hw.1.slot
        obtain ⟨e, he, _⟩ := hs.waits i info hget hwp
        rw [hq] at he
        cases he
      · refine ⟨s, ctx, ?_, hq, hc⟩
        unfold drainInterrupts
        rw [hq]
    · obtain ⟨top, rest, hq⟩ := List.exists_cons_of_ne_nil hq
      obtain ⟨s1, h1, h2⟩ := deliverInterrupt_shrinks hs hq
      have hinv1 := deliverInterrupt_preserves hs h1
      have hst1 : Waiting i id f T base s1 ∨ ∃ ctx, Completed i f base .Success ctx s1 := by
        rcases hst with hw | ⟨ctx, hc⟩
        · rcases deliverInterrupt_waiting hs hw h1 with h3 | ⟨h3, _⟩
          · exact .inl h3
          · exact .inr ⟨true, h3⟩
        · obtain ⟨h3, h4⟩ := idle_step hs hc.1 (Step.deliverInterrupt h1)
          exact .inr ⟨ctx, h3, h4.trans hc.2⟩
      obtain ⟨s', ctx, h5, h6, h7⟩ := ih s1 hinv1 (by omega) hst1
      refine ⟨s', ctx, ?_, h6, h7⟩
      unfold drainInterrupts
      rw [hq]
      simp only
      rw [h1]
      exact h5

/-! ## A slot that is scheduled again after its wait has been cancelled -/

theorem succ_mod_ne (x : Nat) : x ≠ (x + 1) % UnsignedModulus := by
  simp only [UnsignedModulus]
  omega

/-- C7, as amended: let `scheduleWait(i, d1, f1)` return in a reachable state, let
`cancelWait(i)` then return true, and let no queue entry of slot `i` carry the engagement
id that the next request will get (the ids are `unsigned` and wrap around). Then
`cancelWait` has completed `f1` with Aborted; a second `scheduleWait(i, d2, f2)` returns
whenever its target time lies beyond the time base; and when it returns, then in every
continuation that does not schedule slot `i` again no entry carrying the engagement id of
the first request is live, so popping it posts nothing, and the second request is either
still pending with nothing posted for slot `i`, or it has been completed exactly once, by
the second `scheduleWait` itself or by one later operation, with a post that carries `f2`
and that, when its status is Success, was made with the time base at or beyond the target
time of the second request. When normal-completion interrupts are delivered until the
queue is empty, `f2` is posted with Success exactly once. -/
theorem rescheduled_wait_supersedes (M i d1 f1 el1 d2 f2 el2 : Nat)
    (s0 s1 s2 : TimerMgr) (hr : Reachable M s0)
    (h1 : scheduleWait i d1 f1 el1 s0 = .ok s1)
    (h2 : cancelWait i s1 = .ok (true, s2))
    (hfresh : ∀ e ∈ s2.waitQueue_, e.timerInfo_ = i →
      e.engagementId_ ≠ (s2.nextEngagementId_ + 1) % UnsignedModulus) :
    s2.nextEngagementId_ = (s0.nextEngagementId_ + 1) % UnsignedModulus ∧
    s2.posted = s1.posted ++
      [{ slot := i, handler := f1, status := .Aborted, interruptCtx := false }] ∧
    ((s2.timeBase_ + el2) % UnsignedModulus <
        ((s2.timeBase_ + el2) % UnsignedModulus + d2) % UnsignedModulus →
      ∃ s3, scheduleWait i d2 f2 el2 s2 = .ok s3) ∧
    ∀ s3, scheduleWait i d2 f2 el2 s2 = .ok s3 →
      (∀ s', Run i s3 s' →
        (∀ e : ScheduledWaitInfo, e.timerInfo_ = i →
          e.engagementId_ = s2.nextEngagementId_ → liveIn s'.timers_ e = false) ∧
        (Waiting i ((s2.nextEngagementId_ + 1) % UnsignedModulus) f2
            (((s2.timeBase_ + el2) % UnsignedModulus + d2) % UnsignedModulus)
            (postsOf i s2.posted) s' ∨
          ∃ st ctx sm,
            (sm = s3 ∨ ∃ sp, Run i s3 sp ∧
              Waiting i ((s2.nextEngagementId_ + 1) % UnsignedModulus) f2
                (((s2.timeBase_ + el2) % UnsignedModulus + d2) % UnsignedModulus)
                (postsOf i s2.posted) sp ∧ Step i sp sm) ∧
            Run i sm s' ∧
            Completed i f2 (postsOf i s2.posted) st ctx sm ∧
            Completed i f2 (postsOf i s2.posted) st ctx s' ∧
            (st = .Success →
              ((s2.timeBase_ + el2) % UnsignedModulus + d2) % UnsignedModulus ≤
                sm.timeBase_))) ∧
      ∃ s5 ctx, drainInterrupts s3.waitQueueCount_ s3 = .ok s5 ∧ s5.waitQueue_ = [] ∧
        Completed i f2 (postsOf i s2.posted) .Success ctx s5 := by
  have hs0 := reachable_inv hr
  have hs1 := scheduleWait_preserves hs0 h1
  have hs2 := cancelWait_preserves hs1 h2
  obtain ⟨hn1, r, hget1, _, _, _, hhand⟩ := scheduleWait_slot hs0 h1
  obtain ⟨_, info, hget, hc⟩ := cancelWait_inv h2
  rw [hget1] at hget
  cases hget
  rcases hc with ⟨_, _, _, hf, _⟩ | ⟨_, _, _, hf, _⟩ | ⟨hdev, ha, hw, _, g, hg, hs2eq⟩
  · cases hf
  · cases hf
  rw [hhand hw] at hg
  cases hg
  have hlt := lt_length_of_getElem? hget1
  have hdev2 : s2.deviceActive_ = true := by rw [hs2eq]; exact hdev
  have hnext2 : s2.nextEngagementId_ = (s0.nextEngagementId_ + 1) % UnsignedModulus := by
    rw [hs2eq]; exact hn1
  have hget2 : s2.timers_[i]? =
      some (({ r with handler_ := none } : TimerInfo).setWaitInProgress false) := by
    rw [hs2eq]
    simp only [List.getElem?_set, if_pos hlt, if_true]
  have hT : (if s2.deviceActive_ then (s2.timeBase_ + el2) % UnsignedModulus
      else s2.timeBase_) = (s2.timeBase_ + el2) % UnsignedModulus := by
    rw [hdev2]; rfl
  have hposted : s2.posted = s1.posted ++
      [{ slot := i, handler := f1, status := .Aborted, interruptCtx := false }] := by
    rw [hs2eq]
    rw [posted_of_events s1 _ ([.suspendWait] ++
      [.post { slot := i, handler := f1, status := .Aborted, interruptCtx := false }] ++
      [.resumeWait]) (by simp [List.append_assoc])]
    simp [Event.toPost]
  refine ⟨hnext2, hposted, ?_, ?_⟩
  · intro hlt2
    refine scheduleWait_accepts hs2 hget2 (by simpa using ha) (by simp) ?_
    rw [hT]
    exact hlt2
  · intro s3 h3
    have hs3 := scheduleWait_preserves hs2 h3
    have hout := scheduleWait_outcome hs2 hfresh h3
    rw [hT] at hout
    have hidne : s2.nextEngagementId_ ≠ (s2.nextEngagementId_ + 1) % UnsignedModulus :=
      succ_mod_ne _
    refine ⟨?_, ?_⟩
    · intro s' hrun
      rcases hout with hw3 | ⟨hc3, hle3⟩
      · rcases run_waiting hs3 hw3 hrun with hw' |
          ⟨st, ctx, sp, sm, r1, w1, st1, r2, c1, c2, ht⟩
        · refine ⟨?_, .inl hw'⟩
          intro e he hid
          exact liveIn_pending hw'.1 e he (hid ▸ hidne)
        · refine ⟨?_, .inr ⟨st, ctx, sm, .inr ⟨sp, r1, w1, st1⟩, r2, c1, c2, ht⟩⟩
          intro e he _
          exact liveIn_idle c2.1 e he
      · have hc' := run_completed hs3 hc3 hrun
        refine ⟨?_, .inr ⟨.Success, false, s3, .inl rfl, hrun, hc3, hc', fun _ => hle3⟩⟩
        intro e he _
        exact liveIn_idle hc'.1 e he
    · have hst : Waiting i ((s2.nextEngagementId_ + 1) % UnsignedModulus) f2
            (((s2.timeBase_ + el2) % UnsignedModulus + d2) % UnsignedModulus)
            (postsOf i s2.posted) s3 ∨
          ∃ ctx, Completed i f2 (postsOf i s2.posted) .Success ctx s3 := by
        rcases hout with hw3 | ⟨hc3, _⟩
        · exact .inl hw3
        · exact .inr ⟨false, hc3⟩
      exact drainInterrupts_completes s3.waitQueueCount_ s3 hs3 (Nat.le_refl _) hst

/-- C7 as stated fails: on a manager with one slot, after `scheduleWait(0, 5, f1)`,
`cancelWait(0)` (true) and `scheduleWait(0, 9, f2)`, the continuation that cancels slot 0
again and then delivers normal-completion interrupts until the queue is empty completes
`f2` (callable 8) with Aborted and never posts it with Success. -/
theorem rescheduled_wait_cancelled_again :
    ∃ s3 s4 s5, scheduleWait 0 5 7 0 (TimerMgr.full 1) = .ok TimerMgr.oneWaiting ∧
      cancelWait 0 TimerMgr.oneWaiting = .ok (true, TimerMgr.oneCancelled) ∧
      scheduleWait 0 9 8 0 TimerMgr.oneCancelled = .ok s3 ∧
      cancelWait 0 s3 = .ok (true, s4) ∧
      drainInterrupts s4.waitQueueCount_ s4 = .ok s5 ∧ s5.waitQueue_ = [] ∧
      s5.posted =
        [{ slot := 0, handler := 7, status := .Aborted, interruptCtx := false },
         { slot := 0, handler := 8, status := .Aborted, interruptCtx := false }] :=
  ⟨_, _, _, rfl, rfl, rfl, rfl, rfl, rfl, rfl⟩

/-- The second `scheduleWait` of C7 is not always accepted: after `scheduleWait(0, 5, f1)`
and `cancelWait(0)` on a manager with one slot, `scheduleWait(0, 0, f2)` made when the
peripheral reports 5 elapsed units removes the stale entry and its own entry, and the
assertion `0 < waitQueueCount_` of its exit action fails. -/
theorem rescheduled_zero_wait_fails_start_guard :
    scheduleWait 0 0 8 5 TimerMgr.oneCancelled = .error .startGuard_queueCount := rfl

/-- Witness of C7: one slot, `scheduleWait(0, 5, f1)` with `f1 = 7`, `cancelWait(0)`, then
`scheduleWait(0, 9, f2)` with `f2 = 8`. -/
theorem rescheduled_wait_supersedes_witness :
    Reachable 1 (TimerMgr.full 1) ∧
    scheduleWait 0 5 7 0 (TimerMgr.full 1) = .ok TimerMgr.oneWaiting ∧
    cancelWait 0 TimerMgr.oneWaiting = .ok (true, TimerMgr.oneCancelled) ∧
    (∀ e ∈ TimerMgr.oneCancelled.waitQueue_, e.timerInfo_ = 0 →
      e.engagementId_ ≠ (TimerMgr.oneCancelled.nextEngagementId_ + 1) % UnsignedModulus) ∧
    (TimerMgr.oneCancelled.nextEngagementId_ =
        ((TimerMgr.full 1).nextEngagementId_ + 1) % UnsignedModulus ∧
      TimerMgr.oneCancelled.posted = TimerMgr.oneWaiting.posted ++
        [{ slot := 0, handler := 7, status := .Aborted, interruptCtx := false }] ∧
      ((TimerMgr.oneCancelled.timeBase_ + 0) % UnsignedModulus <
          ((TimerMgr.oneCancelled.timeBase_ + 0) % UnsignedModulus + 9) % UnsignedModulus →
        ∃ s3, scheduleWait 0 9 8 0 TimerMgr.oneCancelled = .ok s3) ∧
      ∀ s3, scheduleWait 0 9 8 0 TimerMgr.oneCancelled = .ok s3 →
        (∀ s', Run 0 s3 s' →
          (∀ e : ScheduledWaitInfo, e.timerInfo_ = 0 →
            e.engagementId_ = TimerMgr.oneCancelled.nextEngagementId_ →
            liveIn s'.timers_ e = false) ∧
          (Waiting 0 ((TimerMgr.oneCancelled.nextEngagementId_ + 1) % UnsignedModulus) 8
              (((TimerMgr.oneCancelled.timeBase_ + 0) % UnsignedModulus + 9) %
                UnsignedModulus)
              (postsOf 0 TimerMgr.oneCancelled.posted) s' ∨
            ∃ st ctx sm,
              (sm = s3 ∨ ∃ sp, Run 0 s3 sp ∧
                Waiting 0 ((TimerMgr.oneCancelled.nextEngagementId_ + 1) % UnsignedModulus) 8
                  (((TimerMgr.oneCancelled.timeBase_ + 0) % UnsignedModulus + 9) %
                    UnsignedModulus)
                  (postsOf 0 TimerMgr.oneCancelled.posted) sp ∧ Step 0 sp sm) ∧
              Run 0 sm s' ∧
              Completed 0 8 (postsOf 0 TimerMgr.oneCancelled.posted) st ctx sm ∧
              Completed 0 8 (postsOf 0 TimerMgr.oneCancelled.posted) st ctx s' ∧
              (st = .Success →
                ((TimerMgr.oneCancelled.timeBase_ + 0) % UnsignedModulus + 9) %
                  UnsignedModulus ≤ sm.timeBase_))) ∧
        ∃ s5 ctx, drainInterrupts s3.waitQueueCount_ s3 = .ok s5 ∧ s5.waitQueue_ = [] ∧
          Completed 0 8 (postsOf 0 TimerMgr.oneCancelled.posted) .Success ctx s5) :=
  ⟨full_one_reachable, rfl, rfl,
    (by
      intro e he _
      have h : e = { timerInfo_ := 0, engagementId_ := 1, targetTime_ := 5 } :=
        List.mem_singleton.mp he
      subst h
      decide),
    rescheduled_wait_supersedes 1 0 5 7 0 9 8 0 (TimerMgr.full 1) TimerMgr.oneWaiting
      TimerMgr.oneCancelled full_one_reachable rfl rfl
      (by
        intro e he _
        have h : e = { timerInfo_ := 0, engagementId_ := 1, targetTime_ := 5 } :=
          List.mem_singleton.mp he
        subst h
        decide)⟩

/-! ## The completion order of waits scheduled from a common instant -/

theorem mem_zeroPosts (l : List (Nat × Nat)) (idx : Nat) (p : Post) :
    p ∈ zeroPosts l idx ↔
      ∃ k r, l[k]? = some r ∧ r.1 = 0 ∧
        p = { slot := idx + k, handler := r.2, status := .Success, interruptCtx := false } := by
  induction l generalizing idx with
  | nil => simp [zeroPosts]
  | cons r rest ih =>
    rw [zeroPosts_cons]
    constructor
    · intro h
      split at h
      · rename_i hr
        rcases List.mem_cons.mp h with rfl | h
        · exact ⟨0, r, by simp, hr, rfl⟩
        · obtain ⟨k, x, hk, h1, h2⟩ := (ih (idx + 1)).mp h
          exact ⟨k + 1, x, by simpa using hk, h1, by rw [h2]; congr 1; omega⟩
      · obtain ⟨k, x, hk, h1, h2⟩ := (ih (idx + 1)).mp h
        exact ⟨k + 1, x, by simpa using hk, h1, by rw [h2]; congr 1; omega⟩
    · rintro ⟨k, x, hk, h1, h2⟩
      cases k with
      | zero =>
        simp only [List.getElem?_cons_zero, Option.some.injEq] at hk
        subst hk
        rw [if_pos h1]
        subst h2
        exact List.mem_cons_self _ _
      | succ k =>
        have hk' : rest[k]? = some x := by simpa using hk
        have : p ∈ zeroPosts rest (idx + 1) :=
          (ih (idx + 1)).mpr ⟨k, x, hk', h1, by rw [h2]; congr 1; omega⟩
        split
        · exact List.mem_cons_of_mem _ this
        · exact this

theorem zeroPosts_sorted (l : List (Nat × Nat)) (idx : Nat) :
    (zeroPosts l idx).Pairwise (fun p q => p.slot < q.slot) := by
  induction l generalizing idx with
  | nil => simp [zeroPosts]
  | cons r rest ih =>
    rw [zeroPosts_cons]
    split
    · refine List.Pairwise.cons ?_ (ih (idx + 1))
      intro q hq
      obtain ⟨k, x, _, _, rfl⟩ := (mem_zeroPosts _ _ _).mp hq
      simp only
      omega
    · exact ih (idx + 1)

/-- Waits scheduled from a common instant, the first of them with a positive duration: on a
fresh manager, scheduling the requests of `reqs` on the slots `0`, `1`, ... with no time
elapsing and delivering normal-completion interrupts until the queue is empty posts exactly
one completion per wait, each with Success and the callable of its wait, in the order of
increasing duration and, for equal durations, in request order. -/
theorem waits_complete_in_duration_order (M : Nat) (reqs : List (Nat × Nat))
    (hM : M ≤ Timer.InvalidIdx) (hNM : reqs.length ≤ M)
    (hdur : ∀ r ∈ reqs, r.1 < UnsignedModulus)
    (hfirst : ∀ r, reqs[0]? = some r → 0 < r.1) :
    ∃ s4, waitScenario M reqs 0 = .ok ([], s4) ∧ s4.waitQueue_ = [] ∧
      (s4.posted.map (fun p => p.slot)).Perm (List.range reqs.length) ∧
      (∀ p ∈ s4.posted, p.status = .Success ∧ ∃ d, reqs[p.slot]? = some (d, p.handler)) ∧
      s4.posted.Pairwise (fun p q => ∀ rp rq, reqs[p.slot]? = some rp →
        reqs[q.slot]? = some rq → rp.1 < rq.1 ∨ (rp.1 = rq.1 ∧ p.slot < q.slot)) := by
  obtain ⟨s2, h2, hs2⟩ := scheduleAll_spec hNM hM rfl hdur hfirst reqs 0
    (TimerMgr.allocated M reqs.length) (by intro i; rw [Nat.zero_add]) (by omega)
    (scheduled_start M reqs.length reqs hNM)
  have h3 : cancelAll 0 0 s2 = .ok ([], s2) := rfl
  obtain ⟨s4, h4, h5, _, h6⟩ := drainInterrupts_spec s2.waitQueue_.length s2
    (reachable_inv hs2.reach) hs2.nodup (Nat.le_refl _)
  have hres := waitScenario_eq hNM h2 h3 h4
  -- every entry of the queue is live and stands for one request of positive duration
  have hentry : ∀ e ∈ heapOrder s2.waitQueue_, ∃ j r, j < reqs.length ∧
      reqs[j]? = some r ∧ 0 < r.1 ∧ e = waitEntry j r ∧ liveIn s2.timers_ e = true ∧
      successOf s2.timers_ true e =
        { slot := j, handler := r.2, status := .Success, interruptCtx := true } := by
    intro e he
    obtain ⟨j, r, hj, hr, hp, rfl⟩ := (hs2.queue e).mp ((heapOrder_perm _).subset he)
    obtain ⟨l1, l2⟩ := liveIn_waitEntry hs2 hj hr hp
    exact ⟨j, r, hj, hr, hp, rfl, by rw [l1]; exact decide_eq_true (Nat.zero_le _),
      l2 (Nat.zero_le _)⟩
  have hfilter : (heapOrder s2.waitQueue_).filter (liveIn s2.timers_) =
      heapOrder s2.waitQueue_ := by
    rw [List.filter_eq_self]
    intro e he
    obtain ⟨_, _, _, _, _, _, hl, _⟩ := hentry e he
    exact hl
  have hposted : s4.posted = zeroPosts reqs 0 ++
      (heapOrder s2.waitQueue_).map (successOf s2.timers_ true) := by
    rw [h6, hfilter, hs2.posted, List.take_length]
    simp [abortedPosts]
  have hslotmap : ((heapOrder s2.waitQueue_).map (successOf s2.timers_ true)).map
      (fun p => p.slot) = (heapOrder s2.waitQueue_).map (fun e => e.timerInfo_) := by
    rw [List.map_map]
    exact List.map_congr_left (fun e _ => rfl)
  have hnodupH : ((heapOrder s2.waitQueue_).map (fun e => e.timerInfo_)).Nodup :=
    ((heapOrder_perm _).map _).nodup_iff.mpr hs2.nodup
  refine ⟨s4, hres, h5, ?_, ?_, ?_⟩
  · -- one completion per wait
    rw [hposted, List.map_append, hslotmap]
    refine (List.perm_ext_iff_of_nodup ?_ (List.nodup_range _)).mpr ?_
    · refine List.nodup_append.mpr ⟨?_, hnodupH, ?_⟩
      · rw [List.Nodup, List.pairwise_map]
        exact (zeroPosts_sorted reqs 0).imp (fun h => Nat.ne_of_lt h)
      · intro a ha hb
        obtain ⟨p, hp, rfl⟩ := List.mem_map.mp ha
        obtain ⟨e, he, hslot⟩ := List.mem_map.mp hb
        obtain ⟨k, r, hk, hr0, rfl⟩ := (mem_zeroPosts _ _ _).mp hp
        obtain ⟨j, r', _, hr', hpos, rfl, _⟩ := hentry e he
        simp only [waitEntry, Nat.zero_add] at hslot
        subst hslot
        rw [hk] at hr'
        cases hr'
        omega
    · intro a
      rw [List.mem_append, List.mem_range]
      constructor
      · rintro (ha | ha)
        · obtain ⟨p, hp, rfl⟩ := List.mem_map.mp ha
          obtain ⟨k, r, hk, _, rfl⟩ := (mem_zeroPosts _ _ _).mp hp
          simp only [Nat.zero_add]
          exact lt_length_of_getElem? hk
        · obtain ⟨e, he, rfl⟩ := List.mem_map.mp ha
          obtain ⟨j, r, hj, _, _, rfl, _⟩ := hentry e he
          exact hj
      · intro ha
        have hr : reqs[a]? = some reqs[a] := List.getElem?_eq_getElem ha
        by_cases h0 : (reqs[a]).1 = 0
        · left
          exact List.mem_map.mpr ⟨_, (mem_zeroPosts _ _ _).mpr ⟨a, _, hr, h0, rfl⟩,
            by simp⟩
        · right
          have hq : waitEntry a reqs[a] ∈ heapOrder s2.waitQueue_ :=
            (heapOrder_perm _).symm.subset
              ((hs2.queue _).mpr ⟨a, _, ha, hr, by omega, rfl⟩)
          exact List.mem_map.mpr ⟨_, hq, rfl⟩
  · -- each with Success and the callable of its wait
    intro p hp
    rw [hposted] at hp
    rcases List.mem_append.mp hp with hp | hp
    · obtain ⟨k, r, hk, _, rfl⟩ := (mem_zeroPosts _ _ _).mp hp
      exact ⟨rfl, r.1, by simpa using hk⟩
    · obtain ⟨e, he, rfl⟩ := List.mem_map.mp hp
      obtain ⟨j, r, _, hr, _, _, _, hs⟩ := hentry e he
      rw [hs]
      exact ⟨rfl, r.1, hr⟩
  · -- in the order of the durations, then of the requests
    rw [hposted, List.pairwise_append]
    refine ⟨?_, ?_, ?_⟩
    · refine (zeroPosts_sorted reqs 0).imp_of_mem ?_
      intro p q hp hq hlt rp rq hrp hrq
      obtain ⟨k, r, hk, hr0, rfl⟩ := (mem_zeroPosts _ _ _).mp hp
      obtain ⟨k', r', hk', hr0', rfl⟩ := (mem_zeroPosts _ _ _).mp hq
      simp only [Nat.zero_add] at hrp hrq hlt
      rw [hk] at hrp
      rw [hk'] at hrq
      cases hrp
      cases hrq
      right
      exact ⟨by omega, by simpa using hlt⟩
    · rw [List.pairwise_map]
      have hsorted := heapOrder_sorted s2.waitQueue_.length s2.waitQueue_ (Nat.le_refl _)
        (reachable_inv hs2.reach).queue.queue_heap
      have hnd : (heapOrder s2.waitQueue_).Pairwise (fun a b => a ≠ b) :=
        (heapOrder_perm _).nodup_iff.mpr (nodup_of_nodup_slots hs2.nodup)
      refine (hsorted.and hnd).imp_of_mem ?_
      intro a b ha hb hab rp rq hrp hrq
      obtain ⟨ja, ra, _, hra, _, rfl, _, hsa⟩ := hentry a ha
      obtain ⟨jb, rb, _, hrb, _, rfl, _, hsb⟩ := hentry b hb
      rw [hsa] at hrp ⊢
      rw [hsb] at hrq ⊢
      simp only at hrp hrq ⊢
      rw [hra] at hrp
      rw [hrb] at hrq
      cases hrp
      cases hrq
      obtain ⟨hcmp, hne⟩ := hab
      rw [comp_eq_false_iff] at hcmp
      simp only [waitEntry] at hcmp
      rcases hcmp with h | ⟨h, h'⟩
      · exact .inl h
      · right
        refine ⟨h, ?_⟩
        have hjne : ja ≠ jb := by
          intro hj
          subst hj
          rw [hra] at hrb
          cases hrb
          exact hne rfl
        omega
    · intro p hp q hq rp rq hrp hrq
      obtain ⟨k, r, hk, hr0, rfl⟩ := (mem_zeroPosts _ _ _).mp hp
      obtain ⟨e, he, rfl⟩ := List.mem_map.mp hq
      obtain ⟨j, r', _, hr', hpos, _, _, hs⟩ := hentry e he
      rw [hs] at hrq
      simp only [Nat.zero_add] at hrp hrq
      rw [hk] at hrp
      rw [hr'] at hrq
      cases hrp
      cases hrq
      left
      omega

/-! ## Requests that are due at once -/

/-- A `scheduleWait(idx, 0, f)` that returns, in a reachable state, has posted `f` with
Success through the non-interrupt post, exactly once, has left slot `idx` without a wait in
progress and with an empty callable, and has left no due entry in the queue. -/
theorem scheduleWait_zero_dispatches (M idx f el : Nat) (s s' : TimerMgr)
    (hr : Reachable M s) (h : scheduleWait idx 0 f el s = .ok s') :
    postsOf idx s'.posted = postsOf idx s.posted ++
      [{ slot := idx, handler := f, status := .Success, interruptCtx := false }] ∧
    (∃ slot, s'.timers_[idx]? = some slot ∧ slot.isWaitInProgress = false ∧
      slot.handler_ = none) ∧
    ∀ e ∈ s'.waitQueue_, s'.timeBase_ < e.targetTime_ := by
  have hs := reachable_inv hr
  obtain ⟨info, q, s6, hget, ha, hw, hcore, _, hd, h1, _, h3, _, _⟩ :=
    scheduleWait_course hs h
  have hrec := armed_timers_get 0 f el hget
  have hbase : postsOf idx ({ armed idx 0 f el info s with waitQueue_ := q } :
      TimerMgr).posted = postsOf idx s.posted := by
    show postsOf idx (armed idx 0 f el info s).posted = _
    rw [armed_posted]
  obtain ⟨hcore6, htb, _, _, _, _, hfut⟩ := drains_facts hd hcore
  refine ⟨?_, ?_, (scheduleWait_preserves hs h).queue_future⟩
  all_goals
    rcases drains_slot (f := f) hd hcore hrec (by simp) with ⟨h6, _⟩ | ⟨h6, h7, _⟩
    · exfalso
      obtain ⟨e, he, _, _, het⟩ := hcore6.waits idx _ h6 (by simp)
      have hlt := hfut e he
      rw [het, htb] at hlt
      simp only [targetTime_setWaitInProgress, armed, Nat.add_zero] at hlt
      have hb : (if s.deviceActive_ then (s.timeBase_ + el) % UnsignedModulus
          else s.timeBase_) < UnsignedModulus := by
        split
        · exact Nat.mod_lt _ (by decide)
        · exact hs.timeBase_lt
      rw [Nat.mod_eq_of_lt hb] at hlt
      exact Nat.lt_irrefl _ hlt
  · rw [h3, h7, hbase]
  · refine ⟨_, h1 ▸ h6, dispatched_not_waiting _, ?_⟩
    simp [TimerInfo.dispatched]

/-! ## Allocation and release of a slot -/

/-- C11: when `allocTimer` returns a valid handle (on a pool whose indices fit the
`unsigned` index of a handle), the slot of the handle was unallocated before the call and
every slot of a smaller index was allocated; after the call the slot is allocated and has
no wait in progress, the occupancy count has grown by exactly one, and every other slot,
the schedule queue, `timeBase_`, the next engagement id, the state of the peripheral and
the posted completions are unchanged. -/
theorem allocTimer_binds_first_free_slot (s s' : TimerMgr) (t : Timer)
    (hlen : s.timers_.length ≤ Timer.InvalidIdx)
    (h : allocTimer s = .ok (t, s')) (hv : t.isValid = true) :
    (∃ info, s.timers_[t.idx_]? = some info ∧ info.isAllocated = false) ∧
    (∀ j info, j < t.idx_ → s.timers_[j]? = some info → info.isAllocated = true) ∧
    (∃ slot, s'.timers_[t.idx_]? = some slot ∧ slot.isAllocated = true ∧
      slot.isWaitInProgress = false) ∧
    s'.timersCount_ = s.timersCount_ + 1 ∧
    (∀ j, j ≠ t.idx_ → s'.timers_[j]? = s.timers_[j]?) ∧
    s'.waitQueue_ = s.waitQueue_ ∧ s'.timeBase_ = s.timeBase_ ∧
    s'.nextEngagementId_ = s.nextEngagementId_ ∧ s'.deviceActive_ = s.deviceActive_ ∧
    s'.posted = s.posted := by
  rcases allocTimer_inv h with ⟨_, rfl, _⟩ | ⟨_, info, hget, hna, rfl, rfl⟩
  · exact absurd hv (by decide)
  · have hlt := lt_length_of_getElem? hget
    have hI : Timer.InvalidIdx = 4294967295 := rfl
    have hmod : s.timers_.findIdx (fun info => !info.isAllocated) % UnsignedModulus =
        s.timers_.findIdx (fun info => !info.isAllocated) :=
      Nat.mod_eq_of_lt (by simp only [UnsignedModulus]; omega)
    have hidx : ({ idx_ := s.timers_.findIdx (fun info => !info.isAllocated) %
        UnsignedModulus } : Timer).idx_ =
        s.timers_.findIdx (fun info => !info.isAllocated) := hmod
    rw [hidx]
    refine ⟨⟨info, hget, hna⟩, ?_,
      ⟨(info.setAllocated true).setWaitInProgress false, ?_, ?_, ?_⟩,
      rfl, ?_, rfl, rfl, rfl, rfl, rfl⟩
    · intro j x hj hx
      have hjl := lt_length_of_getElem? hx
      have h1 := List.not_of_lt_findIdx hj
      have h2 : s.timers_[j] = x := by
        rw [List.getElem?_eq_getElem hjl] at hx
        exact Option.some.inj hx
      rw [h2] at h1
      simpa using h1
    · rw [List.getElem?_set, if_pos rfl, if_pos hlt]
    · simp
    · simp
    · intro j hj
      rw [List.getElem?_set, if_neg (Ne.symm hj)]

/-- Witness of C11: the first allocation on a fresh manager with one slot. -/
theorem allocTimer_binds_first_free_slot_witness :
    (TimerMgr.new 1).timers_.length ≤ Timer.InvalidIdx ∧
    allocTimer (TimerMgr.new 1) = .ok ({ idx_ := 0 }, TimerMgr.full 1) ∧
    ({ idx_ := 0 } : Timer).isValid = true ∧
    ((∃ info, (TimerMgr.new 1).timers_[({ idx_ := 0 } : Timer).idx_]? = some info ∧
        info.isAllocated = false) ∧
      (∀ j info, j < ({ idx_ := 0 } : Timer).idx_ →
        (TimerMgr.new 1).timers_[j]? = some info → info.isAllocated = true) ∧
      (∃ slot, (TimerMgr.full 1).timers_[({ idx_ := 0 } : Timer).idx_]? = some slot ∧
        slot.isAllocated = true ∧ slot.isWaitInProgress = false) ∧
      (TimerMgr.full 1).timersCount_ = (TimerMgr.new 1).timersCount_ + 1 ∧
      (∀ j, j ≠ ({ idx_ := 0 } : Timer).idx_ →
        (TimerMgr.full 1).timers_[j]? = (TimerMgr.new 1).timers_[j]?) ∧
      (TimerMgr.full 1).waitQueue_ = (TimerMgr.new 1).waitQueue_ ∧
      (TimerMgr.full 1).timeBase_ = (TimerMgr.new 1).timeBase_ ∧
      (TimerMgr.full 1).nextEngagementId_ = (TimerMgr.new 1).nextEngagementId_ ∧
      (TimerMgr.full 1).deviceActive_ = (TimerMgr.new 1).deviceActive_ ∧
      (TimerMgr.full 1).posted = (TimerMgr.new 1).posted) :=
  ⟨by decide, rfl, by decide,
    allocTimer_binds_first_free_slot (TimerMgr.new 1) (TimerMgr.full 1) { idx_ := 0 }
      (by decide) rfl (by decide)⟩

/-- C12: in a reachable state, `deleteTimer(idx)` on an allocated slot with no wait in
progress and an empty handler returns and changes the state only by clearing the allocated
flag of slot `idx`: the target time, engagement id, handler and wait flag of the slot, every
other slot, the queue, `timeBase_`, the next engagement id and the occupancy count are
unchanged. On a slot of the pool the assertions of `deleteTimer` fail exactly when the slot
is unallocated, has a wait in progress, or holds a handler. -/
theorem deleteTimer_clears_only_allocated (M idx : Nat) (s : TimerMgr) (info : TimerInfo)
    (hr : Reachable M s) (hget : s.timers_[idx]? = some info) :
    (info.isAllocated = true → info.isWaitInProgress = false → info.handler_ = none →
      deleteTimer idx s =
          .ok { s with timers_ := s.timers_.set idx (info.setAllocated false) } ∧
        (info.setAllocated false).isAllocated = false ∧
        (info.setAllocated false).isWaitInProgress = false ∧
        (info.setAllocated false).handler_ = none ∧
        (info.setAllocated false).targetTime_ = info.targetTime_ ∧
        (info.setAllocated false).engagementId_ = info.engagementId_ ∧
        ∀ j, j ≠ idx → (s.timers_.set idx (info.setAllocated false))[j]? = s.timers_[j]?) ∧
    ((∃ e, deleteTimer idx s = .error e) ↔
      (info.isAllocated = false ∨ info.isWaitInProgress = true ∨
        info.handler_.isSome = true)) := by
  have hs := reachable_inv hr
  have hcount : info.isAllocated = true → idx < s.timersCount_ :=
    hs.slots.allocated_lt idx info hget
  refine ⟨?_, ?_⟩
  · intro ha hw hf
    refine ⟨?_, by simp, by simpa using hw, by simpa using hf, by simp, by simp, ?_⟩
    · unfold deleteTimer
      rw [if_neg (not_not.mpr (hcount ha)), hget]
      simp [ha, hw, hf]
    · intro j hj
      rw [List.getElem?_set, if_neg (Ne.symm hj)]
  · constructor
    · rintro ⟨e, he⟩
      by_cases ha : info.isAllocated = true
      · by_cases hw : info.isWaitInProgress = true
        · exact .inr (.inl hw)
        · by_cases hf : info.handler_.isSome = true
          · exact .inr (.inr hf)
          · exfalso
            unfold deleteTimer at he
            rw [if_neg (not_not.mpr (hcount ha)), hget] at he
            simp [ha, hw, hf] at he
      · exact .inl (by simpa using ha)
    · intro hc
      unfold deleteTimer
      by_cases hlt : idx < s.timersCount_
      · rw [if_neg (not_not.mpr hlt), hget]
        simp only
        rcases hc with ha | hw | hf
        · exact ⟨_, by rw [if_pos (by simp [ha])]⟩
        · by_cases ha : info.isAllocated = true
          · by_cases hf : info.handler_.isSome = true
            · exact ⟨_, by rw [if_neg (by simp [ha]), if_pos hf]⟩
            · exact ⟨_, by rw [if_neg (by simp [ha]), if_neg hf, if_pos hw]⟩
          · exact ⟨_, by rw [if_pos (by simpa using ha)]⟩
        · by_cases ha : info.isAllocated = true
          · exact ⟨_, by rw [if_neg (by simp [ha]), if_pos hf]⟩
          · exact ⟨_, by rw [if_pos (by simpa using ha)]⟩
      · exact ⟨_, by rw [if_pos hlt]⟩

/-- Witness of C12: the manager with one slot, allocated and idle. -/
theorem deleteTimer_clears_only_allocated_witness :
    Reachable 1 (TimerMgr.full 1) ∧ (TimerMgr.full 1).timers_[0]? = some TimerInfo.idle ∧
    ((TimerInfo.idle.isAllocated = true → TimerInfo.idle.isWaitInProgress = false →
        TimerInfo.idle.handler_ = none →
        deleteTimer 0 (TimerMgr.full 1) =
            .ok { TimerMgr.full 1 with
              timers_ := (TimerMgr.full 1).timers_.set 0 (TimerInfo.idle.setAllocated false) } ∧
          (TimerInfo.idle.setAllocated false).isAllocated = false ∧
          (TimerInfo.idle.setAllocated false).isWaitInProgress = false ∧
          (TimerInfo.idle.setAllocated false).handler_ = none ∧
          (TimerInfo.idle.setAllocated false).targetTime_ = TimerInfo.idle.targetTime_ ∧
          (TimerInfo.idle.setAllocated false).engagementId_ = TimerInfo.idle.engagementId_ ∧
          ∀ j, j ≠ 0 →
            ((TimerMgr.full 1).timers_.set 0 (TimerInfo.idle.setAllocated false))[j]? =
              (TimerMgr.full 1).timers_[j]?) ∧
      ((∃ e, deleteTimer 0 (TimerMgr.full 1) = .error e) ↔
        (TimerInfo.idle.isAllocated = false ∨ TimerInfo.idle.isWaitInProgress = true ∨
          TimerInfo.idle.handler_.isSome = true))) :=
  ⟨full_one_reachable, rfl,
    deleteTimer_clears_only_allocated 1 0 (TimerMgr.full 1) TimerInfo.idle
      full_one_reachable rfl⟩

/-! ## The comparator and the heap of the schedule queue -/

/-- C13: `ScheduledWaitPriorityComp a b` is true exactly when `b` precedes `a` in the
lexicographic order on (target time, engagement id); the relation is irreflexive,
asymmetric and transitive, two entries are incomparable only if they agree on both fields,
and so a heap under the comparator, in particular the one `make_heap` builds, has on top an
entry with the smallest target time and, among the entries with that target time, the
smallest engagement id. -/
theorem comparator_orders_by_target_then_id :
    (∀ a b : ScheduledWaitInfo, ScheduledWaitPriorityComp a b = true ↔
      (b.targetTime_ < a.targetTime_ ∨
        (b.targetTime_ = a.targetTime_ ∧ b.engagementId_ < a.engagementId_))) ∧
    (∀ a : ScheduledWaitInfo, ScheduledWaitPriorityComp a a = false) ∧
    (∀ a b : ScheduledWaitInfo, ScheduledWaitPriorityComp a b = true →
      ScheduledWaitPriorityComp b a = false) ∧
    (∀ a b c : ScheduledWaitInfo, ScheduledWaitPriorityComp a b = true →
      ScheduledWaitPriorityComp b c = true → ScheduledWaitPriorityComp a c = true) ∧
    (∀ a b : ScheduledWaitInfo, ScheduledWaitPriorityComp a b = false →
      ScheduledWaitPriorityComp b a = false →
      a.targetTime_ = b.targetTime_ ∧ a.engagementId_ = b.engagementId_) ∧
    (∀ (top : ScheduledWaitInfo) (rest : List ScheduledWaitInfo),
      IsHeap ScheduledWaitPriorityComp (top :: rest) → ∀ e ∈ rest,
        top.targetTime_ < e.targetTime_ ∨
          (top.targetTime_ = e.targetTime_ ∧ top.engagementId_ ≤ e.engagementId_)) ∧
    (∀ (l : List ScheduledWaitInfo) (top : ScheduledWaitInfo) (rest : List ScheduledWaitInfo),
      make_heap ScheduledWaitPriorityComp l = top :: rest → ∀ e ∈ l,
        top.targetTime_ < e.targetTime_ ∨
          (top.targetTime_ = e.targetTime_ ∧ top.engagementId_ ≤ e.engagementId_)) := by
  refine ⟨comp_eq_true_iff, ?_, ?_, ?_, ?_, ?_, ?_⟩
  · intro a
    rw [comp_eq_false_iff]
    omega
  · intro a b h
    rw [comp_eq_true_iff] at h
    rw [comp_eq_false_iff]
    omega
  · intro a b c h1 h2
    rw [comp_eq_true_iff] at h1 h2 ⊢
    omega
  · intro a b h1 h2
    rw [comp_eq_false_iff] at h1 h2
    omega
  · intro top rest h e he
    have := isHeap_head_le comp_strictWeak top rest h e (List.mem_cons_of_mem _ he)
    rw [comp_eq_false_iff] at this
    exact this
  · intro l top rest h e he
    have hheap := make_heap_isHeap comp_strictWeak l
    rw [h] at hheap
    have hmem : e ∈ top :: rest := by
      rw [← h]
      exact (make_heap_perm ScheduledWaitPriorityComp l).symm.subset he
    have := isHeap_head_le comp_strictWeak top rest hheap e hmem
    rw [comp_eq_false_iff] at this
    exact this

theorem pushToWaitQueue_inv {idx : Nat} {s s' : TimerMgr}
    (h : pushToWaitQueue idx s = .ok s') :
    ∃ info, s.timers_[idx]? = some info ∧
      s.waitQueue_.length < ScheduleQueueScale * s.timers_.length ∧
      s' = { s with
        waitQueue_ := push_heap ScheduledWaitPriorityComp (s.waitQueue_ ++
          [{ timerInfo_ := idx, engagementId_ := info.engagementId_,
             targetTime_ := info.targetTime_ }]) } := by
  by_cases hcap : s.waitQueue_.length < ScheduleQueueScale * s.timers_.length
  · rcases hget : s.timers_[idx]? with _ | info
    · exfalso
      unfold pushToWaitQueue addToScheduledWaits at h
      rw [if_neg (by simpa [TimerMgr.waitQueueCount_] using hcap), hget] at h
      cases h
    · rw [pushToWaitQueue_ok hcap hget] at h
      injection h with h
      exact ⟨info, rfl, hcap, h.symm⟩
  · exfalso
    unfold pushToWaitQueue at h
    rw [addToScheduledWaits_full hcap] at h
    cases h

/-- C14: in every reachable state the schedule queue is a binary heap under
`ScheduledWaitPriorityComp`, so when it is not empty its first entry has the smallest
target time of the queue and, among the entries with that target time, the smallest
engagement id; and `pushToWaitQueue`, `recreateWaitQueue` and the `pop_heap` step of
`postExpiredHandlers` each yield a heap again (the first and the last from a heap, the
rebuild from any queue). -/
theorem waitQueue_is_heap (M : Nat) (s : TimerMgr) (hr : Reachable M s) :
    IsHeap ScheduledWaitPriorityComp s.waitQueue_ ∧
    (∀ top rest, s.waitQueue_ = top :: rest → ∀ e ∈ s.waitQueue_,
      top.targetTime_ < e.targetTime_ ∨
        (top.targetTime_ = e.targetTime_ ∧ top.engagementId_ ≤ e.engagementId_)) ∧
    (∀ (x x' : TimerMgr) (idx : Nat), IsHeap ScheduledWaitPriorityComp x.waitQueue_ →
      pushToWaitQueue idx x = .ok x' → IsHeap ScheduledWaitPriorityComp x'.waitQueue_) ∧
    (∀ x x' : TimerMgr, recreateWaitQueue x = .ok x' →
      IsHeap ScheduledWaitPriorityComp x'.waitQueue_) ∧
    (∀ q : List ScheduledWaitInfo, IsHeap ScheduledWaitPriorityComp q →
      IsHeap ScheduledWaitPriorityComp (pop_heap ScheduledWaitPriorityComp q).dropLast) := by
  have hheap := (reachable_inv hr).queue.queue_heap
  refine ⟨hheap, ?_, ?_, ?_, ?_⟩
  · intro top rest hq e he
    rw [hq] at hheap he
    have := isHeap_head_le comp_strictWeak top rest hheap e he
    rw [comp_eq_false_iff] at this
    exact this
  · intro x x' idx hx h
    obtain ⟨info, _, _, rfl⟩ := pushToWaitQueue_inv h
    exact push_heap_isHeap comp_strictWeak _ _ hx
  · intro x x' h
    rw [recreateWaitQueue_ok] at h
    injection h with h
    subst h
    exact make_heap_isHeap comp_strictWeak _
  · intro q hq
    cases q with
    | nil => exact hq
    | cons top rest => exact pop_heap_isHeap comp_strictWeak top rest hq

/-- Witness of C14: the manager with one slot on which a wait is in progress. -/
theorem waitQueue_is_heap_witness :
    Reachable 1 TimerMgr.oneWaiting ∧
    (IsHeap ScheduledWaitPriorityComp TimerMgr.oneWaiting.waitQueue_ ∧
      (∀ top rest, TimerMgr.oneWaiting.waitQueue_ = top :: rest →
        ∀ e ∈ TimerMgr.oneWaiting.waitQueue_,
          top.targetTime_ < e.targetTime_ ∨
            (top.targetTime_ = e.targetTime_ ∧ top.engagementId_ ≤ e.engagementId_)) ∧
      (∀ (x x' : TimerMgr) (idx : Nat), IsHeap ScheduledWaitPriorityComp x.waitQueue_ →
        pushToWaitQueue idx x = .ok x' → IsHeap ScheduledWaitPriorityComp x'.waitQueue_) ∧
      (∀ x x' : TimerMgr, recreateWaitQueue x = .ok x' →
        IsHeap ScheduledWaitPriorityComp x'.waitQueue_) ∧
      (∀ q : List ScheduledWaitInfo, IsHeap ScheduledWaitPriorityComp q →
        IsHeap ScheduledWaitPriorityComp
          (pop_heap ScheduledWaitPriorityComp q).dropLast)) :=
  ⟨oneWaiting_reachable, waitQueue_is_heap 1 TimerMgr.oneWaiting oneWaiting_reachable⟩

/-! ## The slot invariant -/

/-- C20: in every reachable state every slot with a wait in progress holds a handler, every
unallocated slot has no wait in progress and no handler, and a slot holds a handler exactly
when it has a wait in progress; and a `postHandler` that returns has posted the handler of
its slot and left the slot with an empty handler and no wait in progress. -/
theorem slot_handler_iff_wait (M : Nat) (s : TimerMgr) (hr : Reachable M s) :
    (∀ info ∈ s.timers_,
      (info.isWaitInProgress = true → info.handler_.isSome = true) ∧
      (info.isAllocated = false → info.isWaitInProgress = false ∧ info.handler_ = none) ∧
      (info.handler_.isSome = true ↔ info.isWaitInProgress = true)) ∧
    (∀ (status : ErrorStatus) (idx : Nat) (ctx : Bool) (s' : TimerMgr),
      postHandler status idx ctx s = .ok s' →
      ∃ info f, s.timers_[idx]? = some info ∧ info.handler_ = some f ∧
        s'.posted = s.posted ++
          [{ slot := idx, handler := f, status := status, interruptCtx := ctx }] ∧
        ∃ slot, s'.timers_[idx]? = some slot ∧ slot.handler_ = none ∧
          slot.isWaitInProgress = false) := by
  have hs := (reachable_inv hr).slots
  refine ⟨?_, ?_⟩
  · intro info hmem
    have h1 := hs.handler_iff info hmem
    have h2 := hs.wait_allocated info hmem
    refine ⟨fun hw => by rw [h1]; exact hw, ?_, by rw [h1]⟩
    intro ha
    have hw : info.isWaitInProgress = false := by
      rcases Bool.eq_false_or_eq_true info.isWaitInProgress with h | h
      · rw [h2 h] at ha; cases ha
      · exact h
    refine ⟨hw, ?_⟩
    rw [hw] at h1
    rcases hh : info.handler_ with _ | f
    · rfl
    · rw [hh] at h1
      cases h1
  · intro status idx ctx s' h
    obtain ⟨info, f, hget, hf, _, _, rfl⟩ := postHandler_inv h
    have hlt := lt_length_of_getElem? hget
    refine ⟨info, f, hget, hf, ?_,
      ({ info with handler_ := none } : TimerInfo).setWaitInProgress false, ?_, ?_, ?_⟩
    · rw [posted_of_events s _ [.post
        { slot := idx, handler := f, status := status, interruptCtx := ctx }] rfl]
      simp [Event.toPost]
    · simp only [List.getElem?_set, if_pos hlt, if_true]
    · simp
    · simp

/-- Witness of C20: the manager with one slot on which a wait is in progress. -/
theorem slot_handler_iff_wait_witness :
    Reachable 1 TimerMgr.oneWaiting ∧
    ((∀ info ∈ TimerMgr.oneWaiting.timers_,
        (info.isWaitInProgress = true → info.handler_.isSome = true) ∧
        (info.isAllocated = false → info.isWaitInProgress = false ∧ info.handler_ = none) ∧
        (info.handler_.isSome = true ↔ info.isWaitInProgress = true)) ∧
      (∀ (status : ErrorStatus) (idx : Nat) (ctx : Bool) (s' : TimerMgr),
        postHandler status idx ctx TimerMgr.oneWaiting = .ok s' →
        ∃ info f, TimerMgr.oneWaiting.timers_[idx]? = some info ∧ info.handler_ = some f ∧
          s'.posted = TimerMgr.oneWaiting.posted ++
            [{ slot := idx, handler := f, status := status, interruptCtx := ctx }] ∧
          ∃ slot, s'.timers_[idx]? = some slot ∧ slot.handler_ = none ∧
            slot.isWaitInProgress = false)) :=
  ⟨oneWaiting_reachable, slot_handler_iff_wait 1 TimerMgr.oneWaiting oneWaiting_reachable⟩

/-! ## The exit of `scheduleWait` -/

/-- C18, evaluated on the code: on a manager with two slots, both allocated and idle (a
reachable state), the preconditions of `scheduleWait(1, 0, f)` hold, and the call ends in
the failed assertion `0 < waitQueueCount_` of its exit action: the wait is dispatched by
`postExpiredHandlers`, and the queue is empty when the scope guard runs. -/
theorem scheduleWait_exit_assertion_fails :
    Reachable 2 (TimerMgr.full 2) ∧
    (TimerMgr.full 2).timers_[1]? = some TimerInfo.idle ∧
    TimerInfo.idle.isAllocated = true ∧ TimerInfo.idle.isWaitInProgress = false ∧
    TimerInfo.idle.handler_ = none ∧
    scheduleWait 1 0 9 0 (TimerMgr.full 2) = .error .startGuard_queueCount :=
  ⟨reachable_allocated 2 2 (Nat.le_refl _), rfl, by decide, by decide, rfl, rfl⟩

/-- In a reachable state and under its preconditions, `scheduleWait` either fails the
assertion of its exit action, and no other, or returns with a non-empty queue, the
peripheral started from event-loop context for the target time of the first entry minus
`timeBase_`, that entry being an earliest one of the queue. -/
theorem scheduleWait_exit (M idx d f el : Nat) (s : TimerMgr) (info : TimerInfo)
    (hr : Reachable M s) (hget : s.timers_[idx]? = some info)
    (ha : info.isAllocated = true) (hw : info.isWaitInProgress = false) :
    scheduleWait idx d f el s = .error .startGuard_queueCount ∨
    ∃ s' top rest, scheduleWait idx d f el s = .ok s' ∧ s'.waitQueue_ = top :: rest ∧
      s'.deviceActive_ = true ∧
      s'.trace_.getLast? = some (.startWait (top.targetTime_ - s'.timeBase_) false) ∧
      s'.timeBase_ < top.targetTime_ ∧
      ∀ e ∈ s'.waitQueue_, top.targetTime_ ≤ e.targetTime_ := by
  have hs := reachable_inv hr
  obtain ⟨q, s6, hcore, _, hd, h4⟩ := scheduleWait_spec d f el hs hget ha hw
  rcases hq : s6.waitQueue_ with _ | ⟨top, rest⟩
  · exact .inl (h4.trans (startGuard_empty hq))
  · right
    have hok := h4.trans (startGuard_ok hq)
    have hs' := scheduleWait_preserves hs hok
    have htop : top ∈ s6.waitQueue_ := by rw [hq]; exact List.mem_cons_self _ _
    have hfut : s6.timeBase_ < top.targetTime_ := hs'.queue_future top htop
    have hlt : top.targetTime_ < UnsignedModulus := hs'.queue.queue_target top htop
    refine ⟨_, top, rest, hok, hq, rfl, ?_, hfut, ?_⟩
    · have harith : (top.targetTime_ + UnsignedModulus - s6.timeBase_) % UnsignedModulus =
          top.targetTime_ - s6.timeBase_ := by
        simp only [UnsignedModulus] at hlt ⊢
        omega
      show (s6.trace_ ++ [Event.startWait
        ((top.targetTime_ + UnsignedModulus - s6.timeBase_) % UnsignedModulus) false]).getLast?
          = _
      rw [List.getLast?_concat, harith]
    · intro e he
      have hheap := hs'.queue.queue_heap
      simp only at hheap he
      rw [hq] at hheap he
      have := isHeap_head_le comp_strictWeak top rest hheap e he
      rw [comp_eq_false_iff] at this
      omega

/-! ## The rebuild of the schedule queue -/

theorem liveEntries_sorted (ts : List TimerInfo) (idx : Nat) :
    (liveEntries ts idx).Pairwise (fun a b => a.timerInfo_ < b.timerInfo_) := by
  induction ts generalizing idx with
  | nil => simp [liveEntries]
  | cons info rest ih =>
    unfold liveEntries
    split
    · refine List.Pairwise.cons ?_ (ih (idx + 1))
      intro e he
      obtain ⟨k, x, _, _, _, rfl⟩ := (mem_liveEntries _ _ _).mp he
      simp only
      omega
    · exact ih (idx + 1)

theorem liveEntries_length (ts : List TimerInfo) (idx : Nat) :
    (liveEntries ts idx).length =
      ts.countP (fun info => info.isAllocated && info.isWaitInProgress) := by
  induction ts generalizing idx with
  | nil => simp [liveEntries]
  | cons info rest ih =>
    unfold liveEntries
    rw [List.countP_cons]
    split
    · rw [List.length_cons, ih (idx + 1)]
    · rw [ih (idx + 1)]
      rfl

/-- The steps of a `scheduleWait` whose preconditions hold in a state that satisfies the
invariant: the queue is rebuilt or gets the new entry, the loop of `postExpiredHandlers`
runs, and the scope guard ends the call. -/
theorem scheduleWait_steps (timeUnits func elapsed : Nat) {M idx : Nat} {s : TimerMgr}
    {info : TimerInfo} (hs : Inv M s) (hget : s.timers_[idx]? = some info)
    (ha : info.isAllocated = true) (hw : info.isWaitInProgress = false) :
    ∃ q s6,
      (if ScheduleQueueScale * M ≤ s.waitQueue_.length then
          recreateWaitQueue (armed idx timeUnits func elapsed info s)
        else pushToWaitQueue idx (armed idx timeUnits func elapsed info s)) =
        .ok { armed idx timeUnits func elapsed info s with waitQueue_ := q } ∧
      CoreInv M { armed idx timeUnits func elapsed info s with waitQueue_ := q } ∧
      postExpiredHandlers false
        { armed idx timeUnits func elapsed info s with waitQueue_ := q } = .ok s6 ∧
      Drains false { armed idx timeUnits func elapsed info s with waitQueue_ := q } s6 ∧
      scheduleWait idx timeUnits func elapsed s = startGuard s6 ∧
      ({ timerInfo_ := idx
         engagementId_ := (s.nextEngagementId_ + 1) % UnsignedModulus
         targetTime_ :=
          ((if s.deviceActive_ then (s.timeBase_ + elapsed) % UnsignedModulus
            else s.timeBase_) + timeUnits) % UnsignedModulus } : ScheduledWaitInfo) ∈ q := by
  have hidx : idx < s.timersCount_ := hs.slots.allocated_lt idx info hget ha
  have hf : info.handler_ = none := by
    have := hs.slots.handler_iff info (List.getElem?_mem hget)
    rw [hw] at this
    rcases h : info.handler_ with _ | g
    · rfl
    · rw [h] at this; cases this
  have hdev : s.deviceActive_ = true → s.waitQueue_ ≠ [] := hs.device_iff.mp
  have hnget := armed_timers_get timeUnits func elapsed hget
  have hslots : SlotsOk M (armed idx timeUnits func elapsed info s) :=
    slotsOk_set hs.slots idx info _ hget rfl rfl
      (by rw [isAllocated_setWaitInProgress]; exact fun _ => ha) (by simp)
      (by rw [isAllocated_setWaitInProgress]; exact fun _ => ha)
  have hqueue : QueueOk M (armed idx timeUnits func elapsed info s) :=
    queueOk_of_eq hs.queue rfl
  have hwaits : ∀ i x, i ≠ idx →
      (armed idx timeUnits func elapsed info s).timers_[i]? = some x →
      x.isWaitInProgress = true →
      ∃ e ∈ (armed idx timeUnits func elapsed info s).waitQueue_, e.timerInfo_ = i ∧
        e.engagementId_ = x.engagementId_ ∧ e.targetTime_ = x.targetTime_ := by
    intro i x hi hx hxw
    simp only [armed, List.getElem?_set, if_neg (Ne.symm hi)] at hx
    exact hs.waits i x hx hxw
  obtain ⟨q, h1, h2, h3⟩ := enqueue_spec hslots hqueue hnget
    (by simp only [targetTime_setWaitInProgress]; exact Nat.mod_lt _ (by decide)) hwaits
  have hmem : ({ timerInfo_ := idx
                 engagementId_ := (s.nextEngagementId_ + 1) % UnsignedModulus
                 targetTime_ :=
                  ((if s.deviceActive_ then (s.timeBase_ + elapsed) % UnsignedModulus
                    else s.timeBase_) + timeUnits) % UnsignedModulus } :
      ScheduledWaitInfo) ∈ q := by
    rcases h3 with ⟨_, hperm⟩ | ⟨_, hperm⟩
    · refine hperm.symm.subset ?_
      rw [mem_liveEntries]
      refine ⟨idx, _, hnget, ?_, ?_, ?_⟩
      · simpa using ha
      · simp
      · simp
    · refine hperm.symm.subset (List.mem_append_right _ ?_)
      simp
  obtain ⟨s6, h4, h5⟩ := postExpiredHandlers_drains false _ h2
  have hlen : (armed idx timeUnits func elapsed info s).timers_.length = M :=
    hslots.timers_length
  have hcnt : (armed idx timeUnits func elapsed info s).waitQueueCount_ =
      s.waitQueue_.length := rfl
  rw [hlen, hcnt] at h1
  refine ⟨q, s6, h1, h2, h4, h5, ?_, hmem⟩
  have heq : scheduleWait idx timeUnits func elapsed s =
      finishSchedule idx (armed idx timeUnits func elapsed info s) :=
    scheduleWait_eq hdev hidx hget ha hw hf
  rw [heq]
  unfold finishSchedule
  simp only
  rw [hlen, hcnt, h1]
  simp only
  rw [h4]

/-- C15: `recreateWaitQueue` replaces the queue, whatever it held, by a heap that has
exactly one entry for each slot that is allocated and has a wait in progress, carrying the
engagement id and the target time of the slot, and no other entry, so its length is the
number of such slots, at most the number of slots; and in a reachable state a `scheduleWait`
whose preconditions hold rebuilds the queue in this way exactly when `waitQueueCount_`
equals the capacity `2 * MaxTimers`, and otherwise pushes the new entry on the heap. -/
theorem recreateWaitQueue_keeps_live_waits (M idx d f el : Nat) (s : TimerMgr)
    (info : TimerInfo) (hr : Reachable M s) (hget : s.timers_[idx]? = some info)
    (ha : info.isAllocated = true) (hw : info.isWaitInProgress = false) :
    (∀ x : TimerMgr, ∃ q, recreateWaitQueue x = .ok { x with waitQueue_ := q } ∧
      (∀ e, e ∈ q ↔ ∃ k slot, x.timers_[k]? = some slot ∧ slot.isAllocated = true ∧
        slot.isWaitInProgress = true ∧
        e = { timerInfo_ := k, engagementId_ := slot.engagementId_,
              targetTime_ := slot.targetTime_ }) ∧
      (q.map (fun e => e.timerInfo_)).Nodup ∧
      q.length = x.timers_.countP (fun slot => slot.isAllocated && slot.isWaitInProgress) ∧
      q.length ≤ x.timers_.length ∧
      IsHeap ScheduledWaitPriorityComp q) ∧
    ∃ q s6,
      (s.waitQueueCount_ = ScheduleQueueScale * M →
        recreateWaitQueue (armed idx d f el info s) =
          .ok { armed idx d f el info s with waitQueue_ := q }) ∧
      (s.waitQueueCount_ ≠ ScheduleQueueScale * M →
        pushToWaitQueue idx (armed idx d f el info s) =
          .ok { armed idx d f el info s with waitQueue_ := q } ∧
        q = push_heap ScheduledWaitPriorityComp (s.waitQueue_ ++
          [{ timerInfo_ := idx
             engagementId_ := (s.nextEngagementId_ + 1) % UnsignedModulus
             targetTime_ :=
              ((if s.deviceActive_ then (s.timeBase_ + el) % UnsignedModulus
                else s.timeBase_) + d) % UnsignedModulus }])) ∧
      postExpiredHandlers false { armed idx d f el info s with waitQueue_ := q } = .ok s6 ∧
      scheduleWait idx d f el s = startGuard s6 := by
  have hs := reachable_inv hr
  refine ⟨?_, ?_⟩
  · intro x
    have hperm := make_heap_perm ScheduledWaitPriorityComp (liveEntries x.timers_ 0)
    refine ⟨_, recreateWaitQueue_ok x, ?_, ?_, ?_, ?_, make_heap_isHeap comp_strictWeak _⟩
    · intro e
      rw [hperm.mem_iff, mem_liveEntries]
      simp only [Nat.zero_add]
    · rw [(hperm.map _).nodup_iff, List.Nodup, List.pairwise_map]
      exact (liveEntries_sorted x.timers_ 0).imp (fun h => Nat.ne_of_lt h)
    · rw [hperm.length_eq, liveEntries_length]
    · rw [hperm.length_eq]
      exact liveEntries_length_le _ _
  · obtain ⟨q, s6, h1, _, h3, _, h5, _⟩ := scheduleWait_steps d f el hs hget ha hw
    have hcap := hs.queue.queue_le
    refine ⟨q, s6, ?_, ?_, h3, h5⟩
    · intro hfull
      have hle : ScheduleQueueScale * M ≤ s.waitQueue_.length := Nat.le_of_eq hfull.symm
      rw [if_pos hle] at h1
      exact h1
    · intro hnot
      have hlt : ¬ ScheduleQueueScale * M ≤ s.waitQueue_.length := by
        intro hle
        exact hnot (Nat.le_antisymm hcap hle)
      rw [if_neg hlt] at h1
      refine ⟨h1, ?_⟩
      obtain ⟨x, hx, _, hq⟩ := pushToWaitQueue_inv h1
      rw [armed_timers_get d f el hget] at hx
      cases hx
      have := congrArg TimerMgr.waitQueue_ hq
      simpa [armed] using this

theorem oneCancelled_reachable : Reachable 1 TimerMgr.oneCancelled :=
  @Reachable.cancelWait 1 TimerMgr.oneWaiting TimerMgr.oneCancelled 0 true
    oneWaiting_reachable (by rfl)

/-- Witness of C15: the manager with one slot whose wait has been cancelled, and the request
`scheduleWait(0, 9, f)`. -/
theorem recreateWaitQueue_keeps_live_waits_witness :
    Reachable 1 TimerMgr.oneCancelled ∧
    TimerMgr.oneCancelled.timers_[0]? =
      some { targetTime_ := 5, engagementId_ := 1, handler_ := none, flags_ := 1 } ∧
    ((∀ x : TimerMgr, ∃ q, recreateWaitQueue x = .ok { x with waitQueue_ := q } ∧
      (∀ e, e ∈ q ↔ ∃ k slot, x.timers_[k]? = some slot ∧ slot.isAllocated = true ∧
        slot.isWaitInProgress = true ∧
        e = { timerInfo_ := k, engagementId_ := slot.engagementId_,
              targetTime_ := slot.targetTime_ }) ∧
      (q.map (fun e => e.timerInfo_)).Nodup ∧
      q.length = x.timers_.countP (fun slot => slot.isAllocated && slot.isWaitInProgress) ∧
      q.length ≤ x.timers_.length ∧
      IsHeap ScheduledWaitPriorityComp q) ∧
    ∃ q s6,
      (TimerMgr.oneCancelled.waitQueueCount_ = ScheduleQueueScale * 1 →
        recreateWaitQueue (armed 0 9 8 0
          { targetTime_ := 5, engagementId_ := 1, handler_ := none, flags_ := 1 }
          TimerMgr.oneCancelled) =
          .ok { armed 0 9 8 0
              { targetTime_ := 5, engagementId_ := 1, handler_ := none, flags_ := 1 }
              TimerMgr.oneCancelled with
            waitQueue_ := q }) ∧
      (TimerMgr.oneCancelled.waitQueueCount_ ≠ ScheduleQueueScale * 1 →
        pushToWaitQueue 0 (armed 0 9 8 0
          { targetTime_ := 5, engagementId_ := 1, handler_ := none, flags_ := 1 }
          TimerMgr.oneCancelled) =
          .ok { armed 0 9 8 0
              { targetTime_ := 5, engagementId_ := 1, handler_ := none, flags_ := 1 }
              TimerMgr.oneCancelled with
            waitQueue_ := q } ∧
        q = push_heap ScheduledWaitPriorityComp (TimerMgr.oneCancelled.waitQueue_ ++
          [{ timerInfo_ := 0
             engagementId_ := (TimerMgr.oneCancelled.nextEngagementId_ + 1) % UnsignedModulus
             targetTime_ :=
              ((if TimerMgr.oneCancelled.deviceActive_ then
                (TimerMgr.oneCancelled.timeBase_ + 0) % UnsignedModulus
                else TimerMgr.oneCancelled.timeBase_) + 9) % UnsignedModulus }])) ∧
      postExpiredHandlers false { armed 0 9 8 0
              { targetTime_ := 5, engagementId_ := 1, handler_ := none, flags_ := 1 }
              TimerMgr.oneCancelled with
            waitQueue_ := q } = .ok s6 ∧
      scheduleWait 0 9 8 0 TimerMgr.oneCancelled = startGuard s6) :=
  ⟨oneCancelled_reachable, rfl,
    recreateWaitQueue_keeps_live_waits 1 0 9 8 0 TimerMgr.oneCancelled
      { targetTime_ := 5, engagementId_ := 1, handler_ := none, flags_ := 1 }
      oneCancelled_reachable rfl (by decide) (by decide)⟩

/-! ## What the loop of `postExpiredHandlers` removes and posts, in general -/

theorem liveIn_dispatched {ts : List TimerInfo} {i : Nat} {info : TimerInfo}
    (e : ScheduledWaitInfo) (he : e.timerInfo_ = i) :
    liveIn (ts.set i info.dispatched) e = false := by
  unfold liveIn
  rw [he, List.getElem?_set, if_pos rfl]
  by_cases hlt : i < ts.length
  · rw [if_pos hlt]
    simp [dispatched_not_waiting]
  · rw [if_neg hlt]

/-- The loop removes entries that are due, in the removal order of the heap; it posts one
Success for each slot that has a live entry among the removed ones, and dispatches exactly
those slots. -/
theorem drains_posts {M : Nat} {ctx : Bool} {s s' : TimerMgr} (h : Drains ctx s s')
    (hs : CoreInv M s) :
    ∃ (popped : List ScheduledWaitInfo) (posts : List Post),
      heapOrder s.waitQueue_ = popped ++ heapOrder s'.waitQueue_ ∧
      s'.trace_ = s.trace_ ++ posts.map Event.post ∧
      (∀ e ∈ popped, ¬ s.timeBase_ < e.targetTime_) ∧
      (∀ p, p ∈ posts ↔
        ∃ e ∈ popped, liveIn s.timers_ e = true ∧ p = successOf s.timers_ ctx e) ∧
      (posts.map (fun p => p.slot)).Nodup ∧
      (∀ i, (∃ e ∈ popped, liveIn s.timers_ e = true ∧ e.timerInfo_ = i) →
        s'.timers_[i]? = (s.timers_[i]?).map TimerInfo.dispatched) ∧
      (∀ i, (∀ e ∈ popped, liveIn s.timers_ e = true → e.timerInfo_ ≠ i) →
        s'.timers_[i]? = s.timers_[i]?) := by
  induction h with
  | empty hq => exact ⟨[], [], by simp, by simp, by simp, by simp, by simp, by simp, by simp⟩
  | future hq ht =>
    exact ⟨[], [], by simp, by simp, by simp, by simp, by simp, by simp, by simp⟩
  | @fire s s' top rest info f hq ht hget ha hw hid hf _ ih =>
    have hlt := lt_length_of_getElem? hget
    have hinv := coreInv_fire hs top rest info
      (s.trace_ ++ [.post
        { slot := top.timerInfo_, handler := f, status := .Success, interruptCtx := ctx }])
      hq hget ha
    obtain ⟨popped, posts, h1, h2, h3, h4, h5, h6, h7⟩ := ih hinv
    simp only at h1 h2 h3 h4 h5 h6 h7
    have hlive : liveIn s.timers_ top = true :=
      liveIn_iff.mpr ⟨info, hget, ha, hw, hid⟩
    have hsucc : successOf s.timers_ ctx top =
        { slot := top.timerInfo_, handler := f, status := .Success, interruptCtx := ctx } := by
      simp [successOf, hget, hf]
    -- an entry of another slot sees the same slot record before and after the dispatch
    have hsame : ∀ e : ScheduledWaitInfo, e.timerInfo_ ≠ top.timerInfo_ →
        (s.timers_.set top.timerInfo_ info.dispatched)[e.timerInfo_]? =
          s.timers_[e.timerInfo_]? := by
      intro e he
      rw [List.getElem?_set, if_neg (Ne.symm he)]
    have hdead : ∀ e : ScheduledWaitInfo,
        liveIn (s.timers_.set top.timerInfo_ info.dispatched) e = true →
        e.timerInfo_ ≠ top.timerInfo_ := by
      intro e hl he
      rw [liveIn_dispatched e he] at hl
      cases hl
    refine ⟨top :: popped,
      { slot := top.timerInfo_, handler := f, status := .Success, interruptCtx := ctx } ::
        posts, ?_, ?_, ?_, ?_, ?_, ?_, ?_⟩
    · rw [hq, heapOrder_cons, ← hq, h1]; rfl
    · rw [h2]
      simp
    · intro e he
      rcases List.mem_cons.mp he with rfl | he
      · exact ht
      · exact h3 e he
    · intro p
      rw [List.mem_cons, h4]
      constructor
      · rintro (rfl | ⟨e, he, hl, rfl⟩)
        · exact ⟨top, List.mem_cons_self _ _, hlive, hsucc.symm⟩
        · have hne := hdead e hl
          refine ⟨e, List.mem_cons_of_mem _ he, ?_, ?_⟩
          · rw [← liveIn_congr (hsame e hne)]; exact hl
          · exact successOf_congr ctx (hsame e hne)
      · rintro ⟨e, he, hl, rfl⟩
        rcases List.mem_cons.mp he with rfl | he
        · exact .inl hsucc
        · by_cases hne : e.timerInfo_ = top.timerInfo_
          · left
            obtain ⟨x, hx, _, _, _⟩ := liveIn_iff.mp hl
            rw [hne, hget] at hx
            cases hx
            simp [successOf, hne, hget, hf]
          · right
            refine ⟨e, he, ?_, ?_⟩
            · rw [liveIn_congr (hsame e hne)]; exact hl
            · exact (successOf_congr ctx (hsame e hne)).symm
    · rw [List.map_cons, List.nodup_cons]
      refine ⟨?_, h5⟩
      intro hmem
      obtain ⟨p, hp, hslot⟩ := List.mem_map.mp hmem
      obtain ⟨e, _, hl, rfl⟩ := (h4 p).mp hp
      exact hdead e hl hslot
    · rintro i ⟨e, he, hl, rfl⟩
      by_cases hne : e.timerInfo_ = top.timerInfo_
      · rw [h7 _ (fun e' _ hl' => by rw [hne]; exact hdead e' hl'), hne]
        simp [List.getElem?_set, hlt, hget]
      · rcases List.mem_cons.mp he with rfl | he
        · exact absurd rfl hne
        · rw [h6 _ ⟨e, he, by rw [liveIn_congr (hsame e hne)]; exact hl, rfl⟩, hsame e hne]
    · intro i hi
      have hti : top.timerInfo_ ≠ i := hi top (List.mem_cons_self _ _) hlive
      rw [h7 i (fun e he hl => hi e (List.mem_cons_of_mem _ he)
        (by rw [← liveIn_congr (hsame e (hdead e hl))]; exact hl))]
      rw [List.getElem?_set, if_neg hti]
  | @skip s s' top rest info hq ht hget hdead _ ih =>
    have hinv := coreInv_skip hs top rest info hq hget hdead
    obtain ⟨popped, posts, h1, h2, h3, h4, h5, h6, h7⟩ := ih hinv
    simp only at h1 h2 h3 h4 h5 h6 h7
    have hlive : liveIn s.timers_ top = false := by
      cases hl : liveIn s.timers_ top with
      | false => rfl
      | true =>
        obtain ⟨x, hx, h8, h9, h10⟩ := liveIn_iff.mp hl
        rw [hget] at hx; cases hx
        exact absurd ⟨h8, h9, h10⟩ hdead
    refine ⟨top :: popped, posts, ?_, h2, ?_, ?_, h5, ?_, ?_⟩
    · rw [hq, heapOrder_cons, ← hq, h1]; rfl
    · intro e he
      rcases List.mem_cons.mp he with rfl | he
      · exact ht
      · exact h3 e he
    · intro p
      rw [h4]
      constructor
      · rintro ⟨e, he, hl, rfl⟩
        exact ⟨e, List.mem_cons_of_mem _ he, hl, rfl⟩
      · rintro ⟨e, he, hl, rfl⟩
        rcases List.mem_cons.mp he with rfl | he
        · rw [hlive] at hl; cases hl
        · exact ⟨e, he, hl, rfl⟩
    · rintro i ⟨e, he, hl, rfl⟩
      rcases List.mem_cons.mp he with rfl | he
      · rw [hlive] at hl; cases hl
      · exact h6 _ ⟨e, he, hl, rfl⟩
    · intro i hi
      exact h7 i (fun e he hl => hi e (List.mem_cons_of_mem _ he) hl)

/-- The entries that the loop removes are the due entries of the queue, and the entries it
keeps are the others. -/
theorem drains_split {M : Nat} {ctx : Bool} {s s' : TimerMgr} (h : Drains ctx s s')
    (hs : CoreInv M s) {popped : List ScheduledWaitInfo}
    (h1 : heapOrder s.waitQueue_ = popped ++ heapOrder s'.waitQueue_)
    (h3 : ∀ e ∈ popped, ¬ s.timeBase_ < e.targetTime_) :
    popped.Perm (s.waitQueue_.filter (fun e => decide (e.targetTime_ ≤ s.timeBase_))) ∧
    s'.waitQueue_.Perm (s.waitQueue_.filter (fun e => decide (s.timeBase_ < e.targetTime_))) := by
  obtain ⟨_, htb, _, _, _, _, hfut⟩ := drains_facts h hs
  have hperm : s.waitQueue_.Perm (popped ++ s'.waitQueue_) := by
    refine (heapOrder_perm _).symm.trans ?_
    rw [h1]
    exact List.Perm.append_left _ (heapOrder_perm _)
  refine ⟨?_, ?_⟩
  · refine List.Perm.symm ((hperm.filter _).trans ?_)
    rw [List.filter_append]
    have e1 : popped.filter (fun e => decide (e.targetTime_ ≤ s.timeBase_)) = popped := by
      rw [List.filter_eq_self]
      intro e he
      have := h3 e he
      exact decide_eq_true (by omega)
    have e2 : s'.waitQueue_.filter (fun e => decide (e.targetTime_ ≤ s.timeBase_)) = [] := by
      rw [List.filter_eq_nil_iff]
      intro e he
      have := hfut e he
      rw [htb] at this
      simp only [decide_eq_true_eq]
      omega
    rw [e1, e2, List.append_nil]
  · refine List.Perm.symm ((hperm.filter _).trans ?_)
    rw [List.filter_append]
    have e1 : popped.filter (fun e => decide (s.timeBase_ < e.targetTime_)) = [] := by
      rw [List.filter_eq_nil_iff]
      intro e he
      simp only [decide_eq_true_eq]
      exact h3 e he
    have e2 : s'.waitQueue_.filter (fun e => decide (s.timeBase_ < e.targetTime_)) =
        s'.waitQueue_ := by
      rw [List.filter_eq_self]
      intro e he
      have := hfut e he
      rw [htb] at this
      exact decide_eq_true this
    rw [e1, e2, List.nil_append]

/-! ## The normal path of the interrupt handler -/

theorem nodup_map_successOf (ts : List TimerInfo) (ctx : Bool) (l : List ScheduledWaitInfo)
    (hl : ∀ e ∈ l, liveIn ts e = true)
    (hnd : (l.map (fun e => (e.timerInfo_, e.engagementId_))).Nodup) :
    (l.map (successOf ts ctx)).Nodup := by
  rw [List.Nodup, List.pairwise_map] at hnd ⊢
  refine hnd.imp_of_mem ?_
  intro a b ha hb hne heq
  apply hne
  have hslot : a.timerInfo_ = b.timerInfo_ := congrArg Post.slot heq
  obtain ⟨x, hx, _, _, hxid⟩ := liveIn_iff.mp (hl a ha)
  obtain ⟨y, hy, _, _, hyid⟩ := liveIn_iff.mp (hl b hb)
  rw [hslot, hy] at hx
  cases hx
  rw [hslot, ← hxid, ← hyid]

/-- C16: in a reachable state with a non-empty queue, whose first entry `top` is an earliest
one and has a target time `T` at or beyond `timeBase_`, the interrupt handler called with
Success by the peripheral returns; it sets `timeBase_` to `T`; it removes from the queue
exactly the entries with a target time of at most `T`; it posts, through the
interrupt-context post, a Success completion for exactly the removed entries whose slot is
allocated, has a wait in progress and carries the engagement id of the entry (one
completion per such slot, and one per such entry when no two entries of the queue carry the
same slot and engagement id), it dispatches those slots and leaves the others as they are;
and it finally starts the peripheral, from interrupt context, for the target time of the
first remaining entry minus `T` if and only if the queue is not empty. -/
theorem interruptHandler_success_expires_due (M : Nat) (s : TimerMgr)
    (top : ScheduledWaitInfo) (rest : List ScheduledWaitInfo)
    (hr : Reachable M s) (hq : s.waitQueue_ = top :: rest) :
    ∃ (s' : TimerMgr) (posts : List Post),
      interruptHandler .Success { s with deviceActive_ := false } = .ok s' ∧
      s.timeBase_ ≤ top.targetTime_ ∧
      (∀ e ∈ s.waitQueue_, top.targetTime_ ≤ e.targetTime_) ∧
      s'.timeBase_ = top.targetTime_ ∧
      s'.waitQueue_.Perm
        (s.waitQueue_.filter (fun e => decide (top.targetTime_ < e.targetTime_))) ∧
      s'.posted = s.posted ++ posts ∧
      (∀ p, p ∈ posts ↔ ∃ e ∈ s.waitQueue_, e.targetTime_ ≤ top.targetTime_ ∧
        liveIn s.timers_ e = true ∧ p = successOf s.timers_ true e) ∧
      (posts.map (fun p => p.slot)).Nodup ∧
      ((s.waitQueue_.map (fun e => (e.timerInfo_, e.engagementId_))).Nodup →
        posts.Perm ((s.waitQueue_.filter (fun e =>
          decide (e.targetTime_ ≤ top.targetTime_) && liveIn s.timers_ e)).map
            (successOf s.timers_ true))) ∧
      (∀ i, (∃ e ∈ s.waitQueue_, e.targetTime_ ≤ top.targetTime_ ∧
          liveIn s.timers_ e = true ∧ e.timerInfo_ = i) →
        s'.timers_[i]? = (s.timers_[i]?).map TimerInfo.dispatched) ∧
      (∀ i, (∀ e ∈ s.waitQueue_, e.targetTime_ ≤ top.targetTime_ →
          liveIn s.timers_ e = true → e.timerInfo_ ≠ i) →
        s'.timers_[i]? = s.timers_[i]?) ∧
      (s'.waitQueue_ = [] → s'.deviceActive_ = false ∧
        s'.trace_ = s.trace_ ++ posts.map Event.post) ∧
      (∀ head tail, s'.waitQueue_ = head :: tail → s'.deviceActive_ = true ∧
        s'.trace_ = s.trace_ ++ posts.map Event.post ++
          [.startWait (head.targetTime_ - top.targetTime_) true]) := by
  have hs := reachable_inv hr
  have htop : top ∈ s.waitQueue_ := by rw [hq]; exact List.mem_cons_self _ _
  have ht : s.timeBase_ ≤ top.targetTime_ := Nat.le_of_lt (hs.queue_future top htop)
  have hcore : CoreInv M { s with deviceActive_ := false } :=
    coreInv_of_fields hs.core rfl rfl rfl
  have hcore1 : CoreInv M { s with deviceActive_ := false, timeBase_ := top.targetTime_ } :=
    coreInv_of_fields hs.core rfl rfl rfl
  obtain ⟨s1, hd, h2⟩ := interruptHandler_normal .Success hcore rfl hq ht
  obtain ⟨popped, posts, p1, p2, p3, p4, p5, p6, p7⟩ := drains_posts hd hcore1
  obtain ⟨q1, q2⟩ := drains_split hd hcore1 p1 p3
  obtain ⟨hcore', htb, _, hdev, _, _, hfut⟩ := drains_facts hd hcore1
  obtain ⟨r1, r2, r3, r4⟩ := restartFromInterrupt_facts s1
  simp only at p1 p2 p3 p4 p6 p7 q1 q2 htb hdev
  have hpop : ∀ e, e ∈ popped ↔ e ∈ s.waitQueue_ ∧ e.targetTime_ ≤ top.targetTime_ := by
    intro e
    rw [q1.mem_iff, List.mem_filter, decide_eq_true_eq]
  have hposted : s1.posted = s.posted ++ posts := by
    have := posted_of_events { s with deviceActive_ := false, timeBase_ := top.targetTime_ }
      s1 (posts.map Event.post) p2
    rw [this, filterMap_toPost_posts]
    rfl
  have hmem : ∀ p, p ∈ posts ↔ ∃ e ∈ s.waitQueue_, e.targetTime_ ≤ top.targetTime_ ∧
      liveIn s.timers_ e = true ∧ p = successOf s.timers_ true e := by
    intro p
    rw [p4]
    constructor
    · rintro ⟨e, he, hl, rfl⟩
      exact ⟨e, ((hpop e).mp he).1, ((hpop e).mp he).2, hl, rfl⟩
    · rintro ⟨e, he, hle, hl, rfl⟩
      exact ⟨e, (hpop e).mpr ⟨he, hle⟩, hl, rfl⟩
  refine ⟨restartFromInterrupt s1, posts, h2, ht, ?_, ?_, ?_, ?_, hmem, p5, ?_, ?_, ?_, ?_, ?_⟩
  · intro e he
    have hheap := hs.queue.queue_heap
    rw [hq] at hheap he
    have := isHeap_head_le comp_strictWeak top rest hheap e he
    rw [comp_eq_false_iff] at this
    omega
  · rw [r4, htb]
  · rw [r2]
    exact q2
  · rw [r1, hposted]
  · intro hnd
    have hnodup1 : posts.Nodup := by
      have := p5
      rw [List.Nodup, List.pairwise_map] at this
      exact this.imp (fun h heq => h (congrArg Post.slot heq))
    have hsub : ((s.waitQueue_.filter (fun e =>
        decide (e.targetTime_ ≤ top.targetTime_) && liveIn s.timers_ e)).map
          (fun e => (e.timerInfo_, e.engagementId_))).Nodup :=
      hnd.sublist ((List.filter_sublist _).map _)
    have hnodup2 := nodup_map_successOf s.timers_ true _
      (fun e he => by
        have := (List.mem_filter.mp he).2
        simp only [Bool.and_eq_true] at this
        exact this.2) hsub
    refine (List.perm_ext_iff_of_nodup hnodup1 hnodup2).mpr ?_
    intro p
    rw [hmem, List.mem_map]
    constructor
    · rintro ⟨e, he, hle, hl, rfl⟩
      refine ⟨e, List.mem_filter.mpr ⟨he, ?_⟩, rfl⟩
      simp [hle, hl]
    · rintro ⟨e, he, rfl⟩
      obtain ⟨he1, he2⟩ := List.mem_filter.mp he
      simp only [Bool.and_eq_true, decide_eq_true_eq] at he2
      exact ⟨e, he1, he2.1, he2.2, rfl⟩
  · rintro i ⟨e, he, hle, hl, rfl⟩
    rw [r3]
    exact p6 _ ⟨e, (hpop e).mpr ⟨he, hle⟩, hl, rfl⟩
  · intro i hi
    rw [r3]
    exact p7 i (fun e he hl => hi e ((hpop e).mp he).1 ((hpop e).mp he).2 hl)
  · intro hempty
    rw [r2] at hempty
    have : restartFromInterrupt s1 = s1 := by
      unfold restartFromInterrupt
      rw [hempty]
    rw [this]
    exact ⟨hdev, p2⟩
  · intro head tail hne
    rw [r2] at hne
    have hhead : head ∈ s1.waitQueue_ := by rw [hne]; exact List.mem_cons_self _ _
    have h1 := hfut head hhead
    have h3 : head.targetTime_ < UnsignedModulus := hcore'.queue.queue_target head hhead
    have harith : (head.targetTime_ + UnsignedModulus - s1.timeBase_) % UnsignedModulus =
        head.targetTime_ - top.targetTime_ := by
      rw [htb] at h1 ⊢
      simp only [UnsignedModulus] at h3 ⊢
      omega
    have : restartFromInterrupt s1 = { s1 with
        trace_ := s1.trace_ ++
          [.startWait ((head.targetTime_ + UnsignedModulus - s1.timeBase_) % UnsignedModulus)
            true]
        deviceActive_ := true } := by
      unfold restartFromInterrupt
      rw [hne]
    rw [this, harith]
    exact ⟨rfl, by simp only; rw [p2]⟩

/-- Witness of C16: the manager with one slot on which a wait of 5 units is in progress. -/
theorem interruptHandler_success_expires_due_witness :
    Reachable 1 TimerMgr.oneWaiting ∧
    TimerMgr.oneWaiting.waitQueue_ =
      [{ timerInfo_ := 0, engagementId_ := 1, targetTime_ := 5 }] ∧
    (∃ (s' : TimerMgr) (posts : List Post),
      interruptHandler .Success { TimerMgr.oneWaiting with deviceActive_ := false } = .ok s' ∧
      TimerMgr.oneWaiting.timeBase_ ≤ 5 ∧
      (∀ e ∈ TimerMgr.oneWaiting.waitQueue_, 5 ≤ e.targetTime_) ∧
      s'.timeBase_ = 5 ∧
      s'.waitQueue_.Perm
        (TimerMgr.oneWaiting.waitQueue_.filter (fun e => decide (5 < e.targetTime_))) ∧
      s'.posted = TimerMgr.oneWaiting.posted ++ posts ∧
      (∀ p, p ∈ posts ↔ ∃ e ∈ TimerMgr.oneWaiting.waitQueue_, e.targetTime_ ≤ 5 ∧
        liveIn TimerMgr.oneWaiting.timers_ e = true ∧
        p = successOf TimerMgr.oneWaiting.timers_ true e) ∧
      (posts.map (fun p => p.slot)).Nodup ∧
      ((TimerMgr.oneWaiting.waitQueue_.map (fun e => (e.timerInfo_, e.engagementId_))).Nodup →
        posts.Perm ((TimerMgr.oneWaiting.waitQueue_.filter (fun e =>
          decide (e.targetTime_ ≤ 5) && liveIn TimerMgr.oneWaiting.timers_ e)).map
            (successOf TimerMgr.oneWaiting.timers_ true))) ∧
      (∀ i, (∃ e ∈ TimerMgr.oneWaiting.waitQueue_, e.targetTime_ ≤ 5 ∧
          liveIn TimerMgr.oneWaiting.timers_ e = true ∧ e.timerInfo_ = i) →
        s'.timers_[i]? = (TimerMgr.oneWaiting.timers_[i]?).map TimerInfo.dispatched) ∧
      (∀ i, (∀ e ∈ TimerMgr.oneWaiting.waitQueue_, e.targetTime_ ≤ 5 →
          liveIn TimerMgr.oneWaiting.timers_ e = true → e.timerInfo_ ≠ i) →
        s'.timers_[i]? = TimerMgr.oneWaiting.timers_[i]?) ∧
      (s'.waitQueue_ = [] → s'.deviceActive_ = false ∧
        s'.trace_ = TimerMgr.oneWaiting.trace_ ++ posts.map Event.post) ∧
      (∀ head tail, s'.waitQueue_ = head :: tail → s'.deviceActive_ = true ∧
        s'.trace_ = TimerMgr.oneWaiting.trace_ ++ posts.map Event.post ++
          [.startWait (head.targetTime_ - 5) true])) :=
  ⟨oneWaiting_reachable, rfl,
    interruptHandler_success_expires_due 1 TimerMgr.oneWaiting
      { timerInfo_ := 0, engagementId_ := 1, targetTime_ := 5 } [] oneWaiting_reachable rfl⟩

/-! ## Engagement ids while the counter has not wrapped around -/

theorem unwrapped_reachable {M : Nat} {s : TimerMgr} (h : ReachableUnwrapped M s) :
    Reachable M s := by
  induction h with
  | init => exact Reachable.init
  | allocTimer _ h ih => exact Reachable.allocTimer ih h
  | deleteTimer _ h ih => exact Reachable.deleteTimer ih h
  | cancelWait _ h ih => exact Reachable.cancelWait ih h
  | scheduleWait _ _ h ih => exact Reachable.scheduleWait ih h
  | deliverInterrupt _ h ih => exact Reachable.deliverInterrupt ih h

/-- The loop of `postExpiredHandlers` changes no engagement id of a slot. -/
theorem drains_ids {ctx : Bool} {s s' : TimerMgr} (h : Drains ctx s s') :
    ∀ (i : Nat) (x' : TimerInfo), s'.timers_[i]? = some x' →
      ∃ x : TimerInfo, s.timers_[i]? = some x ∧ x'.engagementId_ = x.engagementId_ := by
  induction h with
  | empty _ => exact fun i x' hx => ⟨x', hx, rfl⟩
  | future _ _ => exact fun i x' hx => ⟨x', hx, rfl⟩
  | @fire s s' top rest info f hq ht hget ha hw hid hf _ ih =>
    intro i x' hx
    obtain ⟨x, h1, h2⟩ := ih i x' hx
    simp only [List.getElem?_set] at h1
    split at h1
    · rename_i heq
      split at h1
      · cases h1
        exact ⟨info, heq ▸ hget, by rw [h2, dispatched_engagementId]⟩
      · cases h1
    · exact ⟨x, h1, h2⟩
  | @skip s s' top rest info hq ht hget hdead _ ih =>
    exact ih

theorem scheduleWait_timeBase {M idx d f el : Nat} {s s' : TimerMgr} (hs : Inv M s)
    (h : scheduleWait idx d f el s = .ok s') :
    s'.timeBase_ = (if s.deviceActive_ then (s.timeBase_ + el) % UnsignedModulus
      else s.timeBase_) := by
  obtain ⟨info, q, s6, _, _, _, hcore, _, hd, _, _, _, h4, _⟩ := scheduleWait_course hs h
  obtain ⟨_, htb, _⟩ := drains_facts hd hcore
  rw [h4, htb]
  rfl

theorem deliverInterrupt_nextId {M : Nat} {es : ErrorStatus} {s s' : TimerMgr}
    (hs : Inv M s) (h : deliverInterrupt es s = .ok s') :
    s'.nextEngagementId_ = s.nextEngagementId_ := by
  have hcore : CoreInv M { s with deviceActive_ := false } :=
    coreInv_of_fields hs.core rfl rfl rfl
  rcases Bool.eq_false_or_eq_true es.isError with he | he
  · have h1 := interruptHandler_error (s := { s with deviceActive_ := false }) hcore.slots he
    have h2 : Except.ok s' = Except.ok _ := h.symm.trans h1
    cases h2
    rfl
  · obtain ⟨top, rest, hq, ht⟩ := interruptHandler_normal_inv he h
    have hcore1 : CoreInv M { s with deviceActive_ := false, timeBase_ := top.targetTime_ } :=
      coreInv_of_fields hs.core rfl rfl rfl
    obtain ⟨s1, h1, h2⟩ := interruptHandler_normal es hcore he hq ht
    have h3 : Except.ok s' = Except.ok (restartFromInterrupt s1) := h.symm.trans h2
    cases h3
    obtain ⟨_, _, _, _, hid, _⟩ := drains_facts h1 hcore1
    have : (restartFromInterrupt s1).nextEngagementId_ = s1.nextEngagementId_ := by
      unfold restartFromInterrupt
      split <;> rfl
    rw [this, hid]

theorem idsBelow_of_get {s : TimerMgr} {n : Nat}
    (ht : ∀ (i : Nat) (x : TimerInfo), s.timers_[i]? = some x → x.engagementId_ ≤ n)
    (hq : ∀ e ∈ s.waitQueue_, e.engagementId_ ≤ n) (hn : s.nextEngagementId_ = n) :
    IdsBelow s := by
  refine ⟨?_, ?_⟩
  · intro info hmem
    obtain ⟨i, hi⟩ := List.mem_iff_getElem?.mp hmem
    rw [hn]
    exact ht i info hi
  · intro e he
    rw [hn]
    exact hq e he

theorem IdsBelow.get {s : TimerMgr} (h : IdsBelow s) {i : Nat} {x : TimerInfo}
    (hx : s.timers_[i]? = some x) : x.engagementId_ ≤ s.nextEngagementId_ :=
  h.1 x (List.getElem?_mem hx)

/-- While the counter has not wrapped around, no slot and no queue entry carries an
engagement id beyond the counter. -/
theorem unwrapped_ids {M : Nat} {s : TimerMgr} (h : ReachableUnwrapped M s) : IdsBelow s := by
  induction h with
  | init =>
    refine ⟨?_, ?_⟩
    · intro info hmem
      simp only [TimerMgr.new, List.mem_replicate] at hmem
      rw [hmem.2]
      exact Nat.le_refl _
    · intro e he
      cases he
  | @allocTimer s s' t _ h ih =>
    rcases allocTimer_inv h with ⟨_, _, rfl⟩ | ⟨_, info, hget, _, _, rfl⟩
    · exact ih
    · refine idsBelow_of_get ?_ ih.2 rfl
      intro i x hx
      simp only [List.getElem?_set] at hx
      split at hx
      · split at hx
        · cases hx
          simpa using ih.get hget
        · cases hx
      · exact ih.get hx
  | @deleteTimer s s' idx _ h ih =>
    obtain ⟨_, info, hget, _, _, _, rfl⟩ := deleteTimer_inv h
    refine idsBelow_of_get ?_ ih.2 rfl
    intro i x hx
    simp only [List.getElem?_set] at hx
    split at hx
    · split at hx
      · cases hx
        simpa using ih.get hget
      · cases hx
    · exact ih.get hx
  | @cancelWait s s' idx r _ h ih =>
    obtain ⟨_, info, hget, hc⟩ := cancelWait_inv h
    rcases hc with ⟨_, _, _, _, rfl⟩ | ⟨_, _, _, _, rfl⟩ | ⟨_, _, _, _, g, _, rfl⟩
    · exact ih
    · exact ih
    · refine idsBelow_of_get ?_ ih.2 rfl
      intro i x hx
      simp only [List.getElem?_set] at hx
      split at hx
      · split at hx
        · cases hx
          simpa using ih.get hget
        · cases hx
      · exact ih.get hx
  | @scheduleWait s s' idx d f el hr hnext h ih =>
    have hs := reachable_inv (unwrapped_reachable hr)
    obtain ⟨info, q, s6, hget, _, _, hcore, hq, hd, h1, h2, _, _, h5⟩ :=
      scheduleWait_course hs h
    obtain ⟨_, _, _, _, hid, _⟩ := drains_facts hd hcore
    have hmod : (s.nextEngagementId_ + 1) % UnsignedModulus = s.nextEngagementId_ + 1 :=
      Nat.mod_eq_of_lt hnext
    have hn : s'.nextEngagementId_ = s.nextEngagementId_ + 1 := by
      rw [h5, hid]
      exact hmod
    have hrec := armed_timers_get d f el hget
    have harmed : ∀ (i : Nat) (x : TimerInfo),
        (armed idx d f el info s).timers_[i]? = some x →
        x.engagementId_ ≤ s.nextEngagementId_ + 1 := by
      intro i x hx
      by_cases hi : idx = i
      · subst hi
        rw [hrec] at hx
        cases hx
        simp only [engagementId_setWaitInProgress]
        exact Nat.le_of_eq hmod
      · rw [armed_timers_ne d f el info s hi] at hx
        exact Nat.le_succ_of_le (ih.get hx)
    refine idsBelow_of_get ?_ ?_ hn
    · intro i x hx
      rw [h1] at hx
      obtain ⟨y, hy, hxy⟩ := drains_ids hd i x hx
      rw [hxy]
      exact harmed i y hy
    · intro e he
      rw [h2] at he
      have hmem := drains_subset hd e he
      rcases hq with ⟨_, hperm⟩ | ⟨_, hperm⟩
      · obtain ⟨k, x, hk, _, _, rfl⟩ := (mem_liveEntries _ 0 e).mp (hperm.subset hmem)
        exact harmed k x hk
      · rcases List.mem_append.mp (hperm.subset hmem) with hm | hm
        · exact Nat.le_succ_of_le (ih.2 e hm)
        · rw [List.mem_singleton] at hm
          subst hm
          exact Nat.le_of_eq hmod
  | @deliverInterrupt s s' es hr h ih =>
    have hs := reachable_inv (unwrapped_reachable hr)
    have hn := deliverInterrupt_nextId hs h
    rcases deliverInterrupt_course hs h with ⟨_, h1, _, h3, _⟩ |
      ⟨_, top, rest, s1, _, _, hd, h1, h2, _, _⟩
    · refine idsBelow_of_get ?_ ?_ hn
      · intro i x hx
        rw [h1] at hx
        simp only [dispatchAll, List.getElem?_map] at hx
        rcases hy : s.timers_[i]? with _ | y
        · rw [hy] at hx
          cases hx
        · rw [hy] at hx
          simp only [Option.map_some', Option.some.injEq] at hx
          subst hx
          have := ih.get hy
          split
          · rw [dispatched_engagementId]; exact this
          · exact this
      · intro e he
        rw [h3] at he
        cases he
    · refine idsBelow_of_get ?_ ?_ hn
      · intro i x hx
        rw [h1] at hx
        obtain ⟨y, hy, hxy⟩ := drains_ids hd i x hx
        rw [hxy]
        exact ih.get hy
      · intro e he
        rw [h2] at he
        exact ih.2 e (drains_subset hd e he)

/-! ## What `scheduleWait` records for a new request -/

/-- C17, as amended: in a reachable state, `scheduleWait(idx, d, f)` on an allocated slot
with no wait in progress fails no assertion before its exit action, and first brings the
manager into the state `armed`: `timeBase_` has grown (modulo `2 ^ 32`) by the elapsed time
read back if and only if the peripheral reported a countdown in progress, for only then
`getElapsed` is called; the engagement counter has been incremented by one (modulo
`2 ^ 32`); slot `idx` holds the callable, a wait in progress, the new counter value as its
engagement id and the target time `(timeBase_ + d) mod 2 ^ 32`; no other slot and no queue
entry has changed. The entry that then enters the queue, by a push or by a rebuild,
carries slot `idx` with that engagement id and target time, and only after that are the
due handlers fired and the exit action run. A call that returns leaves the counter, the
engagement id and the target time of slot `idx`, and `timeBase_` at these values. While the
counter has not wrapped around, the new engagement id is larger than the id of every slot
and of every entry already in the queue, hence carried by none of them. -/
theorem scheduleWait_arms_slot (M idx d f el : Nat) (s : TimerMgr) (info : TimerInfo)
    (hr : Reachable M s) (hget : s.timers_[idx]? = some info)
    (ha : info.isAllocated = true) (hw : info.isWaitInProgress = false) :
    ∃ (q : List ScheduledWaitInfo) (s6 : TimerMgr),
      (armed idx d f el info s).timeBase_ =
        (if s.deviceActive_ then (s.timeBase_ + el) % UnsignedModulus else s.timeBase_) ∧
      (armed idx d f el info s).trace_ =
        (if s.deviceActive_ then s.trace_ ++ [.cancelWait] ++ [.getElapsed]
          else s.trace_ ++ [.cancelWait]) ∧
      (armed idx d f el info s).nextEngagementId_ =
        (s.nextEngagementId_ + 1) % UnsignedModulus ∧
      (∃ slot, (armed idx d f el info s).timers_[idx]? = some slot ∧
        slot.targetTime_ = ((armed idx d f el info s).timeBase_ + d) % UnsignedModulus ∧
        slot.engagementId_ = (armed idx d f el info s).nextEngagementId_ ∧
        slot.handler_ = some f ∧ slot.isWaitInProgress = true ∧ slot.isAllocated = true) ∧
      (∀ j, j ≠ idx → (armed idx d f el info s).timers_[j]? = s.timers_[j]?) ∧
      (armed idx d f el info s).waitQueue_ = s.waitQueue_ ∧
      (if ScheduleQueueScale * M ≤ s.waitQueue_.length then
          recreateWaitQueue (armed idx d f el info s)
        else pushToWaitQueue idx (armed idx d f el info s)) =
        .ok { armed idx d f el info s with waitQueue_ := q } ∧
      ({ timerInfo_ := idx
         engagementId_ := (armed idx d f el info s).nextEngagementId_
         targetTime_ := ((armed idx d f el info s).timeBase_ + d) % UnsignedModulus } :
        ScheduledWaitInfo) ∈ q ∧
      postExpiredHandlers false { armed idx d f el info s with waitQueue_ := q } = .ok s6 ∧
      scheduleWait idx d f el s = startGuard s6 ∧
      (∀ s', scheduleWait idx d f el s = .ok s' →
        s'.timeBase_ = (armed idx d f el info s).timeBase_ ∧
        s'.nextEngagementId_ = (armed idx d f el info s).nextEngagementId_ ∧
        ∃ slot, s'.timers_[idx]? = some slot ∧
          slot.engagementId_ = (armed idx d f el info s).nextEngagementId_ ∧
          slot.targetTime_ = ((armed idx d f el info s).timeBase_ + d) % UnsignedModulus) ∧
      (ReachableUnwrapped M s → s.nextEngagementId_ + 1 < UnsignedModulus →
        (armed idx d f el info s).nextEngagementId_ = s.nextEngagementId_ + 1 ∧
        (∀ (j : Nat) (x : TimerInfo), s.timers_[j]? = some x →
          x.engagementId_ < (armed idx d f el info s).nextEngagementId_) ∧
        (∀ e ∈ s.waitQueue_,
          e.engagementId_ < (armed idx d f el info s).nextEngagementId_)) := by
  have hs := reachable_inv hr
  obtain ⟨q, s6, h1, _, h3, _, h5, hmem⟩ := scheduleWait_steps d f el hs hget ha hw
  have hrec := armed_timers_get d f el hget
  refine ⟨q, s6, rfl, rfl, rfl, ⟨_, hrec, ?_, ?_, ?_, ?_, ?_⟩, ?_, rfl, h1, hmem, h3, h5,
    ?_, ?_⟩
  · simp [armed]
  · simp [armed]
  · simp
  · simp
  · simpa using ha
  · intro j hj
    exact armed_timers_ne d f el info s (Ne.symm hj)
  · intro s' h
    obtain ⟨h6, r, h7, _, h8, h9, _⟩ := scheduleWait_slot hs h
    exact ⟨scheduleWait_timeBase hs h, h6, r, h7, h8, h9⟩
  · intro hu hnext
    have hids := unwrapped_ids hu
    have hmod : (s.nextEngagementId_ + 1) % UnsignedModulus = s.nextEngagementId_ + 1 :=
      Nat.mod_eq_of_lt hnext
    have hn : (armed idx d f el info s).nextEngagementId_ = s.nextEngagementId_ + 1 := hmod
    refine ⟨hn, ?_, ?_⟩
    · intro j x hx
      rw [hn]
      exact Nat.lt_succ_of_le (hids.get hx)
    · intro e he
      rw [hn]
      exact Nat.lt_succ_of_le (hids.2 e he)

/-! ## The engagement counter after it has wrapped around -/

/-- A `scheduleWait` on another slot leaves a pending request pending, unless the time base
has reached its target time. -/
theorem scheduleWait_other_pending {M i id f T idx d g el : Nat} {s s' : TimerMgr}
    (hs : Inv M s) (hp : Pending i id f T s) (hne : idx ≠ i)
    (h : scheduleWait idx d g el s = .ok s') :
    Pending i id f T s' ∨ T ≤ s'.timeBase_ := by
  obtain ⟨pinfo, pget, pa, pw, pid, pf, pT⟩ := hp.slot
  obtain ⟨info, q, s6, hget, ha, hw, hcore, hq, hd, h1, h2, h3, h4, _⟩ :=
    scheduleWait_course hs h
  have hat := armed_timers_ne d g el info s hne
  have hp5 : Pending i id f T { armed idx d g el info s with waitQueue_ := q } := by
    refine ⟨⟨pinfo, hat.trans pget, pa, pw, pid, pf, pT⟩, ?_⟩
    intro e he hslot heid
    rcases hq with ⟨_, hperm⟩ | ⟨_, hperm⟩
    · have hmem := hperm.subset he
      obtain ⟨k, x, hk, _, _, rfl⟩ := (mem_liveEntries _ 0 e).mp hmem
      simp only [Nat.zero_add] at hslot
      subst hslot
      rw [hat, pget] at hk
      cases hk
      exact pT
    · have hmem := hperm.subset he
      rcases List.mem_append.mp hmem with hm | hm
      · exact hp.entries e hm hslot heid
      · rw [List.mem_singleton] at hm
        subst hm
        exact absurd hslot hne
  obtain ⟨_, htb, _⟩ := drains_facts hd hcore
  rcases drains_pending hd hcore hp5 with ⟨h5, _⟩ | ⟨_, _, h7⟩
  · exact .inl (pending_of_fields h5 (by rw [h1]) (by rw [h2]; exact fun e he => he))
  · right
    rw [h4, htb]
    exact h7

theorem secondWaiting_reachable : Reachable 2 TimerMgr.secondWaiting :=
  @Reachable.scheduleWait 2 (TimerMgr.allocated 2 2) TimerMgr.secondWaiting 1 5 9 0
    (reachable_allocated 2 2 (Nat.le_refl _)) (by rfl)

/-- On a manager with two slots whose slot 1 keeps waiting under the engagement id 1, slot 0
can be scheduled and cancelled any number of times: after `n` such requests the counter
stands at `(1 + n) mod 2 ^ 32`. -/
theorem counter_after_requests : ∀ n : Nat, ∃ s : TimerMgr, Reachable 2 s ∧
    s.timeBase_ = 0 ∧ s.nextEngagementId_ = (1 + n) % UnsignedModulus ∧
    Pending 1 1 9 5 s ∧
    ∃ info, s.timers_[0]? = some info ∧ info.isAllocated = true ∧
      info.isWaitInProgress = false := by
  intro n
  induction n with
  | zero =>
    refine ⟨TimerMgr.secondWaiting, secondWaiting_reachable, rfl, rfl, ?_,
      TimerInfo.idle, rfl, by decide, by decide⟩
    refine ⟨⟨_, rfl, by decide, by decide, rfl, rfl, rfl⟩, ?_⟩
    intro e he _ _
    have : e = { timerInfo_ := 1, engagementId_ := 1, targetTime_ := 5 } :=
      List.mem_singleton.mp he
    subst this
    rfl
  | succ n ih =>
    obtain ⟨s, hr, htb, hnext, hp, info, hget, ha, hw⟩ := ih
    have hs := reachable_inv hr
    obtain ⟨pinfo, pget, _, pw, _⟩ := hp.slot
    have hdev : s.deviceActive_ = true := by
      obtain ⟨e, he, _⟩ := hs.waits 1 pinfo pget pw
      exact hs.device_iff.mpr (List.ne_nil_of_mem he)
    have hbase : (if s.deviceActive_ then (s.timeBase_ + 0) % UnsignedModulus
        else s.timeBase_) = 0 := by
      rw [hdev, htb]
      rfl
    obtain ⟨s1, h1⟩ := scheduleWait_accepts (d := 1) (f := 7) hs hget ha hw
      (by rw [hbase]; decide)
    have hr1 : Reachable 2 s1 := Reachable.scheduleWait hr h1
    have hs1 := reachable_inv hr1
    have htb1 : s1.timeBase_ = 0 := (scheduleWait_timeBase hs h1).trans hbase
    obtain ⟨hn1, r, hget1, ha1, _, _, hf1⟩ := scheduleWait_slot hs h1
    have hnext1 : s1.nextEngagementId_ = (1 + (n + 1)) % UnsignedModulus := by
      rw [hn1, hnext]
      simp only [UnsignedModulus]
      omega
    have hp1 : Pending 1 1 9 5 s1 := by
      rcases scheduleWait_other_pending hs hp (by decide) h1 with h | h
      · exact h
      · rw [htb1] at h
        exact absurd h (by decide)
    rcases Bool.eq_false_or_eq_true r.isWaitInProgress with hw1 | hw1
    · have hidx : 0 < s1.timersCount_ := hs1.slots.allocated_lt 0 r hget1 ha1
      have hdev1 : s1.deviceActive_ = true := by
        obtain ⟨e, he, _⟩ := hs1.waits 0 r hget1 hw1
        exact hs1.device_iff.mpr (List.ne_nil_of_mem he)
      have hc := cancelWait_true hidx hget1 hdev1 ha1 hw1 (hf1 hw1)
      have hlt := lt_length_of_getElem? hget1
      refine ⟨_, Reachable.cancelWait hr1 hc, htb1, hnext1, ?_,
        ({ r with handler_ := none } : TimerInfo).setWaitInProgress false, ?_, ?_, ?_⟩
      · refine pending_of_fields hp1 ?_ (fun e he => he)
        simp only [List.getElem?_set, if_neg (show ¬ 0 = 1 by decide)]
      · simp only [List.getElem?_set, if_pos hlt, if_true]
      · simpa using ha1
      · simp
    · exact ⟨s1, hr1, htb1, hnext1, hp1, r, hget1, ha1, hw1⟩

/-- C17 as stated fails. On the manager with one slot whose wait has been cancelled,
`scheduleWait(0, 4294967295, f)` made when the peripheral reports 3 elapsed units sets
`timeBase_` to 3 and records the target time 2, not `3 + 4294967295`, and completes the wait
at once. And a state is reachable in which `scheduleWait` gives a slot an engagement id
that another slot with a wait in progress, and its queue entry, already carry: the counter
has gone round once. -/
theorem scheduleWait_target_and_id_wrap :
    (∃ s' slot, Reachable 1 TimerMgr.oneCancelled ∧
      scheduleWait 0 4294967295 8 3 TimerMgr.oneCancelled = .ok s' ∧
      s'.timeBase_ = 3 ∧ s'.timers_[0]? = some slot ∧ slot.targetTime_ = 2 ∧
      slot.targetTime_ ≠ s'.timeBase_ + 4294967295 ∧
      s'.posted = TimerMgr.oneCancelled.posted ++
        [{ slot := 0, handler := 8, status := .Success, interruptCtx := false }]) ∧
    (∃ (s s' : TimerMgr) (other slot : TimerInfo) (e : ScheduledWaitInfo),
      Reachable 2 s ∧ scheduleWait 0 1 7 0 s = .ok s' ∧
      s.timers_[1]? = some other ∧ other.isAllocated = true ∧
      other.isWaitInProgress = true ∧ e ∈ s.waitQueue_ ∧ e.timerInfo_ = 1 ∧
      s'.timers_[0]? = some slot ∧ slot.engagementId_ = other.engagementId_ ∧
      slot.engagementId_ = e.engagementId_) := by
  refine ⟨⟨_, _, oneCancelled_reachable, rfl, rfl, rfl, rfl, by decide, rfl⟩, ?_⟩
  obtain ⟨s, hr, htb, hnext, hp, info, hget, ha, hw⟩ := counter_after_requests 4294967295
  have hs := reachable_inv hr
  obtain ⟨pinfo, pget, pa, pw, pid, _⟩ := hp.slot
  obtain ⟨e, he, hslot, heid, _⟩ := hs.waits 1 pinfo pget pw
  have hdev : s.deviceActive_ = true := hs.device_iff.mpr (List.ne_nil_of_mem he)
  have hbase : (if s.deviceActive_ then (s.timeBase_ + 0) % UnsignedModulus
      else s.timeBase_) = 0 := by
    rw [hdev, htb]
    rfl
  obtain ⟨s', h1⟩ := scheduleWait_accepts (d := 1) (f := 7) hs hget ha hw
    (by rw [hbase]; decide)
  obtain ⟨_, r, hget1, _, hid, _⟩ := scheduleWait_slot hs h1
  have hnew : r.engagementId_ = 1 := by
    rw [hid, hnext]
    decide
  exact ⟨s, s', pinfo, r, e, hr, h1, pget, pa, pw, he, hslot, hget1.trans rfl,
    by rw [hnew, pid], by rw [hnew, heid, pid]⟩

theorem oneCancelled_unwrapped : ReachableUnwrapped 1 TimerMgr.oneCancelled :=
  @ReachableUnwrapped.cancelWait 1 TimerMgr.oneWaiting TimerMgr.oneCancelled 0 true
    (@ReachableUnwrapped.scheduleWait 1 (TimerMgr.full 1) TimerMgr.oneWaiting 0 5 7 0
      (@ReachableUnwrapped.allocTimer 1 (TimerMgr.new 1) (TimerMgr.full 1) { idx_ := 0 }
        ReachableUnwrapped.init (by rfl))
      (by decide) (by rfl))
    (by rfl)

/-- Witness of C17: the manager with one slot whose wait has been cancelled, reached with
the counter at 1, and the request `scheduleWait(0, 9, f)` with `f = 8`. -/
theorem scheduleWait_arms_slot_witness :
    Reachable 1 TimerMgr.oneCancelled ∧
    TimerMgr.oneCancelled.timers_[0]? =
      some { targetTime_ := 5, engagementId_ := 1, handler_ := none, flags_ := 1 } ∧
    ReachableUnwrapped 1 TimerMgr.oneCancelled ∧
    TimerMgr.oneCancelled.nextEngagementId_ + 1 < UnsignedModulus ∧
    (∃ (q : List ScheduledWaitInfo) (s6 : TimerMgr),
      (armed 0 9 8 0
          { targetTime_ := 5, engagementId_ := 1, handler_ := none, flags_ := 1 }
          TimerMgr.oneCancelled).timeBase_ =
        (if TimerMgr.oneCancelled.deviceActive_ then
          (TimerMgr.oneCancelled.timeBase_ + 0) % UnsignedModulus
          else TimerMgr.oneCancelled.timeBase_) ∧
      (armed 0 9 8 0
          { targetTime_ := 5, engagementId_ := 1, handler_ := none, flags_ := 1 }
          TimerMgr.oneCancelled).trace_ =
        (if TimerMgr.oneCancelled.deviceActive_ then
          TimerMgr.oneCancelled.trace_ ++ [.cancelWait] ++ [.getElapsed]
          else TimerMgr.oneCancelled.trace_ ++ [.cancelWait]) ∧
      (armed 0 9 8 0
          { targetTime_ := 5, engagementId_ := 1, handler_ := none, flags_ := 1 }
          TimerMgr.oneCancelled).nextEngagementId_ =
        (TimerMgr.oneCancelled.nextEngagementId_ + 1) % UnsignedModulus ∧
      (∃ slot, (armed 0 9 8 0
          { targetTime_ := 5, engagementId_ := 1, handler_ := none, flags_ := 1 }
          TimerMgr.oneCancelled).timers_[0]? = some slot ∧
        slot.targetTime_ = ((armed 0 9 8 0
          { targetTime_ := 5, engagementId_ := 1, handler_ := none, flags_ := 1 }
          TimerMgr.oneCancelled).timeBase_ + 9) % UnsignedModulus ∧
        slot.engagementId_ = (armed 0 9 8 0
          { targetTime_ := 5, engagementId_ := 1, handler_ := none, flags_ := 1 }
          TimerMgr.oneCancelled).nextEngagementId_ ∧
        slot.handler_ = some 8 ∧ slot.isWaitInProgress = true ∧ slot.isAllocated = true) ∧
      (∀ j, j ≠ 0 → (armed 0 9 8 0
          { targetTime_ := 5, engagementId_ := 1, handler_ := none, flags_ := 1 }
          TimerMgr.oneCancelled).timers_[j]? = TimerMgr.oneCancelled.timers_[j]?) ∧
      (armed 0 9 8 0
          { targetTime_ := 5, engagementId_ := 1, handler_ := none, flags_ := 1 }
          TimerMgr.oneCancelled).waitQueue_ = TimerMgr.oneCancelled.waitQueue_ ∧
      (if ScheduleQueueScale * 1 ≤ TimerMgr.oneCancelled.waitQueue_.length then
          recreateWaitQueue (armed 0 9 8 0
          { targetTime_ := 5, engagementId_ := 1, handler_ := none, flags_ := 1 }
          TimerMgr.oneCancelled)
        else pushToWaitQueue 0 (armed 0 9 8 0
          { targetTime_ := 5, engagementId_ := 1, handler_ := none, flags_ := 1 }
          TimerMgr.oneCancelled)) =
        .ok { armed 0 9 8 0
          { targetTime_ := 5, engagementId_ := 1, handler_ := none, flags_ := 1 }
          TimerMgr.oneCancelled with waitQueue_ := q } ∧
      ({ timerInfo_ := 0
         engagementId_ := (armed 0 9 8 0
          { targetTime_ := 5, engagementId_ := 1, handler_ := none, flags_ := 1 }
          TimerMgr.oneCancelled).nextEngagementId_
         targetTime_ := ((armed 0 9 8 0
          { targetTime_ := 5, engagementId_ := 1, handler_ := none, flags_ := 1 }
          TimerMgr.oneCancelled).timeBase_ + 9) % UnsignedModulus } :
        ScheduledWaitInfo) ∈ q ∧
      postExpiredHandlers false { armed 0 9 8 0
          { targetTime_ := 5, engagementId_ := 1, handler_ := none, flags_ := 1 }
          TimerMgr.oneCancelled with waitQueue_ := q } = .ok s6 ∧
      scheduleWait 0 9 8 0 TimerMgr.oneCancelled = startGuard s6 ∧
      (∀ s', scheduleWait 0 9 8 0 TimerMgr.oneCancelled = .ok s' →
        s'.timeBase_ = (armed 0 9 8 0
          { targetTime_ := 5, engagementId_ := 1, handler_ := none, flags_ := 1 }
          TimerMgr.oneCancelled).timeBase_ ∧
        s'.nextEngagementId_ = (armed 0 9 8 0
          { targetTime_ := 5, engagementId_ := 1, handler_ := none, flags_ := 1 }
          TimerMgr.oneCancelled).nextEngagementId_ ∧
        ∃ slot, s'.timers_[0]? = some slot ∧
          slot.engagementId_ = (armed 0 9 8 0
          { targetTime_ := 5, engagementId_ := 1, handler_ := none, flags_ := 1 }
          TimerMgr.oneCancelled).nextEngagementId_ ∧
          slot.targetTime_ = ((armed 0 9 8 0
          { targetTime_ := 5, engagementId_ := 1, handler_ := none, flags_ := 1 }
          TimerMgr.oneCancelled).timeBase_ + 9) % UnsignedModulus) ∧
      (ReachableUnwrapped 1 TimerMgr.oneCancelled →
        TimerMgr.oneCancelled.nextEngagementId_ + 1 < UnsignedModulus →
        (armed 0 9 8 0
          { targetTime_ := 5, engagementId_ := 1, handler_ := none, flags_ := 1 }
          TimerMgr.oneCancelled).nextEngagementId_ =
          TimerMgr.oneCancelled.nextEngagementId_ + 1 ∧
        (∀ (j : Nat) (x : TimerInfo), TimerMgr.oneCancelled.timers_[j]? = some x →
          x.engagementId_ < (armed 0 9 8 0
          { targetTime_ := 5, engagementId_ := 1, handler_ := none, flags_ := 1 }
          TimerMgr.oneCancelled).nextEngagementId_) ∧
        (∀ e ∈ TimerMgr.oneCancelled.waitQueue_,
          e.engagementId_ < (armed 0 9 8 0
          { targetTime_ := 5, engagementId_ := 1, handler_ := none, flags_ := 1 }
          TimerMgr.oneCancelled).nextEngagementId_))) :=
  ⟨oneCancelled_reachable, rfl, oneCancelled_unwrapped, by decide,
    scheduleWait_arms_slot 1 0 9 8 0 TimerMgr.oneCancelled
      { targetTime_ := 5, engagementId_ := 1, handler_ := none, flags_ := 1 }
      oneCancelled_reachable rfl (by decide) (by decide)⟩

/-! ## The peripheral calls of `cancelWait` -/

/-- C22 (amended): in a reachable state, `cancelWait` on an allocated slot returns, and the
calls it makes to the peripheral and to the event loop are, in order: `suspendWait` alone
when the peripheral reports no countdown in progress (the call then returns false, leaves
every slot as it is and does not call `resumeWait`); `suspendWait` then `resumeWait` when a
countdown is in progress and the slot has no wait in progress (the call returns false);
`suspendWait`, the event-loop post of the Aborted completion, then `resumeWait` when the slot
has a wait in progress (the call returns true). And every call of `cancelWait` that
returns, in any state, has made one of these three sequences of calls. -/
theorem cancelWait_suspends_then_resumes (M idx : Nat) (s : TimerMgr) (info : TimerInfo)
    (hr : Reachable M s) (hget : s.timers_[idx]? = some info)
    (ha : info.isAllocated = true) :
    (∃ (r : Bool) (s' : TimerMgr) (log : List Event),
      cancelWait idx s = .ok (r, s') ∧ s'.trace_ = s.trace_ ++ log ∧
      log.head? = some .suspendWait ∧
      (s.deviceActive_ = false → r = false ∧ log = [.suspendWait] ∧
        s'.timers_ = s.timers_) ∧
      (s.deviceActive_ = true → info.isWaitInProgress = false →
        r = false ∧ log = [.suspendWait, .resumeWait] ∧ s'.timers_ = s.timers_) ∧
      (s.deviceActive_ = true → info.isWaitInProgress = true →
        r = true ∧ ∃ f, info.handler_ = some f ∧
          log = [.suspendWait,
            .post { slot := idx, handler := f, status := .Aborted, interruptCtx := false },
            .resumeWait]) ∧
      (s.deviceActive_ = true → log.count .resumeWait = 1 ∧
        log.getLast? = some .resumeWait)) ∧
    (∀ (x x' : TimerMgr) (j : Nat) (r : Bool), cancelWait j x = .ok (r, x') →
      (x.deviceActive_ = false ∧ x'.trace_ = x.trace_ ++ [.suspendWait]) ∨
      (x.deviceActive_ = true ∧ x'.trace_ = x.trace_ ++ [.suspendWait, .resumeWait]) ∨
      (x.deviceActive_ = true ∧ ∃ f, x'.trace_ = x.trace_ ++ [.suspendWait,
        .post { slot := j, handler := f, status := .Aborted, interruptCtx := false },
        .resumeWait])) := by
  have hs := reachable_inv hr
  have hidx : idx < s.timersCount_ := hs.slots.allocated_lt idx info hget ha
  constructor
  · rcases Bool.eq_false_or_eq_true s.deviceActive_ with hdev | hdev
    · rcases Bool.eq_false_or_eq_true info.isWaitInProgress with hw | hw
      · obtain hf | ⟨f, hf⟩ := (info.handler_).eq_none_or_eq_some
        · have := hs.slots.handler_iff info (List.getElem?_mem hget)
          rw [hf, hw] at this
          cases this
        · refine ⟨true, _, [.suspendWait,
            .post { slot := idx, handler := f, status := .Aborted, interruptCtx := false },
            .resumeWait], cancelWait_true hidx hget hdev ha hw hf, ?_, rfl, ?_, ?_, ?_, ?_⟩
          · simp
          · intro h
            rw [hdev] at h
            cases h
          · intro _ h
            rw [hw] at h
            cases h
          · intro _ _
            exact ⟨rfl, f, hf, rfl⟩
          · intro _
            exact ⟨by simp, rfl⟩
      · refine ⟨false, _, [.suspendWait, .resumeWait],
          cancelWait_false_active hidx hget hdev ha hw, ?_, rfl, ?_, ?_, ?_, ?_⟩
        · simp
        · intro h
          rw [hdev] at h
          cases h
        · intro _ _
          exact ⟨rfl, rfl, rfl⟩
        · intro _ h
          rw [hw] at h
          cases h
        · intro _
          exact ⟨by decide, rfl⟩
    · have hq : s.waitQueue_ = [] := by
        by_contra hne
        have := hs.device_iff.mpr hne
        rw [hdev] at this
        cases this
      have hw : info.isWaitInProgress = false := by
        rcases Bool.eq_false_or_eq_true info.isWaitInProgress with hw | hw
        · obtain ⟨e, he, _⟩ := hs.waits idx info hget hw
          rw [hq] at he
          cases he
        · exact hw
      refine ⟨false, _, [.suspendWait], cancelWait_false_idle hidx hget hdev hq hw, rfl, rfl,
        ?_, ?_, ?_, ?_⟩
      · intro _
        exact ⟨rfl, rfl, rfl⟩
      · intro h
        rw [hdev] at h
        cases h
      · intro h
        rw [hdev] at h
        cases h
      · intro h
        rw [hdev] at h
        cases h
  · intro x x' j r h
    obtain ⟨_, xinfo, _, hc⟩ := cancelWait_inv h
    rcases hc with ⟨hd, _, _, _, rfl⟩ | ⟨hd, _, _, _, rfl⟩ | ⟨hd, _, _, _, f, _, rfl⟩
    · exact .inl ⟨hd, rfl⟩
    · exact .inr (.inl ⟨hd, by simp⟩)
    · exact .inr (.inr ⟨hd, f, by simp⟩)

/-- C22 as stated fails: on the manager with one slot, allocated and idle, whose peripheral
is stopped (a reachable state), `cancelWait(0)` returns false after `suspendWait` alone; no
`resumeWait` follows it. -/
theorem cancelWait_idle_peripheral_not_resumed :
    Reachable 1 (TimerMgr.full 1) ∧
    ∃ s', cancelWait 0 (TimerMgr.full 1) = .ok (false, s') ∧
      s'.trace_ = (TimerMgr.full 1).trace_ ++ [.suspendWait] ∧
      s'.trace_.count .resumeWait = 0 :=
  ⟨full_one_reachable, _, rfl, rfl, by decide⟩

/-- Witness of C22: the manager with one slot on which a wait of 5 units is in progress. -/
theorem cancelWait_suspends_then_resumes_witness :
    Reachable 1 TimerMgr.oneWaiting ∧
    TimerMgr.oneWaiting.timers_[0]? =
      some { targetTime_ := 5, engagementId_ := 1, handler_ := some 7, flags_ := 3 } ∧
    ({ targetTime_ := 5, engagementId_ := 1, handler_ := some 7, flags_ := 3 } :
      TimerInfo).isAllocated = true ∧
    ((∃ (r : Bool) (s' : TimerMgr) (log : List Event),
      cancelWait 0 TimerMgr.oneWaiting = .ok (r, s') ∧
      s'.trace_ = TimerMgr.oneWaiting.trace_ ++ log ∧
      log.head? = some .suspendWait ∧
      (TimerMgr.oneWaiting.deviceActive_ = false → r = false ∧ log = [.suspendWait] ∧
        s'.timers_ = TimerMgr.oneWaiting.timers_) ∧
      (TimerMgr.oneWaiting.deviceActive_ = true →
        ({ targetTime_ := 5, engagementId_ := 1, handler_ := some 7, flags_ := 3 } :
          TimerInfo).isWaitInProgress = false →
        r = false ∧ log = [.suspendWait, .resumeWait] ∧
          s'.timers_ = TimerMgr.oneWaiting.timers_) ∧
      (TimerMgr.oneWaiting.deviceActive_ = true →
        ({ targetTime_ := 5, engagementId_ := 1, handler_ := some 7, flags_ := 3 } :
          TimerInfo).isWaitInProgress = true →
        r = true ∧ ∃ f, (some 7 : Option Nat) = some f ∧
          log = [.suspendWait,
            .post { slot := 0, handler := f, status := .Aborted, interruptCtx := false },
            .resumeWait]) ∧
      (TimerMgr.oneWaiting.deviceActive_ = true → log.count .resumeWait = 1 ∧
        log.getLast? = some .resumeWait)) ∧
    (∀ (x x' : TimerMgr) (j : Nat) (r : Bool), cancelWait j x = .ok (r, x') →
      (x.deviceActive_ = false ∧ x'.trace_ = x.trace_ ++ [.suspendWait]) ∨
      (x.deviceActive_ = true ∧ x'.trace_ = x.trace_ ++ [.suspendWait, .resumeWait]) ∨
      (x.deviceActive_ = true ∧ ∃ f, x'.trace_ = x.trace_ ++ [.suspendWait,
        .post { slot := j, handler := f, status := .Aborted, interruptCtx := false },
        .resumeWait]))) :=
  ⟨oneWaiting_reachable, rfl, by decide,
    cancelWait_suspends_then_resumes 1 0 TimerMgr.oneWaiting
      { targetTime_ := 5, engagementId_ := 1, handler_ := some 7, flags_ := 3 }
      oneWaiting_reachable rfl (by decide)⟩

/-! ## The occupancy count and the bounds assertions -/

/-- When the occupancy count is below the capacity, the scan of `allocTimer` finds a slot
that is not allocated, and `allocTimer` returns in every case. -/
theorem allocTimer_returns {M : Nat} {s : TimerMgr} (hs : SlotsOk M s) :
    (s.timersCount_ < s.timers_.length →
      ∃ info, s.timers_[s.timers_.findIdx (fun x => !x.isAllocated)]? = some info ∧
        info.isAllocated = false) ∧
    ∃ t s', allocTimer s = .ok (t, s') := by
  have hfree : s.timersCount_ < s.timers_.length →
      ∃ info, s.timers_[s.timers_.findIdx (fun x => !x.isAllocated)]? = some info ∧
        info.isAllocated = false := by
    intro hlt
    have h1 := findIdx_not_le_countP TimerInfo.isAllocated s.timers_
    have h2 := hs.allocated_count
    have hi : s.timers_.findIdx (fun x => !x.isAllocated) < s.timers_.length := by omega
    refine ⟨s.timers_[s.timers_.findIdx (fun x => !x.isAllocated)],
      List.getElem?_eq_getElem hi, ?_⟩
    have := List.findIdx_getElem (w := hi)
    simpa using this
  refine ⟨hfree, ?_⟩
  by_cases hlt : s.timersCount_ < s.timers_.length
  · obtain ⟨info, hget, _⟩ := hfree hlt
    unfold allocTimer
    rw [if_pos hlt]
    simp only [hget]
    exact ⟨_, _, rfl⟩
  · unfold allocTimer
    rw [if_neg hlt]
    exact ⟨_, _, rfl⟩

/-- In a state that satisfies the invariant, `cancelWait` on an allocated slot returns. -/
theorem cancelWait_returns {M idx : Nat} {s : TimerMgr} {info : TimerInfo} (hs : Inv M s)
    (hget : s.timers_[idx]? = some info) (ha : info.isAllocated = true) :
    ∃ r s', cancelWait idx s = .ok (r, s') := by
  have hidx : idx < s.timersCount_ := hs.slots.allocated_lt idx info hget ha
  rcases Bool.eq_false_or_eq_true s.deviceActive_ with hdev | hdev
  · rcases Bool.eq_false_or_eq_true info.isWaitInProgress with hw | hw
    · obtain hf | ⟨f, hf⟩ := (info.handler_).eq_none_or_eq_some
      · have := hs.slots.handler_iff info (List.getElem?_mem hget)
        rw [hf, hw] at this
        cases this
      · exact ⟨_, _, cancelWait_true hidx hget hdev ha hw hf⟩
    · exact ⟨_, _, cancelWait_false_active hidx hget hdev ha hw⟩
  · have hq : s.waitQueue_ = [] := by
      by_contra hne
      have := hs.device_iff.mpr hne
      rw [hdev] at this
      cases this
    have hw : info.isWaitInProgress = false := by
      rcases Bool.eq_false_or_eq_true info.isWaitInProgress with hw | hw
      · obtain ⟨e, he, _⟩ := hs.waits idx info hget hw
        rw [hq] at he
        cases he
      · exact hw
    exact ⟨_, _, cancelWait_false_idle hidx hget hdev hq hw⟩

/-- In a state that satisfies the invariant, the bounds assertion of `scheduleWait` holds for
every index below the occupancy count. -/
theorem scheduleWait_idx_holds {M idx d f el : Nat} {s : TimerMgr} (hs : Inv M s)
    (hidx : idx < s.timersCount_) :
    scheduleWait idx d f el s ≠ .error .scheduleWait_idx := by
  intro h
  have hlen : idx < s.timers_.length := by
    have := hs.slots.timersCount_le
    have := hs.slots.timers_length
    omega
  have hget : s.timers_[idx]? = some s.timers_[idx] := List.getElem?_eq_getElem hlen
  by_cases hc : (s.timers_[idx]).isAllocated = true ∧ (s.timers_[idx]).isWaitInProgress = false
  · obtain ⟨q, s6, _, _, _, _, h5, _⟩ := scheduleWait_steps d f el hs hget hc.1 hc.2
    rw [h5] at h
    unfold startGuard at h
    split at h <;> cases h
  · unfold scheduleWait at h
    simp only [TimerMgr.waitQueueCount_] at h
    rcases Bool.eq_false_or_eq_true s.deviceActive_ with hd | hd
    · have hq : 0 < s.waitQueue_.length := List.length_pos.mpr (hs.device_iff.mp hd)
      rw [if_pos hd, if_neg (by omega)] at h
      simp only at h
      rw [if_neg (by omega), hget] at h
      simp only at h
      rcases Bool.eq_false_or_eq_true (s.timers_[idx]).isAllocated with ha | ha
      swap
      · rw [if_pos (by simp [ha])] at h
        cases h
      rw [if_neg (by simp [ha])] at h
      rcases Bool.eq_false_or_eq_true (s.timers_[idx]).isWaitInProgress with hw | hw
      · rw [if_pos (by simp [hw])] at h
        cases h
      exact hc ⟨ha, hw⟩
    · rw [if_neg (by simp [hd])] at h
      simp only at h
      rw [if_neg (by omega), hget] at h
      simp only at h
      rcases Bool.eq_false_or_eq_true (s.timers_[idx]).isAllocated with ha | ha
      swap
      · rw [if_pos (by simp [ha])] at h
        cases h
      rw [if_neg (by simp [ha])] at h
      rcases Bool.eq_false_or_eq_true (s.timers_[idx]).isWaitInProgress with hw | hw
      · rw [if_pos (by simp [hw])] at h
        cases h
      exact hc ⟨ha, hw⟩

/-- C23: in every state reachable from a fresh manager with `MaxTimers` slots,
`timersCount_` is at most `MaxTimers`, the number of allocated slots is at most
`timersCount_`, and every allocated slot has an index below `timersCount_`. Hence the bounds
assertion `idx < timersCount_` of `deleteTimer`, `cancelWait` and `scheduleWait` holds for
every allocated slot; `allocTimer` returns, its scan finding a slot that is not allocated
whenever `timersCount_` is below the capacity, so that the assertion on the result of the
scan never fails; and every slot that holds a callable has an index below `timersCount_`, so
that the error path of the interrupt handler, which scans the first `timersCount_` slots,
returns and leaves no slot with a callable. -/
theorem timersCount_bounds_allocated_slots (M : Nat) (s : TimerMgr) (hr : Reachable M s) :
    s.timers_.length = M ∧ s.timersCount_ ≤ M ∧
    s.timers_.countP TimerInfo.isAllocated ≤ s.timersCount_ ∧
    (∀ (i : Nat) (info : TimerInfo), s.timers_[i]? = some info → info.isAllocated = true →
      i < s.timersCount_) ∧
    (∀ (idx : Nat) (info : TimerInfo), s.timers_[idx]? = some info →
      info.isAllocated = true →
      deleteTimer idx s ≠ .error .deleteTimer_idx ∧
      cancelWait idx s ≠ .error .cancelWait_idx ∧
      ∀ d f el, scheduleWait idx d f el s ≠ .error .scheduleWait_idx) ∧
    (s.timersCount_ < M →
      ∃ info, s.timers_[s.timers_.findIdx (fun x => !x.isAllocated)]? = some info ∧
        info.isAllocated = false) ∧
    allocTimer s ≠ .error .allocTimer_iterNotEnd ∧
    (∃ t s', allocTimer s = .ok (t, s')) ∧
    (∀ (i : Nat) (info : TimerInfo), s.timers_[i]? = some info →
      info.handler_.isSome = true → i < s.timersCount_) ∧
    (∀ es : ErrorStatus, es.isError = true →
      ∃ s', interruptHandler es s = .ok s' ∧
        s'.posted = s.posted ++ pendingPosts es (s.timers_.take s.timersCount_) 0 ∧
        ∀ info ∈ s'.timers_, info.handler_ = none) := by
  have hs := reachable_inv hr
  obtain ⟨hfree, t, s1, hok⟩ := allocTimer_returns hs.slots
  have hh : ∀ (i : Nat) (info : TimerInfo), s.timers_[i]? = some info →
      info.handler_.isSome = true → i < s.timersCount_ := by
    intro i info hget hsome
    have hmem := List.getElem?_mem hget
    have hw : info.isWaitInProgress = true := by
      rw [← hs.slots.handler_iff info hmem]
      exact hsome
    exact hs.slots.allocated_lt i info hget (hs.slots.wait_allocated info hmem hw)
  refine ⟨hs.slots.timers_length, hs.slots.timersCount_le, hs.slots.allocated_count,
    hs.slots.allocated_lt, ?_, ?_, ?_, ⟨t, s1, hok⟩, hh, ?_⟩
  · intro idx info hget ha
    have hidx := hs.slots.allocated_lt idx info hget ha
    refine ⟨?_, ?_, fun d f el => scheduleWait_idx_holds hs hidx⟩
    · intro h
      unfold deleteTimer at h
      rw [if_neg (by omega), hget] at h
      simp only at h
      split at h
      · cases h
      · split at h
        · cases h
        · split at h <;> cases h
    · obtain ⟨r, s', h1⟩ := cancelWait_returns hs hget ha
      rw [h1]
      intro h
      cases h
  · intro hlt
    rw [← hs.slots.timers_length] at hlt
    exact hfree hlt
  · rw [hok]
    intro h
    cases h
  · intro es he
    have h1 := interruptHandler_error hs.slots he
    refine ⟨_, h1, ?_, ?_⟩
    · have h2 : ({ s with
          trace_ := s.trace_ ++ (pendingPosts es s.timers_ 0).map Event.post
          timers_ := dispatchAll s.timers_
          waitQueue_ := [] } : TimerMgr).posted = s.posted ++ pendingPosts es s.timers_ 0 :=
        posted_of_trace rfl
      rw [h2, pendingPosts_take es s.timers_ 0 s.timersCount_
        (fun i info hi hg => no_handler_of_ge hs.slots i info hi hg)]
    · have h3 := (dispatchAll_inv hs.slots { s with timers_ := dispatchAll s.timers_ } rfl rfl).2
      intro info hinfo
      exact (h3 info hinfo).2

/-- Witness of C23: the manager with one slot on which a wait of 5 units is in progress. -/
theorem timersCount_bounds_allocated_slots_witness :
    Reachable 1 TimerMgr.oneWaiting ∧
    (TimerMgr.oneWaiting.timers_.length = 1 ∧ TimerMgr.oneWaiting.timersCount_ ≤ 1 ∧
    TimerMgr.oneWaiting.timers_.countP TimerInfo.isAllocated ≤
      TimerMgr.oneWaiting.timersCount_ ∧
    (∀ (i : Nat) (info : TimerInfo), TimerMgr.oneWaiting.timers_[i]? = some info →
      info.isAllocated = true → i < TimerMgr.oneWaiting.timersCount_) ∧
    (∀ (idx : Nat) (info : TimerInfo), TimerMgr.oneWaiting.timers_[idx]? = some info →
      info.isAllocated = true →
      deleteTimer idx TimerMgr.oneWaiting ≠ .error .deleteTimer_idx ∧
      cancelWait idx TimerMgr.oneWaiting ≠ .error .cancelWait_idx ∧
      ∀ d f el, scheduleWait idx d f el TimerMgr.oneWaiting ≠ .error .scheduleWait_idx) ∧
    (TimerMgr.oneWaiting.timersCount_ < 1 →
      ∃ info, TimerMgr.oneWaiting.timers_[
          TimerMgr.oneWaiting.timers_.findIdx (fun x => !x.isAllocated)]? = some info ∧
        info.isAllocated = false) ∧
    allocTimer TimerMgr.oneWaiting ≠ .error .allocTimer_iterNotEnd ∧
    (∃ t s', allocTimer TimerMgr.oneWaiting = .ok (t, s')) ∧
    (∀ (i : Nat) (info : TimerInfo), TimerMgr.oneWaiting.timers_[i]? = some info →
      info.handler_.isSome = true → i < TimerMgr.oneWaiting.timersCount_) ∧
    (∀ es : ErrorStatus, es.isError = true →
      ∃ s', interruptHandler es TimerMgr.oneWaiting = .ok s' ∧
        s'.posted = TimerMgr.oneWaiting.posted ++
          pendingPosts es
            (TimerMgr.oneWaiting.timers_.take TimerMgr.oneWaiting.timersCount_) 0 ∧
        ∀ info ∈ s'.timers_, info.handler_ = none)) :=
  ⟨oneWaiting_reachable, timersCount_bounds_allocated_slots 1 TimerMgr.oneWaiting
    oneWaiting_reachable⟩

/-! ## The queue holds future entries only -/

/-- The normal path of the interrupt handler, run in a state that satisfies the invariant and
has a non-empty queue: it returns, with `timeBase_` at the target time of the first entry,
every remaining entry beyond `timeBase_`, and the peripheral restarted from interrupt
context for the first remaining entry, if there is one. -/
theorem deliverInterrupt_normal_exit {M : Nat} {es : ErrorStatus} {s : TimerMgr}
    {top : ScheduledWaitInfo} {rest : List ScheduledWaitInfo} (hs : Inv M s)
    (he : es.isError = false) (hq : s.waitQueue_ = top :: rest) :
    ∃ s', deliverInterrupt es s = .ok s' ∧ s'.timeBase_ = top.targetTime_ ∧
      (∀ e ∈ s'.waitQueue_, s'.timeBase_ < e.targetTime_) ∧
      (s'.waitQueue_ = [] → s'.deviceActive_ = false) ∧
      (∀ head tail, s'.waitQueue_ = head :: tail → s'.deviceActive_ = true ∧
        s'.trace_.getLast? =
          some (.startWait (head.targetTime_ - s'.timeBase_) true)) := by
  have htop : top ∈ s.waitQueue_ := by rw [hq]; exact List.mem_cons_self _ _
  have ht : s.timeBase_ ≤ top.targetTime_ := Nat.le_of_lt (hs.queue_future top htop)
  have hcore : CoreInv M { s with deviceActive_ := false } :=
    coreInv_of_fields hs.core rfl rfl rfl
  have hcore1 : CoreInv M { s with deviceActive_ := false, timeBase_ := top.targetTime_ } :=
    coreInv_of_fields hs.core rfl rfl rfl
  obtain ⟨s1, hd, h2⟩ := interruptHandler_normal es hcore he hq ht
  obtain ⟨hcore', htb, _, hdev, _, _, hfut⟩ := drains_facts hd hcore1
  obtain ⟨r1, r2, r3, r4⟩ := restartFromInterrupt_facts s1
  simp only at htb hdev
  refine ⟨restartFromInterrupt s1, h2, by rw [r4, htb], ?_, ?_, ?_⟩
  · intro e hmem
    rw [r2] at hmem
    rw [r4]
    exact hfut e hmem
  · intro hempty
    rw [r2] at hempty
    have : restartFromInterrupt s1 = s1 := by
      unfold restartFromInterrupt
      rw [hempty]
    rw [this]
    exact hdev
  · intro head tail hne
    rw [r2] at hne
    have hhead : head ∈ s1.waitQueue_ := by rw [hne]; exact List.mem_cons_self _ _
    have h1 := hfut head hhead
    have h3 : head.targetTime_ < UnsignedModulus := hcore'.queue.queue_target head hhead
    have harith : (head.targetTime_ + UnsignedModulus - s1.timeBase_) % UnsignedModulus =
        head.targetTime_ - s1.timeBase_ := by
      simp only [UnsignedModulus] at h3 ⊢
      omega
    have : restartFromInterrupt s1 = { s1 with
        trace_ := s1.trace_ ++
          [.startWait ((head.targetTime_ + UnsignedModulus - s1.timeBase_) % UnsignedModulus)
            true]
        deviceActive_ := true } := by
      unfold restartFromInterrupt
      rw [hne]
    rw [this, harith]
    refine ⟨rfl, ?_⟩
    show (s1.trace_ ++ [Event.startWait (head.targetTime_ - s1.timeBase_) true]).getLast? = _
    rw [List.getLast?_concat]

/-- C24: in every state reachable from a fresh manager, every entry of the queue has a
target time strictly greater than `timeBase_`; in particular this holds after every
`scheduleWait` that returns and after every normal-path interrupt handler that returns.
Hence the assertion `timeBase_ <= waitQueue_[0].targetTime_` of the normal interrupt path
never fails, the normal path returns whenever the queue is not empty, and the duration it
hands to the peripheral, when entries remain, is the target time of the first remaining
entry minus `timeBase_`, which is strictly positive. -/
theorem queue_targets_beyond_timeBase (M : Nat) (s : TimerMgr) (hr : Reachable M s) :
    (∀ e ∈ s.waitQueue_, s.timeBase_ < e.targetTime_) ∧
    (∀ (idx d f el : Nat) (s' : TimerMgr), scheduleWait idx d f el s = .ok s' →
      ∀ e ∈ s'.waitQueue_, s'.timeBase_ < e.targetTime_) ∧
    (∀ (es : ErrorStatus) (s' : TimerMgr), es.isError = false →
      deliverInterrupt es s = .ok s' →
      ∀ e ∈ s'.waitQueue_, s'.timeBase_ < e.targetTime_) ∧
    (∀ es : ErrorStatus, deliverInterrupt es s ≠ .error .interruptHandler_timeBase) ∧
    (∀ (top : ScheduledWaitInfo) (rest : List ScheduledWaitInfo) (es : ErrorStatus),
      s.waitQueue_ = top :: rest → es.isError = false →
      s.timeBase_ ≤ top.targetTime_ ∧
      ∃ s', deliverInterrupt es s = .ok s' ∧
        ∀ head tail, s'.waitQueue_ = head :: tail →
          0 < head.targetTime_ - s'.timeBase_ ∧
          s'.trace_.getLast? =
            some (.startWait (head.targetTime_ - s'.timeBase_) true)) := by
  have hs := reachable_inv hr
  refine ⟨hs.queue_future, ?_, ?_, ?_, ?_⟩
  · intro idx d f el s' h
    exact (scheduleWait_preserves hs h).queue_future
  · intro es s' _ h
    exact (deliverInterrupt_preserves hs h).queue_future
  · intro es h
    rcases Bool.eq_false_or_eq_true es.isError with he | he
    · have hcore : CoreInv M { s with deviceActive_ := false } :=
        coreInv_of_fields hs.core rfl rfl rfl
      have hslots := hcore.slots
      have := interruptHandler_error hslots he
      unfold deliverInterrupt at h
      rw [this] at h
      cases h
    · rcases hq : s.waitQueue_ with _ | ⟨top, rest⟩
      · unfold deliverInterrupt interruptHandler at h
        simp only [he, hq] at h
        cases h
      · obtain ⟨s', h1, _⟩ := deliverInterrupt_normal_exit hs he hq
        rw [h1] at h
        cases h
  · intro top rest es hq he
    have htop : top ∈ s.waitQueue_ := by rw [hq]; exact List.mem_cons_self _ _
    refine ⟨Nat.le_of_lt (hs.queue_future top htop), ?_⟩
    obtain ⟨s', h1, _, hfut, _, hstart⟩ := deliverInterrupt_normal_exit hs he hq
    refine ⟨s', h1, ?_⟩
    intro head tail hne
    have hhead : head ∈ s'.waitQueue_ := by rw [hne]; exact List.mem_cons_self _ _
    have := hfut head hhead
    exact ⟨by omega, (hstart head tail hne).2⟩

/-- Witness of C24: the manager with one slot on which a wait of 5 units is in progress. -/
theorem queue_targets_beyond_timeBase_witness :
    Reachable 1 TimerMgr.oneWaiting ∧
    ((∀ e ∈ TimerMgr.oneWaiting.waitQueue_, TimerMgr.oneWaiting.timeBase_ < e.targetTime_) ∧
    (∀ (idx d f el : Nat) (s' : TimerMgr),
      scheduleWait idx d f el TimerMgr.oneWaiting = .ok s' →
      ∀ e ∈ s'.waitQueue_, s'.timeBase_ < e.targetTime_) ∧
    (∀ (es : ErrorStatus) (s' : TimerMgr), es.isError = false →
      deliverInterrupt es TimerMgr.oneWaiting = .ok s' →
      ∀ e ∈ s'.waitQueue_, s'.timeBase_ < e.targetTime_) ∧
    (∀ es : ErrorStatus,
      deliverInterrupt es TimerMgr.oneWaiting ≠ .error .interruptHandler_timeBase) ∧
    (∀ (top : ScheduledWaitInfo) (rest : List ScheduledWaitInfo) (es : ErrorStatus),
      TimerMgr.oneWaiting.waitQueue_ = top :: rest → es.isError = false →
      TimerMgr.oneWaiting.timeBase_ ≤ top.targetTime_ ∧
      ∃ s', deliverInterrupt es TimerMgr.oneWaiting = .ok s' ∧
        ∀ head tail, s'.waitQueue_ = head :: tail →
          0 < head.targetTime_ - s'.timeBase_ ∧
          s'.trace_.getLast? =
            some (.startWait (head.targetTime_ - s'.timeBase_) true))) :=
  ⟨oneWaiting_reachable, queue_targets_beyond_timeBase 1 TimerMgr.oneWaiting
    oneWaiting_reachable⟩

/-! ## A non-empty queue keeps the peripheral counting -/

/-- C25: with the peripheral modelled by the flag `deviceActive_` (set by `startWait`,
cleared by the peripheral's `cancelWait` and by a delivered interrupt, reported by
`suspendWait`), in every state reachable from a fresh manager a non-empty queue implies that
the countdown is active. Hence, when `suspendWait` reports no active countdown, the queue is
empty and no slot has a wait in progress; the two assertions of that branch of `cancelWait`
never fail; and a `cancelWait` that returns false was called on a slot with no wait in
progress and leaves every slot as it is. -/
theorem nonempty_queue_keeps_countdown_active (M : Nat) (s : TimerMgr)
    (hr : Reachable M s) :
    (s.waitQueue_ ≠ [] → s.deviceActive_ = true) ∧
    (s.deviceActive_ = false →
      s.waitQueue_ = [] ∧ s.waitQueueCount_ = 0 ∧
      ∀ info ∈ s.timers_, info.isWaitInProgress = false) ∧
    (∀ idx : Nat, cancelWait idx s ≠ .error .cancelWait_noWait_waitInProgress ∧
      cancelWait idx s ≠ .error .cancelWait_noWait_queueCount) ∧
    (∀ (idx : Nat) (info : TimerInfo), s.timers_[idx]? = some info →
      info.isAllocated = true → s.deviceActive_ = false →
      cancelWait idx s = .ok (false, { s with trace_ := s.trace_ ++ [.suspendWait] })) ∧
    (∀ (idx : Nat) (s' : TimerMgr), cancelWait idx s = .ok (false, s') →
      s'.timers_ = s.timers_ ∧
      ∀ info, s.timers_[idx]? = some info → info.isWaitInProgress = false) := by
  have hs := reachable_inv hr
  have hempty : s.deviceActive_ = false → s.waitQueue_ = [] := by
    intro hdev
    by_contra hne
    have := hs.device_iff.mpr hne
    rw [hdev] at this
    cases this
  have hnone : s.deviceActive_ = false → ∀ info ∈ s.timers_, info.isWaitInProgress = false := by
    intro hdev info hmem
    rcases Bool.eq_false_or_eq_true info.isWaitInProgress with hw | hw
    · obtain ⟨i, hget⟩ := List.getElem?_of_mem hmem
      obtain ⟨e, he, _⟩ := hs.waits i info hget hw
      rw [hempty hdev] at he
      cases he
    · exact hw
  have hassert : ∀ (idx : Nat) (e : Fault),
      e = .cancelWait_noWait_waitInProgress ∨ e = .cancelWait_noWait_queueCount →
      cancelWait idx s ≠ .error e := by
    intro idx e he h
    by_cases hidx : idx < s.timersCount_
    swap
    · unfold cancelWait at h
      rw [if_pos hidx] at h
      rcases he with rfl | rfl <;> cases h
    obtain hget | ⟨info, hget⟩ := (s.timers_[idx]?).eq_none_or_eq_some
    · unfold cancelWait at h
      rw [if_neg (by omega), hget] at h
      rcases he with rfl | rfl <;> cases h
    rcases Bool.eq_false_or_eq_true info.isAllocated with ha | ha
    · obtain ⟨r, s', h1⟩ := cancelWait_returns hs hget ha
      rw [h1] at h
      cases h
    · rcases Bool.eq_false_or_eq_true s.deviceActive_ with hdev | hdev
      · unfold cancelWait at h
        rw [if_neg (by omega), hget] at h
        simp only at h
        rw [if_neg (by simp [hdev]), if_pos (by simp [ha])] at h
        rcases he with rfl | rfl <;> cases h
      · have hw := hnone hdev info (List.getElem?_mem hget)
        rw [cancelWait_false_idle hidx hget hdev (hempty hdev) hw] at h
        cases h
  refine ⟨hs.device_iff.mpr, ?_, ?_, ?_, ?_⟩
  · intro hdev
    refine ⟨hempty hdev, ?_, hnone hdev⟩
    unfold TimerMgr.waitQueueCount_
    rw [hempty hdev]
    rfl
  · intro idx
    exact ⟨hassert idx _ (.inl rfl), hassert idx _ (.inr rfl)⟩
  · intro idx info hget ha hdev
    exact cancelWait_false_idle (hs.slots.allocated_lt idx info hget ha) hget hdev
      (hempty hdev) (hnone hdev info (List.getElem?_mem hget))
  · intro idx s' h
    obtain ⟨_, info, hget, hc⟩ := cancelWait_inv h
    rcases hc with ⟨_, hw, _, _, rfl⟩ | ⟨_, _, hw, _, rfl⟩ | ⟨_, _, _, hr, _⟩
    · refine ⟨rfl, ?_⟩
      intro x hx
      rw [hget] at hx
      cases hx
      exact hw
    · refine ⟨rfl, ?_⟩
      intro x hx
      rw [hget] at hx
      cases hx
      exact hw
    · cases hr

/-- Witness of C25: the manager with one slot, allocated and idle, whose peripheral is
stopped. -/
theorem nonempty_queue_keeps_countdown_active_witness :
    Reachable 1 (TimerMgr.full 1) ∧
    ((TimerMgr.full 1).waitQueue_ ≠ [] → (TimerMgr.full 1).deviceActive_ = true) ∧
    ((TimerMgr.full 1).deviceActive_ = false →
      (TimerMgr.full 1).waitQueue_ = [] ∧ (TimerMgr.full 1).waitQueueCount_ = 0 ∧
      ∀ info ∈ (TimerMgr.full 1).timers_, info.isWaitInProgress = false) ∧
    (∀ idx : Nat,
      cancelWait idx (TimerMgr.full 1) ≠ .error .cancelWait_noWait_waitInProgress ∧
      cancelWait idx (TimerMgr.full 1) ≠ .error .cancelWait_noWait_queueCount) ∧
    (∀ (idx : Nat) (info : TimerInfo), (TimerMgr.full 1).timers_[idx]? = some info →
      info.isAllocated = true → (TimerMgr.full 1).deviceActive_ = false →
      cancelWait idx (TimerMgr.full 1) = .ok (false, { TimerMgr.full 1 with
        trace_ := (TimerMgr.full 1).trace_ ++ [.suspendWait] })) ∧
    (∀ (idx : Nat) (s' : TimerMgr), cancelWait idx (TimerMgr.full 1) = .ok (false, s') →
      s'.timers_ = (TimerMgr.full 1).timers_ ∧
      ∀ info, (TimerMgr.full 1).timers_[idx]? = some info →
        info.isWaitInProgress = false) :=
  ⟨full_one_reachable, nonempty_queue_keeps_countdown_active 1 (TimerMgr.full 1)
    full_one_reachable⟩

/-! ## Counting the live entries of the queue -/

/-- The number of positions of a list whose element satisfies `p` is the number of elements
that satisfy `p`. -/
theorem length_filter_range {α : Type} (p : α → Bool) (l : List α) :
    ((List.range l.length).filter (fun i => (l[i]?).any p)).length = l.countP p := by
  induction l using List.reverseRecOn with
  | nil => rfl
  | append_singleton l a ih =>
    rw [List.length_append, List.length_singleton, List.range_succ, List.filter_append,
      List.length_append, List.countP_append]
    congr 1
    · rw [← ih]
      congr 1
      apply List.filter_congr
      intro i hi
      have := List.mem_range.mp hi
      rw [List.getElem?_append_left this]
    · have hlast : (l ++ [a])[l.length]? = some a := by simp
      rw [List.filter_singleton, hlast, Option.any_some]
      cases hp : p a <;> simp [List.countP_cons, hp]

theorem matchesSlot_iff {ts : List TimerInfo} {e : ScheduledWaitInfo} :
    matchesSlot ts e = true ↔ ∃ info, ts[e.timerInfo_]? = some info ∧
      info.isWaitInProgress = true ∧ info.engagementId_ = e.engagementId_ := by
  unfold matchesSlot
  obtain h | ⟨info, h⟩ := (ts[e.timerInfo_]?).eq_none_or_eq_some
  · rw [h]; simp
  · rw [h]; simp

/-- The wording of the specification and the test of the code agree on the slots of a state
in which a wait in progress implies an allocated slot. -/
theorem matchesSlot_eq_liveIn {ts : List TimerInfo}
    (hwa : ∀ info ∈ ts, info.isWaitInProgress = true → info.isAllocated = true)
    (e : ScheduledWaitInfo) : matchesSlot ts e = liveIn ts e := by
  rw [Bool.eq_iff_iff, matchesSlot_iff, liveIn_iff]
  constructor
  · rintro ⟨info, hget, hw, hid⟩
    exact ⟨info, hget, hwa info (List.getElem?_mem hget) hw, hw, hid⟩
  · rintro ⟨info, hget, _, hw, hid⟩
    exact ⟨info, hget, hw, hid⟩

/-- When every slot with a wait in progress has an entry under its engagement id, and no two
entries carry the same slot and engagement id, the entries that match their slot are as many
as the slots with a wait in progress. -/
theorem countP_matchesSlot {ts : List TimerInfo} {q : List ScheduledWaitInfo}
    (hw : ∀ i info, ts[i]? = some info → info.isWaitInProgress = true →
      ∃ e ∈ q, e.timerInfo_ = i ∧ e.engagementId_ = info.engagementId_)
    (hnd : (q.map (fun e => (e.timerInfo_, e.engagementId_))).Nodup) :
    q.countP (matchesSlot ts) = ts.countP TimerInfo.isWaitInProgress := by
  rw [← length_filter_range TimerInfo.isWaitInProgress ts, List.countP_eq_length_filter,
    ← List.length_map (q.filter (matchesSlot ts)) (fun e => e.timerInfo_)]
  apply List.Perm.length_eq
  have hq : q.Nodup := List.Nodup.of_map _ hnd
  have hinj := List.inj_on_of_nodup_map hnd
  have hA : ((q.filter (matchesSlot ts)).map (fun e => e.timerInfo_)).Nodup := by
    apply List.Nodup.map_on _ (hq.filter _)
    intro x hx y hy hxy
    obtain ⟨hxq, hxm⟩ := List.mem_filter.mp hx
    obtain ⟨hyq, hym⟩ := List.mem_filter.mp hy
    obtain ⟨a, ha, _, haid⟩ := matchesSlot_iff.mp hxm
    obtain ⟨b, hb, _, hbid⟩ := matchesSlot_iff.mp hym
    simp only at hxy
    rw [hxy, hb] at ha
    cases ha
    apply hinj hxq hyq
    simp only [Prod.mk.injEq]
    exact ⟨hxy, by rw [← haid, ← hbid]⟩
  have hB : ((List.range ts.length).filter
      (fun i => (ts[i]?).any TimerInfo.isWaitInProgress)).Nodup :=
    (List.nodup_range _).filter _
  refine (List.perm_ext_iff_of_nodup hA hB).mpr ?_
  intro i
  rw [List.mem_map, List.mem_filter, List.mem_range]
  constructor
  · rintro ⟨e, he, rfl⟩
    obtain ⟨_, hm⟩ := List.mem_filter.mp he
    obtain ⟨a, ha, haw, _⟩ := matchesSlot_iff.mp hm
    refine ⟨lt_length_of_getElem? ha, ?_⟩
    rw [ha, Option.any_some]
    exact haw
  · rintro ⟨hlt, hi⟩
    have hget : ts[i]? = some ts[i] := List.getElem?_eq_getElem hlt
    rw [hget, Option.any_some] at hi
    obtain ⟨e, he, hslot, hid⟩ := hw i _ hget hi
    refine ⟨e, List.mem_filter.mpr ⟨he, ?_⟩, hslot⟩
    rw [matchesSlot_iff]
    exact ⟨_, by rw [hslot]; exact hget, hi, hid.symm⟩

/-- Under the same conditions, a slot with a wait in progress has exactly one entry under
its engagement id. -/
theorem countP_slot_entries {ts : List TimerInfo} {q : List ScheduledWaitInfo}
    (hw : ∀ i info, ts[i]? = some info → info.isWaitInProgress = true →
      ∃ e ∈ q, e.timerInfo_ = i ∧ e.engagementId_ = info.engagementId_)
    (hnd : (q.map (fun e => (e.timerInfo_, e.engagementId_))).Nodup)
    {i : Nat} {info : TimerInfo} (hget : ts[i]? = some info)
    (hwp : info.isWaitInProgress = true) :
    q.countP (fun e => e.timerInfo_ == i && e.engagementId_ == info.engagementId_) = 1 := by
  rw [List.countP_eq_length_filter,
    ← List.length_map (q.filter (fun e => e.timerInfo_ == i &&
      e.engagementId_ == info.engagementId_)) (fun e => (e.timerInfo_, e.engagementId_))]
  obtain ⟨e, he, hslot, hid⟩ := hw i info hget hwp
  have hsub : ((q.filter (fun e => e.timerInfo_ == i &&
      e.engagementId_ == info.engagementId_)).map
        (fun e => (e.timerInfo_, e.engagementId_))).Nodup :=
    hnd.sublist ((List.filter_sublist _).map _)
  have hmem : (i, info.engagementId_) ∈ (q.filter (fun e => e.timerInfo_ == i &&
      e.engagementId_ == info.engagementId_)).map
        (fun e => (e.timerInfo_, e.engagementId_)) := by
    refine List.mem_map.mpr ⟨e, List.mem_filter.mpr ⟨he, ?_⟩, by rw [hslot, hid]⟩
    simp [hslot, hid]
  have hall : ∀ x ∈ (q.filter (fun e => e.timerInfo_ == i &&
      e.engagementId_ == info.engagementId_)).map
        (fun e => (e.timerInfo_, e.engagementId_)), x = (i, info.engagementId_) := by
    intro x hx
    obtain ⟨y, hy, rfl⟩ := List.mem_map.mp hx
    have := (List.mem_filter.mp hy).2
    simp only [Bool.and_eq_true, beq_iff_eq] at this
    rw [this.1, this.2]
  rw [eq_singleton_of_nodup hsub hmem hall]
  rfl

/-! ## No two entries for one request, while the counter has not wrapped around -/

theorem liveEntries_distinct (ts : List TimerInfo) (idx : Nat) :
    ((liveEntries ts idx).map (fun e => (e.timerInfo_, e.engagementId_))).Nodup := by
  have := liveEntries_sorted ts idx
  rw [List.Nodup, List.pairwise_map]
  refine this.imp ?_
  intro a b h heq
  have : a.timerInfo_ = b.timerInfo_ := congrArg Prod.fst heq
  omega

/-- The loop of `postExpiredHandlers` only removes entries. -/
theorem drains_distinct {M : Nat} {ctx : Bool} {s s' : TimerMgr} (h : Drains ctx s s')
    (hs : CoreInv M s)
    (hnd : (s.waitQueue_.map (fun e => (e.timerInfo_, e.engagementId_))).Nodup) :
    (s'.waitQueue_.map (fun e => (e.timerInfo_, e.engagementId_))).Nodup := by
  obtain ⟨popped, posts, p1, _, p3, _⟩ := drains_posts h hs
  obtain ⟨_, q2⟩ := drains_split h hs p1 p3
  exact ((q2.map _).nodup_iff).mpr (hnd.sublist ((List.filter_sublist _).map _))

/-- While the engagement counter has not wrapped around, no two entries of the queue carry
the same slot and the same engagement id. -/
theorem unwrapped_distinct {M : Nat} {s : TimerMgr} (h : ReachableUnwrapped M s) :
    (s.waitQueue_.map (fun e => (e.timerInfo_, e.engagementId_))).Nodup := by
  induction h with
  | init => exact List.nodup_nil
  | @allocTimer s s' t _ h ih =>
    rcases allocTimer_inv h with ⟨_, _, rfl⟩ | ⟨_, info, hget, _, _, rfl⟩
    · exact ih
    · exact ih
  | @deleteTimer s s' idx _ h ih =>
    obtain ⟨_, info, hget, _, _, _, rfl⟩ := deleteTimer_inv h
    exact ih
  | @cancelWait s s' idx r _ h ih =>
    obtain ⟨_, info, hget, hc⟩ := cancelWait_inv h
    rcases hc with ⟨_, _, _, _, rfl⟩ | ⟨_, _, _, _, rfl⟩ | ⟨_, _, _, _, g, _, rfl⟩
    · exact ih
    · exact ih
    · exact ih
  | @scheduleWait s s' idx d f el hr hnext h ih =>
    have hs := reachable_inv (unwrapped_reachable hr)
    have hids := unwrapped_ids hr
    obtain ⟨info, q, s6, hget, _, _, hcore, hq, hd, _, h2, _⟩ := scheduleWait_course hs h
    rw [h2]
    apply drains_distinct hd hcore
    show (q.map (fun e => (e.timerInfo_, e.engagementId_))).Nodup
    rcases hq with ⟨_, hperm⟩ | ⟨_, hperm⟩
    · exact ((hperm.map _).nodup_iff).mpr (liveEntries_distinct _ 0)
    · refine ((hperm.map _).nodup_iff).mpr ?_
      rw [List.map_append, List.map_singleton]
      refine List.Nodup.append ih (List.nodup_singleton _) ?_
      intro x hx hx2
      rw [List.mem_singleton] at hx2
      subst hx2
      obtain ⟨e, he, heq⟩ := List.mem_map.mp hx
      have hle := hids.2 e he
      have hid : e.engagementId_ = (s.nextEngagementId_ + 1) % UnsignedModulus :=
        congrArg Prod.snd heq
      rw [Nat.mod_eq_of_lt hnext] at hid
      omega
  | @deliverInterrupt s s' es hr h ih =>
    have hs := reachable_inv (unwrapped_reachable hr)
    rcases deliverInterrupt_course hs h with ⟨_, _, _, h3, _⟩ |
      ⟨_, top, rest, s1, _, hcore, hd, _, h2, _⟩
    · rw [h3]
      exact List.nodup_nil
    · rw [h2]
      exact drains_distinct hd hcore ih

/-! ## Every wait in progress has exactly one live entry -/

/-- C21 (amended): in every state reachable from a fresh manager while the engagement
counter has not wrapped around, the number of queue entries that carry the current
engagement id of their slot, the slot having a wait in progress, equals the number of slots
with a wait in progress. These entries are the ones that the code treats as live; every slot
with a wait in progress has exactly one entry under its engagement id; and no two entries of
the queue carry the same slot and the same engagement id. -/
theorem live_entries_match_waiting_slots (M : Nat) (s : TimerMgr)
    (hr : ReachableUnwrapped M s) :
    s.waitQueue_.countP (matchesSlot s.timers_) =
      s.timers_.countP TimerInfo.isWaitInProgress ∧
    (∀ e, matchesSlot s.timers_ e = liveIn s.timers_ e) ∧
    (∀ (i : Nat) (info : TimerInfo), s.timers_[i]? = some info →
      info.isWaitInProgress = true →
      s.waitQueue_.countP
        (fun e => e.timerInfo_ == i && e.engagementId_ == info.engagementId_) = 1) ∧
    (s.waitQueue_.map (fun e => (e.timerInfo_, e.engagementId_))).Nodup := by
  have hs := reachable_inv (unwrapped_reachable hr)
  have hnd := unwrapped_distinct hr
  have hw : ∀ i info, s.timers_[i]? = some info → info.isWaitInProgress = true →
      ∃ e ∈ s.waitQueue_, e.timerInfo_ = i ∧ e.engagementId_ = info.engagementId_ := by
    intro i info hget hwp
    obtain ⟨e, he, h1, h2, _⟩ := hs.waits i info hget hwp
    exact ⟨e, he, h1, h2⟩
  exact ⟨countP_matchesSlot hw hnd, matchesSlot_eq_liveIn hs.slots.wait_allocated,
    fun i info hget hwp => countP_slot_entries hw hnd hget hwp, hnd⟩

theorem oneWaiting_unwrapped : ReachableUnwrapped 1 TimerMgr.oneWaiting :=
  @ReachableUnwrapped.scheduleWait 1 (TimerMgr.full 1) TimerMgr.oneWaiting 0 5 7 0
    (@ReachableUnwrapped.allocTimer 1 (TimerMgr.new 1) (TimerMgr.full 1) { idx_ := 0 }
      ReachableUnwrapped.init (by rfl))
    (by decide) (by rfl)

/-- Witness of C21: the manager with one slot on which a wait of 5 units is in progress,
reached with the counter at 1. -/
theorem live_entries_match_waiting_slots_witness :
    ReachableUnwrapped 1 TimerMgr.oneWaiting ∧
    (TimerMgr.oneWaiting.waitQueue_.countP (matchesSlot TimerMgr.oneWaiting.timers_) =
      TimerMgr.oneWaiting.timers_.countP TimerInfo.isWaitInProgress ∧
    (∀ e, matchesSlot TimerMgr.oneWaiting.timers_ e = liveIn TimerMgr.oneWaiting.timers_ e) ∧
    (∀ (i : Nat) (info : TimerInfo), TimerMgr.oneWaiting.timers_[i]? = some info →
      info.isWaitInProgress = true →
      TimerMgr.oneWaiting.waitQueue_.countP
        (fun e => e.timerInfo_ == i && e.engagementId_ == info.engagementId_) = 1) ∧
    (TimerMgr.oneWaiting.waitQueue_.map
      (fun e => (e.timerInfo_, e.engagementId_))).Nodup) :=
  ⟨oneWaiting_unwrapped, live_entries_match_waiting_slots 1 TimerMgr.oneWaiting
    oneWaiting_unwrapped⟩

/-! ## A stale entry that outlives a full round of the engagement counter -/

/-- The loop of `postExpiredHandlers` keeps exactly the entries whose target time lies
beyond the time base `tb`. -/
theorem drains_queue_perm {M : Nat} {ctx : Bool} {s s' : TimerMgr} (h : Drains ctx s s')
    (hs : CoreInv M s) (tb : Nat) (htb : s.timeBase_ = tb) :
    s'.waitQueue_.Perm (s.waitQueue_.filter (fun e => decide (tb < e.targetTime_))) := by
  obtain ⟨popped, posts, p1, _, p3, _⟩ := drains_posts h hs
  obtain ⟨_, q2⟩ := drains_split h hs p1 p3
  rw [← htb]
  exact q2

/-- On a manager with one slot whose first wait, of 5 units under the engagement id 1, has
been cancelled, the slot can complete any number of waits of duration 0 while the entry of
the cancelled wait stays in the queue: after `n` such requests the counter stands at
`(1 + n) mod 2 ^ 32`. -/
theorem counter_with_stale_entry : ∀ n : Nat, ∃ s : TimerMgr, Reachable 1 s ∧
    s.timeBase_ = 0 ∧ s.nextEngagementId_ = (1 + n) % UnsignedModulus ∧
    s.waitQueue_ = [{ timerInfo_ := 0, engagementId_ := 1, targetTime_ := 5 }] ∧
    ∃ info, s.timers_[0]? = some info ∧ info.isAllocated = true ∧
      info.isWaitInProgress = false := by
  intro n
  induction n with
  | zero =>
    exact ⟨TimerMgr.oneCancelled, oneCancelled_reachable, rfl, rfl, rfl, _, rfl, by decide,
      by decide⟩
  | succ n ih =>
    obtain ⟨s, hr, htb, hnext, hq, info, hget, ha, hw⟩ := ih
    have hs := reachable_inv hr
    have hdev : s.deviceActive_ = true :=
      hs.device_iff.mpr (by rw [hq]; exact List.cons_ne_nil _ _)
    have hbase : (if s.deviceActive_ then (s.timeBase_ + 0) % UnsignedModulus
        else s.timeBase_) = 0 := by
      rw [hdev, htb]
      rfl
    obtain ⟨q, s6, hcore, hperm, hd, h4⟩ := scheduleWait_spec 0 8 0 hs hget ha hw
    have hlen := hs.slots.timers_length
    rcases hperm with ⟨hfull, _⟩ | ⟨_, hperm⟩
    · rw [hlen, hq] at hfull
      exact absurd hfull (by decide)
    rw [hbase, hq] at hperm
    have hsplit := drains_queue_perm hd hcore 0 hbase
    have hq6 : s6.waitQueue_ = [{ timerInfo_ := 0, engagementId_ := 1, targetTime_ := 5 }] := by
      have h1 := hsplit.trans (hperm.filter _)
      have h2 : List.filter (fun e : ScheduledWaitInfo => decide (0 < e.targetTime_))
          ([{ timerInfo_ := 0, engagementId_ := 1, targetTime_ := 5 }] ++
            [{ timerInfo_ := 0
               engagementId_ := (s.nextEngagementId_ + 1) % UnsignedModulus
               targetTime_ := (0 + 0) % UnsignedModulus }]) =
          [{ timerInfo_ := 0, engagementId_ := 1, targetTime_ := 5 }] := by
        simp [List.filter_cons, UnsignedModulus]
      rw [h2] at h1
      exact List.perm_singleton.mp h1
    have hok := h4.trans (startGuard_ok hq6)
    have hr1 := Reachable.scheduleWait hr hok
    obtain ⟨_, htb6, _, _, hid6, _⟩ := drains_facts hd hcore
    obtain ⟨_, r, hget1, ha1, _⟩ := scheduleWait_slot hs hok
    obtain ⟨_, ⟨r', hget2, hw2, _⟩, _⟩ := scheduleWait_zero_dispatches 1 0 8 0 s _ hr hok
    rw [hget1] at hget2
    cases hget2
    refine ⟨_, hr1, htb6.trans hbase, ?_, hq6, r, hget1, ha1, hw2⟩
    show s6.nextEngagementId_ = _
    rw [hid6]
    show (s.nextEngagementId_ + 1) % UnsignedModulus = _
    rw [hnext]
    simp only [UnsignedModulus]
    omega

/-- C21 as stated fails once the engagement counter has gone round. A state of the manager
with one slot is reachable in which the slot has a wait in progress under the engagement
id 1 with target time 7, and the queue holds two entries of that slot under the engagement
id 1: the entry of the wait, and the entry, with target time 5, of a wait cancelled `2 ^ 32`
requests before. Both entries match the slot, so the queue has two live entries for one slot
with a wait in progress. -/
theorem wrapped_counter_two_live_entries :
    ∃ (s : TimerMgr) (slot : TimerInfo), Reachable 1 s ∧ s.timers_ = [slot] ∧
      slot.isWaitInProgress = true ∧ slot.engagementId_ = 1 ∧ slot.targetTime_ = 7 ∧
      s.waitQueue_.Perm [{ timerInfo_ := 0, engagementId_ := 1, targetTime_ := 5 },
        { timerInfo_ := 0, engagementId_ := 1, targetTime_ := 7 }] ∧
      s.waitQueue_.countP (matchesSlot s.timers_) = 2 ∧
      s.waitQueue_.countP (liveIn s.timers_) = 2 ∧
      s.timers_.countP TimerInfo.isWaitInProgress = 1 := by
  obtain ⟨s, hr, htb, hnext, hq, info, hget, ha, hw⟩ := counter_with_stale_entry 4294967295
  have hs := reachable_inv hr
  have hdev : s.deviceActive_ = true :=
    hs.device_iff.mpr (by rw [hq]; exact List.cons_ne_nil _ _)
  have hbase : (if s.deviceActive_ then (s.timeBase_ + 0) % UnsignedModulus
      else s.timeBase_) = 0 := by
    rw [hdev, htb]
    rfl
  have hzero : s.nextEngagementId_ = 0 := by
    rw [hnext]
    decide
  obtain ⟨q, s6, hcore, hperm, hd, h4⟩ := scheduleWait_spec 7 8 0 hs hget ha hw
  have hlen := hs.slots.timers_length
  rcases hperm with ⟨hfull, _⟩ | ⟨_, hperm⟩
  · rw [hlen, hq] at hfull
    exact absurd hfull (by decide)
  rw [hbase, hq, hzero] at hperm
  have hsplit := drains_queue_perm hd hcore 0 hbase
  have hq6 : s6.waitQueue_.Perm [{ timerInfo_ := 0, engagementId_ := 1, targetTime_ := 5 },
      { timerInfo_ := 0, engagementId_ := 1, targetTime_ := 7 }] := by
    have h1 := hsplit.trans (hperm.filter _)
    exact h1
  obtain ⟨top, rest, hne⟩ : ∃ top rest, s6.waitQueue_ = top :: rest := by
    rcases hx : s6.waitQueue_ with _ | ⟨top, rest⟩
    · rw [hx] at hq6
      exact absurd hq6.length_eq (by decide)
    · exact ⟨top, rest, rfl⟩
  have hok := h4.trans (startGuard_ok hne)
  have hr1 := Reachable.scheduleWait hr hok
  have hs1 := reachable_inv hr1
  have hrec := armed_timers_get 7 8 0 hget
  have hslot6 : s6.timers_[0]? = some (({ info with
      targetTime_ := ((if s.deviceActive_ then (s.timeBase_ + 0) % UnsignedModulus
        else s.timeBase_) + 7) % UnsignedModulus
      engagementId_ := (s.nextEngagementId_ + 1) % UnsignedModulus
      handler_ := some 8 } : TimerInfo).setWaitInProgress true) := by
    rcases drains_slot (f := 8) hd hcore hrec (by simp) with ⟨h6, _⟩ | ⟨_, _, e, he, _, _, hdue⟩
    · exact h6
    · exfalso
      apply hdue
      have hmem := hperm.subset he
      show (if s.deviceActive_ then (s.timeBase_ + 0) % UnsignedModulus
        else s.timeBase_) < e.targetTime_
      rw [hbase]
      simp only [List.mem_append, List.mem_singleton] at hmem
      rcases hmem with rfl | rfl
      · decide
      · decide
  rw [hbase, hzero] at hslot6
  have hlen6 : s6.timers_.length = 1 := hs1.slots.timers_length
  obtain ⟨slot, hts⟩ : ∃ slot, s6.timers_ = [slot] := by
    rcases hx : s6.timers_ with _ | ⟨a, _ | ⟨b, l⟩⟩
    · rw [hx] at hlen6; cases hlen6
    · exact ⟨a, rfl⟩
    · rw [hx] at hlen6; simp at hlen6
  have hslot : slot = ({ info with
      targetTime_ := (0 + 7) % UnsignedModulus
      engagementId_ := (0 + 1) % UnsignedModulus
      handler_ := some 8 } : TimerInfo).setWaitInProgress true := by
    rw [hts] at hslot6
    simpa using hslot6
  have hwp : slot.isWaitInProgress = true := by rw [hslot]; simp
  have hid : slot.engagementId_ = 1 := by rw [hslot]; simp [UnsignedModulus]
  have htt : slot.targetTime_ = 7 := by rw [hslot]; simp [UnsignedModulus]
  have hm : s6.waitQueue_.countP (matchesSlot [slot]) = 2 := by
    rw [hq6.countP_eq]
    simp [List.countP_cons, matchesSlot, hwp, hid]
  refine ⟨_, slot, hr1, hts, hwp, hid, htt, hq6, ?_, ?_, ?_⟩
  · show s6.waitQueue_.countP (matchesSlot s6.timers_) = 2
    rw [hts]
    exact hm
  · show s6.waitQueue_.countP (liveIn s6.timers_) = 2
    have : ∀ e, liveIn s6.timers_ e = matchesSlot s6.timers_ e := fun e =>
      (matchesSlot_eq_liveIn hs1.slots.wait_allocated e).symm
    rw [List.countP_congr (fun e _ => by rw [this e]), hts]
    exact hm
  · show s6.timers_.countP TimerInfo.isWaitInProgress = 1
    rw [hts]
    simp [List.countP_cons, hwp]

/-! ## The time base -/

theorem lastStartWait_of_getLast {tr : List Event} {w : Nat} {c : Bool}
    (h : tr.getLast? = some (.startWait w c)) : lastStartWait tr = some w := by
  obtain ⟨ys, rfl⟩ := List.getLast?_eq_some_iff.mp h
  unfold lastStartWait
  rw [List.filterMap_append]
  simp [Event.waitTime]

theorem lastStartWait_append_quiet (tr evs : List Event)
    (h : evs.filterMap Event.waitTime = []) :
    lastStartWait (tr ++ evs) = lastStartWait tr := by
  unfold lastStartWait
  rw [List.filterMap_append, h, List.append_nil]

/-- In every reachable state in which the peripheral counts down, the queue is not empty and
the peripheral was last started for the target time of the first entry minus `timeBase_`. -/
theorem reachable_programmed {M : Nat} {s : TimerMgr} (h : Reachable M s) :
    s.deviceActive_ = true → ∃ top rest, s.waitQueue_ = top :: rest ∧
      lastStartWait s.trace_ = some (top.targetTime_ - s.timeBase_) := by
  induction h with
  | init =>
    intro h
    cases h
  | @allocTimer s s' t _ h ih =>
    rcases allocTimer_inv h with ⟨_, _, rfl⟩ | ⟨_, info, hget, _, _, rfl⟩
    · exact ih
    · exact ih
  | @deleteTimer s s' idx _ h ih =>
    obtain ⟨_, info, hget, _, _, _, rfl⟩ := deleteTimer_inv h
    exact ih
  | @cancelWait s s' idx r _ h ih =>
    obtain ⟨_, info, hget, hc⟩ := cancelWait_inv h
    rcases hc with ⟨_, _, _, _, rfl⟩ | ⟨_, _, _, _, rfl⟩ | ⟨_, _, _, _, g, _, rfl⟩
    · intro hd
      obtain ⟨top, rest, hq, hl⟩ := ih hd
      refine ⟨top, rest, hq, ?_⟩
      show lastStartWait (s.trace_ ++ [Event.suspendWait]) = _
      rw [lastStartWait_append_quiet _ [Event.suspendWait] rfl]
      exact hl
    · intro hd
      obtain ⟨top, rest, hq, hl⟩ := ih hd
      refine ⟨top, rest, hq, ?_⟩
      show lastStartWait (s.trace_ ++ [Event.suspendWait] ++ [Event.resumeWait]) = _
      rw [lastStartWait_append_quiet _ [Event.resumeWait] rfl,
        lastStartWait_append_quiet _ [Event.suspendWait] rfl]
      exact hl
    · intro hd
      obtain ⟨top, rest, hq, hl⟩ := ih hd
      refine ⟨top, rest, hq, ?_⟩
      show lastStartWait (s.trace_ ++ [Event.suspendWait] ++
        [Event.post { slot := idx, handler := g, status := .Aborted, interruptCtx := false }] ++
        [Event.resumeWait]) = _
      rw [lastStartWait_append_quiet _ [Event.resumeWait] rfl,
        lastStartWait_append_quiet _
          [Event.post { slot := idx, handler := g, status := .Aborted, interruptCtx := false }]
          rfl,
        lastStartWait_append_quiet _ [Event.suspendWait] rfl]
      exact hl
  | @scheduleWait s s' idx d f el hr h _ =>
    intro _
    obtain ⟨_, _, info, hget, ha, hw, _⟩ := scheduleWait_pre h
    rcases scheduleWait_exit M idx d f el s info hr hget ha hw with he |
      ⟨s'', top, rest, hok, hq, _, hlast, _⟩
    · rw [he] at h
      cases h
    · rw [hok] at h
      cases h
      exact ⟨top, rest, hq, lastStartWait_of_getLast hlast⟩
  | @deliverInterrupt s s' es hr h _ =>
    intro hd
    have hs := reachable_inv hr
    have hs' := deliverInterrupt_preserves hs h
    obtain ⟨top', rest', hq'⟩ : ∃ top' rest', s'.waitQueue_ = top' :: rest' := by
      rcases hx : s'.waitQueue_ with _ | ⟨a, l⟩
      · exact absurd hx (hs'.device_iff.mp hd)
      · exact ⟨a, l, rfl⟩
    rcases deliverInterrupt_course hs h with ⟨_, _, _, h3, _⟩ | ⟨he, top, rest, _, hq, _⟩
    · rw [h3] at hq'
      cases hq'
    · obtain ⟨s'', h1, _, _, _, hstart⟩ := deliverInterrupt_normal_exit hs he hq
      rw [h1] at h
      cases h
      exact ⟨top', rest', hq', lastStartWait_of_getLast (hstart top' rest' hq').2⟩

/-- C19 (amended): in a reachable state `allocTimer`, `deleteTimer`, `cancelWait` and the
error path of the interrupt handler leave `timeBase_` as it is, and the normal path of the
interrupt handler moves it forward to the target time of the first entry. `scheduleWait`
leaves it as it is when the peripheral is stopped, and otherwise sets it to `timeBase_` plus
the elapsed time read back, modulo `2 ^ 32`. While the peripheral counts down it was last
started for the target time of the first entry minus `timeBase_`; when the elapsed time read
back is at most the duration the peripheral was last started for, the sum does not wrap
around, `scheduleWait` adds exactly the elapsed time, and `timeBase_` does not decrease. -/
theorem timeBase_never_decreases (M : Nat) (s : TimerMgr) (hr : Reachable M s) :
    (∀ t s', allocTimer s = .ok (t, s') → s'.timeBase_ = s.timeBase_) ∧
    (∀ idx s', deleteTimer idx s = .ok s' → s'.timeBase_ = s.timeBase_) ∧
    (∀ idx r s', cancelWait idx s = .ok (r, s') → s'.timeBase_ = s.timeBase_) ∧
    (s.deviceActive_ = true → ∃ top rest, s.waitQueue_ = top :: rest ∧
      lastStartWait s.trace_ = some (top.targetTime_ - s.timeBase_)) ∧
    (∀ idx d f el s', scheduleWait idx d f el s = .ok s' →
      s'.timeBase_ = (if s.deviceActive_ then (s.timeBase_ + el) % UnsignedModulus
        else s.timeBase_) ∧
      (s.deviceActive_ = false → s'.timeBase_ = s.timeBase_) ∧
      (∀ w, lastStartWait s.trace_ = some w → el ≤ w →
        s.timeBase_ ≤ s'.timeBase_ ∧
        (s.deviceActive_ = true → s'.timeBase_ = s.timeBase_ + el))) ∧
    (∀ es s', deliverInterrupt es s = .ok s' → s.timeBase_ ≤ s'.timeBase_ ∧
      (es.isError = true → s'.timeBase_ = s.timeBase_) ∧
      (es.isError = false → ∃ top rest, s.waitQueue_ = top :: rest ∧
        s'.timeBase_ = top.targetTime_)) := by
  have hs := reachable_inv hr
  have hprog := reachable_programmed hr
  refine ⟨?_, ?_, ?_, hprog, ?_, ?_⟩
  · intro t s' h
    rcases allocTimer_inv h with ⟨_, _, rfl⟩ | ⟨_, _, _, _, _, rfl⟩ <;> rfl
  · intro idx s' h
    obtain ⟨_, _, _, _, _, _, rfl⟩ := deleteTimer_inv h
    rfl
  · intro idx r s' h
    obtain ⟨_, _, _, hc⟩ := cancelWait_inv h
    rcases hc with ⟨_, _, _, _, rfl⟩ | ⟨_, _, _, _, rfl⟩ | ⟨_, _, _, _, _, _, rfl⟩ <;> rfl
  · intro idx d f el s' h
    have heq := scheduleWait_timeBase hs h
    refine ⟨heq, ?_, ?_⟩
    · intro hd
      rw [heq, hd]
      rfl
    · intro w hw hle
      rcases Bool.eq_false_or_eq_true s.deviceActive_ with hd | hd
      · obtain ⟨top, rest, hq, hl⟩ := hprog hd
        rw [hw] at hl
        cases hl
        have htop : top ∈ s.waitQueue_ := by rw [hq]; exact List.mem_cons_self _ _
        have hfut := hs.queue_future top htop
        have hlt : top.targetTime_ < UnsignedModulus := hs.queue.queue_target top htop
        have hsum : s'.timeBase_ = s.timeBase_ + el := by
          rw [heq, hd]
          simp only [if_true]
          apply Nat.mod_eq_of_lt
          omega
        exact ⟨by omega, fun _ => hsum⟩
      · refine ⟨?_, fun h1 => ?_⟩
        · rw [heq, hd]
          exact Nat.le_refl _
        · rw [hd] at h1
          cases h1
  · intro es s' h
    rcases deliverInterrupt_course hs h with ⟨he, _, _, _, h1⟩ |
      ⟨he, top, rest, s1, hq, hcore, hd, _, _, _, h4⟩
    · refine ⟨Nat.le_of_eq h1.symm, fun _ => h1, fun hf => ?_⟩
      rw [he] at hf
      cases hf
    · obtain ⟨_, htb, _⟩ := drains_facts hd hcore
      have heq : s'.timeBase_ = top.targetTime_ := by rw [h4, htb]
      have hfut := hs.queue_future top (by rw [hq]; exact List.mem_cons_self _ _)
      refine ⟨by rw [heq]; exact Nat.le_of_lt hfut, fun ht => ?_, fun _ => ⟨top, rest, hq, heq⟩⟩
      rw [he] at ht
      cases ht

theorem cancelledAtFive_reachable : Reachable 1 TimerMgr.cancelledAtFive :=
  @Reachable.cancelWait 1
    { timeBase_ := 5
      waitQueue_ := [{ timerInfo_ := 0, engagementId_ := 2, targetTime_ := 15 }]
      timers_ := [{ targetTime_ := 15, engagementId_ := 2, handler_ := some 8, flags_ := 3 }]
      timersCount_ := 1
      nextEngagementId_ := 2
      deviceActive_ := true
      trace_ := [.cancelWait, .startWait 5 false,
        .post { slot := 0, handler := 7, status := .Success, interruptCtx := true },
        .cancelWait, .startWait 10 false] }
    TimerMgr.cancelledAtFive 0 true
    (@Reachable.scheduleWait 1
      { timeBase_ := 5
        waitQueue_ := []
        timers_ := [{ targetTime_ := 5, engagementId_ := 1, handler_ := none, flags_ := 1 }]
        timersCount_ := 1
        nextEngagementId_ := 1
        deviceActive_ := false
        trace_ := [.cancelWait, .startWait 5 false,
          .post { slot := 0, handler := 7, status := .Success, interruptCtx := true }] }
      _ 0 10 8 0
      (@Reachable.deliverInterrupt 1 TimerMgr.oneWaiting _ .Success oneWaiting_reachable
        (by rfl))
      (by rfl))
    (by rfl)

/-- C19 as stated fails. On the manager with one slot, `timeBase_` is 5 after a wait of 5
units has completed; a wait of 10 units is then scheduled and cancelled, so that the
peripheral counts down the 10 units it was started for (a reachable state). The call
`scheduleWait(0, 100, f)` made when the peripheral reports 4294967295 elapsed units returns
with `timeBase_` at 4: the unsigned sum `5 + 4294967295` wraps around. -/
theorem timeBase_decreases_on_excess_elapsed :
    Reachable 1 TimerMgr.cancelledAtFive ∧ TimerMgr.cancelledAtFive.timeBase_ = 5 ∧
    TimerMgr.cancelledAtFive.deviceActive_ = true ∧
    lastStartWait TimerMgr.cancelledAtFive.trace_ = some 10 ∧
    ∃ s', scheduleWait 0 100 9 4294967295 TimerMgr.cancelledAtFive = .ok s' ∧
      s'.timeBase_ = 4 ∧ s'.timeBase_ < TimerMgr.cancelledAtFive.timeBase_ :=
  ⟨cancelledAtFive_reachable, rfl, rfl, by rfl, _, rfl, rfl, by decide⟩

/-- Witness of C19: the manager with one slot on which a wait of 5 units is in progress. -/
theorem timeBase_never_decreases_witness :
    Reachable 1 TimerMgr.oneWaiting ∧
    ((∀ t s', allocTimer TimerMgr.oneWaiting = .ok (t, s') →
        s'.timeBase_ = TimerMgr.oneWaiting.timeBase_) ∧
      (∀ idx s', deleteTimer idx TimerMgr.oneWaiting = .ok s' →
        s'.timeBase_ = TimerMgr.oneWaiting.timeBase_) ∧
      (∀ idx r s', cancelWait idx TimerMgr.oneWaiting = .ok (r, s') →
        s'.timeBase_ = TimerMgr.oneWaiting.timeBase_) ∧
      (TimerMgr.oneWaiting.deviceActive_ = true →
        ∃ top rest, TimerMgr.oneWaiting.waitQueue_ = top :: rest ∧
          lastStartWait TimerMgr.oneWaiting.trace_ =
            some (top.targetTime_ - TimerMgr.oneWaiting.timeBase_)) ∧
      (∀ idx d f el s', scheduleWait idx d f el TimerMgr.oneWaiting = .ok s' →
        s'.timeBase_ = (if TimerMgr.oneWaiting.deviceActive_ then
          (TimerMgr.oneWaiting.timeBase_ + el) % UnsignedModulus
          else TimerMgr.oneWaiting.timeBase_) ∧
        (TimerMgr.oneWaiting.deviceActive_ = false →
          s'.timeBase_ = TimerMgr.oneWaiting.timeBase_) ∧
        (∀ w, lastStartWait TimerMgr.oneWaiting.trace_ = some w → el ≤ w →
          TimerMgr.oneWaiting.timeBase_ ≤ s'.timeBase_ ∧
          (TimerMgr.oneWaiting.deviceActive_ = true →
            s'.timeBase_ = TimerMgr.oneWaiting.timeBase_ + el))) ∧
      (∀ es s', deliverInterrupt es TimerMgr.oneWaiting = .ok s' →
        TimerMgr.oneWaiting.timeBase_ ≤ s'.timeBase_ ∧
        (es.isError = true → s'.timeBase_ = TimerMgr.oneWaiting.timeBase_) ∧
        (es.isError = false → ∃ top rest, TimerMgr.oneWaiting.waitQueue_ = top :: rest ∧
          s'.timeBase_ = top.targetTime_))) :=
  ⟨oneWaiting_reachable, timeBase_never_decreases 1 TimerMgr.oneWaiting oneWaiting_reachable⟩

end driver
end embxx
